import Mathlib

/-! # envio: a shallow embedding of the Set/Get engine

The Go package walks a record through `reflect` and maps its fields to
environment variables.  The embedding below follows the source files
`engine.go`, `getter.go` and `setter.go` function by function.

* A `reflect.Type` is a `Ty`, a `reflect.Value` is a `Value` (type, contents and
  whether the value may be assigned to).  Types are finite trees; the derivation
  of the descriptors of a record type that refers to itself is in `Recursive`,
  where a type is a position in the list of the declared types.
* `Get` and `Set` are a first call of the program: nothing is cached and the
  traversal state is new.  `Heap` has the descriptors in memory, with the map
  `fieldCache` and the pool of getter states, for what one call leaves to the next.
* The process environment is an association list; `Getenv` and `Setenv` follow
  `os.Getenv` and `os.Setenv` on Unix.
* The closures that `typeFunctions` stores are data (`getterFunc`, `setterFunc`,
  `procFunc`, `setProcFunc`) interpreted by `execGet` and `execSet`.
* The engine resolves the routine of a pointee, of a dynamic value or of a
  nested record at run time; `execGet` and `execSet` therefore take a bound on
  the nesting depth and report `Ret.fuel` when it is exceeded.
* A Go panic is the result `Ret.panic`; it leaves the walk like an error does.
* Declarations of the package that are not in the source files given here
  (`envSeparator`, `isEmptyValue`, the methods of user types) and the float
  conversions of `strconv` are fields of `Deps`.
-/

namespace Envio

/-! ## Byte strings and the environment -/

/-- A Go string or byte slice. -/
abbrev Bytes := List UInt8

/-- The bytes of an ASCII literal. -/
def str (s : String) : Bytes := s.data.map (fun c => UInt8.ofNat c.toNat)

/-- The process environment: the latest binding of a key is the first one. -/
abbrev Env := List (String × Bytes)

/-- Go `os.Getenv`: the value of the key, empty when the key is not set. -/
def Getenv (env : Env) (key : String) : Bytes :=
  match env.lookup key with
  | some v => v
  | none => []

/-- The argument check of `syscall.Setenv` on Unix: the key is not empty and has no
`=` and no NUL, the value has no NUL. -/
def setenvValid (key : String) (value : Bytes) : Bool :=
  !key.data.isEmpty && key.data.all (fun c => c != '=' && c != Char.ofNat 0)
    && value.all (fun b => b != 0)

/-- Go `os.Setenv`: `none` is the error `EINVAL`. -/
def Setenv (env : Env) (key : String) (value : Bytes) : Option Env :=
  if setenvValid key value then some ((key, value) :: env) else none

/-- Go `strings.Split` and `bytes.Split` with a separator of one element. -/
def splitOn {α : Type} [DecidableEq α] (sep : α) : List α → List (List α)
  | [] => [[]]
  | c :: cs =>
    if c = sep then [] :: splitOn sep cs
    else match splitOn sep cs with
      | [] => [[c]]
      | p :: ps => (c :: p) :: ps

/-! ## reflect: kinds, types, values -/

/-- Go `reflect.Kind`. -/
inductive Kind
  | Invalid | Bool | Int | Int8 | Int16 | Int32 | Int64
  | Uint | Uint8 | Uint16 | Uint32 | Uint64 | Uintptr
  | Float32 | Float64 | Complex64 | Complex128
  | Array | Chan | Func | Interface | Map | Pointer | Slice | String | Struct
  | UnsafePointer
deriving DecidableEq, Repr

/-- The kinds whose types have no structure that the engine looks into. -/
inductive Basic
  | Bool | Int | Int8 | Int16 | Int32 | Int64
  | Uint | Uint8 | Uint16 | Uint32 | Uint64 | Uintptr
  | Float32 | Float64 | Complex64 | Complex128
  | Chan | Func | Map | String | UnsafePointer
deriving DecidableEq, Repr

/-- The kind of a basic type. -/
def Basic.Kind : Basic → Kind
  | .Bool => .Bool | .Int => .Int | .Int8 => .Int8 | .Int16 => .Int16
  | .Int32 => .Int32 | .Int64 => .Int64
  | .Uint => .Uint | .Uint8 => .Uint8 | .Uint16 => .Uint16 | .Uint32 => .Uint32
  | .Uint64 => .Uint64 | .Uintptr => .Uintptr
  | .Float32 => .Float32 | .Float64 => .Float64
  | .Complex64 => .Complex64 | .Complex128 => .Complex128
  | .Chan => .Chan | .Func => .Func | .Map => .Map | .String => .String
  | .UnsafePointer => .UnsafePointer

/-- What the declaration of a type adds to its structure: the name (`Type.Name`, empty
for an unnamed type) and whether a pointer to the type implements `Setter` and
`Getter`. -/
structure Decl where
  name : String
  setter : Bool
  getter : Bool
deriving DecidableEq, Repr

/-- An unnamed type without methods. -/
def Decl.none : Decl := ⟨"", false, false⟩

/-- A named type without methods. -/
def Decl.plain (name : String) : Decl := ⟨name, false, false⟩

mutual
/-- Go `reflect.Type`.  A pointer type has no methods of its own (Go does not allow
them), so it carries no declaration. -/
inductive Ty
  | basic (k : Basic) (d : Decl)
  | array (n : Nat) (elem : Ty) (d : Decl)
  | slice (elem : Ty) (d : Decl)
  | pointer (elem : Ty)
  | iface (d : Decl)
  | struct (fields : List StructField) (d : Decl)
/-- Go `reflect.StructField`.  `PkgPath` is empty for an exported field; `Tag` is the
result of `sf.Tag.Lookup("env")`. -/
inductive StructField
  | mk (Name : String) (PkgPath : String) (typ : Ty) (Tag : Option String)
      (Anonymous : Bool)
end

/-- Go `Type.Kind`. -/
def Ty.Kind : Ty → Kind
  | .basic k _ => k.Kind
  | .array _ _ _ => .Array
  | .slice _ _ => .Slice
  | .pointer _ => .Pointer
  | .iface _ => .Interface
  | .struct _ _ => .Struct

/-- Go `Type.Elem`, for the kinds the engine calls it on (array, slice, pointer). -/
def Ty.Elem : Ty → Option Ty
  | .array _ e _ => some e
  | .slice e _ => some e
  | .pointer e => some e
  | _ => none

/-- The declaration of a type. -/
def Ty.decl : Ty → Decl
  | .basic _ d => d
  | .array _ _ d => d
  | .slice _ d => d
  | .pointer _ => Decl.none
  | .iface d => d
  | .struct _ d => d

/-- Go `Type.Name`. -/
def Ty.Name (t : Ty) : String := t.decl.name

/-- The fields of a record type (`NumField` and `Field`); `none` where `reflect` panics. -/
def Ty.fields : Ty → Option (List StructField)
  | .struct fs _ => some fs
  | _ => none

/-- Go `sf.Name`. -/
def StructField.Name : StructField → String
  | .mk n _ _ _ _ => n

/-- Go `sf.Type`. -/
def StructField.Type : StructField → Ty
  | .mk _ _ t _ _ => t

/-- Go `sf.Tag.Lookup(name)`. -/
def StructField.Tag : StructField → Option String
  | .mk _ _ _ t _ => t

/-- Go `sf.Anonymous`. -/
def StructField.Anonymous : StructField → Bool
  | .mk _ _ _ _ a => a

/-- Go `sf.IsExported`. -/
def StructField.IsExported : StructField → Bool
  | .mk _ p _ _ _ => p == ""

/-- The contents of a `reflect.Value`.  Integers are kept as mathematical numbers, a
float as its IEEE bit pattern; a non-nil interface value carries its dynamic type. -/
inductive Val
  | bool (b : Bool)
  | int (i : Int)
  | uint (n : Nat)
  | float (bits : Nat)
  | string (s : Bytes)
  | array (xs : List Val)
  | nilSlice
  | slice (xs : List Val)
  | nilPtr
  | ptr (v : Val)
  | nilIface
  | iface (t : Ty) (v : Val)
  | struct (fs : List Val)
  | other

mutual
/-- The zero value of a type. -/
def zero : Ty → Val
  | .basic k _ =>
    match k with
    | .Bool => .bool false
    | .Int | .Int8 | .Int16 | .Int32 | .Int64 => .int 0
    | .Uint | .Uint8 | .Uint16 | .Uint32 | .Uint64 | .Uintptr => .uint 0
    | .Float32 | .Float64 => .float 0
    | .String => .string []
    | _ => .other
  | .array n e _ => .array (List.replicate n (zero e))
  | .slice _ _ => .nilSlice
  | .pointer _ => .nilPtr
  | .iface _ => .nilIface
  | .struct fs _ => .struct (zeroFields fs)
/-- The zero values of the fields of a record. -/
def zeroFields : List StructField → List Val
  | [] => []
  | (.mk _ _ t _ _) :: fs => zero t :: zeroFields fs
end

/-- A `reflect.Value`: its type, its contents, and whether it can be assigned to
(`CanSet`). -/
structure Value where
  typ : Ty
  val : Val
  canSet : Bool

/-- Go `v.Kind`. -/
def Value.Kind (v : Value) : Kind := v.typ.Kind

/-- Go `v.Len` of an array, a slice or a string. -/
def Value.Len (v : Value) : Nat :=
  match v.val with
  | .array xs => xs.length
  | .slice xs => xs.length
  | .string s => s.length
  | _ => 0

/-- Go `v.IsNil`. -/
def Value.IsNil (v : Value) : Bool :=
  match v.val with
  | .nilPtr | .nilSlice | .nilIface => true
  | _ => false

/-- The elements of an array or a slice. -/
def Val.elems : Val → List Val
  | .array xs => xs
  | .slice xs => xs
  | _ => []

/-- Go `v.Bool`. -/
def Val.asBool : Val → Bool
  | .bool b => b
  | _ => false

/-- Go `v.Int`. -/
def Val.asInt : Val → Int
  | .int i => i
  | _ => 0

/-- Go `v.Uint`. -/
def Val.asUint : Val → Nat
  | .uint n => n
  | _ => 0

/-- Go `v.Float`, as a bit pattern. -/
def Val.asFloat : Val → Nat
  | .float b => b
  | _ => 0

/-- Go `v.String` of a string value. -/
def Val.asString : Val → Bytes
  | .string s => s
  | _ => []

/-- The field values of a record value. -/
def Val.fieldVals : Val → List Val
  | .struct fs => fs
  | _ => []

/-! ## strconv -/

/-- The error a conversion or a user method reports (what `errors.Unwrap` leaves of it). -/
inductive Cause
  | ErrSyntax
  | ErrRange
  | ErrBitSize
  | indexOutOfRange
  | EINVAL
  | user (msg : String)
deriving DecidableEq, Repr

/-- Go `strconv.ParseBool`. -/
def ParseBool (s : Bytes) : Bool × Option Cause :=
  if s = str "1" ∨ s = str "t" ∨ s = str "T" ∨ s = str "TRUE" ∨ s = str "true"
      ∨ s = str "True" then (true, none)
  else if s = str "0" ∨ s = str "f" ∨ s = str "F" ∨ s = str "FALSE" ∨ s = str "false"
      ∨ s = str "False" then (false, none)
  else (false, some .ErrSyntax)

/-- The digit loop of `strconv.ParseUint` in base 10: `n` is the number read so far.
The cutoff is `maxUint64/10 + 1`; the sum is taken in 64 bits as in the source. -/
def parseUintLoop (maxVal : Nat) : Bytes → Nat → Nat × Option Cause
  | [], n => (n, none)
  | c :: cs, n =>
    if 48 ≤ c.toNat ∧ c.toNat ≤ 57 then
      let d := c.toNat - 48
      if n ≥ (2 ^ 64 - 1) / 10 + 1 then (maxVal, some .ErrRange)
      else
        let n10 := (n * 10) % 2 ^ 64
        let n1 := (n10 + d) % 2 ^ 64
        if n1 < n10 ∨ n1 > maxVal then (maxVal, some .ErrRange)
        else parseUintLoop maxVal cs n1
    else (0, some .ErrSyntax)

/-- Go `strconv.ParseUint(s, 10, bitSize)`. -/
def ParseUint (s : Bytes) (bitSize : Nat) : Nat × Option Cause :=
  if s = [] then (0, some .ErrSyntax)
  else if bitSize > 64 then (0, some .ErrBitSize)
  else
    let bitSize := if bitSize = 0 then 64 else bitSize
    parseUintLoop (2 ^ bitSize - 1) s 0

/-- Go `strconv.ParseInt(s, 10, bitSize)`. -/
def ParseInt (s : Bytes) (bitSize : Nat) : Int × Option Cause :=
  match s with
  | [] => (0, some .ErrSyntax)
  | c :: cs =>
    let neg := c = 45
    let s := if c = 43 ∨ c = 45 then cs else c :: cs
    let (un, err) := ParseUint s bitSize
    if err ≠ none ∧ err ≠ some .ErrRange then (0, err)
    else
      let bitSize := if bitSize = 0 then 64 else bitSize
      let cutoff := 2 ^ (bitSize - 1)
      if ¬ neg ∧ un ≥ cutoff then ((cutoff : Int) - 1, some .ErrRange)
      else if neg ∧ un > cutoff then (- (cutoff : Int), some .ErrRange)
      else (if neg then - (un : Int) else (un : Int), none)

/-- The decimal digits of `n`, most significant first, in front of `acc`. -/
def formatBits : Nat → Nat → Bytes → Bytes
  | 0, _, acc => acc
  | fuel + 1, n, acc =>
    if n < 10 then UInt8.ofNat (48 + n) :: acc
    else formatBits fuel (n / 10) (UInt8.ofNat (48 + n % 10) :: acc)

/-- Go `strconv.AppendUint(nil, n, 10)`. -/
def AppendUint (n : Nat) : Bytes := formatBits (n + 1) n []

/-- Go `strconv.AppendInt(nil, i, 10)`. -/
def AppendInt (i : Int) : Bytes :=
  if i < 0 then 45 :: AppendUint i.natAbs else AppendUint i.natAbs

/-- Go `strconv.AppendBool(nil, b)`. -/
def AppendBool (b : Bool) : Bytes := if b then str "true" else str "false"

/-- Modelled from the spec: `bitSize` (not in the source files) gives the exact bit
width of an integer or float kind; `int`, `uint` and `uintptr` are taken as 64 bits. -/
def bitSize : Kind → Nat
  | .Int8 | .Uint8 => 8
  | .Int16 | .Uint16 => 16
  | .Int32 | .Uint32 | .Float32 => 32
  | .Int | .Int64 | .Uint | .Uint64 | .Uintptr | .Float64 => 64
  | _ => 0

/-- What `SetInt` stores in a signed integer of `w` bits. -/
def wrapInt (w : Nat) (i : Int) : Int :=
  (i + 2 ^ (w - 1)) % 2 ^ w - 2 ^ (w - 1)

/-- What `SetUint` stores in an unsigned integer of `w` bits. -/
def wrapUint (w : Nat) (n : Nat) : Nat := n % 2 ^ w

/-! ## The parts of the package that the source files do not contain -/

/-- The declarations the engine uses that are not in `engine.go`, `getter.go` and
`setter.go`, and the float conversions of `strconv`.
`GetENV t p` is the method of a pointer to a fresh value of type `t`: the value it
leaves there and the error it returns.  `SetENV t v` is the method on a pointer to a
copy of `v`. -/
structure Deps where
  envSeparator : UInt8
  isEmptyValue : Value → Bool
  GetENV : Ty → Bytes → Val × Option String
  SetENV : Ty → Val → Bytes × Option String
  ParseFloat : Bytes → Nat → Nat × Option Cause
  AppendFloat : Nat → Nat → Bytes

/-! ## engine.go: routines and field descriptors -/

/-- The element parsers that `getProc` returns. -/
inductive procFunc
  | boolProc | intProc | uintProc | floatProc | pointerProc | stringParser
deriving DecidableEq, Repr

/-- The closures of type `getterFunc` that `typeFunctions` stores. `arrayGetter proc`
and `sliceGetter t parser` are the closures returned by `arrayGetter(t)` and
`sliceGetter(t)` with what they capture. -/
inductive getterFunc
  | boolGetter | intGetter | uintGetter | floatGetter
  | arrayGetter (proc : procFunc)
  | interfaceGetter | pointerGetter
  | sliceGetter (t : Ty) (parser : procFunc)
  | stringGetter | structGetter | unsupportedTypeGetter | getGetter

/-- The element formatters that `setProc` returns, named after the case of its switch. -/
inductive setProcFunc
  | Bool | Int | Uint | Float | Pointer | String
deriving DecidableEq, Repr

/-- The closures of type `setterFunc` that `typeFunctions` stores. -/
inductive setterFunc
  | boolSetter | intSetter | uintSetter | floatSetter
  | interfaceSetter | pointerSetter
  | sliceSetter (proc : setProcFunc)
  | stringSetter | structSetter | unsupportedTypeSetter | setSetter
deriving DecidableEq, Repr

/-- Go `type functions struct`. -/
structure functions where
  setterFunc : setterFunc
  getterFunc : getterFunc

/-- Go `type field struct`; `functions` and `embedded` are `none` where the source
has nil. -/
inductive field
  | mk (index : Nat) (name : String) (typ : Ty) (mandatory : Bool) (raw : Bool)
      (functions : Option functions) (embedded : Option (List field))

/-- Go `f.index`. -/
def field.index : field → Nat
  | .mk i _ _ _ _ _ _ => i

/-- Go `f.name`. -/
def field.name : field → String
  | .mk _ n _ _ _ _ _ => n

/-- Go `f.typ`. -/
def field.typ : field → Ty
  | .mk _ _ t _ _ _ _ => t

/-- Go `f.mandatory`. -/
def field.mandatory : field → Bool
  | .mk _ _ _ m _ _ _ => m

/-- Go `f.raw`. -/
def field.raw : field → Bool
  | .mk _ _ _ _ r _ _ => r

/-- Go `f.functions`. -/
def field.functions : field → Option functions
  | .mk _ _ _ _ _ f _ => f

/-- Go `f.embedded`. -/
def field.embedded : field → Option (List field)
  | .mk _ _ _ _ _ _ e => e

/-- The assignment `f.typ = t`. -/
def field.setTyp : field → Ty → field
  | .mk i n _ m r f e, t => .mk i n t m r f e

/-- Go `new(field)`; the nil type is rendered as an unnamed interface type. -/
def field.new : field := .mk 0 "" (.iface Decl.none) false false none none

/-- Go `type structFields []*field`. -/
abbrev structFields := List field

/-- Go `getProc`: the parser for the elements of `t`, `none` for nil. -/
def getProc (t : Ty) : Option procFunc :=
  match t.Elem with
  | none => none
  | some e =>
    match e.Kind with
    | .Bool => some .boolProc
    | .Int | .Int8 | .Int16 | .Int32 | .Int64 => some .intProc
    | .Uint | .Uint8 | .Uint16 | .Uint32 | .Uint64 | .Uintptr => some .uintProc
    | .Float32 | .Float64 => some .floatProc
    | .Pointer => some .pointerProc
    | .String => some .stringParser
    | _ => none

/-- Go `setProc`: the formatter for the elements of `t`, `none` for nil. -/
def setProc (t : Ty) : Option setProcFunc :=
  match t.Elem with
  | none => none
  | some e =>
    match e.Kind with
    | .Bool => some .Bool
    | .Int | .Int8 | .Int16 | .Int32 | .Int64 => some .Int
    | .Uint | .Uint8 | .Uint16 | .Uint32 | .Uint64 | .Uintptr => some .Uint
    | .Float32 | .Float64 => some .Float
    | .Pointer => some .Pointer
    | .String => some .String
    | _ => none

/-- Go `arrayGetter`. -/
def arrayGetter (t : Ty) : getterFunc :=
  match getProc t with
  | none => .unsupportedTypeGetter
  | some proc => .arrayGetter proc

/-- Go `sliceGetter`. -/
def sliceGetter (t : Ty) : getterFunc :=
  match getProc t with
  | none => .unsupportedTypeGetter
  | some parser => .sliceGetter t parser

/-- Go `sliceSetter`. -/
def sliceSetter (t : Ty) : setterFunc :=
  match setProc t with
  | none => .unsupportedTypeSetter
  | some proc => .sliceSetter proc

/-- The routines `typeFunctions` picks from the kind, before the override. -/
def kindFunctions (t : Ty) : functions :=
  match t.Kind with
  | .Bool => ⟨.boolSetter, .boolGetter⟩
  | .Int | .Int8 | .Int16 | .Int32 | .Int64 => ⟨.intSetter, .intGetter⟩
  | .Uint | .Uint8 | .Uint16 | .Uint32 | .Uint64 | .Uintptr => ⟨.uintSetter, .uintGetter⟩
  | .Float32 | .Float64 => ⟨.floatSetter, .floatGetter⟩
  | .Array => ⟨sliceSetter t, arrayGetter t⟩
  | .Interface => ⟨.interfaceSetter, .interfaceGetter⟩
  | .Pointer => ⟨.pointerSetter, .pointerGetter⟩
  | .Slice => ⟨sliceSetter t, sliceGetter t⟩
  | .String => ⟨.stringSetter, .stringGetter⟩
  | .Struct => ⟨.structSetter, .structGetter⟩
  | _ => ⟨.unsupportedTypeSetter, .unsupportedTypeGetter⟩

/-- Go `engine.typeFunctions` (and `cachedFunctions`, which returns the same pair). -/
def typeFunctions (t : Ty) : functions :=
  let f := kindFunctions t
  if t.Kind ≠ .Pointer then
    let f := if t.decl.setter then { f with setterFunc := .setSetter } else f
    if t.decl.getter then { f with getterFunc := .getGetter } else f
  else f

/-- The flags a tag sets: the loop `for _, v := range val` over all components. -/
def tagFlags : List String → Bool × Bool → Bool × Bool
  | [], acc => acc
  | v :: vs, (m, r) =>
    if v = "m" then tagFlags vs (true, r)
    else if v = "raw" then tagFlags vs (m, true)
    else tagFlags vs (m, r)

/-- Go `strings.Split(tag, ",")`. -/
def splitTag (tag : String) : List String :=
  (splitOn ',' tag.data).map String.mk

/-- The leaf descriptor `typeFields` builds for the exported, non-embedded field
`sf` at position `i`; `none` when the tag is the skip marker.  The name is `val[0]`
when `len(val) != 0`, and the flags are those of the loop over `val`. -/
def leafField (i : Nat) (sf : StructField) : Option field :=
  match sf.Tag with
  | some tag =>
    if tag = "-" then none
    else
      let val := splitTag tag
      let name :=
        match val with
        | [] => sf.Name
        | v0 :: _ => v0
      let flags := tagFlags val (false, false)
      some (.mk i name sf.Type flags.1 flags.2 (some (typeFunctions sf.Type)) none)
  | none => some (.mk i sf.Name sf.Type false false (some (typeFunctions sf.Type)) none)

/-- What one round of the loop of `typeFields` does with a field: leave it out
(`continue`), panic, or append a descriptor. -/
inductive FieldStep
  | skip
  | panic
  | append (f : field)

/-- The round of the loop of `typeFields` for an embedded field `sf` at position `i`:
`ft` is the type after `if ft.Kind() == reflect.Pointer { ft = ft.Elem() }` and `sub`
is `e.cachedFields(ft)`, `none` where it panics. -/
def embeddedStep (i : Nat) (sf : StructField) (ft : Ty) (sub : Option structFields) :
    FieldStep :=
  if !sf.IsExported && ft.Kind != .Struct then .skip
  else
    match sub with
    | none => .panic
    | some emb =>
      -- the list is made with make, so f.embedded is never nil
      let embedded : Option structFields := some emb
      if embedded.isNone then .skip
      else .append (.mk i sf.Name sf.Type false false none embedded)

/-- The round of the loop of `typeFields` for a field `sf` that is not embedded. -/
def leafStep (i : Nat) (sf : StructField) : FieldStep :=
  if !sf.IsExported then .skip
  else
    match leafField i sf with
    | none => .skip
    | some f => .append f

mutual
/-- Go `engine.typeFields` (and `cachedFields`): the descriptors of a record type;
`none` where `t.NumField` panics. -/
def typeFields : Ty → Option structFields
  | .struct fs _ => typeFieldsFrom fs 0
  | _ => none
/-- The loop of `typeFields` from position `i` on. -/
def typeFieldsFrom : List StructField → Nat → Option structFields
  | [], _ => some []
  | (.mk name pkg ft tag anon) :: rest, i =>
    match
      (if anon then
        match ft with
        | .pointer e => embeddedStep i (.mk name pkg ft tag anon) e (typeFields e)
        | t => embeddedStep i (.mk name pkg ft tag anon) t (typeFields t)
      else leafStep i (.mk name pkg ft tag anon)) with
    | .skip => typeFieldsFrom rest (i + 1)
    | .panic => none
    | .append f =>
      match typeFieldsFrom rest (i + 1) with
      | none => none
      | some fs => some (f :: fs)
end

/-- The type whose descriptors an embedded field of type `ft` takes: the pointee of a
pointer, else the type itself. -/
def embeddedType : Ty → Ty
  | .pointer e => e
  | t => t

/-- The round of the loop of `typeFields` for the field `sf` at position `i`. -/
def fieldStep (i : Nat) (sf : StructField) : FieldStep :=
  if sf.Anonymous then
    embeddedStep i sf (embeddedType sf.Type) (typeFields (embeddedType sf.Type))
  else leafStep i sf

/-! ## Errors and the traversal context -/

/-- The error of a call: the value of `s.err`.  `field` is what `setError` builds for a
failed conversion, "env: cannot OP Go struct field STRUCT.NAME of type TYP: CAUSE";
`user` is the error that a `GetENV` or `SetENV` method has returned, as it is. -/
inductive Error
  | notPointer
  | requiredMissing (key : String)
  | ErrPointerToUnexported (t : Option Ty)
  | ErrNilInterface
  | ErrNotSupportType
  | field (op : String) (structName : String) (name : String) (typ : Ty) (cause : Cause)
  | user (e : String)

/-- What a routine returns: nil, the sentinel `errExist` (the error is in `s.err`
already), another error, or the ways in which it does not return. -/
inductive Ret
  | nil
  | errExist
  | err (c : Cause)
  | panic (msg : String)
  | fuel
deriving DecidableEq, Repr

/-- The Go `error` of a conversion as a routine result. -/
def Ret.ofErr : Option Cause → Ret
  | none => .nil
  | some c => .err c

/-- Modelled from the spec: `type context struct` (not in the source files) holds the
name of the record being walked, the current field descriptor and the error of the call. -/
structure context where
  structName : String
  field : field
  err : Option Error

/-- Modelled from the spec: `setError` (not in the source files).  The error that the
method of a user-owned converter has returned is propagated verbatim; any other failure
is reported by the error that names the record type, the external name and the type of
the current field, and the cause. -/
def context.setError (c : context) (op : String) (cause : Cause) : context :=
  match cause with
  | .user e => { c with err := some (.user e) }
  | _ => { c with err := some (.field op c.structName c.field.name c.field.typ cause) }

/-- Go `const getError`. -/
def getError : String := "get data into"

/-- Go `const setError`. -/
def setErrorOp : String := "set data from"

/-! ## getter.go -/

/-- Go `type getterState struct`: the context and the buffer. -/
structure getterState where
  ctx : context
  buf : Bytes

/-- What a getter routine leaves: the state, the contents of the value it was given,
and its return value. -/
abbrev GetResult := getterState × Val × Ret

/-- Go `newGetState` when the pool is empty; `Heap.newGetState` below has the pool.  A state
that comes from the pool still holds the descriptor of an earlier call, whose type a
field error reports, so a statement about the field error of `Get` leaves that type
open. -/
def newGetState : getterState := ⟨⟨"", field.new, none⟩, []⟩

/-- Go `s.Reset()`. -/
def getterState.Reset (s : getterState) : getterState := { s with buf := [] }

/-- The assignment `s.err = e`. -/
def getterState.setErr (s : getterState) (e : Error) : getterState :=
  { s with ctx := { s.ctx with err := some e } }

/-- Go `getterState.getEnv`. -/
def getterState.getEnv (env : Env) (s : getterState) : getterState × Ret :=
  let v := Getenv env s.ctx.field.name
  if s.ctx.field.mandatory && v.isEmpty then
    (s.setErr (.requiredMissing s.ctx.field.name), .errExist)
  else ({ s with buf := s.buf ++ v }, .nil)

/-- The message of the panic of a `Set` method on a value that cannot be assigned to. -/
def unaddressable : String := "reflect: using unaddressable value"

/-- Go `boolProc`. -/
def boolProc (s : Bytes) (v : Value) : Val × Ret :=
  let (r, err) := ParseBool s
  if v.canSet then (.bool r, Ret.ofErr err) else (v.val, .panic unaddressable)

/-- Go `intProc`. -/
def intProc (s : Bytes) (v : Value) : Val × Ret :=
  let (r, err) := ParseInt s (bitSize v.Kind)
  if v.canSet then (.int (wrapInt (bitSize v.Kind) r), Ret.ofErr err)
  else (v.val, .panic unaddressable)

/-- Go `uintProc`. -/
def uintProc (s : Bytes) (v : Value) : Val × Ret :=
  let (r, err) := ParseUint s (bitSize v.Kind)
  if v.canSet then (.uint (wrapUint (bitSize v.Kind) r), Ret.ofErr err)
  else (v.val, .panic unaddressable)

/-- Go `floatProc`. -/
def floatProc (d : Deps) (s : Bytes) (v : Value) : Val × Ret :=
  let (r, err) := d.ParseFloat s (bitSize v.Kind)
  if v.canSet then (.float r, Ret.ofErr err) else (v.val, .panic unaddressable)

/-- Go `stringParser`. -/
def stringParser (s : Bytes) (v : Value) : Val × Ret :=
  if v.canSet then (.string s, .nil) else (v.val, .panic unaddressable)

/-- Go `pointerProc`; `call` runs the parser that `getProc` returned. -/
def pointerProc (call : procFunc → Bytes → Value → Val × Ret) (s : Bytes) (v : Value) :
    Val × Ret :=
  match v.typ.Elem with
  | none => (v.val, .panic "reflect: Elem of invalid type")
  | some e =>
    -- rv := reflect.New(v.Type().Elem()); parser := getProc(rv.Type())
    match getProc (.pointer e) with
    | none => (v.val, .panic "invalid memory address or nil pointer dereference")
    | some parser =>
      match call parser s ⟨e, zero e, true⟩ with
      | (x, .nil) => if v.canSet then (.ptr x, .nil) else (v.val, .panic unaddressable)
      | (_, err) => (v.val, err)

/-- The element parsers: `n` bounds the depth of pointers. -/
def execProc (d : Deps) : Nat → procFunc → Bytes → Value → Val × Ret
  | _, .boolProc, s, v => boolProc s v
  | _, .intProc, s, v => intProc s v
  | _, .uintProc, s, v => uintProc s v
  | _, .floatProc, s, v => floatProc d s v
  | _, .stringParser, s, v => stringParser s v
  | 0, .pointerProc, _, v => (v.val, .fuel)
  | n + 1, .pointerProc, s, v => pointerProc (execProc d n) s v

/-- The loop `for i, r := range bs { proc(string(r), v.Index(i)) }` over the elements
`xs` of `v`: the elements after the loop and the first error. -/
def procLoop (proc : Bytes → Value → Val × Ret) (elem : Ty) (canSet : Bool) :
    List Bytes → List Val → List Val × Ret
  | [], xs => (xs, .nil)
  | _ :: _, [] => ([], .panic "reflect: array index out of range")
  | r :: rs, x :: xs =>
    match proc r ⟨elem, x, canSet⟩ with
    | (y, .nil) =>
      let (ys, err) := procLoop proc elem canSet rs xs
      (y :: ys, err)
    | (y, err) => (y :: xs, err)

/-- The loop `for i, b := range s.Bytes() { v.Index(i).SetUint(uint64(b)) }`. -/
def rawLoop : Bytes → List Val → List Val
  | [], xs => xs
  | _ :: _, [] => []
  | b :: bs, _ :: xs => .uint b.toNat :: rawLoop bs xs

/-- Whether the raw branch applies: `s.field.raw && v.Type().Elem().Kind() == reflect.Uint8`. -/
def isRaw (f : field) (t : Ty) : Bool :=
  f.raw && (match t.Elem with
    | some e => e.Kind == .Uint8
    | none => false)

/-- The type of the elements of `t`; `t` itself where `reflect` panics. -/
def Ty.elemD (t : Ty) : Ty :=
  match t.Elem with
  | some e => e
  | none => t

/-- Go `getGetter`. -/
def getGetter (d : Deps) (env : Env) (s : getterState) (v : Value) : GetResult :=
  -- rv := reflect.New(v.Type()); f, ok := rv.Interface().(Getter)
  if !v.typ.decl.getter then (s, v.val, .nil)
  else
    match s.getEnv env with
    | (s, .nil) =>
      match d.GetENV v.typ s.buf with
      | (_, some e) => (s, v.val, .err (.user e))
      | (x, none) => if v.canSet then (s, x, .nil) else (s, v.val, .panic unaddressable)
    | (s, err) => (s, v.val, err)

/-- The common shape of `boolGetter`, `intGetter`, `uintGetter`, `floatGetter` and
`stringGetter`: read the variable, return when it is empty, else parse. -/
def scalarGetter (proc : Bytes → Value → Val × Ret) (env : Env) (s : getterState)
    (v : Value) : GetResult :=
  match s.getEnv env with
  | (s, .nil) =>
    if s.buf.length = 0 then (s, v.val, .nil)
    else
      let (x, err) := proc s.buf v
      (s, x, err)
  | (s, err) => (s, v.val, err)

/-- Go `boolGetter`. -/
def boolGetter (env : Env) (s : getterState) (v : Value) : GetResult :=
  scalarGetter boolProc env s v

/-- Go `intGetter`. -/
def intGetter (env : Env) (s : getterState) (v : Value) : GetResult :=
  scalarGetter intProc env s v

/-- Go `uintGetter`. -/
def uintGetter (env : Env) (s : getterState) (v : Value) : GetResult :=
  scalarGetter uintProc env s v

/-- Go `floatGetter`. -/
def floatGetter (d : Deps) (env : Env) (s : getterState) (v : Value) : GetResult :=
  scalarGetter (floatProc d) env s v

/-- Go `stringGetter`. -/
def stringGetter (env : Env) (s : getterState) (v : Value) : GetResult :=
  scalarGetter stringParser env s v

/-- The closure returned by `arrayGetter(t)`. -/
def arrayGetterFunc (d : Deps) (proc : Bytes → Value → Val × Ret) (env : Env)
    (s : getterState) (v : Value) : GetResult :=
  match s.getEnv env with
  | (s, .nil) =>
    if s.buf.length = 0 then (s, v.val, .nil)
    else if isRaw s.ctx.field v.typ then
      if s.buf.length > v.Len then (s, v.val, .err .indexOutOfRange)
      else if v.canSet then (s, .array (rawLoop s.buf v.val.elems), .nil)
      else (s, v.val, .panic unaddressable)
    else
      let bs := splitOn d.envSeparator s.buf
      if bs.length > v.Len then (s, v.val, .err .indexOutOfRange)
      else
        let (xs, err) := procLoop proc v.typ.elemD v.canSet bs v.val.elems
        (s, .array xs, err)
  | (s, err) => (s, v.val, err)

/-- The closure returned by `sliceGetter(t)`. -/
def sliceGetterFunc (d : Deps) (t : Ty) (parser : Bytes → Value → Val × Ret) (env : Env)
    (s : getterState) (v : Value) : GetResult :=
  match s.getEnv env with
  | (s, .nil) =>
    if s.buf.length = 0 then (s, v.val, .nil)
    else if isRaw s.ctx.field v.typ then
      if v.canSet then (s, .slice (s.buf.map (fun b => .uint b.toNat)), .nil)
      else (s, v.val, .panic unaddressable)
    else
      let bs := splitOn d.envSeparator s.buf
      if v.canSet then
        let (xs, err) :=
          procLoop parser t.elemD true bs (List.replicate bs.length (zero t.elemD))
        (s, .slice xs, err)
      else (s, v.val, .panic unaddressable)
  | (s, err) => (s, v.val, err)

/-- Go `unsupportedTypeGetter`. -/
def unsupportedTypeGetter (s : getterState) (v : Value) : GetResult :=
  (s.setErr .ErrNotSupportType, v.val, .errExist)

/-- What the getter routines call back into: a routine on a value, or the walk of a
descriptor list over a record value. -/
inductive GetCall
  | func (g : getterFunc)
  | fields (f : structFields)

/-- The assignment `s.context.field.typ = t`. -/
def getterState.setTyp (s : getterState) (t : Ty) : getterState :=
  { s with ctx := { s.ctx with field := s.ctx.field.setTyp t } }

/-- Go `getterState.reflectValue`. -/
def getterState.reflectValue (call : GetCall → getterState → Value → GetResult)
    (s : getterState) (v : Value) : GetResult :=
  call (.func (typeFunctions v.typ).getterFunc) (s.setTyp v.typ) v

/-- Go `interfaceGetter`. -/
def interfaceGetter (call : GetCall → getterState → Value → GetResult)
    (s : getterState) (v : Value) : GetResult :=
  match v.val with
  | .iface t x =>
    match s.reflectValue call ⟨t, x, false⟩ with
    | (s, y, err) => (s, .iface t y, err)
  | _ => (s.setErr .ErrNilInterface, v.val, .errExist)

/-- Go `pointerGetter`. -/
def pointerGetter (d : Deps) (call : GetCall → getterState → Value → GetResult)
    (s : getterState) (v : Value) : GetResult :=
  match v.val with
  | .ptr x =>
    match s.reflectValue call ⟨v.typ.elemD, x, true⟩ with
    | (s, y, err) => (s, .ptr y, err)
  | _ =>
    match s.reflectValue call ⟨v.typ.elemD, zero v.typ.elemD, true⟩ with
    | (s, y, .nil) =>
      if !d.isEmptyValue ⟨v.typ.elemD, y, true⟩ then
        if v.canSet then (s, .ptr y, .nil) else (s, v.val, .panic unaddressable)
      else (s, v.val, .nil)
    | (s, _, err) => (s, v.val, err)

/-- Go `structGetter`. -/
def structGetter (call : GetCall → getterState → Value → GetResult)
    (s : getterState) (v : Value) : GetResult :=
  match typeFields v.typ with
  | none => (s, v.val, .panic "reflect: NumField of non-struct type")
  | some f => call (.fields f) s v

/-- Go `v.Field(i)` of a record value. -/
def Value.Field (v : Value) (i : Nat) : Option Value :=
  match v.typ.fields, v.val with
  | some fs, .struct xs =>
    match fs.get? i, xs.get? i with
    | some sf, some x => some ⟨sf.Type, x, v.canSet⟩
    | _, _ => none
  | _, _ => none

/-- The record contents with field `i` replaced. -/
def Val.setField (v : Val) (i : Nat) (x : Val) : Val :=
  match v with
  | .struct xs => .struct (xs.set i x)
  | w => w

/-- One round of the loop of `structFields.get`, for the descriptor `fd`: the state,
the contents of the record `v` after the round, and what ends the loop (nil to go on). -/
def getRound (call : GetCall → getterState → Value → GetResult) (fd : field)
    (s : getterState) (v : Value) : GetResult :=
  let s := { s with ctx := { s.ctx with field := fd } }.Reset
  match v.Field fd.index with
  | none => (s, v.val, .panic "reflect: Field index out of range")
  | some rv =>
    match fd.embedded with
    | some emb =>
      if rv.Kind = .Pointer then
        match rv.val with
        | .ptr x =>
          match call (.fields emb) s ⟨rv.typ.elemD, x, true⟩ with
          | (s, y, err) => (s, v.val.setField fd.index (.ptr y), err)
        | _ => (s.setErr (.ErrPointerToUnexported rv.typ.Elem), v.val, .errExist)
      else
        match call (.fields emb) s rv with
        | (s, y, err) => (s, v.val.setField fd.index y, err)
    | none =>
      match fd.functions with
      | none => (s, v.val, .panic "invalid memory address or nil pointer dereference")
      | some fns =>
        match call (.func fns.getterFunc) s rv with
        | (s, y, err) => (s, v.val.setField fd.index y, err)

/-- The loop of `structFields.get` over the descriptors `f`; `v` is the record as the
fields before have left it. -/
def getLoop (call : GetCall → getterState → Value → GetResult) :
    structFields → getterState → Value → GetResult
  | [], s, v => (s, v.val, .nil)
  | fd :: rest, s, v =>
    match getRound call fd s v with
    | (s, y, .nil) => getLoop call rest s { v with val := y }
    | r => r

/-- Go `structFields.get`. -/
def structFields.get (call : GetCall → getterState → Value → GetResult)
    (f : structFields) (s : getterState) (v : Value) : GetResult :=
  let s := { s with ctx := { s.ctx with structName := v.typ.Name } }
  getLoop call f s v

/-- The getter routines; `n` bounds the depth of the calls through `reflectValue`,
through a record field and through an embedded record. -/
def execGet (d : Deps) (env : Env) : Nat → GetCall → getterState → Value → GetResult
  | 0, _, s, v => (s, v.val, .fuel)
  | n + 1, .fields f, s, v => structFields.get (execGet d env n) f s v
  | n + 1, .func g, s, v =>
    match g with
    | .boolGetter => boolGetter env s v
    | .intGetter => intGetter env s v
    | .uintGetter => uintGetter env s v
    | .floatGetter => floatGetter d env s v
    | .arrayGetter proc => arrayGetterFunc d (execProc d n proc) env s v
    | .interfaceGetter => interfaceGetter (execGet d env n) s v
    | .pointerGetter => pointerGetter d (execGet d env n) s v
    | .sliceGetter t parser => sliceGetterFunc d t (execProc d n parser) env s v
    | .stringGetter => stringGetter env s v
    | .structGetter => structGetter (execGet d env n) s v
    | .unsupportedTypeGetter => unsupportedTypeGetter s v
    | .getGetter => getGetter d env s v

/-- Go `getterState.get`: the error left in `s.err`, the contents of the value, and
whether the call returned. -/
def getterState.get (d : Deps) (env : Env) (n : Nat) (s : getterState) (v : Value) :
    GetResult :=
  match s.reflectValue (execGet d env n) v with
  | (s, x, .err c) => ({ s with ctx := s.ctx.setError getError c }, x, .err c)
  | r => r

/-- The outcome of a call of `Get` or `Set`. -/
inductive Outcome
  | ok
  | error (e : Error)
  | panic (msg : String)
  | fuel

/-- The outcome that the state and the result of the top routine amount to. -/
def Outcome.of (err : Option Error) : Ret → Outcome
  | .panic m => .panic m
  | .fuel => .fuel
  | _ =>
    match err with
    | none => .ok
    | some e => .error e

/-- Go `engine.get` (and `Get`): `v` is the argument, `none` for a nil interface.  The
result is the contents of `v` after the call and the outcome. -/
def engine.get (d : Deps) (env : Env) (n : Nat) (v : Option (Ty × Val)) :
    Option Val × Outcome :=
  match v with
  | none => (none, .error .notPointer)
  | some (t, x) =>
    if t.Kind ≠ .Pointer then (some x, .error .notPointer)
    else
      match newGetState.get d env n ⟨t, x, false⟩ with
      | (s, y, r) => (some y, Outcome.of s.ctx.err r)

/-- Go `Get`. -/
def Get (d : Deps) (env : Env) (n : Nat) (v : Option (Ty × Val)) : Option Val × Outcome :=
  engine.get d env n v

/-! ## setter.go -/

/-- Go `type setterState struct`: the context, and the environment the call writes to. -/
structure setterState where
  ctx : context
  env : Env

/-- What a setter routine leaves: the state and its return value. -/
abbrev SetResult := setterState × Ret

/-- Go `newSetState` when the pool is empty, on the environment `env`. -/
def newSetState (env : Env) : setterState := ⟨⟨"", field.new, none⟩, env⟩

/-- The assignment `s.err = e`. -/
def setterState.setErr (s : setterState) (e : Error) : setterState :=
  { s with ctx := { s.ctx with err := some e } }

/-- Go `setterState.setEnv`. -/
def setterState.setEnv (s : setterState) (v : Bytes) : SetResult :=
  match Setenv s.env s.ctx.field.name v with
  | some env => ({ s with env := env }, .nil)
  | none => (s, .err .EINVAL)

/-- Go `valueFromPtr`. -/
def valueFromPtr (v : Value) : Value :=
  if v.Kind ≠ .Pointer then v
  else
    match v.val with
    | .ptr x => ⟨v.typ.elemD, x, true⟩
    | _ => ⟨v.typ.elemD, zero v.typ.elemD, true⟩

/-- Go `setSetter`. -/
def setSetter (d : Deps) (s : setterState) (v : Value) : SetResult :=
  if !v.typ.decl.setter then (s, .nil)
  else
    match d.SetENV v.typ v.val with
    | (_, some e) => (s, .err (.user e))
    | (p, none) => s.setEnv p

/-- Go `boolSetter`. -/
def boolSetter (s : setterState) (v : Value) : SetResult :=
  s.setEnv (AppendBool v.val.asBool)

/-- Go `intSetter`. -/
def intSetter (s : setterState) (v : Value) : SetResult :=
  s.setEnv (AppendInt v.val.asInt)

/-- Go `uintSetter`. -/
def uintSetter (s : setterState) (v : Value) : SetResult :=
  s.setEnv (AppendUint v.val.asUint)

/-- Go `floatSetter`. -/
def floatSetter (d : Deps) (s : setterState) (v : Value) : SetResult :=
  s.setEnv (d.AppendFloat v.val.asFloat (bitSize v.Kind))

/-- Go `stringSetter`. -/
def stringSetter (s : setterState) (v : Value) : SetResult :=
  s.setEnv v.val.asString

/-- The closures returned by `setProc`: the bytes of an element; `n` bounds the depth
of pointers.  The result is not nil only when the closure does not return. -/
def execSetProc (d : Deps) : Nat → setProcFunc → Value → Bytes × Ret
  | _, .Bool, v => (AppendBool v.val.asBool, .nil)
  | _, .Int, v => (AppendInt v.val.asInt, .nil)
  | _, .Uint, v => (AppendUint v.val.asUint, .nil)
  | _, .Float, v => (d.AppendFloat v.val.asFloat (bitSize v.Kind), .nil)
  | _, .String, v => (v.val.asString, .nil)
  | 0, .Pointer, _ => ([], .fuel)
  | n + 1, .Pointer, v =>
    match setProc v.typ with
    | none => ([], .panic "invalid memory address or nil pointer dereference")
    | some proc => execSetProc d n proc (valueFromPtr v)

/-- The loop of the closure of `sliceSetter` that joins the formatted elements `xs`
(the elements from position `i` on) with the separator. -/
def joinLoop (sep : UInt8) (proc : Value → Bytes × Ret) (elem : Ty) :
    Nat → List Val → Bytes → Bytes × Ret
  | _, [], buf => (buf, .nil)
  | i, x :: xs, buf =>
    let buf := if i > 0 then buf ++ [sep] else buf
    match proc ⟨elem, x, false⟩ with
    | (b, .nil) => joinLoop sep proc elem (i + 1) xs (buf ++ b)
    | (_, err) => (buf, err)

/-- The closure returned by `sliceSetter(t)`. -/
def sliceSetterFunc (d : Deps) (proc : Value → Bytes × Ret) (s : setterState) (v : Value) :
    SetResult :=
  if isRaw s.ctx.field v.typ then
    s.setEnv (v.val.elems.map (fun x => UInt8.ofNat x.asUint))
  else
    match joinLoop d.envSeparator proc v.typ.elemD 0 v.val.elems [] with
    | (buf, .nil) => s.setEnv buf
    | (_, err) => (s, err)

/-- Go `unsupportedTypeSetter`. -/
def unsupportedTypeSetter (s : setterState) (_v : Value) : SetResult :=
  (s.setErr .ErrNotSupportType, .errExist)

/-- What the setter routines call back into. -/
inductive SetCall
  | func (g : setterFunc)
  | fields (f : structFields)

/-- The assignment `s.context.field.typ = t`. -/
def setterState.setTyp (s : setterState) (t : Ty) : setterState :=
  { s with ctx := { s.ctx with field := s.ctx.field.setTyp t } }

/-- Go `setterState.reflectValue`. -/
def setterState.reflectValue (call : SetCall → setterState → Value → SetResult)
    (s : setterState) (v : Value) : SetResult :=
  call (.func (typeFunctions v.typ).setterFunc) (s.setTyp v.typ) v

/-- Go `interfaceSetter`. -/
def interfaceSetter (call : SetCall → setterState → Value → SetResult)
    (s : setterState) (v : Value) : SetResult :=
  match v.val with
  | .iface t x => s.reflectValue call ⟨t, x, false⟩
  | _ => (s.setErr .ErrNilInterface, .errExist)

/-- Go `pointerSetter`. -/
def pointerSetter (call : SetCall → setterState → Value → SetResult)
    (s : setterState) (v : Value) : SetResult :=
  s.reflectValue call (valueFromPtr v)

/-- Go `structSetter`. -/
def structSetter (call : SetCall → setterState → Value → SetResult)
    (s : setterState) (v : Value) : SetResult :=
  match typeFields v.typ with
  | none => (s, .panic "reflect: NumField of non-struct type")
  | some f => call (.fields f) s { v with canSet := false }

/-- One round of the loop of `structFields.set`, for the descriptor `fd`. -/
def setRound (d : Deps) (call : SetCall → setterState → Value → SetResult) (fd : field)
    (s : setterState) (v : Value) : SetResult :=
  let s := { s with ctx := { s.ctx with field := fd } }
  match v.Field fd.index with
  | none => (s, .panic "reflect: Field index out of range")
  | some rv =>
    if fd.mandatory && d.isEmptyValue rv then (s, .nil)
    else
      match fd.embedded with
      | some emb => call (.fields emb) s (valueFromPtr rv)
      | none =>
        match fd.functions with
        | none => (s, .panic "invalid memory address or nil pointer dereference")
        | some fns => call (.func fns.setterFunc) s rv

/-- The loop of `structFields.set` over the descriptors `f`. -/
def setLoop (d : Deps) (call : SetCall → setterState → Value → SetResult) :
    structFields → setterState → Value → SetResult
  | [], s, _ => (s, .nil)
  | fd :: rest, s, v =>
    match setRound d call fd s v with
    | (s, .nil) => setLoop d call rest s v
    | r => r

/-- Go `structFields.set`. -/
def structFields.set (d : Deps) (call : SetCall → setterState → Value → SetResult)
    (f : structFields) (s : setterState) (v : Value) : SetResult :=
  let s := { s with ctx := { s.ctx with structName := v.typ.Name } }
  setLoop d call f s v

/-- The setter routines; `n` bounds the depth of the calls. -/
def execSet (d : Deps) : Nat → SetCall → setterState → Value → SetResult
  | 0, _, s, _ => (s, .fuel)
  | n + 1, .fields f, s, v => structFields.set d (execSet d n) f s v
  | n + 1, .func g, s, v =>
    match g with
    | .boolSetter => boolSetter s v
    | .intSetter => intSetter s v
    | .uintSetter => uintSetter s v
    | .floatSetter => floatSetter d s v
    | .interfaceSetter => interfaceSetter (execSet d n) s v
    | .pointerSetter => pointerSetter (execSet d n) s v
    | .sliceSetter proc => sliceSetterFunc d (execSetProc d n proc) s v
    | .stringSetter => stringSetter s v
    | .structSetter => structSetter (execSet d n) s v
    | .unsupportedTypeSetter => unsupportedTypeSetter s v
    | .setSetter => setSetter d s v

/-- Go `setterState.set`. -/
def setterState.set (d : Deps) (n : Nat) (s : setterState) (v : Value) : SetResult :=
  match s.reflectValue (execSet d n) v with
  | (s, .err c) => ({ s with ctx := s.ctx.setError setErrorOp c }, .err c)
  | r => r

/-- Go `engine.set` (and `Set`): `v` is the argument, `none` for a nil interface.  The
result is the environment after the call and the outcome. -/
def engine.set (d : Deps) (env : Env) (n : Nat) (v : Option (Ty × Val)) : Env × Outcome :=
  match v with
  | none => (env, .panic "reflect: call of reflect.Value.Type on zero Value")
  | some (t, x) =>
    match (newSetState env).set d n ⟨t, x, false⟩ with
    | (s, r) => (s.env, Outcome.of s.ctx.err r)

/-- Go `Set`. -/
def Set (d : Deps) (env : Env) (n : Nat) (v : Option (Ty × Val)) : Env × Outcome :=
  engine.set d env n v

/-! ## The walk of a record from `Get` and `Set` -/

/-- The state in which `Get` enters the loop over the descriptors of the record type `t`
when it is given a pointer to a record. -/
def getEntry (t : Ty) : getterState :=
  ⟨⟨t.Name, (field.new.setTyp (.pointer t)).setTyp t, none⟩, []⟩

/-- What `Get` returns once the walk of the record behind the pointer has ended. -/
def getFinish : GetResult → Option Val × Outcome
  | (s, y, .err c) => (some (.ptr y), Outcome.of (s.ctx.setError getError c).err (.err c))
  | (s, y, r) => (some (.ptr y), Outcome.of s.ctx.err r)

/-- The state in which `Set` enters the loop over the descriptors of the record type `t`
when it is given a record. -/
def setEntry (t : Ty) (env : Env) : setterState :=
  ⟨⟨t.Name, field.new.setTyp t, none⟩, env⟩

/-- What `Set` returns once the walk of the record has ended. -/
def setFinish : SetResult → Env × Outcome
  | (s, .err c) => (s.env, Outcome.of (s.ctx.setError setErrorOp c).err (.err c))
  | (s, r) => (s.env, Outcome.of s.ctx.err r)

/-- The number of pointers in front of a type. -/
def Ty.ptrDepth : Ty → Nat
  | .pointer e => e.ptrDepth + 1
  | _ => 0

/-! ## The records of the test files and an instance of the missing declarations -/

mutual
/-- Whether a value is the zero value of its type, whatever the type. -/
def Val.isZero : Val → Bool
  | .bool b => !b
  | .int i => i == 0
  | .uint n => n == 0
  | .float b => b == 0
  | .string s => s.isEmpty
  | .array xs => Val.allZero xs
  | .nilSlice => true
  | .slice _ => false
  | .nilPtr => true
  | .ptr _ => false
  | .nilIface => true
  | .iface _ _ => false
  | .struct fs => Val.allZero fs
  | .other => true
/-- Whether all values of a list are zero values. -/
def Val.allZero : List Val → Bool
  | [] => true
  | x :: xs => x.isZero && Val.allZero xs
end

/-- Go `type ai int` of `asserts_test.go`, with its methods `SetENV` and `GetENV`. -/
def ai : Ty := .basic .Int ⟨"ai", true, true⟩

/-- Go `func (i *ai) GetENV(p []byte) error` of `asserts_test.go`. -/
def aiGetENV (p : Bytes) : Val × Option String :=
  if p = str "yes" then (.int 1, none)
  else if p = str "no" then (.int (-1), none)
  else (.int 0, none)

/-- Go `func (i *ai) SetENV() ([]byte, error)` of `asserts_test.go`. -/
def aiSetENV (v : Val) : Bytes × Option String :=
  if v.asInt = 1 then (str "yes", none)
  else if v.asInt = -1 then (str "no", none)
  else (str "unknown", none)

/-- Modelled from the spec: an instance of the declarations that are not in the source
files, used to evaluate the engine on examples.  The separator is a comma,
`isEmptyValue` is the zero-value test the spec describes, the methods are those of
`ai`; the float conversions are stand-ins that read and write the bit pattern in
decimal. -/
def testDeps : Deps where
  envSeparator := 44
  isEmptyValue := fun v => v.val.isZero
  GetENV := fun _ p => aiGetENV p
  SetENV := fun _ v => aiSetENV v
  ParseFloat := fun s _ => ParseUint s 64
  AppendFloat := fun b _ => AppendUint b

/-- The type `string`. -/
def tString : Ty := .basic .String (Decl.plain "string")

/-- The type `bool`. -/
def tBool : Ty := .basic .Bool (Decl.plain "bool")

/-- The type `int`. -/
def tInt : Ty := .basic .Int (Decl.plain "int")

/-- The type `uint8`. -/
def tUint8 : Ty := .basic .Uint8 (Decl.plain "uint8")

/-- Go `type simple struct` of `engine_test.go`, without the float field `D`. -/
def simple : Ty :=
  .struct [
    .mk "A" "" tString (some "ENV_A,m") false,
    .mk "B" "" tBool (some "ENV_B") false,
    .mk "C" "" tInt (some "ENV_C") false,
    .mk "e" "envio" tString none false] (Decl.plain "simple")

/-- Go `type nested struct` of `engine_test.go`: three fields and the embedded `simple`. -/
def nested : Ty :=
  .struct [
    .mk "X" "" tString (some "ENV_X") false,
    .mk "Y" "" tBool (some "ENV_Y") false,
    .mk "Z" "" tInt (some "ENV_Z") false,
    .mk "simple" "envio" simple none true] (Decl.plain "nested")

/-- Go `type pointer struct` of `engine_test.go`. -/
def pointer : Ty :=
  .struct [.mk "A" "" (.pointer tInt) none false] (Decl.plain "pointer")

/-- A record that embeds `simple` under the skip tag: `struct { simple "env:-" }`. -/
def skipEmbedded : Ty :=
  .struct [.mk "simple" "envio" simple (some "-") true] (Decl.plain "skipEmbedded")

/-- A value of `simple`: `simple{A: "test", B: true, C: 28}`. -/
def simpleVal : Val := .struct [.string (str "test"), .bool true, .int 28, .string []]

/-- Whether the routine that `typeFunctions` resolves for `t` starts by reading the
variable of the current field: the scalar getters, the closures of `arrayGetter` and
`sliceGetter`, `getGetter`, and `pointerGetter` in front of one of them. -/
def Ty.readsEnv : Ty → Bool
  | .pointer e => e.readsEnv
  | .basic k d =>
    d.getter || (match k with
      | .Complex64 | .Complex128 | .Chan | .Func | .Map | .UnsafePointer => false
      | _ => true)
  | .array n e d => d.getter || (getProc (.array n e d)).isSome
  | .slice e d => d.getter || (getProc (.slice e d)).isSome
  | .iface d => d.getter
  | .struct _ d => d.getter

/-- A record with two mandatory fields. -/
def twoMandatory : Ty :=
  .struct [
    .mk "A" "" tString (some "ENV_A,m") false,
    .mk "B" "" tString (some "ENV_B,m") false] (Decl.plain "twoMandatory")

/-- A record with a raw-flagged byte array: `struct { R [2]uint8 "env:R,raw" }`. -/
def rawArray : Ty :=
  .struct [.mk "R" "" (.array 2 tUint8 Decl.none) (some "R,raw") false] (Decl.plain "rawArray")

/-- A record with an array of integers: `struct { Arr [2]int "env:ENV_ARR" }`. -/
def intArray : Ty :=
  .struct [.mk "Arr" "" (.array 2 tInt Decl.none) (some "ENV_ARR") false] (Decl.plain "intArray")

/-- Whether `t` is a built-in leaf type: a scalar or a string, an array or a slice with an
element parser, or a pointer to one of these, none with a decode method of its own. -/
def Ty.plainLeaf : Ty → Bool
  | .pointer e => e.plainLeaf
  | .basic k d =>
    !d.getter && (match k with
      | .Complex64 | .Complex128 | .Chan | .Func | .Map | .UnsafePointer => false
      | _ => true)
  | .array n e d => !d.getter && (getProc (.array n e d)).isSome
  | .slice e d => !d.getter && (getProc (.slice e d)).isSome
  | .iface _ => false
  | .struct _ _ => false

/-- Go `type assert struct` of `asserts_test.go`: `struct { AI ai "env:AI" }`. -/
def assertRecord : Ty :=
  .struct [.mk "AI" "" ai (some "AI") false] (Decl.plain "assert")

/-- The type `[]byte`. -/
def tBytes : Ty := .slice tUint8 Decl.none

/-- A record with a raw-flagged byte slice: `struct { BytesRaw []byte "env:ENV_BYTES_RAW,raw" }`. -/
def rawBytes : Ty :=
  .struct [.mk "BytesRaw" "" tBytes (some "ENV_BYTES_RAW,raw") false] (Decl.plain "rawBytes")

/-- The contents of a byte slice with the bytes `b`. -/
def bytesVal (b : Bytes) : Val := .slice (b.map (fun x => .uint x.toNat))

/-- The state `s` on a store that has the bindings `e` behind those of `s`. -/
def setterState.over (e : Env) (s : setterState) : setterState :=
  { s with env := s.env ++ e }

/-- The result `r` of a setter routine on a store that has the bindings `e` behind. -/
def SetResult.over (e : Env) (r : SetResult) : SetResult :=
  (r.1.over e, r.2)

/-- The field `sf` with its tag replaced by the skip marker. -/
def StructField.skipped : StructField → StructField
  | .mk n p t _ a => .mk n p t (some "-") a

/-! ## The records that `Set` and `Get` take there and back -/

/-- Whether a basic kind is a signed integer kind. -/
def isIntKind : Basic → Bool
  | .Int | .Int8 | .Int16 | .Int32 | .Int64 => true
  | _ => false

/-- Whether a basic kind is an unsigned integer kind. -/
def isUintKind : Basic → Bool
  | .Uint | .Uint8 | .Uint16 | .Uint32 | .Uint64 | .Uintptr => true
  | _ => false

/-- Whether a basic kind is a float kind. -/
def isFloatKind : Basic → Bool
  | .Float32 | .Float64 => true
  | _ => false

/-- The bytes that `Set` writes for the value `x` of a boolean, integer, float or string
type without methods; `none` when `x` is not a value of such a type that reads back
(an integer has to be in the range of its width, the text of a float has to be not
empty and to parse back to the same float). -/
def scalarEnc (d : Deps) (t : Ty) (x : Val) : Option Bytes :=
  match t, x with
  | .basic k dc, .bool b =>
    if k = .Bool ∧ dc.setter = false ∧ dc.getter = false then some (AppendBool b) else none
  | .basic k dc, .int i =>
    if isIntKind k = true ∧ dc.setter = false ∧ dc.getter = false ∧
        -(2 ^ (bitSize k.Kind - 1) : Int) ≤ i ∧ i < (2 ^ (bitSize k.Kind - 1) : Int) then
      some (AppendInt i)
    else none
  | .basic k dc, .uint n =>
    if isUintKind k = true ∧ dc.setter = false ∧ dc.getter = false ∧ n < 2 ^ bitSize k.Kind then
      some (AppendUint n)
    else none
  | .basic k dc, .float f =>
    if isFloatKind k = true ∧ dc.setter = false ∧ dc.getter = false ∧
        d.ParseFloat (d.AppendFloat f (bitSize k.Kind)) (bitSize k.Kind) = (f, none) ∧
        (d.AppendFloat f (bitSize k.Kind)).isEmpty = false then
      some (d.AppendFloat f (bitSize k.Kind))
    else none
  | .basic k dc, .string s =>
    if k = .String ∧ dc.setter = false ∧ dc.getter = false then some s else none
  | _, _ => none

/-- Whether `t` is a boolean, integer, float or string type without methods. -/
def isScalar : Ty → Bool
  | .basic k dc =>
    (k == .Bool || isIntKind k || isUintKind k || isFloatKind k || k == .String) &&
      !dc.setter && !dc.getter
  | _ => false

/-- The bytes of a list of byte values; `none` when an element is not a byte. -/
def toBytes : List Val → Option Bytes
  | [] => some []
  | .uint n :: rest =>
    if n < 256 then (toBytes rest).map (fun b => UInt8.ofNat n :: b) else none
  | _ :: _ => none

/-- The bytes that `Set` writes for the element `x` of the type `e` of an array or slice:
those of a scalar of the class, or of the scalar behind at most `q` pointers, none of
them null (`valueFromPtr` follows the pointers); `none` for any other element. -/
def elemEnc (d : Deps) : Nat → Ty → Val → Option Bytes
  | _, .basic k dc, x => scalarEnc d (.basic k dc) x
  | q + 1, .pointer e, .ptr y => elemEnc d q e y
  | _, _, _ => none

/-- The bytes that `Set` writes for each of the elements `xs` of type `e`; `none` when
one of them has no bytes or has the separator in its bytes. -/
def elemsEnc (d : Deps) (q : Nat) (e : Ty) : List Val → Option (List Bytes)
  | [] => some []
  | x :: xs =>
    match elemEnc d q e x, elemsEnc d q e xs with
    | some b, some bs => if d.envSeparator ∈ b then none else some (b :: bs)
    | _, _ => none

/-- The parts `bs` with the separator between them. -/
def joinSep (sep : UInt8) : List Bytes → Bytes
  | [] => []
  | [b] => b
  | b :: c :: bs => b ++ sep :: joinSep sep (c :: bs)

/-- The bytes that `Set` writes for the elements `ys` of an array or slice with elements
of type `e`: the bytes themselves on the raw branch, else the joined elements. -/
def seqEnc (d : Deps) (q : Nat) (raw : Bool) (e : Ty) (ys : List Val) : Option Bytes :=
  if raw = true ∧ e.Kind = .Uint8 then toBytes ys
  else (elemsEnc d q e ys).map (joinSep d.envSeparator)

/-- The bytes that `Set` writes for the value `x` of a leaf type `t` of the class: a
scalar, an array, or a slice that is null or has bytes.  The array or slice type has no
methods of its own and elements that `getProc` and `setProc` have a routine for, and
the elements are scalars or pointers to scalars, at most `q` deep and none null. -/
def leafEnc (d : Deps) (q : Nat) (raw : Bool) (t : Ty) (x : Val) : Option Bytes :=
  match t, x with
  | .basic k dc, x => scalarEnc d (.basic k dc) x
  | .slice e dc, .nilSlice =>
    if dc.setter = false ∧ dc.getter = false ∧ (getProc (.slice e dc)).isSome = true ∧
        (setProc (.slice e dc)).isSome = true then some [] else none
  | .slice e dc, .slice ys =>
    if dc.setter = false ∧ dc.getter = false ∧ (getProc (.slice e dc)).isSome = true ∧
        (setProc (.slice e dc)).isSome = true then
      match seqEnc d q raw e ys with
      | some b => if b.isEmpty then none else some b
      | none => none
    else none
  | .array n e dc, .array ys =>
    if dc.setter = false ∧ dc.getter = false ∧ (getProc (.array n e dc)).isSome = true ∧
        (setProc (.array n e dc)).isSome = true ∧ ys.length = n then
      seqEnc d q raw e ys
    else none
  | _, _ => none

/-- What the value `x` of a leaf with the descriptor `fd` and the bytes `b` has to meet:
the name and the bytes are accepted by `os.Setenv`, a mandatory field has bytes, and
an array that has no bytes holds its zero value (`Get` returns before it assigns when
the variable is empty). -/
def leafOK (fd : field) (t : Ty) (x : Val) (b : Bytes) : Prop :=
  setenvValid fd.name b = true ∧ (fd.mandatory && b.isEmpty) = false ∧
  match t, x with
  | .array n e _, .array ys => b = [] → ys = List.replicate n (zero e)
  | _, _ => True

/-- What the value `x` of the field `sf` at position `i` has to meet; `value` is the
condition on a value that is written under a descriptor.  A field without descriptor
holds its zero value; a field with a descriptor is not skipped as mandatory and
empty, is not embedded by pointer, and its value meets `value`. -/
def RoundTripsField (d : Deps) (value : field → Ty → Val → Prop) (i : Nat) (sf : StructField)
    (x : Val) : Prop :=
  match fieldStep i sf with
  | .skip => x = zero sf.Type
  | .panic => False
  | .append fd =>
    (fd.mandatory && d.isEmptyValue ⟨sf.Type, x, false⟩) = false ∧
    (sf.Anonymous = true → sf.Type.Kind = .Struct) ∧ value fd sf.Type x

/-- The condition `RoundTripsField` for the fields `fs` from position `i` on and their
values `xs`. -/
def RoundTripsFields (d : Deps) (value : field → Ty → Val → Prop) :
    List StructField → Nat → List Val → Prop
  | [], _, xs => xs = []
  | _ :: _, _, [] => False
  | sf :: rest, i, x :: xs =>
    RoundTripsField d value i sf x ∧ RoundTripsFields d value rest (i + 1) xs

/-- The values of nesting depth at most `k` (records and pointers counted) that `Set` and
`Get` take there and back, `fd` being the descriptor the value is written under: a
record of a type without methods of its own, every field of which meets
`RoundTripsField`; a pointer that is not null, to a value of the class that
`isEmptyValue` does not report as empty; a null pointer, when the zero value of the
pointee is of the class and `isEmptyValue` reports it as empty; or a leaf with bytes
(`leafEnc`) that meets `leafOK`. -/
def RoundTrips (d : Deps) : Nat → field → Ty → Val → Prop
  | 0, _, _, _ => False
  | k + 1, fd, t, x =>
    match t, x with
    | .struct fs dc, .struct xs =>
      dc.setter = false ∧ dc.getter = false ∧ RoundTripsFields d (RoundTrips d k) fs 0 xs
    | .pointer e, .ptr y => d.isEmptyValue ⟨e, y, true⟩ = false ∧ RoundTrips d k fd e y
    | .pointer e, .nilPtr =>
      d.isEmptyValue ⟨e, zero e, true⟩ = true ∧ RoundTrips d k fd e (zero e)
    | t, x => ∃ b, leafEnc d k fd.raw t x = some b ∧ leafOK fd t x b

/-- The walks of `Set` and `Get` over the record type `t` at depth `m` take the value `x`
there and back: `Set` on `x` ends without error and adds the bindings `W` to the
store, whatever the state it starts in; and on every store that gives these bindings,
`Get` on the zero value of `t` ends without error and leaves `x`. -/
def WalksBack (d : Deps) (m : Nat) (t : Ty) (x : Val) : Prop :=
  ∃ f W, typeFields t = some f ∧
    (∀ s : setterState, ∃ ctx,
      setLoop d (execSet d m) f s ⟨t, x, false⟩ = (⟨ctx, W ++ s.env⟩, .nil) ∧
        ctx.err = s.ctx.err) ∧
    (∀ env : Env, (∀ p ∈ W, Getenv env p.1 = p.2) → ∀ s : getterState, ∃ s1,
      getLoop (execGet d env m) f s ⟨t, zero t, true⟩ = (s1, x, .nil) ∧
        s1.ctx.err = s.ctx.err)

/-- The routines of the type `t` at depth `m` take the value `x` there and back under
the descriptor `fd`: in a state whose descriptor has the name and the raw flag of `fd`,
the setter on `x` ends without error and adds the bindings `W` to the store; and on
every store that gives these bindings, in a state whose descriptor has the name and the
flags of `fd` and whose buffer is empty, the getter on the zero value of `t` ends
without error and leaves `x`. -/
def RoutineBack (d : Deps) (m : Nat) (fd : field) (t : Ty) (x : Val) : Prop :=
  ∃ W : Env,
    (∀ (s : setterState) (c : Bool), s.ctx.field.name = fd.name → s.ctx.field.raw = fd.raw →
      ∃ ctx, execSet d m (.func (typeFunctions t).setterFunc) s ⟨t, x, c⟩ =
          (⟨ctx, W ++ s.env⟩, .nil) ∧ ctx.err = s.ctx.err) ∧
    (∀ env : Env, (∀ p ∈ W, Getenv env p.1 = p.2) → ∀ s : getterState,
      s.ctx.field.name = fd.name → s.ctx.field.raw = fd.raw →
      s.ctx.field.mandatory = fd.mandatory → s.buf = [] →
      ∃ s1, execGet d env m (.func (typeFunctions t).getterFunc) s ⟨t, zero t, true⟩ =
          (s1, x, .nil) ∧ s1.ctx.err = s.ctx.err)

/-- A record with a pointer to a record, a slice of pointers to integers and a pointer
to an array: `struct { P *simple "env:P"; Q []*int "env:Q"; R *[2]int "env:R" }`. -/
def pointers : Ty :=
  .struct [
    .mk "P" "" (.pointer simple) (some "P") false,
    .mk "Q" "" (.slice (.pointer tInt) Decl.none) (some "Q") false,
    .mk "R" "" (.pointer (.array 2 tInt Decl.none)) (some "R") false] (Decl.plain "pointers")

/-- A value of `pointers`:
`pointers{P: &simple{A: "test", B: true, C: 28}, Q: []*int{&1, &2}, R: &[2]int{3, 4}}`. -/
def pointersVal : Val :=
  .struct [.ptr simpleVal, .slice [.ptr (.int 1), .ptr (.int 2)],
    .ptr (.array [.int 3, .int 4])]

/-- Go `type skip struct` of `engine_test.go`: two fields under the skip tag and an
embedded pointer to `simple`. -/
def skip : Ty :=
  .struct [
    .mk "S" "" tString (some "-") false,
    .mk "K" "" tInt (some "-") false,
    .mk "simple" "envio" (.pointer simple) none true] (Decl.plain "skip")

/-- A value of `skip`: `skip{simple: &simple{A: "test", B: true, C: 28}}`. -/
def skipVal : Val := .struct [.string [], .int 0, .ptr simpleVal]

/-- A value of `nested`: `nested{X: "x", Y: true, Z: -5, simple: simple{A: "test", B: true, C: 28}}`. -/
def nestedVal : Val := .struct [.string (str "x"), .bool true, .int (-5), simpleVal]

/-- Go `type slcArr struct` of `engine_test.go`. -/
def slcArr : Ty :=
  .struct [
    .mk "Slc" "" (.slice tBool Decl.none) (some "ENV_SLC") false,
    .mk "Arr" "" (.array 5 tInt Decl.none) (some "ENV_ARR") false,
    .mk "Bytes" "" tBytes (some "ENV_BYTES") false,
    .mk "BytesRaw" "" tBytes (some "ENV_BYTES_RAW,raw") false] (Decl.plain "slcArr")

/-- A value of `slcArr`: `slcArr{Slc: []bool{true, false, true}, Arr: [5]int{0, 5, 8},
Bytes: []byte{65, 66, 67, 68}, BytesRaw: []byte{65, 66, 67, 68}}`. -/
def slcArrVal : Val :=
  .struct [.slice [.bool true, .bool false, .bool true],
    .array [.int 0, .int 5, .int 8, .int 0, .int 0],
    bytesVal [65, 66, 67, 68], bytesVal [65, 66, 67, 68]]

/-- A record that embeds `simple` in front of a boolean field:
`struct { simple; Q bool "env:Q" }`, named `afterEmbedded`. -/
def afterEmbedded : Ty :=
  .struct [
    .mk "simple" "envio" simple none true,
    .mk "Q" "" tBool (some "Q") false] (Decl.plain "afterEmbedded")

/-- A record with a slice of pointers to records: `struct { P []*simple "env:P" }`. -/
def ptrSlice : Ty :=
  .struct [.mk "P" "" (.slice (.pointer simple) Decl.none) (some "P") false]
    (Decl.plain "ptrSlice")

/-- A record with a mandatory field in front of an embedded pointer to `simple`:
`struct { M string "env:M,m"; *simple }`. -/
def mandatoryThenPointer : Ty :=
  .struct [
    .mk "M" "" tString (some "M,m") false,
    .mk "simple" "envio" (.pointer simple) none true] (Decl.plain "mandatoryThenPointer")

/-- Modelled from the spec: the instance `testDeps` with methods that fail: `GetENV` and
`SetENV` return the error "boom" on every input. -/
def failDeps : Deps :=
  { testDeps with
    GetENV := fun _ _ => (.int 0, some "boom")
    SetENV := fun _ _ => ([], some "boom") }

/-- A record whose second field has a name that `os.Setenv` rejects:
`struct { A string "env:A"; B string "env:B=x" }`. -/
def badName : Ty :=
  .struct [
    .mk "A" "" tString (some "A") false,
    .mk "B" "" tString (some "B=x") false,
    .mk "C" "" tString (some "C") false] (Decl.plain "badName")

/-- Whether the bytes are decimal digits, at least one. -/
def isDecimal (ds : Bytes) : Bool :=
  !ds.isEmpty && ds.all (fun c => decide (48 ≤ c.toNat ∧ c.toNat ≤ 57))

/-- The number that the decimal digits `ds` denote when they follow digits that denote
`n`. -/
def decimalValue : Bytes → Nat → Nat
  | [], n => n
  | c :: cs, n => decimalValue cs (n * 10 + (c.toNat - 48))

/-- The type `int8`. -/
def tInt8 : Ty := .basic .Int8 (Decl.plain "int8")

/-- A record with a field of each of two widths:
`struct { N int8 "env:N"; U uint8 "env:U" }`. -/
def widths : Ty :=
  .struct [
    .mk "N" "" tInt8 (some "N") false,
    .mk "U" "" tUint8 (some "U") false] (Decl.plain "widths")

/-- The base-10 digits of `n`, as the spec words the text of an integer: the bytes of the
decimal numeral of `n`. -/
def decimal (n : Nat) : Bytes := str (Nat.repr n)

/-- The text that the spec gives for the value `x` of the scalar type `t`: "true" or
"false" for a boolean, the base-10 digits for an unsigned integer, the digits of the
magnitude with a minus in front when it is negative for a signed integer, the string
itself for a string; `none` when `t` is not such a type, has its own `SetENV`, or `x`
is not a value of such a type. -/
def scalarText (t : Ty) (x : Val) : Option Bytes :=
  match t, x with
  | .basic k dc, .bool b =>
    if k = .Bool ∧ dc.setter = false then some (if b then str "true" else str "false")
    else none
  | .basic k dc, .int i =>
    if isIntKind k = true ∧ dc.setter = false then
      some (if i < 0 then 45 :: decimal i.natAbs else decimal i.natAbs)
    else none
  | .basic k dc, .uint n =>
    if isUintKind k = true ∧ dc.setter = false then some (decimal n) else none
  | .basic k dc, .string s =>
    if k = .String ∧ dc.setter = false then some s else none
  | _, _ => none

mutual
/-- The routine of the type `t` on the value `v`, run at nesting depth at most `k` in a
state whose descriptor has the name `key`, reaches a scalar leaf with the external name
`name` and the text `b` that `Set` does not skip: the value itself when it is a scalar,
the pointee of a pointer (the zero value of the pointee type for a null pointer, as
`valueFromPtr` gives it), the dynamic value of an interface value, or a leaf of the walk
of a record without `SetENV`. -/
def LeafText (d : Deps) : Nat → String → Ty → Val → String → Bytes → Prop
  | 0, _, _, _, _, _ => False
  | k + 1, key, t, v, name, b =>
    match t, v with
    | .basic kd dc, x => key = name ∧ scalarText (.basic kd dc) x = some b
    | .pointer e, .ptr y => LeafText d k key e y name b
    | .pointer e, .nilPtr => LeafText d k key e (zero e) name b
    | .iface dc, .iface t1 y => dc.setter = false ∧ LeafText d k key t1 y name b
    | .struct fs dc, .struct xs => dc.setter = false ∧ WalkLeaf d k fs xs false name b
    | _, _ => False
/-- The walk of `Set` over the fields `fs` of a record with the values `xs` (`c` tells
whether the record can be assigned to) reaches, at nesting depth at most `k`, a scalar
leaf with the external name `name` and the text `b`: through a field that is not skipped
as mandatory and empty, and is either embedded (the walk goes on in the embedded record,
behind a pointer or not) or has a descriptor of its own, whose name is the key. -/
def WalkLeaf (d : Deps) : Nat → List StructField → List Val → Bool → String → Bytes → Prop
  | 0, _, _, _, _, _ => False
  | k + 1, fs, xs, c, name, b =>
    ∃ i sf x fd, fs.get? i = some sf ∧ xs.get? i = some x ∧ fieldStep i sf = .append fd ∧
      (fd.mandatory && d.isEmptyValue ⟨sf.Type, x, c⟩) = false ∧
      ((sf.Anonymous = true ∧
          match (valueFromPtr ⟨sf.Type, x, c⟩).typ, (valueFromPtr ⟨sf.Type, x, c⟩).val with
          | .struct efs _, .struct exs =>
            WalkLeaf d k efs exs (valueFromPtr ⟨sf.Type, x, c⟩).canSet name b
          | _, _ => False) ∨
        (sf.Anonymous = false ∧ LeafText d k fd.name sf.Type x name b))
end

/-- A record in which no field takes part: `struct { x int }`, its only field unexported. -/
def hidden : Ty :=
  .struct [.mk "x" "envio" tInt none false] (Decl.plain "hidden")

/-- A record that embeds a pointer to `hidden`: `struct { *hidden; A string "env:A" }`. -/
def embedsHiddenPtr : Ty :=
  .struct [
    .mk "hidden" "envio" (.pointer hidden) none true,
    .mk "A" "" tString (some "A") false] (Decl.plain "embedsHiddenPtr")

/-- A record that embeds `hidden` itself: `struct { hidden; A string "env:A" }`. -/
def embedsHidden : Ty :=
  .struct [
    .mk "hidden" "envio" hidden none true,
    .mk "A" "" tString (some "A") false] (Decl.plain "embedsHidden")

/-- A named integer type: `type Count int`. -/
def Count : Ty := .basic .Int (Decl.plain "Count")

/-- A record that embeds the exported non-record type `Count`: `struct { Count }`. -/
def embedsCount : Ty :=
  .struct [.mk "Count" "" Count none true] (Decl.plain "embedsCount")

/-! ## The descriptors in memory: `fieldCache` and the pooled traversal state -/

mutual
/-- Whether two types are the same type, the key of the caches being the type. -/
def Ty.same : Ty → Ty → Bool
  | .basic k d, .basic k2 d2 => k == k2 && d == d2
  | .array n e d, .array n2 e2 d2 => n == n2 && Ty.same e e2 && d == d2
  | .slice e d, .slice e2 d2 => Ty.same e e2 && d == d2
  | .pointer e, .pointer e2 => Ty.same e e2
  | .iface d, .iface d2 => d == d2
  | .struct fs d, .struct fs2 d2 => sameFields fs fs2 && d == d2
  | _, _ => false
/-- Whether two lists of record fields are the same. -/
def sameFields : List StructField → List StructField → Bool
  | [], [] => true
  | (.mk n p t tag a) :: fs, (.mk n2 p2 t2 tag2 a2) :: fs2 =>
    n == n2 && p == p2 && Ty.same t t2 && tag == tag2 && a == a2 && sameFields fs fs2
  | _, _ => false
end

namespace Heap

/-- Go `type field struct` as it lies in memory: a `*field` is the position of the
descriptor in `Store.cells`, and `embedded` is a slice of such pointers. -/
structure field where
  index : Nat
  name : String
  typ : Ty
  mandatory : Bool
  raw : Bool
  functions : Option functions
  embedded : Option (List Nat)

/-- Go `type structFields []*field`. -/
abbrev structFields := List Nat

/-- Go `type getterState struct`, `s.field` being a pointer. -/
structure getterState where
  structName : String
  field : Nat
  err : Option Error
  buf : Bytes

/-- What the package keeps between calls: the descriptors allocated so far, the map
`fieldCache` and the states in `getStatePool`. -/
structure Store where
  cells : List field
  fieldCache : List (Ty × structFields)
  getStatePool : List getterState

/-- The memory before the first call. -/
def Store.empty : Store := ⟨[], [], []⟩

/-- Go `new(field)`; the nil type is rendered as an unnamed interface type. -/
def field.new : field := ⟨0, "", .iface Decl.none, false, false, none, none⟩

/-- The allocation `&field{...}`: the pointer and the memory with the descriptor in it. -/
def Store.alloc (m : Store) (f : field) : Nat × Store :=
  (m.cells.length, { m with cells := m.cells ++ [f] })

/-- The descriptor behind a pointer. -/
def Store.load (m : Store) (a : Nat) : field := m.cells.getD a field.new

/-- The assignment `p.typ = t` through the pointer `p`. -/
def Store.setTyp (m : Store) (a : Nat) (t : Ty) : Store :=
  { m with cells := m.cells.set a { m.load a with typ := t } }

/-- Go `fieldCache.Load(t)`. -/
def Store.Load (m : Store) (t : Ty) : Option structFields :=
  (m.fieldCache.find? (fun e => Ty.same e.1 t)).map Prod.snd

/-- Go `engine.cachedFields`; `derived` is what `e.typeFields(t)` returns and leaves,
which is run only when the cache has no entry for `t`. -/
def cachedFields (t : Ty) (m : Store) (derived : Option structFields × Store) :
    Option structFields × Store :=
  match m.Load t with
  | some c => (some c, m)
  | none =>
    match derived with
    | (none, m) => (none, m)
    | (some c, m) =>
      -- LoadOrStore
      match m.Load t with
      | some c0 => (some c0, m)
      | none => (some c, { m with fieldCache := (t, c) :: m.fieldCache })

/-- What one round of the loop of `typeFields` does with a field: leave it out, panic,
or append the pointer to a new descriptor. -/
inductive FieldStep
  | skip
  | panic
  | append (f : Nat)

/-- The round of the loop of `typeFields` for an embedded field `sf` at position `i`:
`ft` is the type after `if ft.Kind() == reflect.Pointer { ft = ft.Elem() }` and
`derived` is what `e.typeFields(ft)` returns and leaves. -/
def embeddedStep (i : Nat) (sf : StructField) (ft : Ty) (m : Store)
    (derived : Option structFields × Store) : FieldStep × Store :=
  if !sf.IsExported && ft.Kind != .Struct then (.skip, m)
  else
    match cachedFields ft m derived with
    | (none, m) => (.panic, m)
    | (some emb, m) =>
      -- the list is made with make, so f.embedded is never nil
      let (a, m) := m.alloc ⟨i, sf.Name, sf.Type, false, false, none, some emb⟩
      (.append a, m)

/-- The round of the loop of `typeFields` for a field `sf` that is not embedded. -/
def leafStep (i : Nat) (sf : StructField) (m : Store) : FieldStep × Store :=
  if !sf.IsExported then (.skip, m)
  else
    match leafField i sf with
    | none => (.skip, m)
    | some f =>
      let (a, m) := m.alloc ⟨f.index, f.name, f.typ, f.mandatory, f.raw, f.functions, none⟩
      (.append a, m)

mutual
/-- Go `engine.typeFields`: the pointers to the descriptors of a record type, which it
allocates; `none` where `t.NumField` panics. -/
def typeFields : Ty → Store → Option structFields × Store
  | .struct fs _, m => typeFieldsFrom fs 0 m
  | _, m => (none, m)
/-- The loop of `typeFields` from position `i` on. -/
def typeFieldsFrom : List StructField → Nat → Store → Option structFields × Store
  | [], _, m => (some [], m)
  | (.mk name pkg ft tag anon) :: rest, i, m =>
    match
      (if anon then
        match ft with
        | .pointer e => embeddedStep i (.mk name pkg ft tag anon) e m (typeFields e m)
        | t => embeddedStep i (.mk name pkg ft tag anon) t m (typeFields t m)
      else leafStep i (.mk name pkg ft tag anon) m) with
    | (.skip, m) => typeFieldsFrom rest (i + 1) m
    | (.panic, m) => (none, m)
    | (.append f, m) =>
      match typeFieldsFrom rest (i + 1) m with
      | (none, m) => (none, m)
      | (some fs, m) => (some (f :: fs), m)
end

/-- What a getter routine leaves: the memory, the state, the contents of the value it
was given, and its return value. -/
abbrev GetResult := Store × getterState × Val × Ret

/-- The descriptor as a routine reads it that does not follow `embedded`. -/
def field.read (f : field) : Envio.field :=
  .mk f.index f.name f.typ f.mandatory f.raw f.functions none

/-- The traversal context that the state and the descriptor it points to amount to. -/
def getterState.context (m : Store) (s : getterState) : Envio.context :=
  ⟨s.structName, (m.load s.field).read, s.err⟩

/-- A routine that reads the descriptor and writes only `s.err` and the buffer, run on
the state whose descriptor is in memory. -/
def leaf (g : Envio.getterState → Value → Envio.GetResult) (m : Store) (s : getterState)
    (v : Value) : GetResult :=
  match g ⟨s.context m, s.buf⟩ v with
  | (r, x, e) => (m, { s with err := r.ctx.err, buf := r.buf }, x, e)

/-- What the getter routines call back into: a routine on a value, or the walk of a
descriptor list over a record value. -/
inductive GetCall
  | func (g : getterFunc)
  | fields (f : structFields)

/-- Go `getterState.reflectValue`: the assignment `s.context.field.typ = v.Type()` goes
through the pointer `s.field`. -/
def getterState.reflectValue (call : GetCall → Store → getterState → Value → GetResult)
    (m : Store) (s : getterState) (v : Value) : GetResult :=
  call (.func (typeFunctions v.typ).getterFunc) (m.setTyp s.field v.typ) s v

/-- Go `interfaceGetter`. -/
def interfaceGetter (call : GetCall → Store → getterState → Value → GetResult)
    (m : Store) (s : getterState) (v : Value) : GetResult :=
  match v.val with
  | .iface t x =>
    match s.reflectValue call m ⟨t, x, false⟩ with
    | (m, s, y, err) => (m, s, .iface t y, err)
  | _ => (m, { s with err := some .ErrNilInterface }, v.val, .errExist)

/-- Go `pointerGetter`. -/
def pointerGetter (d : Deps) (call : GetCall → Store → getterState → Value → GetResult)
    (m : Store) (s : getterState) (v : Value) : GetResult :=
  match v.val with
  | .ptr x =>
    match s.reflectValue call m ⟨v.typ.elemD, x, true⟩ with
    | (m, s, y, err) => (m, s, .ptr y, err)
  | _ =>
    match s.reflectValue call m ⟨v.typ.elemD, zero v.typ.elemD, true⟩ with
    | (m, s, y, .nil) =>
      if !d.isEmptyValue ⟨v.typ.elemD, y, true⟩ then
        if v.canSet then (m, s, .ptr y, .nil) else (m, s, v.val, .panic unaddressable)
      else (m, s, v.val, .nil)
    | (m, s, _, err) => (m, s, v.val, err)

/-- Go `structGetter`. -/
def structGetter (call : GetCall → Store → getterState → Value → GetResult)
    (m : Store) (s : getterState) (v : Value) : GetResult :=
  match cachedFields v.typ m (typeFields v.typ m) with
  | (none, m) => (m, s, v.val, .panic "reflect: NumField of non-struct type")
  | (some f, m) => call (.fields f) m s v

/-- One round of the loop of `structFields.get`, for the descriptor behind `a`. -/
def getRound (call : GetCall → Store → getterState → Value → GetResult) (a : Nat)
    (m : Store) (s : getterState) (v : Value) : GetResult :=
  let s := { s with field := a, buf := [] }
  let fd := m.load a
  match v.Field fd.index with
  | none => (m, s, v.val, .panic "reflect: Field index out of range")
  | some rv =>
    match fd.embedded with
    | some emb =>
      if rv.Kind = .Pointer then
        match rv.val with
        | .ptr x =>
          match call (.fields emb) m s ⟨rv.typ.elemD, x, true⟩ with
          | (m, s, y, err) => (m, s, v.val.setField fd.index (.ptr y), err)
        | _ =>
          (m, { s with err := some (.ErrPointerToUnexported rv.typ.Elem) }, v.val, .errExist)
      else
        match call (.fields emb) m s rv with
        | (m, s, y, err) => (m, s, v.val.setField fd.index y, err)
    | none =>
      match fd.functions with
      | none => (m, s, v.val, .panic "invalid memory address or nil pointer dereference")
      | some fns =>
        match call (.func fns.getterFunc) m s rv with
        | (m, s, y, err) => (m, s, v.val.setField fd.index y, err)

/-- The loop of `structFields.get` over the descriptors `f`. -/
def getLoop (call : GetCall → Store → getterState → Value → GetResult) :
    structFields → Store → getterState → Value → GetResult
  | [], m, s, v => (m, s, v.val, .nil)
  | a :: rest, m, s, v =>
    match getRound call a m s v with
    | (m, s, y, .nil) => getLoop call rest m s { v with val := y }
    | r => r

/-- Go `structFields.get`. -/
def structFields.get (call : GetCall → Store → getterState → Value → GetResult)
    (f : structFields) (m : Store) (s : getterState) (v : Value) : GetResult :=
  getLoop call f m { s with structName := v.typ.Name } v

/-- The getter routines; `n` bounds the depth of the calls through `reflectValue`,
through a record field and through an embedded record. -/
def execGet (d : Deps) (env : Env) :
    Nat → GetCall → Store → getterState → Value → GetResult
  | 0, _, m, s, v => (m, s, v.val, .fuel)
  | n + 1, .fields f, m, s, v => structFields.get (execGet d env n) f m s v
  | n + 1, .func g, m, s, v =>
    match g with
    | .boolGetter => leaf (boolGetter env) m s v
    | .intGetter => leaf (intGetter env) m s v
    | .uintGetter => leaf (uintGetter env) m s v
    | .floatGetter => leaf (floatGetter d env) m s v
    | .arrayGetter proc => leaf (arrayGetterFunc d (execProc d n proc) env) m s v
    | .interfaceGetter => interfaceGetter (execGet d env n) m s v
    | .pointerGetter => pointerGetter d (execGet d env n) m s v
    | .sliceGetter t parser => leaf (sliceGetterFunc d t (execProc d n parser) env) m s v
    | .stringGetter => leaf (stringGetter env) m s v
    | .structGetter => structGetter (execGet d env n) m s v
    | .unsupportedTypeGetter => leaf unsupportedTypeGetter m s v
    | .getGetter => leaf (getGetter d env) m s v

/-- Go `getterState.get`. -/
def getterState.get (d : Deps) (env : Env) (n : Nat) (m : Store) (s : getterState)
    (v : Value) : GetResult :=
  match s.reflectValue (execGet d env n) m v with
  | (m, s, x, .err c) =>
    (m, { s with err := ((s.context m).setError getError c).err }, x, .err c)
  | r => r

/-- Go `engine.newGetState`.  `pick` is the choice of `getStatePool.Get`: the position
of the pooled state it hands out, `none` when it returns nil. -/
def newGetState (pick : Option Nat) (m : Store) : Store × getterState :=
  match pick.bind (fun i => (m.getStatePool.get? i).map (fun s => (i, s))) with
  | some (i, s) =>
    ({ m with getStatePool := m.getStatePool.eraseIdx i }, { s with err := none, buf := [] })
  | none =>
    let (a, m) := m.alloc field.new
    (m, ⟨"", a, none, []⟩)

/-- Go `engine.get`: the memory after the call, the contents of `v` after the call and
the outcome.  The deferred `getStatePool.Put(s)` runs however the call ends. -/
def engine.get (d : Deps) (env : Env) (n : Nat) (pick : Option Nat) (m : Store)
    (v : Option (Ty × Val)) : Store × Option Val × Outcome :=
  match v with
  | none => (m, none, .error .notPointer)
  | some (t, x) =>
    if t.Kind ≠ .Pointer then (m, some x, .error .notPointer)
    else
      match newGetState pick m with
      | (m, s) =>
        match s.get d env n m ⟨t, x, false⟩ with
        | (m, s, y, r) =>
          ({ m with getStatePool := s :: m.getStatePool }, some y, Outcome.of s.err r)

/-- Go `Get`. -/
def Get (d : Deps) (env : Env) (n : Nat) (pick : Option Nat) (m : Store)
    (v : Option (Ty × Val)) : Store × Option Val × Outcome :=
  engine.get d env n pick m v

/-- What `cachedFields(t)` returns in the memory `m`, descriptor by descriptor. -/
def descriptors (m : Store) (t : Ty) : Option (List field) :=
  match cachedFields t m (typeFields t m) with
  | (f, m) => f.map (fun f => f.map m.load)

end Heap

/-- The memory after `Get(&pointer{})` with `A=28`, the first call of the program. -/
def afterPointerGet : Heap.Store :=
  (Heap.Get testDeps [("A", str "28")] 5 none Heap.Store.empty
    (some (.pointer pointer, .ptr (.struct [.nilPtr])))).1

/-- The memory after `Get(&simple{})` with `ENV_A=a`, the first call of the program. -/
def afterSimpleGet : Heap.Store :=
  (Heap.Get testDeps [("ENV_A", str "a")] 5 none Heap.Store.empty
    (some (.pointer simple, .ptr (zero simple)))).1

/-! ## Record types that mention themselves

In `Ty` a type is a finite tree.  Here a type is a position in the list of the types a
program declares, so that a record may embed a pointer to its own type. -/

namespace Recursive

/-- Go `reflect.StructField`; `typ` is the position of the type of the field. -/
structure StructField where
  Name : String
  PkgPath : String
  typ : Nat
  Tag : Option String
  Anonymous : Bool

/-- Go `sf.IsExported`. -/
def StructField.IsExported (sf : StructField) : Bool := sf.PkgPath == ""

/-- What `typeFields` asks of a `reflect.Type`: `Kind`, `Elem` of a pointer type and the
fields of a record type. -/
structure rtype where
  kind : Kind
  elem : Nat
  fields : List StructField

/-- The types of a program. -/
abbrev Types := List rtype

/-- The type at a position. -/
def Types.type (ts : Types) (t : Nat) : rtype := ts.getD t ⟨.Invalid, 0, []⟩

/-- Go `type field struct`, `typ` being the position of the type. -/
inductive field
  | mk (index : Nat) (name : String) (typ : Nat) (mandatory : Bool) (raw : Bool)
      (functions : Option functions) (embedded : Option (List field))

/-- Go `type structFields []*field`. -/
abbrev structFields := List field

/-- The map `fieldCache`. -/
abbrev Cache := List (Nat × structFields)

/-- How a call of `typeFields` ends: with a list, with a panic, or not within the depth
of calls that is allowed. -/
inductive Derived
  | list (fs : structFields)
  | panic
  | fuel

/-- Go `engine.cachedFields`; `derive` is `e.typeFields`. -/
def cachedFields (derive : Nat → Cache → Derived × Cache) (t : Nat) (c : Cache) :
    Derived × Cache :=
  match c.lookup t with
  | some fs => (.list fs, c)
  | none =>
    match derive t c with
    | (.list fs, c) =>
      -- LoadOrStore
      match c.lookup t with
      | some fs0 => (.list fs0, c)
      | none => (.list fs, (t, fs) :: c)
    | r => r

/-- The leaf descriptor `typeFields` builds for the exported, non-embedded field `sf` at
position `i`; `none` when the tag is the skip marker. -/
def leafField (cachedFunctions : Nat → functions) (i : Nat) (sf : StructField) :
    Option field :=
  match sf.Tag with
  | some tag =>
    if tag = "-" then none
    else
      let val := splitTag tag
      let name :=
        match val with
        | [] => sf.Name
        | v0 :: _ => v0
      let flags := tagFlags val (false, false)
      some (.mk i name sf.typ flags.1 flags.2 (some (cachedFunctions sf.typ)) none)
  | none => some (.mk i sf.Name sf.typ false false (some (cachedFunctions sf.typ)) none)

/-- The loop of `typeFields` from position `i` on; `cached` is `e.cachedFields`. -/
def typeFieldsFrom (ts : Types) (cachedFunctions : Nat → functions)
    (cached : Nat → Cache → Derived × Cache) :
    List StructField → Nat → Cache → Derived × Cache
  | [], _, c => (.list [], c)
  | sf :: rest, i, c =>
    if sf.Anonymous then
      let ft := if (ts.type sf.typ).kind = .Pointer then (ts.type sf.typ).elem else sf.typ
      if !sf.IsExported && (ts.type ft).kind != .Struct then
        typeFieldsFrom ts cachedFunctions cached rest (i + 1) c
      else
        match cached ft c with
        | (.list emb, c) =>
          -- the list is made with make, so f.embedded is never nil
          match typeFieldsFrom ts cachedFunctions cached rest (i + 1) c with
          | (.list fs, c) => (.list (.mk i sf.Name sf.typ false false none (some emb) :: fs), c)
          | r => r
        | r => r
    else if !sf.IsExported then typeFieldsFrom ts cachedFunctions cached rest (i + 1) c
    else
      match leafField cachedFunctions i sf with
      | none => typeFieldsFrom ts cachedFunctions cached rest (i + 1) c
      | some f =>
        match typeFieldsFrom ts cachedFunctions cached rest (i + 1) c with
        | (.list fs, c) => (.list (f :: fs), c)
        | r => r

/-- Go `engine.typeFields` of the type at position `t`; `n` bounds the depth of the
calls of `typeFields` inside one another.  `NumField` panics for a type that is not a
record. -/
def typeFields (ts : Types) (cachedFunctions : Nat → functions) :
    Nat → Nat → Cache → Derived × Cache
  | 0, _, c => (.fuel, c)
  | n + 1, t, c =>
    if (ts.type t).kind ≠ .Struct then (.panic, c)
    else
      typeFieldsFrom ts cachedFunctions (cachedFields (typeFields ts cachedFunctions n))
        (ts.type t).fields 0 c

/-- The types of `type T struct { *T; A int "env:A" }`: `T`, `*T` and `int`. -/
def selfEmbedding : Types :=
  [⟨.Struct, 0, [⟨"T", "", 1, none, true⟩, ⟨"A", "", 2, some "A", false⟩]⟩,
   ⟨.Pointer, 0, []⟩,
   ⟨.Int, 0, []⟩]

/-- The types of `type inner struct { B bool }` and
`type outer struct { *inner; A int "env:A" }`: `outer`, `*inner`, `int`, `inner`, `bool`. -/
def plainEmbedding : Types :=
  [⟨.Struct, 0, [⟨"inner", "envio", 1, none, true⟩, ⟨"A", "", 2, some "A", false⟩]⟩,
   ⟨.Pointer, 3, []⟩,
   ⟨.Int, 0, []⟩,
   ⟨.Struct, 0, [⟨"B", "", 4, none, false⟩]⟩,
   ⟨.Bool, 0, []⟩]

end Recursive

/-- A record whose two fields share the variable `K`, the second of the type `ai` with
its own methods: `struct { A string "env:K"; V ai "env:K" }`. -/
def sharedKey : Ty :=
  .struct [
    .mk "A" "" tString (some "K") false,
    .mk "V" "" ai (some "K") false] (Decl.plain "sharedKey")

/-- A record with a mandatory field of the type `ai`: `struct { V ai "env:V,m" }`. -/
def mandatoryConverter : Ty :=
  .struct [.mk "V" "" ai (some "V,m") false] (Decl.plain "mandatoryConverter")

/-- A channel type, which the engine does not support: `chan int`. -/
def tChan : Ty := .basic .Chan Decl.none

/-- A record with a mandatory field, a field of an unsupported type and a field after
it: `struct { M string "env:M,m"; X chan int "env:X"; Y int "env:Y" }`. -/
def mandatoryThenChan : Ty :=
  .struct [
    .mk "M" "" tString (some "M,m") false,
    .mk "X" "" tChan (some "X") false,
    .mk "Y" "" tInt (some "Y") false] (Decl.plain "mandatoryThenChan")

/-- Whether a basic kind is one of the scalar kinds: boolean, integer, float, string. -/
def isScalarKind (k : Basic) : Bool :=
  k == .Bool || isIntKind k || isUintKind k || isFloatKind k || k == .String

/-- The value that `Get` stores in a field of the scalar type `t` without `GetENV` for
the text `b` of its variable: what `strconv` makes of the text, and the text itself for
a string; `none` when the conversion fails or `t` is not such a type. -/
def scalarRead (d : Deps) (t : Ty) (b : Bytes) : Option Val :=
  match t with
  | .basic k dc =>
    if dc.getter = true then none
    else if k = .Bool then
      match (ParseBool b).2 with
      | none => some (.bool (ParseBool b).1)
      | some _ => none
    else if isIntKind k = true then
      match (ParseInt b (bitSize k.Kind)).2 with
      | none => some (.int (wrapInt (bitSize k.Kind) (ParseInt b (bitSize k.Kind)).1))
      | some _ => none
    else if isUintKind k = true then
      match (ParseUint b (bitSize k.Kind)).2 with
      | none => some (.uint (wrapUint (bitSize k.Kind) (ParseUint b (bitSize k.Kind)).1))
      | some _ => none
    else if isFloatKind k = true then
      match (d.ParseFloat b (bitSize k.Kind)).2 with
      | none => some (.float (d.ParseFloat b (bitSize k.Kind)).1)
      | some _ => none
    else if k = .String then some (.string b)
    else none
  | _ => none

/-- The record that the path `p` of field positions leads to in the value `v` of the
type `t`, each step going through an embedded field, behind a pointer or not.  For a
null pointer the path goes on in the zero value of the pointee when `alloc` is set, as
`valueFromPtr` does for `Set`, and ends there otherwise. -/
def embeddedAt (alloc : Bool) : List Nat → Ty → Val → Option (Ty × Val)
  | [], t, v => some (t, v)
  | i :: p, .struct fs _, .struct xs =>
    match fs.get? i, xs.get? i with
    | some sf, some x =>
      if sf.Anonymous then
        match sf.Type, x with
        | .pointer e, .ptr y => embeddedAt alloc p e y
        | .pointer e, _ => if alloc then embeddedAt alloc p e (zero e) else none
        | t, x => embeddedAt alloc p t x
      else none
    | _, _ => none
  | _ :: _, _, _ => none

/-- What a walk of `Get` has made of the leaves of a record of the type `t`, `xs0` being
the fields before the walk and `xs1` after it.  Every leaf holds what the getter routine
of its type leaves when it runs on the value the field had, in a state that holds the
descriptor of the leaf in the list of `t` itself and an empty buffer, so that the
variable it reads is the one named there.  A scalar leaf without `GetENV` whose variable
is absent or empty is as it was, and one whose variable holds a text holds what the
text converts to. -/
def LeavesRead (d : Deps) (env : Env) (t : Ty) (xs0 xs1 : List Val) : Prop :=
  ∀ (emb : structFields) (lf : field), typeFields t = some emb → lf ∈ emb →
    lf.embedded = none →
    (∃ (x0 x1 : Val) (m : Nat) (s s1 : getterState) (c : Bool),
      xs0.get? lf.index = some x0 ∧ xs1.get? lf.index = some x1 ∧
      s.ctx.field = lf ∧ s.buf = [] ∧
      execGet d env m (.func (typeFunctions lf.typ).getterFunc) s ⟨lf.typ, x0, c⟩ =
        (s1, x1, .nil)) ∧
    ((∃ k dc, lf.typ = .basic k dc ∧ dc.getter = false ∧ isScalarKind k = true) →
      (Getenv env lf.name = [] → xs1.get? lf.index = xs0.get? lf.index) ∧
      (Getenv env lf.name ≠ [] →
        ∃ y, xs1.get? lf.index = some y ∧ scalarRead d lf.typ (Getenv env lf.name) = some y))

/-- The setter routine of the type of the leaf descriptor `lf`, run on the value `lx` in
a state that holds `lf` as its descriptor, ends without error and adds the bindings `W`
to the store. -/
def LeafWrites (d : Deps) (lf : field) (lx : Val) (W : Env) : Prop :=
  ∃ (m : Nat) (s s1 : setterState) (c : Bool), s.ctx.field = lf ∧
    execSet d m (.func (typeFunctions lf.typ).setterFunc) s ⟨lf.typ, lx, c⟩ = (s1, .nil) ∧
    s1.env = W ++ s.env

/-! # Theorems -/

theorem typeFieldsFrom_cons (sf : StructField) (rest : List StructField) (k : Nat) :
    typeFieldsFrom (sf :: rest) k =
      match fieldStep k sf with
      | .skip => typeFieldsFrom rest (k + 1)
      | .panic => none
      | .append f => (typeFieldsFrom rest (k + 1)).map (fun fs => f :: fs) := by
  cases sf with
  | mk name pkg ft tag anon =>
    cases ft <;> cases anon <;>
      simp only [typeFieldsFrom, fieldStep, StructField.Anonymous, StructField.Type, embeddedType,
        if_true, if_false, Bool.false_eq_true] <;>
      split <;> (try simp_all) <;>
      cases typeFieldsFrom rest (k + 1) <;> simp

theorem leafField_index (i : Nat) (sf : StructField) (f : field) (h : leafField i sf = some f) :
    f.index = i := by
  unfold leafField at h
  split at h
  · split at h
    · simp at h
    · simp at h
      subst h
      rfl
  · simp at h
    subst h
    rfl

theorem fieldStep_index (i : Nat) (sf : StructField) (f : field)
    (h : fieldStep i sf = .append f) : f.index = i := by
  unfold fieldStep at h
  split at h
  · unfold embeddedStep at h
    split at h
    · simp at h
    · split at h
      · simp at h
      · simp at h
        subst h
        rfl
  · unfold leafStep at h
    split at h
    · simp at h
    · split at h
      · simp at h
      · rename_i g hg
        simp at h
        subst h
        exact leafField_index i sf _ hg

theorem typeFieldsFrom_mem (fields : List StructField) :
    ∀ (k : Nat) (out : structFields), typeFieldsFrom fields k = some out →
      ∀ fd ∈ out, ∃ j sf, fields.get? j = some sf ∧ fieldStep (k + j) sf = .append fd := by
  induction fields with
  | nil =>
    intro k out h fd hfd
    simp [typeFieldsFrom] at h
    subst h
    simp at hfd
  | cons sf rest ih =>
    intro k out h fd hfd
    rw [typeFieldsFrom_cons] at h
    split at h
    · obtain ⟨j, sf', h1, h2⟩ := ih (k + 1) out h fd hfd
      exact ⟨j + 1, sf', by simpa using h1, by rw [← h2]; congr 1; omega⟩
    · simp at h
    · rename_i f hf
      cases hr : typeFieldsFrom rest (k + 1) with
      | none => simp [hr] at h
      | some fs =>
        simp [hr] at h
        subst h
        rcases List.mem_cons.mp hfd with h0 | h0
        · subst h0
          exact ⟨0, sf, by simp, by simpa using hf⟩
        · obtain ⟨j, sf', h1, h2⟩ := ih (k + 1) fs hr fd h0
          exact ⟨j + 1, sf', by simpa using h1, by rw [← h2]; congr 1; omega⟩

theorem typeFieldsFrom_append (pre post : List StructField) :
    ∀ k : Nat, typeFieldsFrom (pre ++ post) k =
      match typeFieldsFrom pre k with
      | none => none
      | some a => (typeFieldsFrom post (k + pre.length)).map (fun b => a ++ b) := by
  induction pre with
  | nil =>
    intro k
    simp [typeFieldsFrom]
  | cons sf rest ih =>
    intro k
    rw [List.cons_append, typeFieldsFrom_cons, typeFieldsFrom_cons]
    have e : k + 1 + rest.length = k + (sf :: rest).length := by simp; omega
    cases fieldStep k sf with
    | skip => simp only [ih, e]
    | panic => simp
    | append f =>
      simp only [ih, e]
      cases typeFieldsFrom rest (k + 1) with
      | none => simp
      | some a =>
        simp
        cases typeFieldsFrom post (k + (rest.length + 1)) <;> simp

/-- A field with the skip tag that is not embedded gets no descriptor. -/
theorem fieldStep_skip (i : Nat) (sf : StructField) (ha : sf.Anonymous = false)
    (ht : sf.Tag = some "-") : fieldStep i sf = .skip := by
  unfold fieldStep leafStep leafField
  simp [ha, ht]

theorem getRound_frame (call : GetCall → getterState → Value → GetResult) (fd : field)
    (s : getterState) (v : Value) (xs : List Val) (hv : v.val = .struct xs) :
    ∃ ys, (getRound call fd s v).2.1 = .struct ys ∧ ys.length = xs.length ∧
      ∀ j, fd.index ≠ j → ys.get? j = xs.get? j := by
  have keep : ∃ ys, v.val = .struct ys ∧ ys.length = xs.length ∧
      ∀ j, fd.index ≠ j → ys.get? j = xs.get? j := ⟨xs, hv, rfl, fun _ _ => rfl⟩
  have upd : ∀ y, ∃ ys, v.val.setField fd.index y = .struct ys ∧ ys.length = xs.length ∧
      ∀ j, fd.index ≠ j → ys.get? j = xs.get? j := by
    intro y
    refine ⟨xs.set fd.index y, by simp [hv, Val.setField], by simp, ?_⟩
    intro j hj
    simp [List.getElem?_set_ne hj]
  unfold getRound
  simp only []
  repeat' split
  all_goals first
    | exact keep
    | exact upd _

theorem getLoop_frame (call : GetCall → getterState → Value → GetResult) (f : structFields) :
    ∀ (s : getterState) (v : Value) (xs : List Val), v.val = .struct xs →
      ∃ ys, (getLoop call f s v).2.1 = .struct ys ∧ ys.length = xs.length ∧
        ∀ j, (∀ fd ∈ f, fd.index ≠ j) → ys.get? j = xs.get? j := by
  induction f with
  | nil =>
    intro s v xs hv
    exact ⟨xs, by simp [getLoop, hv], rfl, fun _ _ => rfl⟩
  | cons fd rest ih =>
    intro s v xs hv
    obtain ⟨ys, h1, h2, h3⟩ := getRound_frame call fd s v xs hv
    unfold getLoop
    rcases hr : getRound call fd s v with ⟨s1, y, r⟩
    rw [hr] at h1
    simp only [] at h1
    have fin : ∃ zs, y = .struct zs ∧ zs.length = xs.length ∧
        ∀ j, (∀ fd' ∈ fd :: rest, fd'.index ≠ j) → zs.get? j = xs.get? j :=
      ⟨ys, h1, h2, fun j hj => h3 j (hj fd (List.mem_cons_self _ _))⟩
    cases r with
    | nil =>
      simp only []
      obtain ⟨zs, g1, g2, g3⟩ := ih s1 { v with val := y } ys h1
      refine ⟨zs, g1, by omega, ?_⟩
      intro j hj
      rw [g3 j (fun fd' hfd' => hj fd' (List.mem_cons_of_mem _ hfd')),
        h3 j (hj fd (List.mem_cons_self _ _))]
    | errExist => exact fin
    | err c => exact fin
    | panic m => exact fin
    | fuel => exact fin

theorem Field_set_ne (t : Ty) (xs : List Val) (c : Bool) (i j : Nat) (x : Val) (h : i ≠ j) :
    (⟨t, .struct (xs.set i x), c⟩ : Value).Field j = (⟨t, .struct xs, c⟩ : Value).Field j := by
  unfold Value.Field
  cases t.fields <;> simp [List.getElem?_set_ne h]

theorem setLoop_congr (d : Deps) (call : SetCall → setterState → Value → SetResult)
    (f : structFields) :
    ∀ (s : setterState) (v w : Value), (∀ fd ∈ f, v.Field fd.index = w.Field fd.index) →
      setLoop d call f s v = setLoop d call f s w := by
  induction f with
  | nil => intro s v w _; simp [setLoop]
  | cons fd rest ih =>
    intro s v w h
    have h0 := h fd (List.mem_cons_self _ _)
    have hr : ∀ s', setLoop d call rest s' v = setLoop d call rest s' w :=
      fun s' => ih s' v w (fun fd' hfd' => h fd' (List.mem_cons_of_mem _ hfd'))
    unfold setLoop setRound
    simp only [h0, hr]

theorem typeFunctions_pointer (e : Ty) :
    typeFunctions (.pointer e) = ⟨.pointerSetter, .pointerGetter⟩ := by
  simp [typeFunctions, kindFunctions, Ty.Kind]

theorem typeFunctions_struct_getter (fs : List StructField) (dc : Decl) (hg : dc.getter = false) :
    (typeFunctions (.struct fs dc)).getterFunc = .structGetter := by
  simp only [typeFunctions, kindFunctions, Ty.Kind, Ty.decl, hg]
  cases dc.setter <;> simp

theorem typeFunctions_struct_setter (fs : List StructField) (dc : Decl) (hs : dc.setter = false) :
    (typeFunctions (.struct fs dc)).setterFunc = .structSetter := by
  simp only [typeFunctions, kindFunctions, Ty.Kind, Ty.decl, hs]
  cases dc.getter <;> simp

theorem Get_record (d : Deps) (env : Env) (n : Nat) (fs : List StructField) (dc : Decl)
    (x : Val) (hg : dc.getter = false) :
    Get d env (n + 3) (some (.pointer (.struct fs dc), .ptr x)) =
      match typeFields (.struct fs dc) with
      | none => (some (.ptr x), .panic "reflect: NumField of non-struct type")
      | some f =>
        getFinish (getLoop (execGet d env n) f (getEntry (.struct fs dc)) ⟨.struct fs dc, x, true⟩) := by
  have e1 : (Ty.pointer (.struct fs dc)).Kind = .Pointer := rfl
  simp only [Get, engine.get, e1, getterState.get, getterState.reflectValue, typeFunctions_pointer,
    execGet, pointerGetter, Ty.elemD, Ty.Elem, typeFunctions_struct_getter fs dc hg, structGetter]
  cases typeFields (.struct fs dc) with
  | none => simp [Outcome.of]
  | some f =>
    simp only [execGet, structFields.get, getEntry, getFinish, newGetState, getterState.setTyp]
    generalize getLoop (execGet d env n) f _ _ = r
    obtain ⟨s, y, r⟩ := r
    cases r <;> simp [Outcome.of, context.setError]

theorem Set_record (d : Deps) (env : Env) (n : Nat) (fs : List StructField) (dc : Decl)
    (x : Val) (hs : dc.setter = false) :
    Set d env (n + 2) (some (.struct fs dc, x)) =
      match typeFields (.struct fs dc) with
      | none => (env, .panic "reflect: NumField of non-struct type")
      | some f =>
        setFinish (setLoop d (execSet d n) f (setEntry (.struct fs dc) env) ⟨.struct fs dc, x, false⟩) := by
  simp only [Set, engine.set, setterState.set, setterState.reflectValue,
    execSet, typeFunctions_struct_setter fs dc hs, structSetter]
  cases typeFields (.struct fs dc) with
  | none => simp [Outcome.of, newSetState, setterState.setTyp]
  | some f =>
    simp only [execSet, structFields.set, setEntry, setFinish, newSetState, setterState.setTyp]
    generalize setLoop d (execSet d n) f _ _ = r
    obtain ⟨s, r⟩ := r
    cases r <;> simp [Outcome.of, context.setError]

theorem typeFields_no_skip (fields : List StructField) (dc : Decl) (i : Nat) (sf : StructField)
    (hi : fields.get? i = some sf) (ha : sf.Anonymous = false) (ht : sf.Tag = some "-")
    (f : structFields) (hf : typeFields (.struct fields dc) = some f) :
    ∀ fd ∈ f, fd.index ≠ i := by
  intro fd hfd hidx
  simp only [typeFields] at hf
  obtain ⟨j, sf', h1, h2⟩ := typeFieldsFrom_mem fields 0 f hf fd hfd
  have h3 := fieldStep_index _ _ _ h2
  have hj : j = i := by omega
  subst hj
  rw [hi] at h1
  cases h1
  rw [fieldStep_skip _ sf ha ht] at h2
  cases h2

/-- C5 (amended): a field that is not embedded and whose tag is the skip marker has no
descriptor, `Set` on the record does the same whatever the value of that field,
and `Get` leaves that field as it was. -/
theorem C5_skip_tag (d : Deps) (env : Env) (n : Nat) (fields : List StructField) (dc : Decl)
    (xs : List Val) (i : Nat) (sf : StructField)
    (hi : fields.get? i = some sf) (ha : sf.Anonymous = false) (ht : sf.Tag = some "-")
    (hs : dc.setter = false) (hg : dc.getter = false) :
    (∀ f, typeFields (.struct fields dc) = some f → ∀ fd ∈ f, fd.index ≠ i) ∧
    (∀ x, Set d env n (some (.struct fields dc, .struct (xs.set i x))) =
      Set d env n (some (.struct fields dc, .struct xs))) ∧
    (∃ ys, (Get d env n (some (.pointer (.struct fields dc), .ptr (.struct xs)))).1 =
      some (.ptr (.struct ys)) ∧ ys.get? i = xs.get? i) := by
  have hno := typeFields_no_skip fields dc i sf hi ha ht
  refine ⟨hno, ?_, ?_⟩
  · intro x
    rcases n with _ | _ | n
    · simp [Set, engine.set, setterState.set, setterState.reflectValue, execSet]
    · simp only [Set, engine.set, setterState.set, setterState.reflectValue, execSet,
        typeFunctions_struct_setter fields dc hs, structSetter]
    · rw [Set_record d env n fields dc _ hs, Set_record d env n fields dc _ hs]
      cases hf : typeFields (.struct fields dc) with
      | none => rfl
      | some f =>
        simp only []
        rw [setLoop_congr]
        intro fd hfd
        exact Field_set_ne _ _ _ _ _ _ (fun h => hno f hf fd hfd h.symm)
  · rcases n with _ | _ | _ | n
    · exact ⟨xs, by simp [Get, engine.get, Ty.Kind, getterState.get, getterState.reflectValue, execGet], rfl⟩
    · refine ⟨xs, ?_, rfl⟩
      have e1 : (Ty.pointer (.struct fields dc)).Kind = .Pointer := rfl
      simp [Get, engine.get, e1, getterState.get, getterState.reflectValue, execGet,
        typeFunctions_pointer, pointerGetter]
    · refine ⟨xs, ?_, rfl⟩
      have e1 : (Ty.pointer (.struct fields dc)).Kind = .Pointer := rfl
      simp only [Get, engine.get, e1, getterState.get, getterState.reflectValue, execGet,
        typeFunctions_pointer, pointerGetter, Ty.elemD, Ty.Elem,
        typeFunctions_struct_getter fields dc hg, structGetter]
      cases typeFields (.struct fields dc) <;> simp [execGet]
    · rw [Get_record d env n fields dc _ hg]
      cases hf : typeFields (.struct fields dc) with
      | none => exact ⟨xs, rfl, rfl⟩
      | some f =>
        obtain ⟨ys, h1, _, h3⟩ := getLoop_frame (execGet d env n) f (getEntry (.struct fields dc))
          ⟨.struct fields dc, .struct xs, true⟩ xs rfl
        refine ⟨ys, ?_, h3 i (hno f hf)⟩
        simp only []
        generalize getLoop (execGet d env n) f _ _ = r at h1
        obtain ⟨s, y, r⟩ := r
        simp only [] at h1
        subst h1
        cases r <;> simp [getFinish]

/-- C5 (counterexample): the skip tag on an embedded field is not looked at. For
`struct { simple "env:-" }`, `Set` writes the variables of `simple` and `Get` fills
its fields. -/
theorem C5_embedded_skip_is_walked :
    (Set testDeps [] 5 (some (skipEmbedded, .struct [simpleVal]))).1 =
        [("ENV_C", str "28"), ("ENV_B", str "true"), ("ENV_A", str "test")] ∧
    (Get testDeps [("ENV_A", str "test"), ("ENV_C", str "28")] 5
        (some (.pointer skipEmbedded, .ptr (zero skipEmbedded)))).1 =
      some (.ptr (.struct [.struct [.string (str "test"), .bool false, .int 28, .string []]])) := by
  constructor <;> rfl

/-- C5 (witness): the field `S` of `struct { S string "env:-"; B bool }`. -/
theorem C5_skip_tag_witness :
    (∀ f, typeFields (.struct [.mk "S" "" tString (some "-") false, .mk "B" "" tBool none false]
        Decl.none) = some f → ∀ fd ∈ f, fd.index ≠ 0) ∧
    (∀ x, Set testDeps [] 4 (some (.struct [.mk "S" "" tString (some "-") false,
        .mk "B" "" tBool none false] Decl.none, .struct ([.string [], .bool true].set 0 x))) =
      Set testDeps [] 4 (some (.struct [.mk "S" "" tString (some "-") false,
        .mk "B" "" tBool none false] Decl.none, .struct [.string [], .bool true]))) ∧
    (∃ ys, (Get testDeps [("S", str "s")] 4 (some (.pointer (.struct [.mk "S" "" tString (some "-") false,
        .mk "B" "" tBool none false] Decl.none), .ptr (.struct [.string [], .bool true])))).1 =
      some (.ptr (.struct ys)) ∧ ys.get? 0 = [Val.string [], Val.bool true].get? 0) :=
  C5_skip_tag testDeps _ 4 _ Decl.none [.string [], .bool true] 0
    (.mk "S" "" tString (some "-") false) rfl rfl rfl rfl rfl

/-- C6 (the code at the tags "m" and "raw"): the loop over the components of a tag
starts at the first component, the name. The tag `env:"m"` names the variable `m` and
makes the field mandatory, the tag `env:"raw"` names it `raw` and sets the raw flag,
although no component follows the name. -/
theorem C6_name_component_sets_flags :
    (typeFields (.struct [.mk "F" "" tString (some "m") false,
        .mk "G" "" tString (some "raw") false] Decl.none)).map
      (fun f => f.map (fun fd => (fd.name, fd.mandatory, fd.raw))) =
    some [("m", true, false), ("raw", false, true)] := by
  decide

theorem typeFunctions_getter (t : Ty) (h : t.decl.getter = true) :
    (typeFunctions t).getterFunc = .getGetter := by
  have hk : t.Kind ≠ .Pointer := by
    cases t <;> simp [Ty.Kind, Ty.decl, Decl.none] at h ⊢
    rename_i k _
    cases k <;> simp [Basic.Kind]
  simp only [typeFunctions, h]
  cases t.decl.setter <;> simp [hk]

theorem typeFunctions_setter (t : Ty) (h : t.decl.setter = true) :
    (typeFunctions t).setterFunc = .setSetter := by
  have hk : t.Kind ≠ .Pointer := by
    cases t <;> simp [Ty.Kind, Ty.decl, Decl.none] at h ⊢
    rename_i k _
    cases k <;> simp [Basic.Kind]
  simp only [typeFunctions, h]
  cases t.decl.getter <;> simp [hk]

/-- C7: for a type `t` such that a pointer to it implements `Getter`, the routine
`typeFunctions` resolves is `getGetter` whatever the kind of `t`, and on a field whose
variable is not missing it hands the bytes of the variable to `GetENV` and assigns
what the method leaves; when the pointer implements `Setter` the routine is
`setSetter`, which writes the bytes `SetENV` returns. -/
theorem C7_custom_converter (d : Deps) (t : Ty) :
    (t.decl.getter = true →
      (typeFunctions t).getterFunc = .getGetter ∧
      ∀ (env : Env) (n : Nat) (s : getterState) (x : Val), s.buf = [] →
        (s.ctx.field.mandatory && (Getenv env s.ctx.field.name).isEmpty) = false →
        (d.GetENV t (Getenv env s.ctx.field.name)).2 = none →
        execGet d env (n + 1) (.func (typeFunctions t).getterFunc) s ⟨t, x, true⟩ =
          ({ s with buf := Getenv env s.ctx.field.name },
            (d.GetENV t (Getenv env s.ctx.field.name)).1, .nil)) ∧
    (t.decl.setter = true →
      (typeFunctions t).setterFunc = .setSetter ∧
      ∀ (n : Nat) (s : setterState) (x : Val) (c : Bool), (d.SetENV t x).2 = none →
        execSet d (n + 1) (.func (typeFunctions t).setterFunc) s ⟨t, x, c⟩ =
          s.setEnv (d.SetENV t x).1) := by
  constructor
  · intro h
    refine ⟨typeFunctions_getter t h, ?_⟩
    intro env n s x hb hm he
    rw [typeFunctions_getter t h]
    simp only [execGet, getGetter, h, getterState.getEnv, hm, hb]
    rcases hr : d.GetENV t (Getenv env s.ctx.field.name) with ⟨y, e⟩
    rw [hr] at he
    simp only [] at he
    subst he
    simp [hr]
  · intro h
    refine ⟨typeFunctions_setter t h, ?_⟩
    intro n s x c he
    rw [typeFunctions_setter t h]
    simp only [execSet, setSetter, h]
    rcases hr : d.SetENV t x with ⟨p, e⟩
    rw [hr] at he
    simp only [] at he
    subst he
    simp [hr]

/-- C7 (witness): the type `ai` of the test file, whose kind is `int`. With `AI=yes`
in the environment the routine resolved for `ai` stores 1, and for the value 1 it
writes `yes`. -/
theorem C7_custom_converter_witness :
    ((typeFunctions ai).getterFunc = .getGetter ∧
      execGet testDeps [("AI", str "yes")] 1 (.func (typeFunctions ai).getterFunc)
          ⟨⟨"assert", .mk 0 "AI" ai false false none none, none⟩, []⟩ ⟨ai, .int 0, true⟩ =
        (⟨⟨"assert", .mk 0 "AI" ai false false none none, none⟩, str "yes"⟩, .int 1, .nil)) ∧
    ((typeFunctions ai).setterFunc = .setSetter ∧
      execSet testDeps 1 (.func (typeFunctions ai).setterFunc)
          ⟨⟨"assert", .mk 0 "AI" ai false false none none, none⟩, []⟩ ⟨ai, .int 1, false⟩ =
        (⟨⟨"assert", .mk 0 "AI" ai false false none none, none⟩, [("AI", str "yes")]⟩, .nil)) :=
  ⟨⟨((C7_custom_converter testDeps ai).1 rfl).1,
    ((C7_custom_converter testDeps ai).1 rfl).2 [("AI", str "yes")] 0
      ⟨⟨"assert", .mk 0 "AI" ai false false none none, none⟩, []⟩ (.int 0) rfl rfl rfl⟩,
   ⟨((C7_custom_converter testDeps ai).2 rfl).1,
    ((C7_custom_converter testDeps ai).2 rfl).2 0
      ⟨⟨"assert", .mk 0 "AI" ai false false none none, none⟩, []⟩ (.int 1) false rfl⟩⟩

theorem getLoop_cons (call : GetCall → getterState → Value → GetResult) (fd : field)
    (rest : structFields) (s : getterState) (v : Value) :
    getLoop call (fd :: rest) s v =
      match getRound call fd s v with
      | (s, y, .nil) => getLoop call rest s { v with val := y }
      | r => r := by
  rw [getLoop]

theorem setLoop_cons (d : Deps) (call : SetCall → setterState → Value → SetResult) (fd : field)
    (rest : structFields) (s : setterState) (v : Value) :
    setLoop d call (fd :: rest) s v =
      match setRound d call fd s v with
      | (s, .nil) => setLoop d call rest s v
      | r => r := by
  rw [setLoop]

theorem getLoop_append (call : GetCall → getterState → Value → GetResult) (a b : structFields) :
    ∀ (s : getterState) (v : Value), getLoop call (a ++ b) s v =
      match getLoop call a s v with
      | (s1, y, .nil) => getLoop call b s1 { v with val := y }
      | r => r := by
  induction a with
  | nil => intro s v; simp [getLoop]
  | cons fd rest ih =>
    intro s v
    rw [List.cons_append, getLoop_cons, getLoop_cons]
    rcases getRound call fd s v with ⟨s1, y, r⟩
    cases r <;> simp only [ih]

theorem setLoop_append (d : Deps) (call : SetCall → setterState → Value → SetResult)
    (a b : structFields) :
    ∀ (s : setterState) (v : Value), setLoop d call (a ++ b) s v =
      match setLoop d call a s v with
      | (s1, .nil) => setLoop d call b s1 v
      | r => r := by
  induction a with
  | nil => intro s v; simp [setLoop]
  | cons fd rest ih =>
    intro s v
    rw [List.cons_append, setLoop_cons, setLoop_cons]
    rcases setRound d call fd s v with ⟨s1, r⟩
    cases r <;> simp only [ih]

@[simp] theorem field_setTyp_name (f : field) (t : Ty) : (f.setTyp t).name = f.name := by
  cases f; rfl

@[simp] theorem field_setTyp_mandatory (f : field) (t : Ty) :
    (f.setTyp t).mandatory = f.mandatory := by
  cases f; rfl

@[simp] theorem field_setTyp_raw (f : field) (t : Ty) : (f.setTyp t).raw = f.raw := by
  cases f; rfl

theorem execGet_pointerGetter (d : Deps) (env : Env) (n : Nat) (s : getterState) (v : Value) :
    execGet d env (n + 1) (.func .pointerGetter) s v = pointerGetter d (execGet d env n) s v :=
  rfl

theorem execGet_structGetter (d : Deps) (env : Env) (n : Nat) (s : getterState) (v : Value) :
    execGet d env (n + 1) (.func .structGetter) s v = structGetter (execGet d env n) s v :=
  rfl

theorem execGet_fields (d : Deps) (env : Env) (n : Nat) (f : structFields) (s : getterState)
    (v : Value) :
    execGet d env (n + 1) (.fields f) s v = structFields.get (execGet d env n) f s v :=
  rfl

theorem getEnv_missing (env : Env) (s : getterState) (hm : s.ctx.field.mandatory = true)
    (he : Getenv env s.ctx.field.name = []) :
    s.getEnv env = (s.setErr (.requiredMissing s.ctx.field.name), .errExist) := by
  simp [getterState.getEnv, hm, he]

/-- The routine of a type that reads the variable first, on a mandatory field whose
variable is missing: the value is left as it is and the error names the variable. -/
theorem missing_leaf (d : Deps) (env : Env) (k : Nat) :
    ∀ (t : Ty) (n : Nat) (s : getterState) (x : Val) (c : Bool), t.ptrDepth = k →
      t.readsEnv = true → s.ctx.field.mandatory = true → Getenv env s.ctx.field.name = [] →
      ∃ s', execGet d env (n + k + 1) (.func (typeFunctions t).getterFunc) s ⟨t, x, c⟩ =
          (s', x, .errExist) ∧
        s'.ctx.err = some (.requiredMissing s.ctx.field.name) := by
  induction k with
  | zero =>
    intro t n s x c hk hr hm he
    have hcases : t.decl.getter = true ∨ t.decl.getter = false := by
      cases t.decl.getter <;> simp
    rcases hcases with hg | hg
    · rw [typeFunctions_getter t hg]
      refine ⟨s.setErr (.requiredMissing s.ctx.field.name), ?_, rfl⟩
      simp [execGet, getGetter, hg, getEnv_missing env s hm he]
    · refine ⟨s.setErr (.requiredMissing s.ctx.field.name), ?_, rfl⟩
      cases t with
      | pointer e => simp [Ty.ptrDepth] at hk
      | basic b dc =>
        simp only [Ty.decl] at hg
        cases b <;>
          simp_all [Ty.readsEnv, typeFunctions, kindFunctions, Ty.Kind, Basic.Kind, Ty.decl,
            execGet, boolGetter, intGetter, uintGetter, floatGetter, stringGetter, scalarGetter,
            getEnv_missing env s hm he] <;>
          cases dc.setter <;> simp [execGet, boolGetter, intGetter, uintGetter, floatGetter,
            stringGetter, scalarGetter, getEnv_missing env s hm he]
      | array m e dc =>
        simp only [Ty.decl] at hg
        simp only [Ty.readsEnv, hg, Bool.false_or] at hr
        cases hp : getProc (.array m e dc) with
        | none => simp [hp] at hr
        | some p =>
          cases hs : dc.setter <;>
          simp [typeFunctions, kindFunctions, Ty.Kind, Ty.decl, hg, hs, arrayGetter, hp, execGet,
            arrayGetterFunc, getEnv_missing env s hm he]
      | slice e dc =>
        simp only [Ty.decl] at hg
        simp only [Ty.readsEnv, hg, Bool.false_or] at hr
        cases hp : getProc (.slice e dc) with
        | none => simp [hp] at hr
        | some p =>
          cases hs : dc.setter <;>
          simp [typeFunctions, kindFunctions, Ty.Kind, Ty.decl, hg, hs, sliceGetter, hp, execGet,
            sliceGetterFunc, getEnv_missing env s hm he]
      | iface dc => simp [Ty.readsEnv, Ty.decl] at hr hg; simp [hr] at hg
      | struct fs dc => simp [Ty.readsEnv, Ty.decl] at hr hg; simp [hr] at hg
  | succ k ih =>
    intro t n s x c hk hr hm he
    cases t with
    | pointer e =>
      simp only [Ty.ptrDepth, Nat.add_right_cancel_iff] at hk
      simp only [Ty.readsEnv] at hr
      have e1 : n + (k + 1) + 1 = (n + k + 1) + 1 := by omega
      rw [typeFunctions_pointer, e1, execGet_pointerGetter]
      simp only [pointerGetter, getterState.reflectValue, Ty.elemD, Ty.Elem]
      cases x with
      | ptr y =>
        obtain ⟨s', h1, h2⟩ := ih e n (s.setTyp e) y true hk hr
          (by simpa [getterState.setTyp] using hm) (by simpa [getterState.setTyp] using he)
        refine ⟨s', ?_, by simpa [getterState.setTyp] using h2⟩
        simp only [h1]
      | _ =>
        obtain ⟨s', h1, h2⟩ := ih e n (s.setTyp e) (zero e) true hk hr
          (by simpa [getterState.setTyp] using hm) (by simpa [getterState.setTyp] using he)
        refine ⟨s', ?_, by simpa [getterState.setTyp] using h2⟩
        simp only [h1]
    | _ => simp [Ty.ptrDepth] at hk

theorem list_set_self {α : Type} (l : List α) (i : Nat) (h : i < l.length) :
    l.set i l[i] = l := by
  apply List.ext_getElem (by simp)
  intro j h1 h2
  by_cases hij : i = j
  · subst hij
    simp
  · simp [List.getElem_set_ne hij]

theorem leafField_props (i : Nat) (sf : StructField) (f : field) (h : leafField i sf = some f) :
    f.index = i ∧ f.typ = sf.Type ∧ f.functions = some (typeFunctions sf.Type) ∧
      f.embedded = none := by
  unfold leafField at h
  split at h
  · split at h
    · simp at h
    · simp at h
      subst h
      exact ⟨rfl, rfl, rfl, rfl⟩
  · simp at h
    subst h
    exact ⟨rfl, rfl, rfl, rfl⟩

theorem fieldStep_leaf (i : Nat) (sf : StructField) (f : field) (ha : sf.Anonymous = false)
    (h : fieldStep i sf = .append f) :
    f.index = i ∧ f.typ = sf.Type ∧ f.functions = some (typeFunctions sf.Type) ∧
      f.embedded = none := by
  unfold fieldStep leafStep at h
  simp only [ha, Bool.false_eq_true, if_false] at h
  split at h
  · simp at h
  · split at h
    · simp at h
    · rename_i g hg
      simp at h
      subst h
      exact leafField_props i sf _ hg

/-- The descriptors of a record whose fields are `pre`, then `sf`, then `post`. -/
theorem typeFields_split (pre post : List StructField) (sf : StructField) (dc : Decl)
    (dpre dpost : structFields) (fd : field)
    (hpre : typeFieldsFrom pre 0 = some dpre)
    (hstep : fieldStep pre.length sf = .append fd)
    (hpost : typeFieldsFrom post (pre.length + 1) = some dpost) :
    typeFields (.struct (pre ++ sf :: post) dc) = some (dpre ++ fd :: dpost) := by
  simp only [typeFields]
  rw [typeFieldsFrom_append, hpre]
  simp only [Nat.zero_add]
  rw [typeFieldsFrom_cons, hstep]
  simp [hpost]

theorem typeFieldsFrom_index_lt (fields : List StructField) (out : structFields)
    (h : typeFieldsFrom fields 0 = some out) : ∀ fd ∈ out, fd.index < fields.length := by
  intro fd hfd
  obtain ⟨j, sf, h1, h2⟩ := typeFieldsFrom_mem fields 0 out h fd hfd
  have h3 := fieldStep_index _ _ _ h2
  have h4 : j < fields.length := by
    rcases Nat.lt_or_ge j fields.length with h | h
    · exact h
    · simp [List.getElem?_eq_none h] at h1
  omega

theorem Field_split (pre post : List StructField) (sf : StructField) (dc : Decl)
    (ys : List Val) (y : Val) (c : Bool) (hy : ys.get? pre.length = some y) :
    (⟨.struct (pre ++ sf :: post) dc, .struct ys, c⟩ : Value).Field pre.length =
      some ⟨sf.Type, y, c⟩ := by
  simp only [List.get?_eq_getElem?] at hy
  have hf : (pre ++ sf :: post)[pre.length]? = some sf := by
    rw [List.getElem?_append_right (Nat.le_refl _)]
    simp
  simp only [Value.Field, Ty.fields, List.get?_eq_getElem?, hy, hf]

/-- C2 (amended): in a record type without `GetENV` of its own whose descriptors can be
derived, given to `Get` by pointer, take a mandatory field that is not embedded, whose
routine reads the variable first (a scalar, a string, an array or slice with an
element parser, a type with its own decode method, or a pointer to one of these) and
whose variable is absent or empty.  If the fields before it decode without error, `Get`
fails with the error that names the variable of that field, and that field and the
fields after it are as they were before the call. -/
theorem C2_mandatory_missing (d : Deps) (env : Env) (n : Nat) (pre post : List StructField)
    (sf : StructField) (dc : Decl) (xs ys : List Val) (dpre : structFields) (fd : field)
    (s1 : getterState)
    (hg : dc.getter = false)
    (hanon : sf.Anonymous = false)
    (hstep : fieldStep pre.length sf = .append fd)
    (hm : fd.mandatory = true)
    (hreads : sf.Type.readsEnv = true)
    (hempty : Getenv env fd.name = [])
    (hpre : typeFieldsFrom pre 0 = some dpre)
    (hpost : (typeFieldsFrom post (pre.length + 1)).isSome = true)
    (hlen : pre.length < xs.length)
    (hwalk : getLoop (execGet d env (n + sf.Type.ptrDepth + 1)) dpre
        (getEntry (.struct (pre ++ sf :: post) dc))
        ⟨.struct (pre ++ sf :: post) dc, .struct xs, true⟩ = (s1, .struct ys, .nil)) :
    Get d env (n + sf.Type.ptrDepth + 4)
        (some (.pointer (.struct (pre ++ sf :: post) dc), .ptr (.struct xs))) =
      (some (.ptr (.struct ys)), .error (.requiredMissing fd.name)) ∧
    ∀ j, pre.length ≤ j → ys.get? j = xs.get? j := by
  obtain ⟨dpost, hdpost⟩ := Option.isSome_iff_exists.mp hpost
  obtain ⟨hidx, _, hfn, hemb⟩ := fieldStep_leaf _ sf fd hanon hstep
  -- what the fields before have left
  obtain ⟨zs, hz1, hz2, hz3⟩ := getLoop_frame (execGet d env (n + sf.Type.ptrDepth + 1)) dpre
    (getEntry (.struct (pre ++ sf :: post) dc))
    ⟨.struct (pre ++ sf :: post) dc, .struct xs, true⟩ xs rfl
  rw [hwalk] at hz1
  simp only [Val.struct.injEq] at hz1
  subst hz1
  have hframe : ∀ j, pre.length ≤ j → ys.get? j = xs.get? j := by
    intro j hj
    apply hz3
    intro fd' hfd' he
    have := typeFieldsFrom_index_lt pre dpre hpre fd' hfd'
    omega
  refine ⟨?_, hframe⟩
  have hlt : pre.length < ys.length := by omega
  have hy : ys.get? pre.length = some (ys.get ⟨pre.length, hlt⟩) := by
    simp [List.getElem?_eq_getElem hlt]
  have e4 : n + sf.Type.ptrDepth + 4 = (n + sf.Type.ptrDepth + 1) + 3 := by omega
  rw [e4, Get_record d env _ _ dc _ hg, typeFields_split pre post sf dc dpre dpost fd hpre hstep hdpost]
  simp only []
  rw [getLoop_append, hwalk]
  simp only []
  rw [getLoop_cons]
  -- the round of the field
  obtain ⟨s', h1, h2⟩ := missing_leaf d env sf.Type.ptrDepth sf.Type n
    ({ s1 with ctx := { s1.ctx with field := fd } }.Reset) (ys.get ⟨pre.length, hlt⟩) true rfl
    hreads (by simpa [getterState.Reset] using hm) (by simpa [getterState.Reset] using hempty)
  have hround : getRound (execGet d env (n + sf.Type.ptrDepth + 1)) fd s1
      ⟨.struct (pre ++ sf :: post) dc, .struct ys, true⟩ = (s', .struct ys, .errExist) := by
    unfold getRound
    simp only [hidx, Field_split pre post sf dc ys _ true hy, hemb, hfn, h1, Val.setField]
    have := list_set_self ys _ hlt
    simp only [List.get_eq_getElem, this]
  rw [hround]
  simp only [getFinish, Outcome.of, h2]
  simp [getterState.Reset]
/-- C2 (counterexample): `struct { A string "env:ENV_A,m"; B string "env:ENV_B,m" }` with
an empty environment. The field `B` is mandatory and its variable is absent, but the
error of `Get` names `ENV_A`, not `ENV_B`. -/
theorem C2_error_names_first_missing :
    (Get testDeps [] 5 (some (.pointer twoMandatory, .ptr (zero twoMandatory)))).2 =
        .error (.requiredMissing "ENV_A") ∧
    (Get testDeps [] 5 (some (.pointer twoMandatory, .ptr (zero twoMandatory)))).2 ≠
        .error (.requiredMissing "ENV_B") := by
  have h : (Get testDeps [] 5 (some (.pointer twoMandatory, .ptr (zero twoMandatory)))).2 =
      .error (.requiredMissing "ENV_A") := rfl
  refine ⟨h, ?_⟩
  rw [h]
  intro h2
  injection h2 with h2
  injection h2 with h2
  exact absurd h2 (by decide)

/-- C2 (witness): `twoMandatory` with `ENV_A=x`: the field `A` is decoded, the error names
`ENV_B`, and the field `B` is as before. -/
theorem C2_mandatory_missing_witness :
    Get testDeps [("ENV_A", str "x")] 4
        (some (.pointer twoMandatory, .ptr (.struct [.string [], .string []]))) =
      (some (.ptr (.struct [.string (str "x"), .string []])), .error (.requiredMissing "ENV_B")) ∧
    [Val.string (str "x"), Val.string []].get? 1 = [Val.string [], Val.string []].get? 1 :=
  ⟨(C2_mandatory_missing testDeps [("ENV_A", str "x")] 0
      [.mk "A" "" tString (some "ENV_A,m") false] []
      (.mk "B" "" tString (some "ENV_B,m") false) (Decl.plain "twoMandatory")
      [.string [], .string []] [.string (str "x"), .string []]
      [.mk 0 "ENV_A" tString true false (some (typeFunctions tString)) none]
      (.mk 1 "ENV_B" tString true false (some (typeFunctions tString)) none)
      ⟨⟨"twoMandatory", .mk 0 "ENV_A" tString true false (some (typeFunctions tString)) none,
        none⟩, str "x"⟩
      rfl rfl rfl rfl rfl rfl rfl rfl (by decide) rfl).1,
   (C2_mandatory_missing testDeps [("ENV_A", str "x")] 0
      [.mk "A" "" tString (some "ENV_A,m") false] []
      (.mk "B" "" tString (some "ENV_B,m") false) (Decl.plain "twoMandatory")
      [.string [], .string []] [.string (str "x"), .string []]
      [.mk 0 "ENV_A" tString true false (some (typeFunctions tString)) none]
      (.mk 1 "ENV_B" tString true false (some (typeFunctions tString)) none)
      ⟨⟨"twoMandatory", .mk 0 "ENV_A" tString true false (some (typeFunctions tString)) none,
        none⟩, str "x"⟩
      rfl rfl rfl rfl rfl rfl rfl rfl (by decide) rfl).2 1 (by decide)⟩

/-- `Get` on a pointer to a record whose walk ends in the round of the field `sf`, the
fields before it having been decoded without error. -/
theorem Get_round_stop (d : Deps) (env : Env) (n : Nat) (pre post : List StructField)
    (sf : StructField) (dc : Decl) (xs ys : List Val) (dpre : structFields) (fd : field)
    (s1 s2 : getterState) (y : Val) (r : Ret)
    (hg : dc.getter = false)
    (hstep : fieldStep pre.length sf = .append fd)
    (hpre : typeFieldsFrom pre 0 = some dpre)
    (hpost : (typeFieldsFrom post (pre.length + 1)).isSome = true)
    (hwalk : getLoop (execGet d env n) dpre (getEntry (.struct (pre ++ sf :: post) dc))
        ⟨.struct (pre ++ sf :: post) dc, .struct xs, true⟩ = (s1, .struct ys, .nil))
    (hround : getRound (execGet d env n) fd s1
        ⟨.struct (pre ++ sf :: post) dc, .struct ys, true⟩ = (s2, y, r))
    (hr : r ≠ .nil) :
    Get d env (n + 3) (some (.pointer (.struct (pre ++ sf :: post) dc), .ptr (.struct xs))) =
      getFinish (s2, y, r) := by
  obtain ⟨dpost, hdpost⟩ := Option.isSome_iff_exists.mp hpost
  rw [Get_record d env _ _ dc _ hg, typeFields_split pre post sf dc dpre dpost fd hpre hstep hdpost]
  simp only []
  rw [getLoop_append, hwalk]
  simp only []
  rw [getLoop_cons, hround]
  cases r <;> simp at hr ⊢

/-- What the fields before the field at position `pre.length` leave of the later fields. -/
theorem walk_frame (call : GetCall → getterState → Value → GetResult) (pre : List StructField)
    (dpre : structFields) (t : Ty) (xs ys : List Val) (s0 s1 : getterState) (c : Bool)
    (hpre : typeFieldsFrom pre 0 = some dpre)
    (hwalk : getLoop call dpre s0 ⟨t, .struct xs, c⟩ = (s1, .struct ys, .nil)) :
    ys.length = xs.length ∧ ∀ j, pre.length ≤ j → ys.get? j = xs.get? j := by
  obtain ⟨zs, hz1, hz2, hz3⟩ := getLoop_frame call dpre s0 ⟨t, .struct xs, c⟩ xs rfl
  rw [hwalk] at hz1
  simp only [Val.struct.injEq] at hz1
  subst hz1
  refine ⟨hz2, ?_⟩
  intro j hj
  apply hz3
  intro fd' hfd' he
  have := typeFieldsFrom_index_lt pre dpre hpre fd' hfd'
  omega

theorem execGet_arrayGetter (d : Deps) (env : Env) (n : Nat) (proc : procFunc)
    (s : getterState) (v : Value) :
    execGet d env (n + 1) (.func (.arrayGetter proc)) s v =
      arrayGetterFunc d (execProc d n proc) env s v :=
  rfl

theorem typeFunctions_array_getter (m : Nat) (e : Ty) (dc : Decl) (proc : procFunc)
    (hg : dc.getter = false) (hp : getProc (.array m e dc) = some proc) :
    (typeFunctions (.array m e dc)).getterFunc = .arrayGetter proc := by
  simp only [typeFunctions, kindFunctions, Ty.Kind, Ty.decl, hg, arrayGetter, hp]
  cases dc.setter <;> simp

/-- C9 (amended): in a record type without `GetENV` of its own whose descriptors can be
derived, given to `Get` by pointer, take an array field of length `m` that is not
embedded, has an element parser, no decode method of its own and does not take the raw
branch, and a non-empty value of its variable that splits on the separator into more
than `m` parts.  If the fields before it decode without error, `Get` fails with the
field error whose cause is index out of range and that names the variable of the
field (the type it reports is left open), and the array and the fields after it are
as they were before the call. -/
theorem C9_array_overflow (d : Deps) (env : Env) (n : Nat) (pre post : List StructField)
    (sf : StructField) (dc : Decl) (xs ys : List Val) (dpre : structFields) (fd : field)
    (s1 : getterState) (m : Nat) (e : Ty) (adc : Decl) (elems : List Val)
    (hg : dc.getter = false)
    (hanon : sf.Anonymous = false)
    (hty : sf.Type = .array m e adc)
    (hadc : adc.getter = false)
    (hproc : (getProc (.array m e adc)).isSome = true)
    (hstep : fieldStep pre.length sf = .append fd)
    (hraw : isRaw fd (.array m e adc) = false)
    (hne : Getenv env fd.name ≠ [])
    (hover : m < (splitOn d.envSeparator (Getenv env fd.name)).length)
    (hpre : typeFieldsFrom pre 0 = some dpre)
    (hpost : (typeFieldsFrom post (pre.length + 1)).isSome = true)
    (hwalk : getLoop (execGet d env (n + 1)) dpre (getEntry (.struct (pre ++ sf :: post) dc))
        ⟨.struct (pre ++ sf :: post) dc, .struct xs, true⟩ = (s1, .struct ys, .nil))
    (harr : xs.get? pre.length = some (.array elems))
    (hlen : elems.length = m) :
    (∃ t, Get d env (n + 4)
        (some (.pointer (.struct (pre ++ sf :: post) dc), .ptr (.struct xs))) =
      (some (.ptr (.struct ys)),
        .error (.field getError s1.ctx.structName fd.name t .indexOutOfRange))) ∧
    ∀ j, pre.length ≤ j → ys.get? j = xs.get? j := by
  obtain ⟨proc, hp⟩ := Option.isSome_iff_exists.mp hproc
  obtain ⟨hidx, htyp, hfn, hemb⟩ := fieldStep_leaf _ sf fd hanon hstep
  obtain ⟨hl, hframe⟩ := walk_frame _ pre dpre _ xs ys _ s1 true hpre hwalk
  refine ⟨⟨.array m e adc, ?_⟩, hframe⟩
  have hy : ys.get? pre.length = some (.array elems) := by
    rw [hframe _ (Nat.le_refl _)]
    exact harr
  have hlt : pre.length < ys.length := by
    rcases Nat.lt_or_ge pre.length ys.length with h | h
    · exact h
    · simp [List.getElem?_eq_none h] at hy
  have hset : ys.set pre.length (.array elems) = ys := by
    have h1 : ys[pre.length] = .array elems := by
      simp only [List.get?_eq_getElem?, List.getElem?_eq_getElem hlt, Option.some.injEq] at hy
      exact hy
    rw [← h1]
    exact list_set_self ys _ hlt
  have hround : getRound (execGet d env (n + 1)) fd s1
      ⟨.struct (pre ++ sf :: post) dc, .struct ys, true⟩ =
      ({ ({ s1 with ctx := { s1.ctx with field := fd } }.Reset) with
          buf := Getenv env fd.name }, .struct ys, .err .indexOutOfRange) := by
    unfold getRound
    simp only [hidx, Field_split pre post sf dc ys _ true hy, hemb, hfn, hty,
      typeFunctions_array_getter m e adc proc hadc hp, execGet_arrayGetter, arrayGetterFunc,
      getterState.getEnv, getterState.Reset]
    have hne' : (Getenv env fd.name).isEmpty = false := by
      cases h : Getenv env fd.name with
      | nil => exact absurd h hne
      | cons _ _ => rfl
    have hlen0 : ¬ (Getenv env fd.name).length = 0 := by
      intro h
      exact hne (List.length_eq_zero.mp h)
    simp [hne', hlen0, hraw, Value.Len, hlen, hover, Val.setField, hset]
  have e4 : n + 4 = (n + 1) + 3 := by omega
  rw [e4, Get_round_stop d env (n + 1) pre post sf dc xs ys dpre fd s1 _ _ _ hg hstep hpre hpost
    hwalk hround (by simp)]
  simp [getFinish, Outcome.of, context.setError, getterState.Reset, htyp, hty]

/-- C9 (counterexample): `struct { R [2]uint8 "env:R,raw" }` with the variable `R` set to
two separator bytes. The value splits into three parts, more than the two elements of
the array, and `Get` succeeds and stores the two bytes. -/
theorem C9_raw_array_takes_separators :
    (splitOn testDeps.envSeparator (Getenv [("R", [44, 44])] "R")).length = 3 ∧
    Get testDeps [("R", [44, 44])] 5 (some (.pointer rawArray, .ptr (zero rawArray))) =
      (some (.ptr (.struct [.array [.uint 44, .uint 44]])), .ok) := by
  constructor <;> rfl

/-- C9 (witness): `struct { Arr [2]int "env:ENV_ARR" }` with `ENV_ARR=1,2,3`. -/
theorem C9_array_overflow_witness :
    (∃ t, Get testDeps [("ENV_ARR", str "1,2,3")] 4
        (some (.pointer intArray, .ptr (.struct [.array [.int 0, .int 0]]))) =
      (some (.ptr (.struct [.array [.int 0, .int 0]])),
        .error (.field getError "intArray" "ENV_ARR" t .indexOutOfRange))) ∧
    [Val.array [.int 0, .int 0]].get? 0 = [Val.array [.int 0, .int 0]].get? 0 :=
  ⟨(C9_array_overflow testDeps [("ENV_ARR", str "1,2,3")] 0 [] []
      (.mk "Arr" "" (.array 2 tInt Decl.none) (some "ENV_ARR") false) (Decl.plain "intArray")
      [.array [.int 0, .int 0]] [.array [.int 0, .int 0]] []
      (.mk 0 "ENV_ARR" (.array 2 tInt Decl.none) false false
        (some (typeFunctions (.array 2 tInt Decl.none))) none)
      (getEntry intArray) 2 tInt Decl.none [.int 0, .int 0]
      rfl rfl rfl rfl rfl rfl rfl (by decide) (by decide) rfl rfl rfl rfl rfl).1,
   (C9_array_overflow testDeps [("ENV_ARR", str "1,2,3")] 0 [] []
      (.mk "Arr" "" (.array 2 tInt Decl.none) (some "ENV_ARR") false) (Decl.plain "intArray")
      [.array [.int 0, .int 0]] [.array [.int 0, .int 0]] []
      (.mk 0 "ENV_ARR" (.array 2 tInt Decl.none) false false
        (some (typeFunctions (.array 2 tInt Decl.none))) none)
      (getEntry intArray) 2 tInt Decl.none [.int 0, .int 0]
      rfl rfl rfl rfl rfl rfl rfl (by decide) (by decide) rfl rfl rfl rfl rfl).2 0 (by decide)⟩

theorem getEnv_empty (env : Env) (s : getterState) (hm : s.ctx.field.mandatory = false)
    (he : Getenv env s.ctx.field.name = []) (hb : s.buf = []) :
    s.getEnv env = (s, .nil) := by
  cases s with
  | mk ctx buf =>
    simp only [] at hb hm he
    subst hb
    simp [getterState.getEnv, hm, he]

/-- The routine of a built-in leaf type on a field that is not mandatory and whose
variable is absent or empty, for any bound on the depth: the value is left as it is,
no error is recorded, and the routine returns nil when the bound suffices. -/
theorem empty_leaf (d : Deps) (env : Env)
    (hzero : ∀ t, d.isEmptyValue ⟨t, zero t, true⟩ = true) (N : Nat) :
    ∀ (t : Ty) (s : getterState) (x : Val) (c : Bool),
      t.plainLeaf = true → s.ctx.field.mandatory = false →
      Getenv env s.ctx.field.name = [] → s.buf = [] →
      ∃ s', execGet d env N (.func (typeFunctions t).getterFunc) s ⟨t, x, c⟩ =
          (s', x, if t.ptrDepth < N then .nil else .fuel) ∧
        s'.ctx.err = s.ctx.err := by
  induction N with
  | zero =>
    intro t s x c _ _ _ _
    exact ⟨s, by simp [execGet], rfl⟩
  | succ N ih =>
    intro t s x c hp hm he hb
    have hge := getEnv_empty env s hm he hb
    cases t with
    | pointer e =>
      simp only [Ty.plainLeaf] at hp
      rw [typeFunctions_pointer, execGet_pointerGetter]
      simp only [pointerGetter, getterState.reflectValue, Ty.elemD, Ty.Elem, Ty.ptrDepth,
        Nat.add_lt_add_iff_right]
      cases x with
      | ptr y =>
        obtain ⟨s', h1, h2⟩ := ih e (s.setTyp e) y true hp
          (by simpa [getterState.setTyp] using hm) (by simpa [getterState.setTyp] using he)
          (by simpa [getterState.setTyp] using hb)
        exact ⟨s', by simp only [h1], by simpa [getterState.setTyp] using h2⟩
      | _ =>
        obtain ⟨s', h1, h2⟩ := ih e (s.setTyp e) (zero e) true hp
          (by simpa [getterState.setTyp] using hm) (by simpa [getterState.setTyp] using he)
          (by simpa [getterState.setTyp] using hb)
        refine ⟨s', ?_, by simpa [getterState.setTyp] using h2⟩
        simp only [h1]
        by_cases hlt : e.ptrDepth < N <;> simp [hlt, hzero]
    | basic b dc =>
      refine ⟨s, ?_, rfl⟩
      simp only [Ty.plainLeaf, Bool.and_eq_true, Bool.not_eq_true'] at hp
      obtain ⟨hg, hk⟩ := hp
      cases b <;> simp at hk <;> cases hs : dc.setter <;>
        simp [typeFunctions, kindFunctions, Ty.Kind, Basic.Kind, Ty.decl, hg, hs, execGet,
          boolGetter, intGetter, uintGetter, floatGetter, stringGetter, scalarGetter, hge, hb,
          Ty.ptrDepth]
    | array m e dc =>
      refine ⟨s, ?_, rfl⟩
      simp only [Ty.plainLeaf, Bool.and_eq_true, Bool.not_eq_true'] at hp
      obtain ⟨hg, hk⟩ := hp
      obtain ⟨proc, hproc⟩ := Option.isSome_iff_exists.mp hk
      rw [typeFunctions_array_getter m e dc proc hg hproc, execGet_arrayGetter]
      simp [arrayGetterFunc, hge, hb, Ty.ptrDepth]
    | slice e dc =>
      refine ⟨s, ?_, rfl⟩
      simp only [Ty.plainLeaf, Bool.and_eq_true, Bool.not_eq_true'] at hp
      obtain ⟨hg, hk⟩ := hp
      obtain ⟨proc, hproc⟩ := Option.isSome_iff_exists.mp hk
      cases hs : dc.setter <;>
        simp [typeFunctions, kindFunctions, Ty.Kind, Ty.decl, hg, hs, sliceGetter, hproc, execGet,
          sliceGetterFunc, hge, hb, Ty.ptrDepth]
    | iface dc => simp [Ty.plainLeaf] at hp
    | struct fs dc => simp [Ty.plainLeaf] at hp
theorem Field_at (fields : List StructField) (dc : Decl) (ys : List Val) (c : Bool) (i : Nat)
    (sf : StructField) (y : Val) (hi : fields.get? i = some sf) (hy : ys.get? i = some y) :
    (⟨.struct fields dc, .struct ys, c⟩ : Value).Field i = some ⟨sf.Type, y, c⟩ := by
  simp only [Value.Field, Ty.fields, hi, hy]

theorem Field_none (t : Ty) (ys : List Val) (c : Bool) (i : Nat) (hy : ys.get? i = none) :
    (⟨t, .struct ys, c⟩ : Value).Field i = none := by
  unfold Value.Field
  cases t.fields with
  | none => rfl
  | some fs =>
    simp only [hy]
    cases fs.get? i <;> rfl

theorem list_set_get {α : Type} (l : List α) (i : Nat) (y : α) (h : l.get? i = some y) :
    l.set i y = l := by
  have hlt : i < l.length := by
    rcases Nat.lt_or_ge i l.length with h' | h'
    · exact h'
    · simp [List.getElem?_eq_none h'] at h
  have h1 : l[i] = y := by
    simp only [List.get?_eq_getElem?, List.getElem?_eq_getElem hlt, Option.some.injEq] at h
    exact h
  rw [← h1]
  exact list_set_self l i hlt

theorem getLoop_keeps (call : GetCall → getterState → Value → GetResult) (t : Ty) (c : Bool)
    (j : Nat) (f : structFields)
    (H : ∀ fd ∈ f, fd.index = j → ∀ s ys, ∃ zs,
      (getRound call fd s ⟨t, .struct ys, c⟩).2.1 = .struct zs ∧ zs.get? j = ys.get? j) :
    ∀ (s : getterState) (xs : List Val), ∃ ys,
      (getLoop call f s ⟨t, .struct xs, c⟩).2.1 = .struct ys ∧ ys.get? j = xs.get? j := by
  induction f with
  | nil => intro s xs; exact ⟨xs, by simp [getLoop], rfl⟩
  | cons fd rest ih =>
    intro s xs
    have hround : ∃ zs, (getRound call fd s ⟨t, .struct xs, c⟩).2.1 = .struct zs ∧
        zs.get? j = xs.get? j := by
      by_cases hj : fd.index = j
      · exact H fd (List.mem_cons_self _ _) hj s xs
      · obtain ⟨zs, h1, _, h3⟩ := getRound_frame call fd s ⟨t, .struct xs, c⟩ xs rfl
        exact ⟨zs, h1, h3 j hj⟩
    obtain ⟨zs, h1, h2⟩ := hround
    rw [getLoop_cons]
    rcases hr : getRound call fd s ⟨t, .struct xs, c⟩ with ⟨s1, y, r⟩
    rw [hr] at h1
    simp only [] at h1
    subst h1
    cases r with
    | nil =>
      simp only []
      obtain ⟨ys, g1, g2⟩ := ih (fun fd' hfd' => H fd' (List.mem_cons_of_mem _ hfd')) s1 zs
      exact ⟨ys, g1, by rw [g2, h2]⟩
    | errExist => exact ⟨zs, rfl, h2⟩
    | err c => exact ⟨zs, rfl, h2⟩
    | panic m => exact ⟨zs, rfl, h2⟩
    | fuel => exact ⟨zs, rfl, h2⟩

theorem round_noop (d : Deps) (env : Env) (hzero : ∀ t, d.isEmptyValue ⟨t, zero t, true⟩ = true)
    (fields : List StructField) (dc : Decl) (i : Nat) (sf : StructField) (fd : field)
    (hi : fields.get? i = some sf) (hanon : sf.Anonymous = false)
    (hstep : fieldStep i sf = .append fd) (hm : fd.mandatory = false)
    (hplain : sf.Type.plainLeaf = true) (hempty : Getenv env fd.name = [])
    (n : Nat) (s : getterState) (ys : List Val) (c : Bool) :
    ∃ s' r, getRound (execGet d env n) fd s ⟨.struct fields dc, .struct ys, c⟩ =
        (s', .struct ys, r) ∧
      (sf.Type.ptrDepth < n → ys.get? i ≠ none → r = .nil ∧ s'.ctx.err = s.ctx.err) := by
  obtain ⟨hidx, _, hfn, hemb⟩ := fieldStep_leaf _ sf fd hanon hstep
  cases hy : ys.get? i with
  | none =>
    refine ⟨{ s with ctx := { s.ctx with field := fd } }.Reset,
      .panic "reflect: Field index out of range", ?_, fun _ h => absurd rfl h⟩
    unfold getRound
    simp only [hidx, Field_none _ ys c i hy]
  | some y =>
    obtain ⟨s', h1, h2⟩ := empty_leaf d env hzero n sf.Type
      ({ s with ctx := { s.ctx with field := fd } }.Reset) y c hplain
      (by simpa [getterState.Reset] using hm) (by simpa [getterState.Reset] using hempty) rfl
    refine ⟨s', if sf.Type.ptrDepth < n then .nil else .fuel, ?_, ?_⟩
    · unfold getRound
      simp only [hidx, Field_at fields dc ys c i sf y hi hy, hemb, hfn, h1, Val.setField,
        list_set_get ys i y hy]
    · intro hlt _
      simp only [hlt, if_true, true_and]
      simpa [getterState.Reset] using h2

/-- C4 (amended): take a field that is not embedded and not mandatory, whose type is a
built-in scalar or string, an array or slice with an element parser, or a pointer to
one of these (no decode method of its own), and whose variable is absent or empty;
`isEmptyValue` is taken to report a zero value as empty.  Then the round of that
field leaves the record as it is, returns nil and records no error, in whatever
state the walk is; and after `Get` the field holds the value it had before. -/
theorem C4_empty_leaves_field (d : Deps) (env : Env)
    (hzero : ∀ t, d.isEmptyValue ⟨t, zero t, true⟩ = true)
    (fields : List StructField) (dc : Decl) (xs : List Val) (i : Nat) (sf : StructField)
    (fd : field)
    (hg : dc.getter = false) (hi : fields.get? i = some sf) (hanon : sf.Anonymous = false)
    (hstep : fieldStep i sf = .append fd) (hm : fd.mandatory = false)
    (hplain : sf.Type.plainLeaf = true) (hempty : Getenv env fd.name = []) :
    (∀ (n : Nat) (s : getterState) (ys : List Val) (c : Bool),
      sf.Type.ptrDepth < n → ys.get? i ≠ none →
      ∃ s', getRound (execGet d env n) fd s ⟨.struct fields dc, .struct ys, c⟩ =
          (s', .struct ys, .nil) ∧ s'.ctx.err = s.ctx.err) ∧
    (∀ n, ∃ ys, (Get d env n (some (.pointer (.struct fields dc), .ptr (.struct xs)))).1 =
      some (.ptr (.struct ys)) ∧ ys.get? i = xs.get? i) := by
  constructor
  · intro n s ys c hlt hy
    obtain ⟨s', r, h1, h2⟩ := round_noop d env hzero fields dc i sf fd hi hanon hstep hm hplain
      hempty n s ys c
    obtain ⟨hr, he⟩ := h2 hlt hy
    subst hr
    exact ⟨s', h1, he⟩
  · intro n
    rcases n with _ | _ | _ | n
    · exact ⟨xs, by simp [Get, engine.get, Ty.Kind, getterState.get, getterState.reflectValue, execGet], rfl⟩
    · refine ⟨xs, ?_, rfl⟩
      have e1 : (Ty.pointer (.struct fields dc)).Kind = .Pointer := rfl
      simp [Get, engine.get, e1, getterState.get, getterState.reflectValue, execGet,
        typeFunctions_pointer, pointerGetter]
    · refine ⟨xs, ?_, rfl⟩
      have e1 : (Ty.pointer (.struct fields dc)).Kind = .Pointer := rfl
      simp only [Get, engine.get, e1, getterState.get, getterState.reflectValue, execGet,
        typeFunctions_pointer, pointerGetter, Ty.elemD, Ty.Elem,
        typeFunctions_struct_getter fields dc hg, structGetter]
      cases typeFields (.struct fields dc) <;> simp [execGet]
    · rw [Get_record d env n fields dc _ hg]
      cases hf : typeFields (.struct fields dc) with
      | none => exact ⟨xs, rfl, rfl⟩
      | some f =>
        have H : ∀ fd' ∈ f, fd'.index = i → ∀ s ys, ∃ zs,
            (getRound (execGet d env n) fd' s ⟨.struct fields dc, .struct ys, true⟩).2.1 =
              .struct zs ∧ zs.get? i = ys.get? i := by
          intro fd' hfd' hidx s ys
          simp only [typeFields] at hf
          obtain ⟨j, sf', g1, g2⟩ := typeFieldsFrom_mem fields 0 f hf fd' hfd'
          have g3 := fieldStep_index _ _ _ g2
          have hj : j = i := by omega
          subst hj
          rw [hi] at g1
          cases g1
          simp only [Nat.zero_add] at g2
          rw [hstep] at g2
          cases g2
          obtain ⟨s', r, h1, _⟩ := round_noop d env hzero fields dc j sf fd hi hanon hstep hm
            hplain hempty n s ys true
          exact ⟨ys, by rw [h1], rfl⟩
        obtain ⟨ys, h1, h2⟩ := getLoop_keeps (execGet d env n) (.struct fields dc) true i f H
          (getEntry (.struct fields dc)) xs
        refine ⟨ys, ?_, h2⟩
        simp only []
        generalize getLoop (execGet d env n) f _ _ = r at h1
        obtain ⟨s, y, r⟩ := r
        simp only [] at h1
        subst h1
        cases r <;> simp [getFinish]
theorem allZero_replicate (n : Nat) (x : Val) (h : x.isZero = true) :
    Val.allZero (List.replicate n x) = true := by
  induction n with
  | zero => rfl
  | succ n ih => simp [List.replicate, Val.allZero, h, ih]

mutual
theorem zero_isZero : ∀ t : Ty, (zero t).isZero = true
  | .basic k _ => by cases k <;> rfl
  | .array n e _ => by
    simp only [zero, Val.isZero]
    exact allZero_replicate n _ (zero_isZero e)
  | .slice _ _ => rfl
  | .pointer _ => rfl
  | .iface _ => rfl
  | .struct fs _ => by
    simp only [zero, Val.isZero]
    exact zeroFields_allZero fs
theorem zeroFields_allZero : ∀ fs : List StructField, Val.allZero (zeroFields fs) = true
  | [] => rfl
  | (.mk _ _ t _ _) :: fs => by
    simp only [zeroFields, Val.allZero, zero_isZero t, zeroFields_allZero fs, Bool.and_self]
end

/-- C4 (counterexample): `struct { AI ai "env:AI" }` with `AI` equal to 1 and no variable
`AI`. The field is not mandatory and `ai` has its own decode method; `Get` calls the
method with no bytes and stores what it leaves, so the field becomes 0. -/
theorem C4_decode_method_overwrites :
    Get testDeps [] 5 (some (.pointer assertRecord, .ptr (.struct [.int 1]))) =
      (some (.ptr (.struct [.int 0])), .ok) := by
  rfl

/-- C4 (witness): the field `B` of `simple` with no variable `ENV_B`. -/
theorem C4_empty_leaves_field_witness :
    (∃ s', getRound (execGet testDeps [] 1)
          (.mk 1 "ENV_B" tBool false false (some (typeFunctions tBool)) none) newGetState
          ⟨simple, simpleVal, true⟩ = (s', simpleVal, .nil) ∧ s'.ctx.err = newGetState.ctx.err) ∧
    (∃ ys, (Get testDeps [] 4 (some (.pointer simple, .ptr simpleVal))).1 =
      some (.ptr (.struct ys)) ∧
      ys.get? 1 = [Val.string (str "test"), .bool true, .int 28, .string []].get? 1) :=
  ⟨(C4_empty_leaves_field testDeps [] zero_isZero
      [.mk "A" "" tString (some "ENV_A,m") false, .mk "B" "" tBool (some "ENV_B") false,
        .mk "C" "" tInt (some "ENV_C") false, .mk "e" "envio" tString none false]
      (Decl.plain "simple")
      [.string (str "test"), .bool true, .int 28, .string []] 1
      (.mk "B" "" tBool (some "ENV_B") false)
      (.mk 1 "ENV_B" tBool false false (some (typeFunctions tBool)) none)
      rfl rfl rfl rfl rfl rfl rfl).1 1 newGetState
      [.string (str "test"), .bool true, .int 28, .string []] true (by decide) (by simp),
   (C4_empty_leaves_field testDeps [] zero_isZero
      [.mk "A" "" tString (some "ENV_A,m") false, .mk "B" "" tBool (some "ENV_B") false,
        .mk "C" "" tInt (some "ENV_C") false, .mk "e" "envio" tString none false]
      (Decl.plain "simple")
      [.string (str "test"), .bool true, .int 28, .string []] 1
      (.mk "B" "" tBool (some "ENV_B") false)
      (.mk 1 "ENV_B" tBool false false (some (typeFunctions tBool)) none)
      rfl rfl rfl rfl rfl rfl rfl).2 4⟩

theorem UInt8_ofNat_toNat (x : UInt8) : UInt8.ofNat x.toNat = x := by
  apply UInt8.ext
  exact UInt8.toNat_ofNat_of_lt (UInt8.toNat_lt x)

theorem bytesVal_elems (b : Bytes) :
    (bytesVal b).elems.map (fun x => UInt8.ofNat x.asUint) = b := by
  simp only [bytesVal, Val.elems, List.map_map]
  induction b with
  | nil => rfl
  | cons x xs ih =>
    rw [List.map_cons, ih]
    simp [Val.asUint, UInt8_ofNat_toNat]

theorem typeFunctions_slice (e : Ty) (dc : Decl) (p : procFunc) (q : setProcFunc)
    (hg : dc.getter = false) (hs : dc.setter = false)
    (hp : getProc (.slice e dc) = some p) (hq : setProc (.slice e dc) = some q) :
    typeFunctions (.slice e dc) = ⟨.sliceSetter q, .sliceGetter (.slice e dc) p⟩ := by
  simp [typeFunctions, kindFunctions, Ty.Kind, Ty.decl, hg, hs, sliceGetter, sliceSetter, hp, hq]

theorem getProc_uint8 (e : Ty) (dc : Decl) (h : e.Kind = .Uint8) :
    getProc (.slice e dc) = some .uintProc := by
  simp [getProc, Ty.Elem, h]

theorem setProc_uint8 (e : Ty) (dc : Decl) (h : e.Kind = .Uint8) :
    setProc (.slice e dc) = some .Uint := by
  simp [setProc, Ty.Elem, h]

theorem execSet_sliceSetter (d : Deps) (n : Nat) (proc : setProcFunc) (s : setterState)
    (v : Value) :
    execSet d (n + 1) (.func (.sliceSetter proc)) s v =
      sliceSetterFunc d (execSetProc d n proc) s v :=
  rfl

theorem execGet_sliceGetter (d : Deps) (env : Env) (n : Nat) (t : Ty) (parser : procFunc)
    (s : getterState) (v : Value) :
    execGet d env (n + 1) (.func (.sliceGetter t parser)) s v =
      sliceGetterFunc d t (execProc d n parser) env s v :=
  rfl

/-- C8 (amended): take a byte-slice field that is not embedded and is tagged raw, and a
non-empty byte sequence `b` without a zero byte that the field holds; the name of the
field is a valid variable name and the field is not skipped as mandatory and empty.
The round of `Set` for that field stores exactly the bytes of `b` under the name of
the field, and the round of `Get` for that field, on an environment that holds `b`
under that name, stores a byte slice equal to `b` in the field. -/
theorem C8_raw_bytes (d : Deps) (fields : List StructField) (dc : Decl) (i : Nat)
    (sf : StructField) (fd : field) (e : Ty) (sdc : Decl) (b : Bytes) (ys : List Val)
    (hi : fields.get? i = some sf) (hanon : sf.Anonymous = false)
    (hstep : fieldStep i sf = .append fd)
    (hty : sf.Type = .slice e sdc) (hk : e.Kind = .Uint8)
    (hsg : sdc.getter = false) (hss : sdc.setter = false)
    (hraw : fd.raw = true) (hb : b ≠ [])
    (hvalid : setenvValid fd.name b = true) :
    (∀ (n : Nat) (s : setterState) (c : Bool), ys.get? i = some (bytesVal b) →
      (fd.mandatory && d.isEmptyValue ⟨.slice e sdc, bytesVal b, c⟩) = false →
      setRound d (execSet d (n + 1)) fd s ⟨.struct fields dc, .struct ys, c⟩ =
        ({ ctx := { s.ctx with field := fd }, env := (fd.name, b) :: s.env }, .nil)) ∧
    (∀ (n : Nat) (env : Env) (s : getterState) (y : Val), ys.get? i = some y →
      Getenv env fd.name = b →
      getRound (execGet d env (n + 1)) fd s ⟨.struct fields dc, .struct ys, true⟩ =
        ({ ctx := { s.ctx with field := fd }, buf := b },
          .struct (ys.set i (bytesVal b)), .nil)) := by
  obtain ⟨hidx, _, hfn, hemb⟩ := fieldStep_leaf _ sf fd hanon hstep
  have hfun := typeFunctions_slice e sdc _ _ hsg hss (getProc_uint8 e sdc hk)
    (setProc_uint8 e sdc hk)
  have hisraw : isRaw fd (.slice e sdc) = true := by
    simp [isRaw, hraw, Ty.Elem, hk]
  constructor
  · intro n s c hy hskip
    unfold setRound
    simp only [hidx, Field_at fields dc ys c i sf _ hi hy, hty, hskip, hemb, hfn, hfun,
      execSet_sliceSetter, sliceSetterFunc, hisraw, bytesVal_elems, setterState.setEnv, Setenv,
      hvalid]
    simp
  · intro n env s y hy henv
    have hne : b.isEmpty = false := by
      cases b with
      | nil => exact absurd rfl hb
      | cons _ _ => rfl
    have hlen : ¬ b.length = 0 := fun h => hb (List.length_eq_zero.mp h)
    unfold getRound
    simp only [hidx, Field_at fields dc ys true i sf _ hi hy, hty, hemb, hfn, hfun,
      execGet_sliceGetter, sliceGetterFunc, getterState.getEnv, getterState.Reset, henv, hne,
      Bool.and_false]
    simp [hlen, hisraw, Val.setField, bytesVal]

/-- C8 (counterexample): a raw byte slice that holds the single byte 0. `os.Setenv`
rejects a value with a zero byte, so `Set` fails and stores nothing. -/
theorem C8_zero_byte_not_stored :
    Set testDeps [] 5 (some (rawBytes, .struct [bytesVal [0]])) =
      ([], .error (.field setErrorOp "rawBytes" "ENV_BYTES_RAW" tBytes .EINVAL)) := by
  rfl

/-- C8 (witness): the bytes 65, 66, 67, 68 in the field `BytesRaw` give `ABCD`, and `ABCD`
gives the bytes back. -/
theorem C8_raw_bytes_witness :
    setRound testDeps (execSet testDeps 1)
        (.mk 0 "ENV_BYTES_RAW" tBytes false true (some (typeFunctions tBytes)) none)
        (setEntry rawBytes []) ⟨rawBytes, .struct [bytesVal [65, 66, 67, 68]], false⟩ =
      ({ ctx := { (setEntry rawBytes []).ctx with
            field := .mk 0 "ENV_BYTES_RAW" tBytes false true (some (typeFunctions tBytes)) none },
          env := [("ENV_BYTES_RAW", str "ABCD")] }, .nil) ∧
    getRound (execGet testDeps [("ENV_BYTES_RAW", str "ABCD")] 1)
        (.mk 0 "ENV_BYTES_RAW" tBytes false true (some (typeFunctions tBytes)) none)
        (getEntry rawBytes) ⟨rawBytes, .struct [.nilSlice], true⟩ =
      ({ ctx := { (getEntry rawBytes).ctx with
            field := .mk 0 "ENV_BYTES_RAW" tBytes false true (some (typeFunctions tBytes)) none },
          buf := str "ABCD" },
        .struct [bytesVal [65, 66, 67, 68]], .nil) :=
  ⟨(C8_raw_bytes testDeps
      [.mk "BytesRaw" "" tBytes (some "ENV_BYTES_RAW,raw") false] (Decl.plain "rawBytes") 0
      (.mk "BytesRaw" "" tBytes (some "ENV_BYTES_RAW,raw") false)
      (.mk 0 "ENV_BYTES_RAW" tBytes false true (some (typeFunctions tBytes)) none)
      tUint8 Decl.none [65, 66, 67, 68] [bytesVal [65, 66, 67, 68]]
      rfl rfl rfl rfl rfl rfl rfl rfl (by decide) rfl).1 0 (setEntry rawBytes []) false rfl rfl,
   (C8_raw_bytes testDeps
      [.mk "BytesRaw" "" tBytes (some "ENV_BYTES_RAW,raw") false] (Decl.plain "rawBytes") 0
      (.mk "BytesRaw" "" tBytes (some "ENV_BYTES_RAW,raw") false)
      (.mk 0 "ENV_BYTES_RAW" tBytes false true (some (typeFunctions tBytes)) none)
      tUint8 Decl.none [65, 66, 67, 68] [.nilSlice]
      rfl rfl rfl rfl rfl rfl rfl rfl (by decide) rfl).2 0 [("ENV_BYTES_RAW", str "ABCD")]
      (getEntry rawBytes) .nilSlice rfl rfl⟩

theorem setEnv_over (e : Env) (s : setterState) (b : Bytes) :
    (s.over e).setEnv b = (s.setEnv b).over e := by
  simp only [setterState.setEnv, setterState.over, Setenv, SetResult.over]
  by_cases h : setenvValid s.ctx.field.name b = true <;> simp [h]

theorem setErr_over (e : Env) (s : setterState) (err : Error) :
    (s.over e).setErr err = (s.setErr err).over e := rfl

theorem setTyp_over (e : Env) (s : setterState) (t : Ty) :
    (s.over e).setTyp t = (s.setTyp t).over e := rfl

theorem setLoop_over (d : Deps) (e : Env) (call : SetCall → setterState → Value → SetResult)
    (hc : ∀ c s v, call c (s.over e) v = (call c s v).over e) (f : structFields) :
    ∀ (s : setterState) (v : Value),
      setLoop d call f (s.over e) v = (setLoop d call f s v).over e := by
  induction f with
  | nil => intro s v; simp [setLoop, SetResult.over]
  | cons fd rest ih =>
    intro s v
    have hround : setRound d call fd (s.over e) v = (setRound d call fd s v).over e := by
      unfold setRound
      have h0 : ({ s.over e with ctx := { (s.over e).ctx with field := fd } } : setterState) =
          ({ s with ctx := { s.ctx with field := fd } } : setterState).over e := rfl
      simp only [h0]
      repeat' split
      all_goals first
        | rfl
        | exact hc _ _ _
    rw [setLoop_cons, setLoop_cons, hround]
    rcases setRound d call fd s v with ⟨s1, r⟩
    cases r <;> simp only [SetResult.over, ih]

/-- `Set` never reads the store: running a setter routine on a store with more bindings
behind gives the same result with those bindings behind. -/
theorem execSet_over (d : Deps) (e : Env) (n : Nat) :
    ∀ (c : SetCall) (s : setterState) (v : Value),
      execSet d n c (s.over e) v = (execSet d n c s v).over e := by
  induction n with
  | zero => intro c s v; rfl
  | succ n ih =>
    intro c s v
    cases c with
    | fields f =>
      simp only [execSet, structFields.set]
      exact setLoop_over d e _ ih f { s with ctx := { s.ctx with structName := v.typ.Name } } v
    | func g =>
      cases g with
      | boolSetter => exact setEnv_over e s _
      | intSetter => exact setEnv_over e s _
      | uintSetter => exact setEnv_over e s _
      | floatSetter => exact setEnv_over e s _
      | stringSetter => exact setEnv_over e s _
      | unsupportedTypeSetter => rfl
      | setSetter =>
        simp only [execSet, setSetter]
        split
        · rfl
        · split
          · rfl
          · exact setEnv_over e s _
      | interfaceSetter =>
        simp only [execSet, interfaceSetter, setterState.reflectValue]
        split
        · exact ih _ (s.setTyp _) _
        · rfl
      | pointerSetter =>
        simp only [execSet, pointerSetter, setterState.reflectValue]
        exact ih _ (s.setTyp _) _
      | structSetter =>
        simp only [execSet, structSetter]
        split
        · rfl
        · exact ih _ _ _
      | sliceSetter proc =>
        simp only [execSet, sliceSetterFunc]
        have h0 : (s.over e).ctx = s.ctx := rfl
        simp only [h0]
        split
        · exact setEnv_over e s _
        · split
          · exact setEnv_over e s _
          · rfl
/-- `Set` never reads the store: on the store `env` it writes, in front of `env`, what it
writes on the empty store, and it ends the same way. -/
theorem Set_over (d : Deps) (env : Env) (n : Nat) (v : Option (Ty × Val)) :
    (Set d env n v).1 = (Set d [] n v).1 ++ env ∧ (Set d env n v).2 = (Set d [] n v).2 := by
  cases v with
  | none => exact ⟨rfl, rfl⟩
  | some p =>
    obtain ⟨t, x⟩ := p
    have h0 : newSetState env = (newSetState []).over env := rfl
    have h1 := execSet_over d env n (.func (typeFunctions t).setterFunc)
      ((newSetState []).setTyp t) ⟨t, x, false⟩
    simp only [Set, engine.set, setterState.set, setterState.reflectValue, h0, setTyp_over, h1]
    rcases execSet d n (.func (typeFunctions t).setterFunc) ((newSetState []).setTyp t)
      ⟨t, x, false⟩ with ⟨s, r⟩
    cases r <;> exact ⟨rfl, rfl⟩

theorem Getenv_append_of_not_mem (ws env : Env) (K : String)
    (h : K ∉ ws.map Prod.fst) : Getenv (ws ++ env) K = Getenv env K := by
  induction ws with
  | nil => rfl
  | cons p ws ih =>
    obtain ⟨k, b⟩ := p
    simp only [List.map_cons, List.mem_cons, not_or] at h
    have hk : (K == k) = false := by simpa using h.1
    simp only [Getenv, List.cons_append, List.lookup, hk]
    exact ih h.2

theorem fieldStep_skipped (i : Nat) (sf : StructField) (ha : sf.Anonymous = false) :
    fieldStep i sf.skipped = .skip := by
  cases sf with
  | mk n p t tg a =>
    simp only [StructField.Anonymous] at ha
    subst ha
    exact fieldStep_skip i _ rfl rfl

theorem Field_skipped (pre post : List StructField) (sf : StructField) (dc : Decl) (x : Val)
    (c : Bool) (j : Nat) :
    (⟨.struct (pre ++ sf :: post) dc, x, c⟩ : Value).Field j =
      (⟨.struct (pre ++ sf.skipped :: post) dc, x, c⟩ : Value).Field j := by
  have h : ((pre ++ sf :: post).get? j).map StructField.Type =
      ((pre ++ sf.skipped :: post).get? j).map StructField.Type := by
    simp only [List.get?_eq_getElem?]
    rcases Nat.lt_trichotomy j pre.length with h | h | h
    · rw [List.getElem?_append_left h, List.getElem?_append_left h]
    · subst h
      rw [List.getElem?_append_right (Nat.le_refl _), List.getElem?_append_right (Nat.le_refl _)]
      cases sf
      simp [StructField.skipped, StructField.Type]
    · rw [List.getElem?_append_right (Nat.le_of_lt h), List.getElem?_append_right (Nat.le_of_lt h)]
      have : j - pre.length = (j - pre.length - 1) + 1 := by omega
      rw [this]
      simp
  unfold Value.Field
  simp only [Ty.fields]
  cases x with
  | struct xs =>
    simp only []
    cases h1 : (pre ++ sf :: post).get? j <;> cases h2 : (pre ++ sf.skipped :: post).get? j <;>
      simp only [h1, h2, Option.map_none', Option.map_some', Option.some.injEq] at h
    · rfl
    · cases h
    · cases h
    · cases xs.get? j with
      | none => rfl
      | some y => simp only [h]
  | _ => rfl

theorem setLoop_restart (d : Deps) (call : SetCall → setterState → Value → SetResult)
    (f : structFields) (s s' : setterState) (v : Value)
    (henv : s.env = s'.env) (herr : s.ctx.err = s'.ctx.err)
    (hname : s.ctx.structName = s'.ctx.structName) :
    setFinish (setLoop d call f s v) = setFinish (setLoop d call f s' v) := by
  cases f with
  | nil => simp [setLoop, setFinish, Outcome.of, henv, herr]
  | cons fd rest =>
    have h : setRound d call fd s v = setRound d call fd s' v := by
      unfold setRound
      have h0 : ({ s with ctx := { s.ctx with field := fd } } : setterState) =
          { s' with ctx := { s'.ctx with field := fd } } := by
        cases s; cases s'
        simp only [] at henv herr hname
        simp [henv, herr, hname]
      simp only [h0]
    rw [setLoop_cons, setLoop_cons, h]
theorem typeFields_with_field (pre post : List StructField) (sf : StructField) (dc : Decl)
    (fd : field) (hanon : sf.Anonymous = false)
    (hstep : fieldStep pre.length sf = .append fd) :
    (typeFields (.struct (pre ++ sf :: post) dc) = none ∧
      typeFields (.struct (pre ++ sf.skipped :: post) dc) = none) ∨
    ∃ dpre dpost, typeFields (.struct (pre ++ sf :: post) dc) = some (dpre ++ fd :: dpost) ∧
      typeFields (.struct (pre ++ sf.skipped :: post) dc) = some (dpre ++ dpost) := by
  simp only [typeFields]
  rw [typeFieldsFrom_append, typeFieldsFrom_append, typeFieldsFrom_cons, typeFieldsFrom_cons,
    fieldStep_skipped _ sf hanon]
  simp only [Nat.zero_add, hstep]
  cases typeFieldsFrom pre 0 with
  | none => exact Or.inl ⟨rfl, rfl⟩
  | some dpre =>
    cases typeFieldsFrom post (pre.length + 1) with
    | none => exact Or.inl ⟨rfl, rfl⟩
    | some dpost => exact Or.inr ⟨dpre, dpost, rfl, rfl⟩

theorem getLoop_restart (call : GetCall → getterState → Value → GetResult)
    (f : structFields) (s s' : getterState) (v : Value)
    (herr : s.ctx.err = s'.ctx.err) (hname : s.ctx.structName = s'.ctx.structName) :
    getFinish (getLoop call f s v) = getFinish (getLoop call f s' v) := by
  cases f with
  | nil => simp [getLoop, getFinish, Outcome.of, herr]
  | cons fd rest =>
    have h : getRound call fd s v = getRound call fd s' v := by
      unfold getRound
      have h0 : ({ s with ctx := { s.ctx with field := fd } } : getterState).Reset =
          ({ s' with ctx := { s'.ctx with field := fd } } : getterState).Reset := by
        cases s; cases s'
        simp only [] at herr hname
        simp [getterState.Reset, herr, hname]
      simp only [h0]
    rw [getLoop_cons, getLoop_cons, h]

theorem fieldStep_embedded (i : Nat) (sf : StructField) (ha : sf.Anonymous = true)
    (hk : (embeddedType sf.Type).Kind = .Struct) :
    fieldStep i sf =
      match typeFields (embeddedType sf.Type) with
      | none => .panic
      | some emb => .append (.mk i sf.Name sf.Type false false none (some emb)) := by
  simp only [fieldStep, ha, if_true, embeddedStep, hk]
  cases typeFields (embeddedType sf.Type) <;> simp

theorem execSet_fields (d : Deps) (n : Nat) (f : structFields) (s : setterState) (v : Value) :
    execSet d (n + 1) (.fields f) s v = structFields.set d (execSet d n) f s v :=
  rfl

theorem ParseBool_AppendBool (b : Bool) : ParseBool (AppendBool b) = (b, none) := by
  cases b <;> decide

theorem digit_toNat (d : Nat) (h : d < 10) : (UInt8.ofNat (48 + d)).toNat = 48 + d :=
  UInt8.toNat_ofNat_of_lt (by simp [UInt8.size]; omega)

theorem parseUintLoop_digit (maxVal : Nat) (hmax : maxVal < 2 ^ 64) (a d : Nat) (cs : Bytes)
    (hd : d < 10) (h : a * 10 + d ≤ maxVal) :
    parseUintLoop maxVal (UInt8.ofNat (48 + d) :: cs) a = parseUintLoop maxVal cs (a * 10 + d) := by
  have h64 : (2 : Nat) ^ 64 = 18446744073709551616 := by norm_num
  rw [parseUintLoop]
  simp only [digit_toNat d hd]
  have h1 : 48 ≤ 48 + d ∧ 48 + d ≤ 57 := by omega
  have h2 : ¬ a ≥ (2 ^ 64 - 1) / 10 + 1 := by
    rw [h64]
    omega
  have h3 : (a * 10) % 2 ^ 64 = a * 10 := Nat.mod_eq_of_lt (by omega)
  have h4 : (a * 10 + (48 + d - 48)) % 2 ^ 64 = a * 10 + d := by
    rw [Nat.add_sub_cancel_left]
    exact Nat.mod_eq_of_lt (by omega)
  simp only [h1, and_self, if_true, h2, if_false, h3, h4]
  have h5 : ¬ (a * 10 + d < a * 10 ∨ a * 10 + d > maxVal) := by omega
  simp only [h5, if_false]

theorem parse_formatBits (maxVal : Nat) (hmax : maxVal < 2 ^ 64) (n : Nat) :
    ∀ (f : Nat) (acc : Bytes), n < f → n ≤ maxVal →
      parseUintLoop maxVal (formatBits f n acc) 0 = parseUintLoop maxVal acc n := by
  induction n using Nat.strong_induction_on with
  | _ n ih =>
    intro f acc hf hn
    cases f with
    | zero => omega
    | succ f =>
      rw [formatBits]
      by_cases h10 : n < 10
      · simp only [h10, if_true]
        have := parseUintLoop_digit maxVal hmax 0 n acc h10 (by omega)
        simpa using this
      · simp only [h10, if_false]
        rw [ih (n / 10) (by omega) f _ (by omega) (by omega)]
        have := parseUintLoop_digit maxVal hmax (n / 10) (n % 10) acc (by omega) (by omega)
        rw [this]
        congr 1
        omega

theorem formatBits_ne_nil (f n : Nat) (acc : Bytes) (hf : 0 < f) : formatBits f n acc ≠ [] := by
  induction f generalizing n acc with
  | zero => omega
  | succ f ih =>
    rw [formatBits]
    split
    · simp
    · cases f with
      | zero => simp [formatBits]
      | succ f => exact ih _ _ (by omega)

theorem formatBits_head (n : Nat) :
    ∀ (f : Nat) (acc : Bytes), n < f →
      ∃ c cs, formatBits f n acc = c :: cs ∧ 48 ≤ c.toNat ∧ c.toNat ≤ 57 := by
  induction n using Nat.strong_induction_on with
  | _ n ih =>
    intro f acc hf
    cases f with
    | zero => omega
    | succ f =>
      rw [formatBits]
      by_cases h10 : n < 10
      · simp only [h10, if_true]
        exact ⟨_, _, rfl, by rw [digit_toNat n h10]; omega, by rw [digit_toNat n h10]; omega⟩
      · simp only [h10, if_false]
        exact ih (n / 10) (by omega) f _ (by omega)

theorem ParseUint_AppendUint (n w : Nat) (hw : 0 < w) (hw64 : w ≤ 64) (hn : n < 2 ^ w) :
    ParseUint (AppendUint n) w = (n, none) := by
  have hne : AppendUint n ≠ [] := formatBits_ne_nil _ _ _ (by omega)
  have hw0 : ¬ w = 0 := by omega
  have hgt : ¬ w > 64 := by omega
  have hmax : 2 ^ w - 1 < 2 ^ 64 := by
    have : 2 ^ w ≤ 2 ^ 64 := Nat.pow_le_pow_right (by omega) hw64
    have : 0 < 2 ^ w := Nat.two_pow_pos w
    omega
  simp only [ParseUint, hne, if_false, hgt, hw0]
  rw [AppendUint, parse_formatBits _ hmax n _ _ (by omega) (by omega)]
  rfl

theorem ParseInt_AppendInt (i : Int) (w : Nat) (hw : 0 < w) (hw64 : w ≤ 64)
    (hlo : -(2 ^ (w - 1) : Int) ≤ i) (hhi : i < (2 ^ (w - 1) : Int)) :
    ParseInt (AppendInt i) w = (i, none) := by
  have hw0 : ¬ w = 0 := by omega
  have hpow : (2 : Nat) ^ w = 2 * 2 ^ (w - 1) := by
    cases w with
    | zero => omega
    | succ w => simp [Nat.pow_succ, Nat.mul_comm]
  have hcast : ((2 ^ (w - 1) : Nat) : Int) = (2 ^ (w - 1) : Int) := by push_cast; rfl
  by_cases hneg : i < 0
  · simp only [AppendInt, hneg, if_true, ParseInt]
    have hn : i.natAbs < 2 ^ w := by
      have : (i.natAbs : Int) ≤ 2 ^ (w - 1) := by omega
      have : i.natAbs ≤ 2 ^ (w - 1) := by exact_mod_cast this
      omega
    simp only [or_true, if_true, ParseUint_AppendUint _ w hw hw64 hn]
    have h1 : ¬ i.natAbs > 2 ^ (w - 1) := by
      have : (i.natAbs : Int) ≤ 2 ^ (w - 1) := by omega
      have : i.natAbs ≤ 2 ^ (w - 1) := by exact_mod_cast this
      omega
    simp [hw0, h1]
    rw [abs_of_neg hneg]
    omega
  · obtain ⟨c, cs, hc, h48, h57⟩ := formatBits_head i.natAbs (i.natAbs + 1) [] (by omega)
    have hA : AppendUint i.natAbs = c :: cs := hc
    have hn : i.natAbs < 2 ^ w := by
      have : (i.natAbs : Int) < 2 ^ (w - 1) := by omega
      have : i.natAbs < 2 ^ (w - 1) := by exact_mod_cast this
      omega
    have hP := ParseUint_AppendUint _ w hw hw64 hn
    rw [hA] at hP
    simp only [AppendInt, hneg, if_false, hA, ParseInt]
    have c43 : ¬ c = 43 := by
      intro h; subst h; exact absurd h48 (by decide)
    have c45 : ¬ c = 45 := by
      intro h; subst h; exact absurd h48 (by decide)
    simp only [c43, c45, or_self, if_false, hP]
    have h1 : ¬ i.natAbs ≥ 2 ^ (w - 1) := by
      have : (i.natAbs : Int) < 2 ^ (w - 1) := by omega
      have : i.natAbs < 2 ^ (w - 1) := by exact_mod_cast this
      omega
    simp [hw0, h1]
    exact not_lt.mp hneg

theorem wrapInt_id (w : Nat) (i : Int) (hw : 0 < w)
    (hlo : -(2 ^ (w - 1) : Int) ≤ i) (hhi : i < (2 ^ (w - 1) : Int)) : wrapInt w i = i := by
  have hpow : (2 : Int) ^ w = 2 * 2 ^ (w - 1) := by
    cases w with
    | zero => omega
    | succ w => simp [pow_succ, mul_comm]
  unfold wrapInt
  rw [Int.emod_eq_of_lt (by omega) (by omega)]
  omega

theorem wrapUint_id (w n : Nat) (h : n < 2 ^ w) : wrapUint w n = n :=
  Nat.mod_eq_of_lt h

theorem AppendUint_ne_nil (n : Nat) : AppendUint n ≠ [] :=
  formatBits_ne_nil _ _ _ (by omega)

theorem AppendInt_ne_nil (i : Int) : AppendInt i ≠ [] := by
  unfold AppendInt
  split
  · simp
  · exact AppendUint_ne_nil _

theorem AppendBool_ne_nil (b : Bool) : AppendBool b ≠ [] := by
  cases b <;> decide

theorem bitSize_int (k : Basic) (h : isIntKind k = true) :
    0 < bitSize k.Kind ∧ bitSize k.Kind ≤ 64 := by
  cases k <;> simp [isIntKind] at h <;> simp [Basic.Kind, bitSize]

theorem bitSize_uint (k : Basic) (h : isUintKind k = true) :
    0 < bitSize k.Kind ∧ bitSize k.Kind ≤ 64 := by
  cases k <;> simp [isUintKind] at h <;> simp [Basic.Kind, bitSize]

theorem typeFunctions_basic (k : Basic) (dc : Decl) (hs : dc.setter = false)
    (hg : dc.getter = false) :
    typeFunctions (.basic k dc) = kindFunctions (.basic k dc) := by
  simp [typeFunctions, Ty.decl, hs, hg]

/-- `Set` on a scalar of the class writes its bytes. -/
theorem scalar_set (d : Deps) (t : Ty) (x : Val) (b : Bytes) (h : scalarEnc d t x = some b)
    (n : Nat) (s : setterState) (c : Bool) :
    execSet d (n + 1) (.func (typeFunctions t).setterFunc) s ⟨t, x, c⟩ = s.setEnv b := by
  cases t with
  | basic k dc =>
    cases x with
    | bool v =>
      simp only [scalarEnc] at h
      split at h
      · rename_i hc
        obtain ⟨hk, hs, hg⟩ := hc
        subst hk
        simp only [Option.some.injEq] at h
        subst h
        rw [typeFunctions_basic _ dc hs hg]
        rfl
      · cases h
    | int i =>
      simp only [scalarEnc] at h
      split at h
      · rename_i hc
        obtain ⟨hk, hs, hg, _, _⟩ := hc
        simp only [Option.some.injEq] at h
        subst h
        rw [typeFunctions_basic _ dc hs hg]
        cases k <;> simp [isIntKind] at hk <;> rfl
      · cases h
    | uint m =>
      simp only [scalarEnc] at h
      split at h
      · rename_i hc
        obtain ⟨hk, hs, hg, _⟩ := hc
        simp only [Option.some.injEq] at h
        subst h
        rw [typeFunctions_basic _ dc hs hg]
        cases k <;> simp [isUintKind] at hk <;> rfl
      · cases h
    | string v =>
      simp only [scalarEnc] at h
      split at h
      · rename_i hc
        obtain ⟨hk, hs, hg⟩ := hc
        subst hk
        simp only [Option.some.injEq] at h
        subst h
        rw [typeFunctions_basic _ dc hs hg]
        rfl
      · cases h
    | float f =>
      simp only [scalarEnc] at h
      split at h
      · rename_i hc
        obtain ⟨hk, hs, hg, _, _⟩ := hc
        simp only [Option.some.injEq] at h
        subst h
        rw [typeFunctions_basic _ dc hs hg]
        cases k <;> simp [isFloatKind] at hk <;> rfl
      · cases h
    | _ => simp [scalarEnc] at h
  | _ => simp [scalarEnc] at h

theorem scalarGetter_parse (proc : Bytes → Value → Val × Ret) (env : Env) (s : getterState)
    (v : Value) (b : Bytes) (hb : s.buf = []) (he : Getenv env s.ctx.field.name = b)
    (hm : (s.ctx.field.mandatory && b.isEmpty) = false) (hne : b ≠ []) :
    scalarGetter proc env s v = ({ s with buf := b }, (proc b v).1, (proc b v).2) := by
  have hlen : ¬ b.length = 0 := fun h => hne (List.length_eq_zero.mp h)
  simp [scalarGetter, getterState.getEnv, he, hm, hb, hlen]

/-- `Get` on a scalar of the class, on a store that holds its bytes, yields the scalar. -/
theorem scalar_get (d : Deps) (t : Ty) (x : Val) (b : Bytes) (h : scalarEnc d t x = some b)
    (n : Nat) (env : Env) (s : getterState) (z : Val)
    (hb : s.buf = []) (he : Getenv env s.ctx.field.name = b)
    (hm : (s.ctx.field.mandatory && b.isEmpty) = false) (hz : b = [] → z = x) :
    execGet d env (n + 1) (.func (typeFunctions t).getterFunc) s ⟨t, z, true⟩ =
      ({ s with buf := b }, x, .nil) := by
  cases t with
  | basic k dc =>
    cases x with
    | bool v =>
      simp only [scalarEnc] at h
      split at h
      · rename_i hc
        obtain ⟨hk, hs, hg⟩ := hc
        subst hk
        simp only [Option.some.injEq] at h
        subst h
        rw [typeFunctions_basic _ dc hs hg]
        show boolGetter env s _ = _
        rw [boolGetter, scalarGetter_parse _ env s _ _ hb he hm (AppendBool_ne_nil v)]
        simp [boolProc, ParseBool_AppendBool, Ret.ofErr]
      · cases h
    | int i =>
      simp only [scalarEnc] at h
      split at h
      · rename_i hc
        obtain ⟨hk, hs, hg, hlo, hhi⟩ := hc
        simp only [Option.some.injEq] at h
        subst h
        obtain ⟨hw, hw64⟩ := bitSize_int k hk
        rw [typeFunctions_basic _ dc hs hg]
        have hget : execGet d env (n + 1) (.func (kindFunctions (.basic k dc)).getterFunc) s
            ⟨.basic k dc, z, true⟩ = intGetter env s ⟨.basic k dc, z, true⟩ := by
          cases k <;> simp [isIntKind] at hk <;> rfl
        rw [hget, intGetter, scalarGetter_parse _ env s _ _ hb he hm (AppendInt_ne_nil i)]
        simp [intProc, Value.Kind, Ty.Kind, ParseInt_AppendInt i _ hw hw64 hlo hhi, Ret.ofErr,
          wrapInt_id _ i hw hlo hhi]
      · cases h
    | uint m =>
      simp only [scalarEnc] at h
      split at h
      · rename_i hc
        obtain ⟨hk, hs, hg, hlt⟩ := hc
        simp only [Option.some.injEq] at h
        subst h
        obtain ⟨hw, hw64⟩ := bitSize_uint k hk
        rw [typeFunctions_basic _ dc hs hg]
        have hget : execGet d env (n + 1) (.func (kindFunctions (.basic k dc)).getterFunc) s
            ⟨.basic k dc, z, true⟩ = uintGetter env s ⟨.basic k dc, z, true⟩ := by
          cases k <;> simp [isUintKind] at hk <;> rfl
        rw [hget, uintGetter, scalarGetter_parse _ env s _ _ hb he hm (AppendUint_ne_nil m)]
        simp [uintProc, Value.Kind, Ty.Kind, ParseUint_AppendUint m _ hw hw64 hlt, Ret.ofErr,
          wrapUint_id _ m hlt]
      · cases h
    | string v =>
      simp only [scalarEnc] at h
      split at h
      · rename_i hc
        obtain ⟨hk, hs, hg⟩ := hc
        subst hk
        simp only [Option.some.injEq] at h
        subst h
        rw [typeFunctions_basic _ dc hs hg]
        show stringGetter env s _ = _
        by_cases hv : v = []
        · have hzx := hz hv
          subst hv
          subst hzx
          cases s with
          | mk ctx buf =>
            simp only [] at hb he hm
            subst hb
            have hm2 : ctx.field.mandatory = false := by simpa using hm
            simp [stringGetter, scalarGetter, getterState.getEnv, he, hm2]
        · rw [stringGetter, scalarGetter_parse _ env s _ _ hb he hm hv]
          simp [stringParser]
      · cases h
    | float f =>
      simp only [scalarEnc] at h
      split at h
      · rename_i hc
        obtain ⟨hk, hs, hg, hpf, hne⟩ := hc
        simp only [Option.some.injEq] at h
        subst h
        rw [typeFunctions_basic _ dc hs hg]
        have hget : execGet d env (n + 1) (.func (kindFunctions (.basic k dc)).getterFunc) s
            ⟨.basic k dc, z, true⟩ = floatGetter d env s ⟨.basic k dc, z, true⟩ := by
          cases k <;> simp [isFloatKind] at hk <;> rfl
        rw [hget, floatGetter, scalarGetter_parse _ env s _ _ hb he hm (by simpa using hne)]
        simp [floatProc, Value.Kind, Ty.Kind, hpf, Ret.ofErr]
      · cases h
    | _ => simp [scalarEnc] at h
  | _ => simp [scalarEnc] at h

theorem scalarEnc_nil (d : Deps) (t : Ty) (x : Val) (h : scalarEnc d t x = some []) :
    x = zero t := by
  cases t with
  | basic k dc =>
    cases x with
    | bool v =>
      simp only [scalarEnc] at h
      split at h
      · simp only [Option.some.injEq] at h
        exact absurd h (AppendBool_ne_nil v)
      · cases h
    | int i =>
      simp only [scalarEnc] at h
      split at h
      · simp only [Option.some.injEq] at h
        exact absurd h (AppendInt_ne_nil i)
      · cases h
    | uint m =>
      simp only [scalarEnc] at h
      split at h
      · simp only [Option.some.injEq] at h
        exact absurd h (AppendUint_ne_nil m)
      · cases h
    | string v =>
      simp only [scalarEnc] at h
      split at h
      · rename_i hc
        obtain ⟨hk, _, _⟩ := hc
        subst hk
        simp only [Option.some.injEq] at h
        subst h
        rfl
      · cases h
    | float f =>
      simp only [scalarEnc] at h
      split at h
      · rename_i hc
        simp only [Option.some.injEq] at h
        have hne := hc.2.2.2.2
        simp [h] at hne
      · cases h
    | _ => simp [scalarEnc] at h
  | _ => simp [scalarEnc] at h

theorem isScalar_procs (t e : Ty) (he : t.Elem = some e) (h : isScalar e = true) :
    ∃ p q, getProc t = some p ∧ setProc t = some q := by
  cases e with
  | basic k dc =>
    cases k <;> simp [isScalar, isIntKind, isUintKind, isFloatKind] at h <;>
      simp [getProc, setProc, he, Ty.Kind, Basic.Kind]
  | _ => simp [isScalar] at h

/-- The formatter of the elements of `t` gives the bytes of a scalar element. -/
theorem elem_set (d : Deps) (t e : Ty) (x : Val) (b : Bytes) (q : setProcFunc)
    (he : t.Elem = some e) (hq : setProc t = some q) (h : scalarEnc d e x = some b)
    (n : Nat) (c : Bool) : execSetProc d n q ⟨e, x, c⟩ = (b, .nil) := by
  cases e with
  | basic k dc =>
    cases x with
    | bool v =>
      simp only [scalarEnc] at h
      split at h
      · rename_i hc
        obtain ⟨hk, _, _⟩ := hc
        subst hk
        simp only [Option.some.injEq] at h
        subst h
        simp [setProc, he, Ty.Kind, Basic.Kind] at hq
        subst hq
        cases n <;> rfl
      · cases h
    | int i =>
      simp only [scalarEnc] at h
      split at h
      · rename_i hc
        obtain ⟨hk, _, _, _, _⟩ := hc
        simp only [Option.some.injEq] at h
        subst h
        cases k <;> simp [isIntKind] at hk <;>
          (simp [setProc, he, Ty.Kind, Basic.Kind] at hq; subst hq; cases n <;> rfl)
      · cases h
    | uint m =>
      simp only [scalarEnc] at h
      split at h
      · rename_i hc
        obtain ⟨hk, _, _, _⟩ := hc
        simp only [Option.some.injEq] at h
        subst h
        cases k <;> simp [isUintKind] at hk <;>
          (simp [setProc, he, Ty.Kind, Basic.Kind] at hq; subst hq; cases n <;> rfl)
      · cases h
    | float f =>
      simp only [scalarEnc] at h
      split at h
      · rename_i hc
        obtain ⟨hk, _, _, _, _⟩ := hc
        simp only [Option.some.injEq] at h
        subst h
        cases k <;> simp [isFloatKind] at hk <;>
          (simp [setProc, he, Ty.Kind, Basic.Kind] at hq; subst hq; cases n <;> rfl)
      · cases h
    | string v =>
      simp only [scalarEnc] at h
      split at h
      · rename_i hc
        obtain ⟨hk, _, _⟩ := hc
        subst hk
        simp only [Option.some.injEq] at h
        subst h
        simp [setProc, he, Ty.Kind, Basic.Kind] at hq
        subst hq
        cases n <;> rfl
      · cases h
    | _ => simp [scalarEnc] at h
  | _ => simp [scalarEnc] at h

/-- The parser of the elements of `t` reads the bytes of a scalar element back. -/
theorem elem_get (d : Deps) (t e : Ty) (x : Val) (b : Bytes) (p : procFunc)
    (he : t.Elem = some e) (hp : getProc t = some p) (h : scalarEnc d e x = some b)
    (n : Nat) (z : Val) : execProc d n p b ⟨e, z, true⟩ = (x, .nil) := by
  cases e with
  | basic k dc =>
    cases x with
    | bool v =>
      simp only [scalarEnc] at h
      split at h
      · rename_i hc
        obtain ⟨hk, _, _⟩ := hc
        subst hk
        simp only [Option.some.injEq] at h
        subst h
        simp [getProc, he, Ty.Kind, Basic.Kind] at hp
        subst hp
        have e1 : execProc d n .boolProc (AppendBool v) ⟨.basic .Bool dc, z, true⟩ =
            boolProc (AppendBool v) ⟨.basic .Bool dc, z, true⟩ := by cases n <;> rfl
        rw [e1]
        simp [boolProc, ParseBool_AppendBool, Ret.ofErr]
      · cases h
    | int i =>
      simp only [scalarEnc] at h
      split at h
      · rename_i hc
        obtain ⟨hk, _, _, hlo, hhi⟩ := hc
        simp only [Option.some.injEq] at h
        subst h
        obtain ⟨hw, hw64⟩ := bitSize_int k hk
        have hp2 : p = .intProc := by
          cases k <;> simp [isIntKind] at hk <;>
            (simp [getProc, he, Ty.Kind, Basic.Kind] at hp; exact hp.symm)
        subst hp2
        have e1 : execProc d n .intProc (AppendInt i) ⟨.basic k dc, z, true⟩ =
            intProc (AppendInt i) ⟨.basic k dc, z, true⟩ := by cases n <;> rfl
        rw [e1]
        simp [intProc, Value.Kind, Ty.Kind, ParseInt_AppendInt i _ hw hw64 hlo hhi, Ret.ofErr,
          wrapInt_id _ i hw hlo hhi]
      · cases h
    | uint m =>
      simp only [scalarEnc] at h
      split at h
      · rename_i hc
        obtain ⟨hk, _, _, hlt⟩ := hc
        simp only [Option.some.injEq] at h
        subst h
        obtain ⟨hw, hw64⟩ := bitSize_uint k hk
        have hp2 : p = .uintProc := by
          cases k <;> simp [isUintKind] at hk <;>
            (simp [getProc, he, Ty.Kind, Basic.Kind] at hp; exact hp.symm)
        subst hp2
        have e1 : execProc d n .uintProc (AppendUint m) ⟨.basic k dc, z, true⟩ =
            uintProc (AppendUint m) ⟨.basic k dc, z, true⟩ := by cases n <;> rfl
        rw [e1]
        simp [uintProc, Value.Kind, Ty.Kind, ParseUint_AppendUint m _ hw hw64 hlt, Ret.ofErr,
          wrapUint_id _ m hlt]
      · cases h
    | float f =>
      simp only [scalarEnc] at h
      split at h
      · rename_i hc
        obtain ⟨hk, _, _, hpf, _⟩ := hc
        simp only [Option.some.injEq] at h
        subst h
        have hp2 : p = .floatProc := by
          cases k <;> simp [isFloatKind] at hk <;>
            (simp [getProc, he, Ty.Kind, Basic.Kind] at hp; exact hp.symm)
        subst hp2
        have e1 : execProc d n .floatProc (d.AppendFloat f (bitSize k.Kind))
            ⟨.basic k dc, z, true⟩ =
            floatProc d (d.AppendFloat f (bitSize k.Kind)) ⟨.basic k dc, z, true⟩ := by
          cases n <;> rfl
        rw [e1]
        simp [floatProc, Value.Kind, Ty.Kind, hpf, Ret.ofErr]
      · cases h
    | string v =>
      simp only [scalarEnc] at h
      split at h
      · rename_i hc
        obtain ⟨hk, _, _⟩ := hc
        subst hk
        simp only [Option.some.injEq] at h
        subst h
        simp [getProc, he, Ty.Kind, Basic.Kind] at hp
        subst hp
        have e1 : execProc d n .stringParser v ⟨.basic .String dc, z, true⟩ =
            stringParser v ⟨.basic .String dc, z, true⟩ := by cases n <;> rfl
        rw [e1]
        simp [stringParser]
      · cases h
    | _ => simp [scalarEnc] at h
  | _ => simp [scalarEnc] at h
theorem scalarEnc_procs (d : Deps) (t e : Ty) (x : Val) (b : Bytes) (he : t.Elem = some e)
    (h : scalarEnc d e x = some b) : ∃ p q, getProc t = some p ∧ setProc t = some q := by
  apply isScalar_procs t e he
  cases e with
  | basic k dc =>
    cases x <;> simp only [scalarEnc] at h <;> (try cases h) <;> split at h <;>
      (try cases h) <;> rename_i hc <;> simp [isScalar, hc]
  | _ => simp [scalarEnc] at h

theorem elemEnc_procs (d : Deps) (q : Nat) (t e : Ty) (x : Val) (b : Bytes)
    (he : t.Elem = some e) (h : elemEnc d q e x = some b) :
    ∃ p g, getProc t = some p ∧ setProc t = some g := by
  cases e with
  | basic k dc =>
    have h1 : scalarEnc d (.basic k dc) x = some b := by
      cases q <;> simpa [elemEnc] using h
    exact scalarEnc_procs d t _ x b he h1
  | pointer e1 => exact ⟨.pointerProc, .Pointer, by simp [getProc, he, Ty.Kind],
      by simp [setProc, he, Ty.Kind]⟩
  | _ => cases q <;> simp [elemEnc] at h

/-- The formatter of the elements of `t` gives the bytes of an element of the class. -/
theorem elemEnc_set (d : Deps) : ∀ (q : Nat) (t e : Ty) (x : Val) (b : Bytes) (g : setProcFunc),
    t.Elem = some e → setProc t = some g → elemEnc d q e x = some b →
    ∀ (n : Nat) (c : Bool), q ≤ n → execSetProc d n g ⟨e, x, c⟩ = (b, .nil) := by
  intro q
  induction q with
  | zero =>
    intro t e x b g he hg h n c _
    cases e with
    | basic k dc => exact elem_set d t _ x b g he hg (by simpa [elemEnc] using h) n c
    | _ => simp [elemEnc] at h
  | succ q ih =>
    intro t e x b g he hg h n c hn
    cases e with
    | basic k dc => exact elem_set d t _ x b g he hg (by simpa [elemEnc] using h) n c
    | pointer e1 =>
      cases x with
      | ptr y =>
        have h1 : elemEnc d q e1 y = some b := by simpa [elemEnc] using h
        obtain ⟨n1, rfl⟩ : ∃ n1, n = n1 + 1 := ⟨n - 1, by omega⟩
        have hg2 : g = .Pointer := by
          simp [setProc, he, Ty.Kind] at hg
          exact hg.symm
        subst hg2
        obtain ⟨_, g1, _, hg1⟩ := elemEnc_procs d q (.pointer e1) e1 y b rfl h1
        simp only [execSetProc, hg1, valueFromPtr, Value.Kind, Ty.Kind, ne_eq, not_true_eq_false,
          if_false, Ty.elemD, Ty.Elem]
        exact ih (.pointer e1) e1 y b g1 rfl hg1 h1 n1 true (by omega)
      | _ => simp [elemEnc] at h
    | _ => simp [elemEnc] at h

/-- The parser of the elements of `t` reads the bytes of an element of the class back. -/
theorem elemEnc_get (d : Deps) : ∀ (q : Nat) (t e : Ty) (x : Val) (b : Bytes) (p : procFunc),
    t.Elem = some e → getProc t = some p → elemEnc d q e x = some b →
    ∀ (n : Nat) (z : Val), q ≤ n → execProc d n p b ⟨e, z, true⟩ = (x, .nil) := by
  intro q
  induction q with
  | zero =>
    intro t e x b p he hp h n z _
    cases e with
    | basic k dc => exact elem_get d t _ x b p he hp (by simpa [elemEnc] using h) n z
    | _ => simp [elemEnc] at h
  | succ q ih =>
    intro t e x b p he hp h n z hn
    cases e with
    | basic k dc => exact elem_get d t _ x b p he hp (by simpa [elemEnc] using h) n z
    | pointer e1 =>
      cases x with
      | ptr y =>
        have h1 : elemEnc d q e1 y = some b := by simpa [elemEnc] using h
        obtain ⟨n1, rfl⟩ : ∃ n1, n = n1 + 1 := ⟨n - 1, by omega⟩
        have hp2 : p = .pointerProc := by
          simp [getProc, he, Ty.Kind] at hp
          exact hp.symm
        subst hp2
        obtain ⟨p1, _, hp1, _⟩ := elemEnc_procs d q (.pointer e1) e1 y b rfl h1
        simp only [execProc, pointerProc, Ty.Elem, hp1,
          ih (.pointer e1) e1 y b p1 rfl hp1 h1 n1 (zero e1) (by omega), if_true]
      | _ => simp [elemEnc] at h
    | _ => simp [elemEnc] at h


theorem toBytes_spec : ∀ (ys : List Val) (b : Bytes), toBytes ys = some b →
    ys.map (fun x => UInt8.ofNat x.asUint) = b ∧ b.map (fun c => Val.uint c.toNat) = ys := by
  intro ys
  induction ys with
  | nil =>
    intro b h
    simp [toBytes] at h
    subst h
    simp
  | cons y rest ih =>
    intro b h
    cases y with
    | uint n =>
      simp only [toBytes] at h
      split at h
      · rename_i hn
        cases hr : toBytes rest with
        | none => simp [hr] at h
        | some b' =>
          simp [hr] at h
          subst h
          obtain ⟨h1, h2⟩ := ih b' hr
          refine ⟨by rw [List.map_cons, h1]; rfl, ?_⟩
          simp [h2, UInt8.toNat_ofNat_of_lt hn]
      · cases h
    | _ => simp [toBytes] at h

theorem elemsEnc_cons (d : Deps) (q : Nat) (e : Ty) (x : Val) (xs : List Val) (bs : List Bytes)
    (h : elemsEnc d q e (x :: xs) = some bs) :
    ∃ b bs1, bs = b :: bs1 ∧ elemEnc d q e x = some b ∧ d.envSeparator ∉ b ∧
      elemsEnc d q e xs = some bs1 := by
  simp only [elemsEnc] at h
  cases h1 : elemEnc d q e x with
  | none => simp [h1] at h
  | some b =>
    cases h2 : elemsEnc d q e xs with
    | none => simp [h1, h2] at h
    | some bs1 =>
      simp only [h1, h2] at h
      split at h
      · cases h
      · rename_i hsep
        simp only [Option.some.injEq] at h
        exact ⟨b, bs1, h.symm, rfl, hsep, rfl⟩

theorem elemsEnc_length (d : Deps) (q : Nat) (e : Ty) :
    ∀ (xs : List Val) (bs : List Bytes), elemsEnc d q e xs = some bs → bs.length = xs.length := by
  intro xs
  induction xs with
  | nil =>
    intro bs h
    simp [elemsEnc] at h
    subst h
    rfl
  | cons x xs ih =>
    intro bs h
    obtain ⟨b, bs1, rfl, _, _, h2⟩ := elemsEnc_cons d q e x xs bs h
    simp [ih bs1 h2]

theorem elemsEnc_nosep (d : Deps) (q : Nat) (e : Ty) :
    ∀ (xs : List Val) (bs : List Bytes), elemsEnc d q e xs = some bs →
      ∀ b ∈ bs, d.envSeparator ∉ b := by
  intro xs
  induction xs with
  | nil =>
    intro bs h
    simp [elemsEnc] at h
    subst h
    simp
  | cons x xs ih =>
    intro bs h
    obtain ⟨b, bs1, rfl, _, hsep, h2⟩ := elemsEnc_cons d q e x xs bs h
    intro c hc
    rcases List.mem_cons.mp hc with h0 | h0
    · exact h0 ▸ hsep
    · exact ih bs1 h2 c h0

theorem joinSep_cons (sep : UInt8) (b : Bytes) (bs : List Bytes) :
    joinSep sep (b :: bs) = b ++ (match bs with
      | [] => []
      | c :: cs => sep :: joinSep sep (c :: cs)) := by
  cases bs <;> simp [joinSep]

/-- The loop of `sliceSetter`, from an element that is not the first, adds the separator
and the bytes of each element. -/
theorem joinLoop_enc (d : Deps) (q : Nat) (e : Ty) (proc : Value → Bytes × Ret)
    (hproc : ∀ x b, elemEnc d q e x = some b → proc ⟨e, x, false⟩ = (b, .nil)) :
    ∀ (xs : List Val) (bs : List Bytes), elemsEnc d q e xs = some bs →
      ∀ (i : Nat) (buf : Bytes), 0 < i →
        joinLoop d.envSeparator proc e i xs buf =
          (buf ++ (match bs with
            | [] => []
            | c :: cs => d.envSeparator :: joinSep d.envSeparator (c :: cs)), .nil) := by
  intro xs
  induction xs with
  | nil =>
    intro bs h i buf _
    simp [elemsEnc] at h
    subst h
    simp [joinLoop]
  | cons x xs ih =>
    intro bs h i buf hi
    obtain ⟨b, bs1, rfl, h1, _, h2⟩ := elemsEnc_cons d q e x xs _ h
    simp only [joinLoop, hi, if_true, hproc x b h1]
    rw [ih bs1 h2 (i + 1) _ (by omega), joinSep_cons]
    simp

theorem joinLoop_start (d : Deps) (q : Nat) (e : Ty) (proc : Value → Bytes × Ret)
    (hproc : ∀ x b, elemEnc d q e x = some b → proc ⟨e, x, false⟩ = (b, .nil))
    (xs : List Val) (bs : List Bytes) (h : elemsEnc d q e xs = some bs) :
    joinLoop d.envSeparator proc e 0 xs [] = (joinSep d.envSeparator bs, .nil) := by
  cases xs with
  | nil =>
    simp [elemsEnc] at h
    subst h
    simp [joinLoop, joinSep]
  | cons x xs =>
    obtain ⟨b, bs1, rfl, h1, _, h2⟩ := elemsEnc_cons d q e x xs _ h
    simp only [joinLoop, Nat.lt_irrefl, if_false, hproc x b h1]
    rw [joinLoop_enc d q e proc hproc xs bs1 h2 1 _ (by omega), joinSep_cons]
    simp

theorem splitOn_no_sep (sep : UInt8) (b : Bytes) (h : sep ∉ b) : splitOn sep b = [b] := by
  induction b with
  | nil => rfl
  | cons c cs ih =>
    have hc : c ≠ sep := fun he => h (he ▸ List.mem_cons_self _ _)
    have hcs : sep ∉ cs := fun hm => h (List.mem_cons_of_mem _ hm)
    simp [splitOn, hc, ih hcs]

theorem splitOn_append_sep (sep : UInt8) (b rest : Bytes) (h : sep ∉ b) :
    splitOn sep (b ++ sep :: rest) = b :: splitOn sep rest := by
  induction b with
  | nil => simp [splitOn]
  | cons c cs ih =>
    have hc : c ≠ sep := fun he => h (he ▸ List.mem_cons_self _ _)
    have hcs : sep ∉ cs := fun hm => h (List.mem_cons_of_mem _ hm)
    simp [splitOn, hc, ih hcs]

/-- Splitting the joined parts gives the parts back when none has the separator. -/
theorem splitOn_joinSep (sep : UInt8) :
    ∀ bs : List Bytes, bs ≠ [] → (∀ b ∈ bs, sep ∉ b) → splitOn sep (joinSep sep bs) = bs := by
  intro bs
  induction bs with
  | nil => intro h; exact absurd rfl h
  | cons b rest ih =>
    intro _ hsep
    cases rest with
    | nil => simpa [joinSep] using splitOn_no_sep sep b (hsep b (List.mem_cons_self _ _))
    | cons c cs =>
      simp only [joinSep]
      rw [splitOn_append_sep sep b _ (hsep b (List.mem_cons_self _ _)),
        ih (by simp) (fun x hx => hsep x (List.mem_cons_of_mem _ hx))]

/-- The loop over the parts parses each element back. -/
theorem procLoop_enc (d : Deps) (q : Nat) (e : Ty) (proc : Bytes → Value → Val × Ret)
    (hproc : ∀ x b z, elemEnc d q e x = some b → proc b ⟨e, z, true⟩ = (x, .nil)) :
    ∀ (xs : List Val) (bs : List Bytes), elemsEnc d q e xs = some bs →
      ∀ zs : List Val, zs.length = bs.length → procLoop proc e true bs zs = (xs, .nil) := by
  intro xs
  induction xs with
  | nil =>
    intro bs h zs hz
    simp [elemsEnc] at h
    subst h
    have : zs = [] := List.length_eq_zero.mp hz
    subst this
    simp [procLoop]
  | cons x xs ih =>
    intro bs h zs hz
    obtain ⟨b, bs1, rfl, h1, _, h2⟩ := elemsEnc_cons d q e x xs _ h
    cases zs with
    | nil => simp at hz
    | cons z zs1 =>
      simp only [procLoop, hproc x b z h1]
      rw [ih bs1 h2 zs1 (by simpa using hz)]

theorem rawLoop_all : ∀ (b : Bytes) (zs : List Val), zs.length = b.length →
    rawLoop b zs = b.map (fun c => Val.uint c.toNat) := by
  intro b
  induction b with
  | nil =>
    intro zs hz
    have : zs = [] := List.length_eq_zero.mp hz
    subst this
    rfl
  | cons c cs ih =>
    intro zs hz
    cases zs with
    | nil => simp at hz
    | cons z zs1 =>
      simp only [rawLoop, List.map_cons]
      rw [ih zs1 (by simpa using hz)]

theorem toBytes_length : ∀ (ys : List Val) (b : Bytes), toBytes ys = some b →
    b.length = ys.length := by
  intro ys b h
  rw [← (toBytes_spec ys b h).1]
  simp
theorem setEnv_valid (s : setterState) (b : Bytes) (hv : setenvValid s.ctx.field.name b = true) :
    s.setEnv b = (⟨s.ctx, (s.ctx.field.name, b) :: s.env⟩, .nil) := by
  simp [setterState.setEnv, Setenv, hv]

theorem execSet_pointerSetter (d : Deps) (n : Nat) (s : setterState) (v : Value) :
    execSet d (n + 1) (.func .pointerSetter) s v = pointerSetter (execSet d n) s v :=
  rfl

theorem execSet_structSetter (d : Deps) (n : Nat) (s : setterState) (v : Value) :
    execSet d (n + 1) (.func .structSetter) s v = structSetter (execSet d n) s v :=
  rfl

theorem getEnv_found (env : Env) (s : getterState) (b : Bytes) (hb : s.buf = [])
    (he : Getenv env s.ctx.field.name = b) (hm : (s.ctx.field.mandatory && b.isEmpty) = false) :
    s.getEnv env = ({ s with buf := b }, .nil) := by
  simp [getterState.getEnv, he, hm, hb]

theorem typeFunctions_array (m : Nat) (e : Ty) (dc : Decl) (p : procFunc) (q : setProcFunc)
    (hg : dc.getter = false) (hs : dc.setter = false)
    (hp : getProc (.array m e dc) = some p) (hq : setProc (.array m e dc) = some q) :
    typeFunctions (.array m e dc) = ⟨.sliceSetter q, .arrayGetter p⟩ := by
  simp [typeFunctions, kindFunctions, Ty.Kind, Ty.decl, hg, hs, arrayGetter, sliceSetter, hp, hq]

theorem isRaw_iff (f : field) (t e : Ty) (he : t.Elem = some e) :
    isRaw f t = true ↔ (f.raw = true ∧ e.Kind = .Uint8) := by
  simp [isRaw, he]

theorem seqEnc_elems (d : Deps) (q : Nat) (raw : Bool) (e : Ty) (ys : List Val) (b : Bytes)
    (h : seqEnc d q raw e ys = some b) (hc : ¬ (raw = true ∧ e.Kind = .Uint8)) :
    ∃ bs, elemsEnc d q e ys = some bs ∧ joinSep d.envSeparator bs = b := by
  simp only [seqEnc, if_neg hc] at h
  cases h1 : elemsEnc d q e ys with
  | none => simp [h1] at h
  | some bs => exact ⟨bs, rfl, by simpa [h1] using h⟩

/-- The closure of `sliceSetter` writes the bytes of an array or slice of the class. -/
theorem seq_set (d : Deps) (q : Nat) (raw : Bool) (t e : Ty) (x : Val) (ys : List Val)
    (b : Bytes) (g : setProcFunc) (n : Nat) (s : setterState) (c : Bool)
    (he : t.Elem = some e) (hg : setProc t = some g) (hx : x.elems = ys)
    (h : seqEnc d q raw e ys = some b) (hqn : q ≤ n)
    (hraw : s.ctx.field.raw = raw) (hv : setenvValid s.ctx.field.name b = true) :
    sliceSetterFunc d (execSetProc d n g) s ⟨t, x, c⟩ =
      (⟨s.ctx, (s.ctx.field.name, b) :: s.env⟩, .nil) := by
  by_cases hc : raw = true ∧ e.Kind = .Uint8
  · have hr : isRaw s.ctx.field t = true := (isRaw_iff _ t e he).mpr ⟨hraw.trans hc.1, hc.2⟩
    simp only [seqEnc, if_pos hc] at h
    simp only [sliceSetterFunc, hr, if_true, hx, (toBytes_spec ys b h).1]
    exact setEnv_valid s b hv
  · have hr : ¬ isRaw s.ctx.field t = true := fun hh =>
      hc ⟨hraw ▸ ((isRaw_iff _ t e he).mp hh).1, ((isRaw_iff _ t e he).mp hh).2⟩
    obtain ⟨bs, h1, h2⟩ := seqEnc_elems d q raw e ys b h hc
    have hj := joinLoop_start d q e (execSetProc d n g)
      (fun x b hxb => elemEnc_set d q t e x b g he hg hxb n false hqn) ys bs h1
    simp only [sliceSetterFunc, hr, if_false, Ty.elemD, he, hx, hj, h2, Bool.false_eq_true]
    exact setEnv_valid s b hv

theorem seqEnc_nil (d : Deps) (q : Nat) (raw : Bool) (e : Ty) :
    seqEnc d q raw e [] = some [] := by
  unfold seqEnc
  split <;> simp [toBytes, elemsEnc, joinSep]

theorem joinSep_eq_nil (sep : UInt8) (bs : List Bytes) (h : joinSep sep bs = []) :
    bs = [] ∨ bs = [[]] := by
  cases bs with
  | nil => exact Or.inl rfl
  | cons b rest =>
    cases rest with
    | nil =>
      simp [joinSep] at h
      exact Or.inr (by rw [h])
    | cons c cs => simp [joinSep] at h

/-- The closure of `sliceGetter` reads the bytes of a slice of the class back. -/
theorem seq_get_slice (d : Deps) (q : Nat) (raw : Bool) (e : Ty) (dc : Decl) (ys : List Val)
    (b : Bytes) (p : procFunc) (n : Nat) (env : Env) (s : getterState)
    (hp : getProc (.slice e dc) = some p) (h : seqEnc d q raw e ys = some b) (hne : b ≠ [])
    (hqn : q ≤ n) (hraw : s.ctx.field.raw = raw) (hb : s.buf = [])
    (he : Getenv env s.ctx.field.name = b)
    (hm : (s.ctx.field.mandatory && b.isEmpty) = false) :
    sliceGetterFunc d (.slice e dc) (execProc d n p) env s ⟨.slice e dc, .nilSlice, true⟩ =
      ({ s with buf := b }, .slice ys, .nil) := by
  have hE : (Ty.slice e dc).Elem = some e := rfl
  have hlen : ¬ b.length = 0 := fun hl => hne (List.length_eq_zero.mp hl)
  simp only [sliceGetterFunc, getEnv_found env s b hb he hm, hlen, if_false]
  by_cases hc : raw = true ∧ e.Kind = .Uint8
  · have hr : isRaw s.ctx.field (.slice e dc) = true :=
      (isRaw_iff _ _ e hE).mpr ⟨hraw.trans hc.1, hc.2⟩
    simp only [seqEnc, if_pos hc] at h
    simp [hr, (toBytes_spec ys b h).2]
  · have hr : ¬ isRaw s.ctx.field (.slice e dc) = true := fun hh =>
      hc ⟨hraw ▸ ((isRaw_iff _ _ e hE).mp hh).1, ((isRaw_iff _ _ e hE).mp hh).2⟩
    obtain ⟨bs, h1, h2⟩ := seqEnc_elems d q raw e ys b h hc
    have hbs : bs ≠ [] := by
      intro hnil
      subst hnil
      exact hne (by simpa [joinSep] using h2.symm)
    have hsplit : splitOn d.envSeparator b = bs := by
      rw [← h2]
      exact splitOn_joinSep _ bs hbs (elemsEnc_nosep d q e ys bs h1)
    have hloop := procLoop_enc d q e (execProc d n p)
      (fun x b z hxb => elemEnc_get d q (.slice e dc) e x b p hE hp hxb n z hqn) ys bs h1
      (List.replicate bs.length (zero e)) (by simp)
    simp only [hr, if_false, hsplit, Ty.elemD, hE, if_true, hloop, Bool.false_eq_true]

/-- The closure of `arrayGetter` reads the bytes of an array of the class back. -/
theorem seq_get_array (d : Deps) (q : Nat) (raw : Bool) (m : Nat) (e : Ty) (dc : Decl)
    (ys : List Val) (b : Bytes) (p : procFunc) (n : Nat) (env : Env) (s : getterState)
    (hp : getProc (.array m e dc) = some p) (h : seqEnc d q raw e ys = some b)
    (hys : ys.length = m) (hz : b = [] → ys = List.replicate m (zero e)) (hqn : q ≤ n)
    (hraw : s.ctx.field.raw = raw) (hb : s.buf = [])
    (he : Getenv env s.ctx.field.name = b)
    (hm : (s.ctx.field.mandatory && b.isEmpty) = false) :
    arrayGetterFunc d (execProc d n p) env s
        ⟨.array m e dc, .array (List.replicate m (zero e)), true⟩ =
      ({ s with buf := b }, .array ys, .nil) := by
  have hE : (Ty.array m e dc).Elem = some e := rfl
  simp only [arrayGetterFunc, getEnv_found env s b hb he hm]
  by_cases hnil : b = []
  · have := hz hnil
    subst hnil
    simp [← this]
  · have hlen : ¬ b.length = 0 := fun hl => hnil (List.length_eq_zero.mp hl)
    simp only [hlen, if_false]
    by_cases hc : raw = true ∧ e.Kind = .Uint8
    · have hr : isRaw s.ctx.field (.array m e dc) = true :=
        (isRaw_iff _ _ e hE).mpr ⟨hraw.trans hc.1, hc.2⟩
      simp only [seqEnc, if_pos hc] at h
      have hbl : b.length = m := (toBytes_length ys b h).trans hys
      have hraw2 := rawLoop_all b (List.replicate m (zero e)) (by simp [hbl])
      simp [hr, Value.Len, hbl, Val.elems, hraw2, (toBytes_spec ys b h).2]
    · have hr : ¬ isRaw s.ctx.field (.array m e dc) = true := fun hh =>
        hc ⟨hraw ▸ ((isRaw_iff _ _ e hE).mp hh).1, ((isRaw_iff _ _ e hE).mp hh).2⟩
      obtain ⟨bs, h1, h2⟩ := seqEnc_elems d q raw e ys b h hc
      have hbs : bs ≠ [] := by
        intro hn
        subst hn
        exact hnil (by simpa [joinSep] using h2.symm)
      have hsplit : splitOn d.envSeparator b = bs := by
        rw [← h2]
        exact splitOn_joinSep _ bs hbs (elemsEnc_nosep d q e ys bs h1)
      have hbl : bs.length = m := (elemsEnc_length d q e ys bs h1).trans hys
      have hloop := procLoop_enc d q e (execProc d n p)
        (fun x b z hxb => elemEnc_get d q (.array m e dc) e x b p hE hp hxb n z hqn) ys bs h1
        (List.replicate m (zero e)) (by simp [hbl])
      simp [hr, hsplit, Value.Len, hbl, Ty.elemD, hE, Val.elems, hloop]

/-- `Set` on a leaf of the class writes its bytes under the name of the field. -/
theorem leaf_set (d : Deps) (q : Nat) (raw : Bool) (t : Ty) (x : Val) (b : Bytes)
    (h : leafEnc d q raw t x = some b) (n : Nat) (s : setterState) (c : Bool)
    (hqn : q ≤ n + 1)
    (hraw : s.ctx.field.raw = raw) (hv : setenvValid s.ctx.field.name b = true) :
    ∃ ctx, execSet d (n + 2) (.func (typeFunctions t).setterFunc) s ⟨t, x, c⟩ =
        (⟨ctx, (s.ctx.field.name, b) :: s.env⟩, .nil) ∧ ctx.err = s.ctx.err := by
  cases t with
  | basic k dc =>
    have h1 : scalarEnc d (.basic k dc) x = some b := by simpa [leafEnc] using h
    rw [scalar_set d _ x b h1 (n + 1) s c, setEnv_valid s b hv]
    exact ⟨_, rfl, rfl⟩
  | slice e dc =>
    have key : ∀ ys, (dc.setter = false ∧ dc.getter = false ∧
          (getProc (.slice e dc)).isSome = true ∧ (setProc (.slice e dc)).isSome = true) →
        x.elems = ys → seqEnc d q raw e ys = some b →
        ∃ ctx, execSet d (n + 2) (.func (typeFunctions (.slice e dc)).setterFunc) s
            ⟨.slice e dc, x, c⟩ =
          (⟨ctx, (s.ctx.field.name, b) :: s.env⟩, .nil) ∧ ctx.err = s.ctx.err := by
      intro ys hc hx hy
      obtain ⟨hs, hg, hp0, hq0⟩ := hc
      obtain ⟨p, hp⟩ := Option.isSome_iff_exists.mp hp0
      obtain ⟨g, hq⟩ := Option.isSome_iff_exists.mp hq0
      rw [typeFunctions_slice e dc p g hg hs hp hq, execSet_sliceSetter,
        seq_set d q raw (.slice e dc) e x ys b g (n + 1) s c rfl hq hx hy hqn hraw hv]
      exact ⟨_, rfl, rfl⟩
    cases x with
    | nilSlice =>
      simp only [leafEnc] at h
      split at h
      · rename_i hc
        simp only [Option.some.injEq] at h
        subst h
        exact key [] hc rfl (seqEnc_nil d q raw e)
      · cases h
    | slice ys =>
      simp only [leafEnc] at h
      split at h
      · rename_i hc
        cases hq : seqEnc d q raw e ys with
        | none => simp [hq] at h
        | some b1 =>
          simp only [hq] at h
          split at h
          · cases h
          · simp only [Option.some.injEq] at h
            subst h
            exact key ys hc rfl hq
      · cases h
    | _ => simp [leafEnc] at h
  | array m e dc =>
    cases x with
    | array ys =>
      simp only [leafEnc] at h
      split at h
      · rename_i hc
        obtain ⟨hs, hg, hp0, hq0, _⟩ := hc
        obtain ⟨p, hp⟩ := Option.isSome_iff_exists.mp hp0
        obtain ⟨g, hq⟩ := Option.isSome_iff_exists.mp hq0
        rw [typeFunctions_array m e dc p g hg hs hp hq, execSet_sliceSetter,
          seq_set d q raw (.array m e dc) e (.array ys) ys b g (n + 1) s c rfl hq rfl h hqn
            hraw hv]
        exact ⟨_, rfl, rfl⟩
      · cases h
    | _ => simp [leafEnc] at h
  | _ => simp [leafEnc] at h

/-- `Get` on a leaf of the class, on a store that holds its bytes under the name of the
field, yields the value. -/
theorem leaf_get (d : Deps) (q : Nat) (raw : Bool) (t : Ty) (x : Val) (b : Bytes)
    (h : leafEnc d q raw t x = some b) (n : Nat) (env : Env) (s : getterState)
    (hqn : q ≤ n + 1)
    (hraw : s.ctx.field.raw = raw) (hb : s.buf = [])
    (he : Getenv env s.ctx.field.name = b) (hok : leafOK s.ctx.field t x b) :
    ∃ s1, execGet d env (n + 2) (.func (typeFunctions t).getterFunc) s ⟨t, zero t, true⟩ =
        (s1, x, .nil) ∧ s1.ctx.err = s.ctx.err := by
  obtain ⟨_, hm, hp⟩ := hok
  cases t with
  | basic k dc =>
    have h1 : scalarEnc d (.basic k dc) x = some b := by simpa [leafEnc] using h
    rw [scalar_get d _ x b h1 (n + 1) env s _ hb he hm
      (fun hnil => (scalarEnc_nil d _ x (hnil ▸ h1)).symm)]
    exact ⟨_, rfl, rfl⟩
  | slice e dc =>
    have z : zero (.slice e dc) = .nilSlice := by simp [zero]
    cases x with
    | nilSlice =>
      simp only [leafEnc] at h
      split at h
      · rename_i hc
        obtain ⟨hs, hg, hp0, hq0⟩ := hc
        simp only [Option.some.injEq] at h
        subst h
        obtain ⟨p, hp1⟩ := Option.isSome_iff_exists.mp hp0
        obtain ⟨g, hq⟩ := Option.isSome_iff_exists.mp hq0
        rw [typeFunctions_slice e dc p g hg hs hp1 hq, execGet_sliceGetter, z]
        refine ⟨{ s with buf := [] }, ?_, rfl⟩
        simp [sliceGetterFunc, getEnv_found env s [] hb he hm]
      · cases h
    | slice ys =>
      simp only [leafEnc] at h
      split at h
      · rename_i hc
        obtain ⟨hs, hg, hp0, hq0⟩ := hc
        cases hq : seqEnc d q raw e ys with
        | none => simp [hq] at h
        | some b1 =>
          simp only [hq] at h
          split at h
          · cases h
          · rename_i hne
            simp only [Option.some.injEq] at h
            subst h
            obtain ⟨p, hp1⟩ := Option.isSome_iff_exists.mp hp0
            obtain ⟨g, hq1⟩ := Option.isSome_iff_exists.mp hq0
            rw [typeFunctions_slice e dc p g hg hs hp1 hq1, execGet_sliceGetter, z,
              seq_get_slice d q raw e dc ys b1 p (n + 1) env s hp1 hq (by simpa using hne)
                hqn hraw hb he hm]
            exact ⟨_, rfl, rfl⟩
      · cases h
    | _ => simp [leafEnc] at h
  | array m e dc =>
    have z : zero (.array m e dc) = .array (List.replicate m (zero e)) := by simp [zero]
    cases x with
    | array ys =>
      simp only [leafEnc] at h
      split at h
      · rename_i hc
        obtain ⟨hs, hg, hp0, hq0, hys⟩ := hc
        obtain ⟨p, hp1⟩ := Option.isSome_iff_exists.mp hp0
        obtain ⟨g, hq1⟩ := Option.isSome_iff_exists.mp hq0
        rw [typeFunctions_array m e dc p g hg hs hp1 hq1, execGet_arrayGetter, z,
          seq_get_array d q raw m e dc ys b p (n + 1) env s hp1 h hys hp hqn hraw hb he hm]
        exact ⟨_, rfl, rfl⟩
      · cases h
    | _ => simp [leafEnc] at h
  | _ => simp [leafEnc] at h

theorem fieldStep_anonymous (i : Nat) (sf : StructField) (fd : field)
    (ha : sf.Anonymous = true) (h : fieldStep i sf = .append fd) : fd.embedded ≠ none := by
  unfold fieldStep at h
  rw [if_pos ha] at h
  unfold embeddedStep at h
  split at h
  · simp at h
  · split at h
    · simp at h
    · simp at h
      subst h
      simp [field.embedded]

theorem get_wrap (r : GetResult) (x : Val) (e : Option Error) (g : Val → Val)
    (h : ∃ s1, r = (s1, x, .nil) ∧ s1.ctx.err = e) :
    ∃ s1, (match r with
      | (s, y, err) => (s, g y, err)) = (s1, g x, .nil) ∧ s1.ctx.err = e := by
  obtain ⟨s1, h1, h2⟩ := h
  exact ⟨s1, by rw [h1], h2⟩

/-- The routines of a leaf type take a leaf of the class there and back. -/
theorem leaf_routine (d : Deps) (q n : Nat) (fd : field) (t : Ty) (x : Val) (b : Bytes)
    (h : leafEnc d q fd.raw t x = some b) (hok : leafOK fd t x b) (hqn : q ≤ n + 1) :
    RoutineBack d (n + 2) fd t x := by
  refine ⟨[(fd.name, b)], ?_, ?_⟩
  · intro s c hn hr
    obtain ⟨ctx, h1, h2⟩ := leaf_set d q fd.raw t x b h n s c hqn hr (by rw [hn]; exact hok.1)
    exact ⟨ctx, by rw [h1, hn]; rfl, h2⟩
  · intro env henv s hn hr hm hb
    have he : Getenv env s.ctx.field.name = b := by
      rw [hn]
      exact henv (fd.name, b) (List.mem_singleton.mpr rfl)
    have hok2 : leafOK s.ctx.field t x b :=
      ⟨by rw [hn]; exact hok.1, by rw [hm]; exact hok.2.1, hok.2.2⟩
    exact leaf_get d q fd.raw t x b h n env s hqn hr hb he hok2

/-- The routines of a pointer type take a pointer that is not null there and back when
those of the pointee do so for what it points to and `isEmptyValue` does not report
that as empty. -/
theorem pointer_routine (d : Deps) (m : Nat) (fd : field) (e : Ty) (y : Val)
    (hne : d.isEmptyValue ⟨e, y, true⟩ = false) (h : RoutineBack d m fd e y) :
    RoutineBack d (m + 1) fd (.pointer e) (.ptr y) := by
  obtain ⟨W, hset, hget⟩ := h
  refine ⟨W, ?_, ?_⟩
  · intro s c hn hr
    obtain ⟨ctx, h1, h2⟩ := hset (s.setTyp e) true
      (by simpa [setterState.setTyp] using hn) (by simpa [setterState.setTyp] using hr)
    refine ⟨ctx, ?_, by simpa [setterState.setTyp] using h2⟩
    have hv : valueFromPtr ⟨.pointer e, .ptr y, c⟩ = ⟨e, y, true⟩ := by
      simp [valueFromPtr, Value.Kind, Ty.Kind, Ty.elemD, Ty.Elem]
    rw [typeFunctions_pointer, execSet_pointerSetter, pointerSetter, hv,
      setterState.reflectValue]
    simpa [setterState.setTyp] using h1
  · intro env henv s hn hr hm hb
    obtain ⟨s1, h1, h2⟩ := hget env henv (s.setTyp e)
      (by simpa [getterState.setTyp] using hn) (by simpa [getterState.setTyp] using hr)
      (by simpa [getterState.setTyp] using hm) (by simpa [getterState.setTyp] using hb)
    refine ⟨s1, ?_, by simpa [getterState.setTyp] using h2⟩
    have z : zero (.pointer e) = .nilPtr := by simp [zero]
    rw [typeFunctions_pointer, execGet_pointerGetter, z]
    simp only [pointerGetter, Ty.elemD, Ty.Elem, getterState.reflectValue]
    rw [h1]
    simp [hne]

/-- The routines of a pointer type take a null pointer there and back when those of the
pointee do so for its zero value and `isEmptyValue` reports that as empty. -/
theorem pointer_routine_nil (d : Deps) (m : Nat) (fd : field) (e : Ty)
    (hem : d.isEmptyValue ⟨e, zero e, true⟩ = true) (h : RoutineBack d m fd e (zero e)) :
    RoutineBack d (m + 1) fd (.pointer e) .nilPtr := by
  obtain ⟨W, hset, hget⟩ := h
  refine ⟨W, ?_, ?_⟩
  · intro s c hn hr
    obtain ⟨ctx, h1, h2⟩ := hset (s.setTyp e) true
      (by simpa [setterState.setTyp] using hn) (by simpa [setterState.setTyp] using hr)
    refine ⟨ctx, ?_, by simpa [setterState.setTyp] using h2⟩
    have hv : valueFromPtr ⟨.pointer e, .nilPtr, c⟩ = ⟨e, zero e, true⟩ := by
      simp [valueFromPtr, Value.Kind, Ty.Kind, Ty.elemD, Ty.Elem]
    rw [typeFunctions_pointer, execSet_pointerSetter, pointerSetter, hv,
      setterState.reflectValue]
    simpa [setterState.setTyp] using h1
  · intro env henv s hn hr hm hb
    obtain ⟨s1, h1, h2⟩ := hget env henv (s.setTyp e)
      (by simpa [getterState.setTyp] using hn) (by simpa [getterState.setTyp] using hr)
      (by simpa [getterState.setTyp] using hm) (by simpa [getterState.setTyp] using hb)
    refine ⟨s1, ?_, by simpa [getterState.setTyp] using h2⟩
    have z : zero (.pointer e) = .nilPtr := by simp [zero]
    rw [typeFunctions_pointer, execGet_pointerGetter, z]
    simp only [pointerGetter, Ty.elemD, Ty.Elem, getterState.reflectValue]
    rw [h1]
    simp [hem]

/-- The routines of a record type without methods take a record there and back when the
walks over its fields do. -/
theorem struct_routine (d : Deps) (m : Nat) (fd : field) (fs : List StructField) (dc : Decl)
    (x : Val) (hs : dc.setter = false) (hg : dc.getter = false)
    (h : WalksBack d m (.struct fs dc) x) : RoutineBack d (m + 2) fd (.struct fs dc) x := by
  obtain ⟨f, W, htf, hset, hget⟩ := h
  refine ⟨W, ?_, ?_⟩
  · intro s c _ _
    simp only [typeFunctions_struct_setter fs dc hs, execSet_structSetter, structSetter, htf,
      execSet_fields, structFields.set]
    exact hset _
  · intro env henv s _ _ _ _
    simp only [typeFunctions_struct_getter fs dc hg, execGet_structGetter, structGetter, htf,
      execGet_fields, structFields.get]
    exact hget env henv _

/-- One round of each walk for a field that meets `RoundTripsField`. -/
theorem field_roundtrip (d : Deps) (value : field → Ty → Val → Prop) (m : Nat)
    (ih : ∀ fd t x, value fd t x → RoutineBack d m fd t x ∧
      (t.Kind = .Struct → ∃ n, m = n + 1 ∧ WalksBack d n t x))
    (i : Nat) (sf : StructField) (x : Val) (fd : field)
    (hstep : fieldStep i sf = .append fd) (hrt : RoundTripsField d value i sf x) :
    ∃ W : Env,
      (∀ (v : Value) (s : setterState), v.Field fd.index = some ⟨sf.Type, x, false⟩ →
        ∃ ctx, setRound d (execSet d m) fd s v = (⟨ctx, W ++ s.env⟩, .nil) ∧
          ctx.err = s.ctx.err) ∧
      (∀ env : Env, (∀ p ∈ W, Getenv env p.1 = p.2) → ∀ (v : Value) (s : getterState),
        v.Field fd.index = some ⟨sf.Type, zero sf.Type, true⟩ →
        ∃ s1, getRound (execGet d env m) fd s v =
            (s1, v.val.setField fd.index x, .nil) ∧ s1.ctx.err = s.ctx.err) := by
  unfold RoundTripsField at hrt
  rw [hstep] at hrt
  simp only [] at hrt
  obtain ⟨hmand, hkind, hval⟩ := hrt
  obtain ⟨⟨W, hset, hget⟩, hwalk⟩ := ih fd sf.Type x hval
  cases hA : sf.Anonymous with
  | true =>
    obtain ⟨n, hm, f1, W1, htf1, hset1, hget1⟩ := hwalk (hkind hA)
    subst hm
    cases hT : sf.Type with
    | struct fs dc =>
      rw [hT] at htf1 hset1 hget1 hmand
      have hvp : ∀ c, valueFromPtr ⟨.struct fs dc, x, c⟩ = ⟨.struct fs dc, x, c⟩ := by
        intro c
        simp [valueFromPtr, Value.Kind, Ty.Kind]
      have he := fieldStep_embedded i sf hA (by rw [hT]; rfl)
      rw [hT] at he
      simp only [embeddedType, htf1] at he
      rw [he] at hstep
      cases hstep
      refine ⟨W1, ?_, ?_⟩
      · intro v s hF
        simp only [field.index] at hF
        simp only [setRound, field.index, hF, field.mandatory, field.embedded, Bool.false_and,
          hvp, execSet_fields, structFields.set]
        exact hset1 _
      · intro env henv v s hF
        simp only [field.index] at hF
        have hk2 : ¬ (⟨.struct fs dc, zero (.struct fs dc), true⟩ : Value).Kind = .Pointer := by
          simp [Value.Kind, Ty.Kind]
        simp only [getRound, field.index, hF, field.embedded, hk2, if_false, execGet_fields,
          structFields.get]
        apply get_wrap
        exact hget1 env henv _
    | _ => rw [hT] at htf1; simp [typeFields] at htf1
  | false =>
    obtain ⟨hidx, _, hfun, hemb⟩ := fieldStep_leaf i sf fd hA hstep
    refine ⟨W, ?_, ?_⟩
    · intro v s hF
      obtain ⟨ctx, h1, h2⟩ := hset { s with ctx := { s.ctx with field := fd } } false rfl rfl
      refine ⟨ctx, ?_, h2⟩
      simp only [setRound, hF, hmand, hemb, hfun]
      exact h1
    · intro env henv v s hF
      obtain ⟨s1, h1, h2⟩ := hget env henv
        ({ s with ctx := { s.ctx with field := fd } } : getterState).Reset rfl rfl rfl rfl
      refine ⟨s1, ?_, h2⟩
      simp only [getRound, hF, hemb, hfun]
      rw [h1]

theorem list_get_append {α : Type} (pre : List α) (x : α) (post : List α) :
    (pre ++ x :: post).get? pre.length = some x := by
  induction pre with
  | nil => rfl
  | cons a rest ih => simpa using ih

theorem list_set_append {α : Type} (pre : List α) (z x : α) (post : List α) :
    (pre ++ z :: post).set pre.length x = pre ++ x :: post := by
  induction pre with
  | nil => rfl
  | cons a rest ih => simp

theorem zeroFields_cons (sf : StructField) (rest : List StructField) :
    zeroFields (sf :: rest) = zero sf.Type :: zeroFields rest := by
  cases sf
  simp [zeroFields, StructField.Type]

/-- The walks over the fields from a position on, for values that meet `RoundTripsFields`. -/
theorem fields_roundtrip (d : Deps) (value : field → Ty → Val → Prop) (m : Nat)
    (ih : ∀ fd t x, value fd t x → RoutineBack d m fd t x ∧
      (t.Kind = .Struct → ∃ n, m = n + 1 ∧ WalksBack d n t x)) (dc : Decl) :
    ∀ (suf pre : List StructField) (xpre xsuf : List Val), xpre.length = pre.length →
      RoundTripsFields d value suf pre.length xsuf →
      ∃ f W, typeFieldsFrom suf pre.length = some f ∧
        (∀ s : setterState, ∃ ctx,
          setLoop d (execSet d m) f s
              ⟨.struct (pre ++ suf) dc, .struct (xpre ++ xsuf), false⟩ =
            (⟨ctx, W ++ s.env⟩, .nil) ∧ ctx.err = s.ctx.err) ∧
        (∀ env : Env, (∀ p ∈ W, Getenv env p.1 = p.2) → ∀ s : getterState, ∃ s1,
          getLoop (execGet d env m) f s
              ⟨.struct (pre ++ suf) dc, .struct (xpre ++ zeroFields suf), true⟩ =
            (s1, .struct (xpre ++ xsuf), .nil) ∧ s1.ctx.err = s.ctx.err) := by
  intro suf
  induction suf with
  | nil =>
    intro pre xpre xsuf _ hrt
    simp only [RoundTripsFields] at hrt
    subst hrt
    refine ⟨[], [], by simp [typeFieldsFrom], ?_, ?_⟩
    · intro s
      exact ⟨s.ctx, rfl, rfl⟩
    · intro env _ s
      exact ⟨s, by simp [getLoop, zeroFields], rfl⟩
  | cons sf rest ihl =>
    intro pre xpre xsuf hlen hrt
    cases xsuf with
    | nil => simp [RoundTripsFields] at hrt
    | cons x xs =>
      simp only [RoundTripsFields] at hrt
      obtain ⟨hfield, hrest⟩ := hrt
      have hlen2 : (xpre ++ [x]).length = (pre ++ [sf]).length := by simp [hlen]
      have hrest2 : RoundTripsFields d value rest (pre ++ [sf]).length xs := by
        simpa using hrest
      obtain ⟨f1, W1, htf, hset, hget⟩ := ihl (pre ++ [sf]) (xpre ++ [x]) xs hlen2 hrest2
      simp only [List.append_assoc, List.singleton_append, List.length_append,
        List.length_singleton] at htf hset hget
      rw [typeFieldsFrom_cons, zeroFields_cons]
      cases hstep : fieldStep pre.length sf with
      | skip =>
        have hx : x = zero sf.Type := by
          simpa [RoundTripsField, hstep] using hfield
        subst hx
        exact ⟨f1, W1, htf, hset, hget⟩
      | panic => simp [RoundTripsField, hstep] at hfield
      | append fd =>
        have hidx := fieldStep_index _ _ _ hstep
        obtain ⟨Wf, hs1, hg1⟩ := field_roundtrip d value m ih pre.length sf x fd hstep hfield
        refine ⟨fd :: f1, W1 ++ Wf, by simp [htf], ?_, ?_⟩
        · intro s
          have hF : (⟨.struct (pre ++ sf :: rest) dc, .struct (xpre ++ x :: xs), false⟩ :
              Value).Field fd.index = some ⟨sf.Type, x, false⟩ := by
            rw [hidx]
            exact Field_split pre rest sf dc _ x false (hlen ▸ list_get_append xpre x xs)
          obtain ⟨c1, e1, r1⟩ := hs1 _ s hF
          obtain ⟨c2, e2, r2⟩ := hset ⟨c1, Wf ++ s.env⟩
          refine ⟨c2, ?_, r2.trans r1⟩
          rw [setLoop_cons, e1]
          simp only []
          rw [e2, List.append_assoc]
        · intro env henv s
          have hF : (⟨.struct (pre ++ sf :: rest) dc,
              .struct (xpre ++ zero sf.Type :: zeroFields rest), true⟩ :
              Value).Field fd.index = some ⟨sf.Type, zero sf.Type, true⟩ := by
            rw [hidx]
            exact Field_split pre rest sf dc _ _ true
              (hlen ▸ list_get_append xpre (zero sf.Type) (zeroFields rest))
          obtain ⟨s1, e1, r1⟩ := hg1 env (fun p hp => henv p (List.mem_append_right _ hp)) _ s hF
          obtain ⟨s2, e2, r2⟩ := hget env (fun p hp => henv p (List.mem_append_left _ hp)) s1
          refine ⟨s2, ?_, r2.trans r1⟩
          rw [getLoop_cons, e1]
          simp only [Val.setField, hidx, ← hlen, list_set_append]
          exact e2

/-- The routines of `Set` and `Get` take every value of the class there and back, at
every depth that is at least twice the nesting depth, and so do the walks over the
fields of a record of the class. -/
theorem value_roundtrip (d : Deps) :
    ∀ (k : Nat) (fd : field) (t : Ty) (x : Val), RoundTrips d k fd t x →
      (∀ m, 2 * k ≤ m → RoutineBack d m fd t x) ∧
      (t.Kind = .Struct → ∀ m, 2 * k ≤ m + 2 → WalksBack d m t x) := by
  intro k
  induction k with
  | zero =>
    intro fd t x h
    simp [RoundTrips] at h
  | succ k ihk =>
    intro fd t x h
    have leafcase : (∃ b, leafEnc d k fd.raw t x = some b ∧ leafOK fd t x b) →
        (∀ m, 2 * (k + 1) ≤ m → RoutineBack d m fd t x) ∧
        (t.Kind = .Struct → ∀ m, 2 * (k + 1) ≤ m + 2 → WalksBack d m t x) := by
      intro ⟨b, hb, hok⟩
      refine ⟨fun m hm => ?_, fun hk => ?_⟩
      · obtain ⟨n, rfl⟩ : ∃ n, m = n + 2 := ⟨m - 2, by omega⟩
        exact leaf_routine d k n fd t x b hb hok (by omega)
      · cases t with
        | struct fs dc => simp [leafEnc] at hb
        | basic kd dc => cases kd <;> simp [Ty.Kind, Basic.Kind] at hk
        | _ => simp [Ty.Kind] at hk
    cases t with
    | struct fs dc =>
      cases x with
      | struct xs =>
        simp only [RoundTrips] at h
        obtain ⟨hs, hg, hfs⟩ := h
        have hB : ∀ m, 2 * k ≤ m → WalksBack d m (.struct fs dc) (.struct xs) := by
          intro m hm
          have ih : ∀ fd t x, RoundTrips d k fd t x → RoutineBack d m fd t x ∧
              (t.Kind = .Struct → ∃ n, m = n + 1 ∧ WalksBack d n t x) := by
            intro fd t x hv
            have hk1 : 1 ≤ k := by
              cases k with
              | zero => simp [RoundTrips] at hv
              | succ _ => omega
            obtain ⟨hA, hBk⟩ := ihk fd t x hv
            exact ⟨hA m hm, fun hK => ⟨m - 1, by omega, hBk hK (m - 1) (by omega)⟩⟩
          obtain ⟨f, W, htf, hset, hget⟩ :=
            fields_roundtrip d (RoundTrips d k) m ih dc fs [] [] xs rfl hfs
          refine ⟨f, W, by simpa [typeFields] using htf, ?_, ?_⟩
          · simpa using hset
          · have z : zero (.struct fs dc) = .struct (zeroFields fs) := by simp [zero]
            rw [z]
            simpa using hget
        refine ⟨fun m hm => ?_, fun _ m hm => hB m (by omega)⟩
        obtain ⟨n, rfl⟩ : ∃ n, m = n + 2 := ⟨m - 2, by omega⟩
        exact struct_routine d n fd fs dc _ hs hg (hB n (by omega))
      | _ => exact leafcase (by simpa [RoundTrips] using h)
    | pointer e =>
      cases x with
      | ptr y =>
        simp only [RoundTrips] at h
        obtain ⟨hne, hv⟩ := h
        refine ⟨fun m hm => ?_, fun hk => by simp [Ty.Kind] at hk⟩
        obtain ⟨n, rfl⟩ : ∃ n, m = n + 1 := ⟨m - 1, by omega⟩
        exact pointer_routine d n fd e y hne ((ihk fd e y hv).1 n (by omega))
      | nilPtr =>
        simp only [RoundTrips] at h
        obtain ⟨hem, hv⟩ := h
        refine ⟨fun m hm => ?_, fun hk => by simp [Ty.Kind] at hk⟩
        obtain ⟨n, rfl⟩ : ∃ n, m = n + 1 := ⟨m - 1, by omega⟩
        exact pointer_routine_nil d n fd e hem ((ihk fd e _ hv).1 n (by omega))
      | _ => exact leafcase (by simpa [RoundTrips] using h)
    | _ => exact leafcase (by simpa [RoundTrips] using h)

theorem Getenv_of_nodup (W env : Env) (p : String × Bytes)
    (hn : (W.map Prod.fst).Nodup) (hp : p ∈ W) : Getenv (W ++ env) p.1 = p.2 := by
  induction W with
  | nil => simp at hp
  | cons q rest ih =>
    simp only [List.map_cons, List.nodup_cons] at hn
    rcases List.mem_cons.mp hp with h | h
    · subst h
      simp [Getenv, List.lookup]
    · have hne : p.1 ≠ q.1 := by
        intro he
        exact hn.1 (he ▸ List.mem_map_of_mem Prod.fst h)
      have := ih hn.2 h
      obtain ⟨q1, q2⟩ := q
      simp only [Getenv, List.cons_append, List.lookup] at this ⊢
      have hb : (p.1 == q1) = false := by simpa using hne
      simpa [hb] using this

/-- C1 (amended): for a record value of the class `RoundTrips` (a record type without
methods of its own, whose fields without descriptor hold their zero values and whose
other fields are records of the class, embedded by value or held in a field, booleans,
integers in the range of their width, floats whose text is not empty and parses back to
the same float, strings, arrays and slices of these scalars or of pointers to them that
are not null, or pointers to any value of the class, which `isEmptyValue` tells from
null), when the names that `Set` writes are pairwise distinct, `Set` succeeds and `Get`
on the store it leaves, into a pointer to the zero value of the type, succeeds and
yields the original value. -/
theorem C1_round_trip (d : Deps) (env : Env) (k m : Nat) (fd : field) (t : Ty) (x : Val)
    (hm : 2 * k ≤ m) (hrec : t.Kind = .Struct)
    (hrt : RoundTrips d k fd t x)
    (hkeys : ((Set d [] (m + 2) (some (t, x))).1.map Prod.fst).Nodup) :
    (Set d env (m + 2) (some (t, x))).2 = .ok ∧
      Get d (Set d env (m + 2) (some (t, x))).1 (m + 3) (some (.pointer t, .ptr (zero t))) =
        (some (.ptr x), .ok) := by
  obtain ⟨f, W, htf, hset, hget⟩ := (value_roundtrip d k fd t x hrt).2 hrec m (by omega)
  cases t with
  | struct fs dc =>
    have hsg : dc.setter = false ∧ dc.getter = false := by
      cases k with
      | zero => simp [RoundTrips] at hrt
      | succ k =>
        cases x with
        | struct xs =>
          simp only [RoundTrips] at hrt
          exact ⟨hrt.1, hrt.2.1⟩
        | _ => simp [RoundTrips, leafEnc] at hrt
    obtain ⟨hs, hg⟩ := hsg
    have hS : ∀ e : Env, Set d e (m + 2) (some (.struct fs dc, x)) = (W ++ e, .ok) := by
      intro e
      obtain ⟨ctx, h1, h2⟩ := hset (setEntry (.struct fs dc) e)
      rw [Set_record d e m fs dc x hs, htf]
      simp only [h1, setFinish]
      have h3 : ctx.err = none := h2
      simp [h3, Outcome.of, setEntry]
    rw [hS [], List.append_nil] at hkeys
    rw [hS env]
    refine ⟨rfl, ?_⟩
    obtain ⟨s1, h1, h2⟩ := hget (W ++ env) (fun p hp => Getenv_of_nodup W env p hkeys hp)
      (getEntry (.struct fs dc))
    rw [Get_record d (W ++ env) m fs dc _ hg, htf]
    simp only [h1, getFinish]
    have h3 : s1.ctx.err = none := h2
    simp [h3, Outcome.of]
  | _ => simp [typeFields] at htf

theorem RoundTripsField_skip (d : Deps) (value : field → Ty → Val → Prop) (i : Nat)
    (sf : StructField) (h : fieldStep i sf = .skip) :
    RoundTripsField d value i sf (zero sf.Type) := by
  simp [RoundTripsField, h]

theorem RoundTripsField_value (d : Deps) (value : field → Ty → Val → Prop) (i : Nat)
    (sf : StructField) (x : Val) (fd : field)
    (h : fieldStep i sf = .append fd)
    (hm : (fd.mandatory && d.isEmptyValue ⟨sf.Type, x, false⟩) = false)
    (ha : sf.Anonymous = true → sf.Type.Kind = .Struct) (hv : value fd sf.Type x) :
    RoundTripsField d value i sf x := by
  simp only [RoundTripsField, h]
  exact ⟨hm, ha, hv⟩

theorem RoundTrips_simpleVal (fd : field) : RoundTrips testDeps 2 fd simple simpleVal :=
  ⟨rfl, rfl,
    RoundTripsField_value _ _ 0 (.mk "A" "" tString (some "ENV_A,m") false) _
      (.mk 0 "ENV_A" tString true false (some (typeFunctions tString)) none)
      rfl rfl (fun h => by cases h) ⟨str "test", rfl, rfl, rfl, trivial⟩,
    RoundTripsField_value _ _ 1 (.mk "B" "" tBool (some "ENV_B") false) _
      (.mk 1 "ENV_B" tBool false false (some (typeFunctions tBool)) none)
      rfl rfl (fun h => by cases h) ⟨str "true", rfl, rfl, rfl, trivial⟩,
    RoundTripsField_value _ _ 2 (.mk "C" "" tInt (some "ENV_C") false) _
      (.mk 2 "ENV_C" tInt false false (some (typeFunctions tInt)) none)
      rfl rfl (fun h => by cases h) ⟨str "28", by decide, rfl, rfl, trivial⟩,
    RoundTripsField_skip _ _ 3 (.mk "e" "envio" tString none false) rfl, rfl⟩

/-- C1 (counterexample): `Set` on the record `skip{simple: &simple{A: "test", B: true,
C: 28}}`, whose embedded record is held by pointer, succeeds and writes the three
variables, but `Get` on that store into a zero-valued `skip` fails with
`ErrPointerToUnexported` and leaves the record at its zero value. -/
theorem C1_embedded_pointer_not_decoded :
    Set testDeps [] 4 (some (skip, skipVal)) =
      ([("ENV_C", str "28"), ("ENV_B", str "true"), ("ENV_A", str "test")], .ok) ∧
    Get testDeps (Set testDeps [] 4 (some (skip, skipVal))).1 5
        (some (.pointer skip, .ptr (zero skip))) =
      (some (.ptr (zero skip)), .error (.ErrPointerToUnexported (some simple))) :=
  ⟨rfl, rfl⟩

/-- C1 (witness): `nested`, `slcArr` and `pointers` with the values of the test file and
a record with a pointer to a record, a slice of pointers and a pointer to an array. -/
theorem C1_round_trip_witness :
    Set testDeps [] 8 (some (nested, nestedVal)) =
      ([("ENV_C", str "28"), ("ENV_B", str "true"), ("ENV_A", str "test"),
        ("ENV_Z", str "-5"), ("ENV_Y", str "true"), ("ENV_X", str "x")], .ok) ∧
    ((Set testDeps [("ENV_X", str "old")] 8 (some (nested, nestedVal))).2 = .ok ∧
      Get testDeps (Set testDeps [("ENV_X", str "old")] 8 (some (nested, nestedVal))).1 9
          (some (.pointer nested, .ptr (zero nested))) =
        (some (.ptr nestedVal), .ok)) ∧
    Set testDeps [] 4 (some (slcArr, slcArrVal)) =
      ([("ENV_BYTES_RAW", str "ABCD"), ("ENV_BYTES", str "65,66,67,68"),
        ("ENV_ARR", str "0,5,8,0,0"), ("ENV_SLC", str "true,false,true")], .ok) ∧
    ((Set testDeps [] 6 (some (slcArr, slcArrVal))).2 = .ok ∧
      Get testDeps (Set testDeps [] 6 (some (slcArr, slcArrVal))).1 7
          (some (.pointer slcArr, .ptr (zero slcArr))) =
        (some (.ptr slcArrVal), .ok)) ∧
    Set testDeps [] 10 (some (pointers, pointersVal)) =
      ([("R", str "3,4"), ("Q", str "1,2"), ("ENV_C", str "28"), ("ENV_B", str "true"),
        ("ENV_A", str "test")], .ok) ∧
    ((Set testDeps [] 10 (some (pointers, pointersVal))).2 = .ok ∧
      Get testDeps (Set testDeps [] 10 (some (pointers, pointersVal))).1 11
          (some (.pointer pointers, .ptr (zero pointers))) =
        (some (.ptr pointersVal), .ok)) :=
  ⟨rfl,
   C1_round_trip testDeps [("ENV_X", str "old")] 3 6 field.new nested nestedVal (by decide) rfl
    ⟨rfl, rfl,
      RoundTripsField_value _ _ 0 (.mk "X" "" tString (some "ENV_X") false) _
        (.mk 0 "ENV_X" tString false false (some (typeFunctions tString)) none)
        rfl rfl (fun h => by cases h) ⟨str "x", rfl, rfl, rfl, trivial⟩,
      RoundTripsField_value _ _ 1 (.mk "Y" "" tBool (some "ENV_Y") false) _
        (.mk 1 "ENV_Y" tBool false false (some (typeFunctions tBool)) none)
        rfl rfl (fun h => by cases h) ⟨str "true", rfl, rfl, rfl, trivial⟩,
      RoundTripsField_value _ _ 2 (.mk "Z" "" tInt (some "ENV_Z") false) _
        (.mk 2 "ENV_Z" tInt false false (some (typeFunctions tInt)) none)
        rfl rfl (fun h => by cases h) ⟨str "-5", by decide, rfl, rfl, trivial⟩,
      RoundTripsField_value _ _ 3 (.mk "simple" "envio" simple none true) _
        (.mk 3 "simple" simple false false none (typeFields simple))
        rfl rfl (fun _ => rfl) (RoundTrips_simpleVal _),
      rfl⟩
    (by decide),
   rfl,
   C1_round_trip testDeps [] 2 4 field.new slcArr slcArrVal (by decide) rfl
    ⟨rfl, rfl,
      RoundTripsField_value _ _ 0 (.mk "Slc" "" (.slice tBool Decl.none) (some "ENV_SLC") false) _
        (.mk 0 "ENV_SLC" (.slice tBool Decl.none) false false
          (some (typeFunctions (.slice tBool Decl.none))) none)
        rfl rfl (fun h => by cases h) ⟨str "true,false,true", by decide, rfl, rfl, trivial⟩,
      RoundTripsField_value _ _ 1 (.mk "Arr" "" (.array 5 tInt Decl.none) (some "ENV_ARR") false) _
        (.mk 1 "ENV_ARR" (.array 5 tInt Decl.none) false false
          (some (typeFunctions (.array 5 tInt Decl.none))) none)
        rfl rfl (fun h => by cases h)
        ⟨str "0,5,8,0,0", by decide, rfl, rfl, fun h => absurd h (by decide)⟩,
      RoundTripsField_value _ _ 2 (.mk "Bytes" "" tBytes (some "ENV_BYTES") false) _
        (.mk 2 "ENV_BYTES" tBytes false false (some (typeFunctions tBytes)) none)
        rfl rfl (fun h => by cases h) ⟨str "65,66,67,68", by decide, rfl, rfl, trivial⟩,
      RoundTripsField_value _ _ 3 (.mk "BytesRaw" "" tBytes (some "ENV_BYTES_RAW,raw") false) _
        (.mk 3 "ENV_BYTES_RAW" tBytes false true (some (typeFunctions tBytes)) none)
        rfl rfl (fun h => by cases h) ⟨str "ABCD", by decide, rfl, rfl, trivial⟩,
      rfl⟩
    (by decide),
   rfl,
   C1_round_trip testDeps [] 4 8 field.new pointers pointersVal (by decide) rfl
    ⟨rfl, rfl,
      RoundTripsField_value _ _ 0 (.mk "P" "" (.pointer simple) (some "P") false) _
        (.mk 0 "P" (.pointer simple) false false (some (typeFunctions (.pointer simple))) none)
        rfl rfl (fun h => by cases h) ⟨rfl, RoundTrips_simpleVal _⟩,
      RoundTripsField_value _ _ 1
        (.mk "Q" "" (.slice (.pointer tInt) Decl.none) (some "Q") false) _
        (.mk 1 "Q" (.slice (.pointer tInt) Decl.none) false false
          (some (typeFunctions (.slice (.pointer tInt) Decl.none))) none)
        rfl rfl (fun h => by cases h) ⟨str "1,2", by decide, rfl, rfl, trivial⟩,
      RoundTripsField_value _ _ 2
        (.mk "R" "" (.pointer (.array 2 tInt Decl.none)) (some "R") false) _
        (.mk 2 "R" (.pointer (.array 2 tInt Decl.none)) false false
          (some (typeFunctions (.pointer (.array 2 tInt Decl.none)))) none)
        rfl rfl (fun h => by cases h)
        ⟨rfl, str "3,4", by decide, rfl, rfl, fun h => absurd h (by decide)⟩,
      rfl⟩
    (by decide)⟩

/-- C12: for an input that is nil (no value) or whose kind is not pointer, `Get`
returns the error "the input value is not a pointer" whatever the environment and the
bound on the depth, and the input is as it was. -/
theorem C12_not_pointer (d : Deps) (env : Env) (n : Nat) (v : Option (Ty × Val))
    (h : ∀ t x, v = some (t, x) → t.Kind ≠ .Pointer) :
    Get d env n v = (v.map Prod.snd, .error .notPointer) := by
  cases v with
  | none => rfl
  | some p =>
    obtain ⟨t, x⟩ := p
    have hk := h t x rfl
    simp [Get, engine.get, hk]

theorem C12_not_pointer_witness :
    Get testDeps [("ENV_A", str "a")] 5 none = (none, .error .notPointer) ∧
    Get testDeps [("ENV_A", str "a")] 5 (some (simple, simpleVal)) =
      (some simpleVal, .error .notPointer) :=
  ⟨C12_not_pointer testDeps [("ENV_A", str "a")] 5 none (fun _ _ h => nomatch h),
   C12_not_pointer testDeps [("ENV_A", str "a")] 5 (some (simple, simpleVal))
    (fun t x h => by cases h; decide)⟩

/-- C13 (code bug): `Set(nil)` does not return an error: `reflect.ValueOf(nil)` is the
zero `Value`, and `reflectValue` calls `Type` on it, which panics. -/
theorem C13_set_nil_panics (d : Deps) (env : Env) (n : Nat) :
    Set d env n none = (env, .panic "reflect: call of reflect.Value.Type on zero Value") :=
  rfl

/-- C17 (code bug): `Get` into `struct { simple; Q bool "env:Q" }` with `ENV_A=a` and
`Q=?`.  The field `Q` is declared by the outer record `afterEmbedded`, but the walk of
the embedded `simple` has left its name in `structName`, so the error reads
"... Go struct field simple.Q of type bool: invalid syntax". -/
theorem C17_error_names_embedded_record :
    (Get testDeps [("ENV_A", str "a"), ("Q", str "?")] 5
        (some (.pointer afterEmbedded, .ptr (zero afterEmbedded)))).2 =
      .error (.field getError "simple" "Q" tBool .ErrSyntax) ∧
    afterEmbedded.Name = "afterEmbedded" :=
  ⟨rfl, rfl⟩

/-- C19 (code bug): a slice of pointers to records, `struct { P []*simple "env:P" }`.
`getProc` and `setProc` return the pointer routine for it, so the field is not taken
as unsupported; with `P=x` the routine of `Get` calls the nil parser of the record
type and panics, with no value it succeeds, and `Set` on a slice with an element
panics on the nil formatter. -/
theorem C19_slice_of_record_pointers :
    (Get testDeps [("P", str "x")] 6 (some (.pointer ptrSlice, .ptr (zero ptrSlice)))).2 =
      .panic "invalid memory address or nil pointer dereference" ∧
    (Get testDeps [] 6 (some (.pointer ptrSlice, .ptr (zero ptrSlice)))).2 = .ok ∧
    (Set testDeps [] 6 (some (ptrSlice, .struct [.slice [.ptr simpleVal]]))).2 =
      .panic "invalid memory address or nil pointer dereference" ∧
    (Set testDeps [] 6 (some (ptrSlice, .struct [.nilSlice]))).2 = .ok :=
  ⟨rfl, rfl, rfl, rfl⟩

theorem typeFields_struct (t : Ty) (f : structFields) (h : typeFields t = some f) :
    t.Kind = .Struct := by
  cases t <;> simp [typeFields] at h
  rfl

/-- C15 (amended): in a record type without `GetENV` of its own whose descriptors can be
derived, given to `Get` by pointer, take an embedded field whose type is a pointer to
a record that has at least one descriptor.  If the fields before it decode without
error and the pointer is null, `Get` fails with `ErrPointerToUnexported` naming the
embedded type, and the embedded pointer and the fields after it are as they were
before the call.  When the pointer is not null, the round of the field is the walk of
the descriptors of the embedded record over the pointee, in whatever state the walk is. -/
theorem C15_embedded_nil_pointer (d : Deps) (env : Env) (n : Nat) (pre post : List StructField)
    (sf : StructField) (dc : Decl) (xs ys : List Val) (dpre emb : structFields)
    (s1 : getterState) (e : Ty)
    (hg : dc.getter = false)
    (hanon : sf.Anonymous = true)
    (hty : sf.Type = .pointer e)
    (hemb : typeFields e = some emb)
    (_hne : emb ≠ [])
    (hpre : typeFieldsFrom pre 0 = some dpre)
    (hpost : (typeFieldsFrom post (pre.length + 1)).isSome = true)
    (hwalk : getLoop (execGet d env n) dpre (getEntry (.struct (pre ++ sf :: post) dc))
        ⟨.struct (pre ++ sf :: post) dc, .struct xs, true⟩ = (s1, .struct ys, .nil)) :
    fieldStep pre.length sf =
      .append (.mk pre.length sf.Name sf.Type false false none (some emb)) ∧
    (xs.get? pre.length = some .nilPtr →
      Get d env (n + 3) (some (.pointer (.struct (pre ++ sf :: post) dc), .ptr (.struct xs))) =
        (some (.ptr (.struct ys)), .error (.ErrPointerToUnexported (some e))) ∧
      ∀ j, pre.length ≤ j → ys.get? j = xs.get? j) ∧
    (∀ (s : getterState) (zs : List Val) (x : Val) (c : Bool),
      zs.get? pre.length = some (.ptr x) →
      getRound (execGet d env n) (.mk pre.length sf.Name sf.Type false false none (some emb)) s
          ⟨.struct (pre ++ sf :: post) dc, .struct zs, c⟩ =
        match execGet d env n (.fields emb)
            ({ s with ctx := { s.ctx with field :=
              (field.mk pre.length sf.Name sf.Type false false none (some emb)) } }.Reset)
            ⟨e, x, true⟩ with
        | (s2, y, err) => (s2, .struct (zs.set pre.length (.ptr y)), err)) := by
  have hstep : fieldStep pre.length sf =
      .append (.mk pre.length sf.Name sf.Type false false none (some emb)) := by
    rw [fieldStep_embedded _ sf hanon (by rw [hty]; exact typeFields_struct e emb hemb), hty]
    simp only [embeddedType, hemb]
  obtain ⟨hlen, hframe⟩ := walk_frame (execGet d env n) pre dpre _ xs ys _ s1 true hpre hwalk
  refine ⟨hstep, ?_, ?_⟩
  · intro hx
    refine ⟨?_, hframe⟩
    have hy : ys.get? pre.length = some .nilPtr := by
      rw [hframe pre.length (Nat.le_refl _), hx]
    have hround : getRound (execGet d env n)
        (.mk pre.length sf.Name sf.Type false false none (some emb)) s1
        ⟨.struct (pre ++ sf :: post) dc, .struct ys, true⟩ =
        (({ s1 with ctx := { s1.ctx with field :=
            (field.mk pre.length sf.Name sf.Type false false none (some emb)) } }.Reset).setErr
            (.ErrPointerToUnexported (some e)), .struct ys, .errExist) := by
      simp only [getRound, field.index, Field_split pre post sf dc ys _ true hy, field.embedded,
        hty, Value.Kind, Ty.Kind, if_true, Ty.Elem]
    rw [Get_round_stop d env n pre post sf dc xs ys dpre _ s1 _ _ _ hg hstep hpre hpost hwalk
      hround (by simp)]
    simp [getFinish, Outcome.of, getterState.setErr]
  · intro s zs x c hz
    simp only [getRound, field.index, Field_split pre post sf dc zs _ c hz, field.embedded,
      hty, Value.Kind, Ty.Kind, if_true, Ty.elemD, Ty.Elem, Val.setField]

/-- C15 (counterexample): `struct { M string "env:M,m"; *simple }` with a null embedded
pointer and an empty environment: `Get` fails on the mandatory field in front, with the
error that names `M`, not with `ErrPointerToUnexported`. -/
theorem C15_earlier_field_fails_first :
    (Get testDeps [] 5
        (some (.pointer mandatoryThenPointer, .ptr (zero mandatoryThenPointer)))).2 =
      .error (.requiredMissing "M") :=
  rfl

theorem C15_embedded_nil_pointer_witness :
    Get testDeps [("ENV_A", str "a")] 4 (some (.pointer skip, .ptr (zero skip))) =
      (some (.ptr (zero skip)), .error (.ErrPointerToUnexported (some simple))) :=
  ((C15_embedded_nil_pointer testDeps [("ENV_A", str "a")] 1
      [.mk "S" "" tString (some "-") false, .mk "K" "" tInt (some "-") false] []
      (.mk "simple" "envio" (.pointer simple) none true) (Decl.plain "skip")
      [.string [], .int 0, .nilPtr] [.string [], .int 0, .nilPtr] []
      [.mk 0 "ENV_A" tString true false (some (typeFunctions tString)) none,
        .mk 1 "ENV_B" tBool false false (some (typeFunctions tBool)) none,
        .mk 2 "ENV_C" tInt false false (some (typeFunctions tInt)) none]
      (getEntry skip) simple rfl rfl rfl rfl (List.cons_ne_nil _ _) rfl rfl rfl).2.1 rfl).1

/-- `Set` on a record whose walk ends in the round of the field `sf`, the fields before
it having been written without error. -/
theorem Set_round_stop (d : Deps) (env : Env) (n : Nat) (pre post : List StructField)
    (sf : StructField) (dc : Decl) (x : Val) (dpre : structFields) (fd : field)
    (s1 s2 : setterState) (r : Ret)
    (hs : dc.setter = false)
    (hstep : fieldStep pre.length sf = .append fd)
    (hpre : typeFieldsFrom pre 0 = some dpre)
    (hpost : (typeFieldsFrom post (pre.length + 1)).isSome = true)
    (hwalk : setLoop d (execSet d n) dpre (setEntry (.struct (pre ++ sf :: post) dc) env)
        ⟨.struct (pre ++ sf :: post) dc, x, false⟩ = (s1, .nil))
    (hround : setRound d (execSet d n) fd s1 ⟨.struct (pre ++ sf :: post) dc, x, false⟩ =
        (s2, r))
    (hr : r ≠ .nil) :
    Set d env (n + 2) (some (.struct (pre ++ sf :: post) dc, x)) = setFinish (s2, r) := by
  obtain ⟨dpost, hdpost⟩ := Option.isSome_iff_exists.mp hpost
  rw [Set_record d env _ _ dc _ hs, typeFields_split pre post sf dc dpre dpost fd hpre hstep hdpost]
  simp only []
  rw [setLoop_append, hwalk]
  simp only []
  rw [setLoop_cons, hround]
  cases r <;> simp at hr ⊢

/-- C20 (amended): take a record type without a method of its own for the direction of
the call, whose descriptors can be derived, and a field of it that is not embedded and
whose type has its own `GetENV` (for `Get` on a pointer to the record) or `SetENV` (for
`Set` on the record) method.  If the fields before it are decoded (written) without
error, the field is not skipped (mandatory with the variable missing for `Get`,
mandatory and empty for `Set`) and the method returns the error `e`, then the call ends
with the error `e` itself; after `Get` that field and the fields after it are as they
were before the call, and `Set` leaves the store as the fields before have left it. -/
theorem C20_converter_error (d : Deps) (env : Env) (n : Nat) (pre post : List StructField)
    (sf : StructField) (dc : Decl) (xs : List Val) (dpre : structFields) (fd : field)
    (e : String)
    (hanon : sf.Anonymous = false)
    (hstep : fieldStep pre.length sf = .append fd)
    (hpre : typeFieldsFrom pre 0 = some dpre)
    (hpost : (typeFieldsFrom post (pre.length + 1)).isSome = true)
    (hlen : pre.length < xs.length) :
    (∀ (ys : List Val) (s1 : getterState), dc.getter = false → sf.Type.decl.getter = true →
      (fd.mandatory && (Getenv env fd.name).isEmpty) = false →
      (d.GetENV sf.Type (Getenv env fd.name)).2 = some e →
      getLoop (execGet d env (n + 1)) dpre (getEntry (.struct (pre ++ sf :: post) dc))
        ⟨.struct (pre ++ sf :: post) dc, .struct xs, true⟩ = (s1, .struct ys, .nil) →
      Get d env (n + 4)
          (some (.pointer (.struct (pre ++ sf :: post) dc), .ptr (.struct xs))) =
        (some (.ptr (.struct ys)), .error (.user e)) ∧
      ∀ j, pre.length ≤ j → ys.get? j = xs.get? j) ∧
    (∀ (x : Val) (s1 : setterState), dc.setter = false → sf.Type.decl.setter = true →
      xs.get? pre.length = some x →
      (fd.mandatory && d.isEmptyValue ⟨sf.Type, x, false⟩) = false →
      (d.SetENV sf.Type x).2 = some e →
      setLoop d (execSet d (n + 1)) dpre (setEntry (.struct (pre ++ sf :: post) dc) env)
        ⟨.struct (pre ++ sf :: post) dc, .struct xs, false⟩ = (s1, .nil) →
      Set d env (n + 3) (some (.struct (pre ++ sf :: post) dc, .struct xs)) =
        (s1.env, .error (.user e))) := by
  obtain ⟨hidx, htyp, hfn, hemb⟩ := fieldStep_leaf _ sf fd hanon hstep
  constructor
  · intro ys s1 hg hget hm he hwalk
    obtain ⟨hl, hframe⟩ := walk_frame (execGet d env (n + 1)) pre dpre _ xs ys _ s1 true hpre hwalk
    refine ⟨?_, hframe⟩
    have hlt : pre.length < ys.length := by omega
    have hy : ys.get? pre.length = some (ys.get ⟨pre.length, hlt⟩) := by
      simp [List.getElem?_eq_getElem hlt]
    rcases hr : d.GetENV sf.Type (Getenv env fd.name) with ⟨z, oe⟩
    rw [hr] at he
    simp only [] at he
    subst he
    have hround : getRound (execGet d env (n + 1)) fd s1
        ⟨.struct (pre ++ sf :: post) dc, .struct ys, true⟩ =
        ({ ({ s1 with ctx := { s1.ctx with field := fd } } : getterState).Reset with
            buf := Getenv env fd.name }, .struct ys, .err (.user e)) := by
      simp only [getRound, hidx, Field_split pre post sf dc ys _ true hy, hemb, hfn,
        typeFunctions_getter sf.Type hget, execGet, getGetter, hget, getterState.getEnv,
        getterState.Reset, hm, hr, Val.setField]
      have := list_set_self ys _ hlt
      simp only [List.get_eq_getElem] at this ⊢
      simp [hr, this]
    have e4 : n + 4 = (n + 1) + 3 := by omega
    rw [e4, Get_round_stop d env (n + 1) pre post sf dc xs ys dpre fd s1 _ _ _ hg hstep hpre
      hpost hwalk hround (by simp)]
    simp [getFinish, Outcome.of, context.setError]
  · intro x s1 hs hset hx hm he hwalk
    rcases hr : d.SetENV sf.Type x with ⟨p, oe⟩
    rw [hr] at he
    simp only [] at he
    subst he
    have hround : setRound d (execSet d (n + 1)) fd s1
        ⟨.struct (pre ++ sf :: post) dc, .struct xs, false⟩ =
        ({ s1 with ctx := { s1.ctx with field := fd } }, .err (.user e)) := by
      simp only [setRound, hidx, Field_split pre post sf dc xs _ false hx, hm, hemb, hfn,
        typeFunctions_setter sf.Type hset, execSet, setSetter, hset]
      simp [hr]
    have e3 : n + 3 = (n + 1) + 2 := by omega
    rw [e3, Set_round_stop d env (n + 1) pre post sf dc _ dpre fd s1 _ _ hs hstep hpre hpost
      hwalk hround (by simp)]
    simp [setFinish, Outcome.of, context.setError]

/-- C20 (counterexample): the methods return the error "boom" on every input.  In
`struct { A string "env:K"; V ai "env:K" }` the field `A` is written under the key of `V`
before `SetENV` of `V` fails, so the store holds a value under the key of the failing
field.  In `struct { V ai "env:V,m" }` with `V` zero, `Set` skips the field and succeeds;
and `Get` with the variable `V` missing ends with the error of the missing variable:
the method is not called. -/
theorem C20_key_written_by_other_field :
    (Set failDeps [] 3 (some (sharedKey, .struct [.string (str "a"), .int 5]))).1 =
      [("K", str "a")] ∧
    (failDeps.SetENV ai (.int 0)).2 = some "boom" ∧
    Set failDeps [] 3 (some (mandatoryConverter, .struct [.int 0])) = ([], .ok) ∧
    (failDeps.GetENV ai []).2 = some "boom" ∧
    Get failDeps [] 4 (some (.pointer mandatoryConverter, .ptr (.struct [.int 0]))) =
      (some (.ptr (.struct [.int 0])), .error (.requiredMissing "V")) :=
  ⟨rfl, rfl, rfl, rfl, rfl⟩

/-- C20 (witness): `Get` into and `Set` of `struct { AI ai "env:AI" }` when the methods
return the error "boom". -/
theorem C20_converter_error_witness :
    Get failDeps [("AI", str "x")] 4 (some (.pointer assertRecord, .ptr (.struct [.int 5]))) =
      (some (.ptr (.struct [.int 5])), .error (.user "boom")) ∧
    Set failDeps [("AI", str "x")] 3 (some (assertRecord, .struct [.int 5])) =
      ([("AI", str "x")], .error (.user "boom")) :=
  ⟨((C20_converter_error failDeps [("AI", str "x")] 0 [] [] (.mk "AI" "" ai (some "AI") false)
      (Decl.plain "assert") [.int 5] [] (.mk 0 "AI" ai false false (some (typeFunctions ai)) none)
      "boom" rfl rfl rfl rfl (by decide)).1 [.int 5] (getEntry assertRecord)
      rfl rfl rfl rfl rfl).1,
   (C20_converter_error failDeps [("AI", str "x")] 0 [] [] (.mk "AI" "" ai (some "AI") false)
      (Decl.plain "assert") [.int 5] [] (.mk 0 "AI" ai false false (some (typeFunctions ai)) none)
      "boom" rfl rfl rfl rfl (by decide)).2 (.int 5) (setEntry assertRecord [("AI", str "x")])
      rfl rfl rfl rfl rfl rfl⟩

theorem setRound_over (d : Deps) (e : Env) (call : SetCall → setterState → Value → SetResult)
    (hc : ∀ c s v, call c (s.over e) v = (call c s v).over e) (fd : field)
    (s : setterState) (v : Value) :
    setRound d call fd (s.over e) v = (setRound d call fd s v).over e := by
  unfold setRound
  have h0 : ({ s.over e with ctx := { (s.over e).ctx with field := fd } } : setterState) =
      ({ s with ctx := { s.ctx with field := fd } } : setterState).over e := rfl
  simp only [h0]
  repeat' split
  all_goals first
    | rfl
    | exact hc _ _ _

/-- What a round of `Set` leaves in the store is what the store held, with the bindings
of the round in front. -/
theorem setRound_extends (d : Deps) (n : Nat) (fd : field) (s : setterState) (v : Value) :
    ∃ W, (setRound d (execSet d n) fd s v).1.env = W ++ s.env := by
  have h := setRound_over d s.env (execSet d n) (execSet_over d s.env n) fd
    { s with env := [] } v
  have hs : ({ s with env := [] } : setterState).over s.env = s := by
    cases s; simp [setterState.over]
  rw [hs] at h
  exact ⟨(setRound d (execSet d n) fd { s with env := [] } v).1.env, by rw [h]; rfl⟩

theorem setEnv_fail (s : setterState) (b : Bytes) (h : (s.setEnv b).2 ≠ .nil) :
    (s.setEnv b).1.env = s.env := by
  unfold setterState.setEnv at h ⊢
  split
  · rename_i h1
    simp [h1] at h
  · rfl

/-- A routine that does not call back into the engine writes nothing when it fails. -/
theorem direct_fail_env (d : Deps) (n : Nat) (g : setterFunc) (s : setterState) (v : Value)
    (h1 : g ≠ .interfaceSetter) (h2 : g ≠ .pointerSetter) (h3 : g ≠ .structSetter)
    (hr : (execSet d n (.func g) s v).2 ≠ .nil) :
    (execSet d n (.func g) s v).1.env = s.env := by
  cases n with
  | zero => rfl
  | succ n =>
    cases g with
    | boolSetter => exact setEnv_fail s _ hr
    | intSetter => exact setEnv_fail s _ hr
    | uintSetter => exact setEnv_fail s _ hr
    | floatSetter => exact setEnv_fail s _ hr
    | stringSetter => exact setEnv_fail s _ hr
    | unsupportedTypeSetter => rfl
    | interfaceSetter => exact absurd rfl h1
    | pointerSetter => exact absurd rfl h2
    | structSetter => exact absurd rfl h3
    | setSetter =>
      simp only [execSet, setSetter] at hr ⊢
      split
      · rfl
      · split
        · rfl
        · rename_i h4 _ _ h5
          simp only [h4, h5, Bool.false_eq_true, if_false] at hr
          exact setEnv_fail s _ hr
    | sliceSetter proc =>
      simp only [execSet, sliceSetterFunc] at hr ⊢
      split
      · rename_i h4
        simp only [h4, if_true] at hr
        exact setEnv_fail s _ hr
      · split
        · rename_i h4 _ _ h5
          simp only [h4, h5, Bool.false_eq_true, if_false] at hr
          exact setEnv_fail s _ hr
        · rfl

/-- C16: the first error ends the walk.  In the walk of `Get` over the descriptors of a
record, if the fields of `dpre` are decoded without error and the round of the next
field `fd` fails, the walk ends with the state, the record and the error of that round,
whatever descriptors follow: every field other than that of `fd` is as the walk over
`dpre` has left it, and a field without descriptor in `dpre` is as before the call.
In the walk of `Set`, if the fields of `dpre` are written without error and the round of
`fd` fails, the walk ends with the state and the error of that round, whatever
descriptors follow: the store is the one the fields before have left with what the
failing round has put in front, which is nothing when the routine of `fd` writes by
itself. -/
theorem C16_first_error_aborts (d : Deps) :
    (∀ (call : GetCall → getterState → Value → GetResult) (dpre dpost : structFields)
        (fd : field) (s s1 s2 : getterState) (t : Ty) (c : Bool) (xs ys : List Val) (y : Val)
        (r : Ret),
      getLoop call dpre s ⟨t, .struct xs, c⟩ = (s1, .struct ys, .nil) →
      getRound call fd s1 ⟨t, .struct ys, c⟩ = (s2, y, r) → r ≠ .nil →
      getLoop call (dpre ++ fd :: dpost) s ⟨t, .struct xs, c⟩ = (s2, y, r) ∧
      ∃ zs, y = .struct zs ∧ (∀ j, fd.index ≠ j → zs.get? j = ys.get? j) ∧
        (∀ j, (∀ fd1 ∈ dpre, fd1.index ≠ j) → ys.get? j = xs.get? j)) ∧
    (∀ (n : Nat) (dpre dpost : structFields) (fd : field) (s s1 s2 : setterState) (v : Value)
        (r : Ret),
      setLoop d (execSet d n) dpre s v = (s1, .nil) →
      setRound d (execSet d n) fd s1 v = (s2, r) → r ≠ .nil →
      setLoop d (execSet d n) (dpre ++ fd :: dpost) s v = (s2, r) ∧
      (∃ W, s2.env = W ++ s1.env) ∧
      (∀ fns, fd.embedded = none → fd.functions = some fns →
        fns.setterFunc ≠ .interfaceSetter → fns.setterFunc ≠ .pointerSetter →
        fns.setterFunc ≠ .structSetter → s2.env = s1.env)) := by
  constructor
  · intro call dpre dpost fd s s1 s2 t c xs ys y r hwalk hround hr
    refine ⟨?_, ?_⟩
    · rw [getLoop_append, hwalk]
      simp only []
      rw [getLoop_cons, hround]
      cases r <;> simp at hr ⊢
    · obtain ⟨zs, h1, _, h3⟩ := getRound_frame call fd s1 ⟨t, .struct ys, c⟩ ys rfl
      rw [hround] at h1
      obtain ⟨ws, g1, _, g3⟩ := getLoop_frame call dpre s ⟨t, .struct xs, c⟩ xs rfl
      rw [hwalk] at g1
      simp only [Val.struct.injEq] at g1
      subst g1
      exact ⟨zs, h1, h3, g3⟩
  · intro n dpre dpost fd s s1 s2 v r hwalk hround hr
    refine ⟨?_, ?_, ?_⟩
    · rw [setLoop_append, hwalk]
      simp only []
      rw [setLoop_cons, hround]
      cases r <;> simp at hr ⊢
    · obtain ⟨W, hW⟩ := setRound_extends d n fd s1 v
      rw [hround] at hW
      exact ⟨W, hW⟩
    · intro fns hemb hfn h1 h2 h3
      unfold setRound at hround
      simp only [hemb, hfn] at hround
      split at hround
      · simp only [Prod.mk.injEq] at hround
        rw [← hround.1]
      · split at hround
        · simp only [Prod.mk.injEq] at hround
          exact absurd hround.2.symm hr
        · have hh := direct_fail_env d n fns.setterFunc _ _ h1 h2 h3
            (by rw [hround]; exact hr)
          rw [hround] at hh
          exact hh

theorem C16_first_error_aborts_witness :
    Get testDeps [("ENV_A", str "a"), ("ENV_B", str "?"), ("ENV_C", str "7")] 4
        (some (.pointer simple, .ptr (zero simple))) =
      (some (.ptr (.struct [.string (str "a"), .bool false, .int 0, .string []])),
        .error (.field getError "simple" "ENV_B" tBool .ErrSyntax)) ∧
    Set testDeps [("C", str "old")] 3
        (some (badName, .struct [.string (str "a"), .string (str "b"), .string (str "c")])) =
      ([("A", str "a"), ("C", str "old")],
        .error (.field setErrorOp "badName" "B=x" tString .EINVAL)) ∧
    (getLoop (execGet testDeps [("ENV_A", str "a"), ("ENV_B", str "?"), ("ENV_C", str "7")] 1)
        ([.mk 0 "ENV_A" tString true false (some (typeFunctions tString)) none] ++
          .mk 1 "ENV_B" tBool false false (some (typeFunctions tBool)) none ::
          [.mk 2 "ENV_C" tInt false false (some (typeFunctions tInt)) none])
        (getEntry simple) ⟨simple, .struct [.string [], .bool false, .int 0, .string []], true⟩).2.2 =
      .err .ErrSyntax ∧
    (setLoop testDeps (execSet testDeps 1)
        ([.mk 0 "A" tString false false (some (typeFunctions tString)) none] ++
          .mk 1 "B=x" tString false false (some (typeFunctions tString)) none ::
          [.mk 2 "C" tString false false (some (typeFunctions tString)) none])
        (setEntry badName [("C", str "old")])
        ⟨badName, .struct [.string (str "a"), .string (str "b"), .string (str "c")], false⟩).1.env =
      [("A", str "a"), ("C", str "old")] :=
  ⟨rfl, rfl,
   (congrArg (fun r => r.2.2) ((C16_first_error_aborts testDeps).1
      (execGet testDeps [("ENV_A", str "a"), ("ENV_B", str "?"), ("ENV_C", str "7")] 1)
      [.mk 0 "ENV_A" tString true false (some (typeFunctions tString)) none]
      [.mk 2 "ENV_C" tInt false false (some (typeFunctions tInt)) none]
      (.mk 1 "ENV_B" tBool false false (some (typeFunctions tBool)) none)
      (getEntry simple) _ _ simple true [.string [], .bool false, .int 0, .string []] _ _
      (.err .ErrSyntax) rfl rfl (by simp)).1).trans rfl,
   (congrArg (fun r => r.1.env) ((C16_first_error_aborts testDeps).2 1
      [.mk 0 "A" tString false false (some (typeFunctions tString)) none]
      [.mk 2 "C" tString false false (some (typeFunctions tString)) none]
      (.mk 1 "B=x" tString false false (some (typeFunctions tString)) none)
      (setEntry badName [("C", str "old")]) _ _ _ (.err .EINVAL) rfl rfl (by simp)).1).trans rfl⟩

/-- The routine of a scalar type reads the variable and, when it has bytes, hands them
to the parser of the kind. -/
theorem scalar_getter_proc (d : Deps) (env : Env) (n : Nat) (t : Ty) (p : procFunc)
    (hsc : isScalar t = true) (hp : getProc (.pointer t) = some p)
    (s : getterState) (z : Val) (b : Bytes) (hb : s.buf = [])
    (he : Getenv env s.ctx.field.name = b)
    (hm : (s.ctx.field.mandatory && b.isEmpty) = false) :
    execGet d env (n + 1) (.func (typeFunctions t).getterFunc) s ⟨t, z, true⟩ =
      if b = [] then ({ s with buf := b }, z, .nil)
      else ({ s with buf := b }, (execProc d 0 p b ⟨t, z, true⟩).1,
        (execProc d 0 p b ⟨t, z, true⟩).2) := by
  cases t with
  | basic k dc =>
    have hd : dc.setter = false ∧ dc.getter = false := by
      simp only [isScalar, Bool.and_eq_true, Bool.not_eq_true'] at hsc
      exact ⟨hsc.1.2, hsc.2⟩
    rw [typeFunctions_basic k dc hd.1 hd.2]
    have key : ∀ proc : Bytes → Value → Val × Ret,
        scalarGetter proc env s ⟨.basic k dc, z, true⟩ =
          if b = [] then ({ s with buf := b }, z, .nil)
          else ({ s with buf := b }, (proc b ⟨.basic k dc, z, true⟩).1,
            (proc b ⟨.basic k dc, z, true⟩).2) := by
      intro proc
      simp only [scalarGetter, getEnv_found env s b hb he hm]
      by_cases hnil : b = []
      · simp [hnil]
      · have hlen : ¬ b.length = 0 := fun hl => hnil (List.length_eq_zero.mp hl)
        simp [hnil, hlen]
    cases k <;> simp [isScalar, isIntKind, isUintKind, isFloatKind] at hsc <;>
      (simp [getProc, Ty.Elem, Ty.Kind, Basic.Kind] at hp; subst hp; first | exact key boolProc | exact key intProc | exact key uintProc | exact key (floatProc d) | exact key stringParser)
  | _ => simp [isScalar] at hsc

/-- What `pointerGetter` leaves of a pointer to a scalar, from what the parser of the
scalar leaves of the pointee. -/
theorem pointer_round (d : Deps) (env : Env) (fields : List StructField) (dc : Decl) (i : Nat)
    (sf : StructField) (fd : field) (e : Ty) (p : procFunc)
    (hi : fields.get? i = some sf) (hanon : sf.Anonymous = false)
    (hstep : fieldStep i sf = .append fd) (hty : sf.Type = .pointer e)
    (hsc : isScalar e = true) (hp : getProc (.pointer e) = some p)
    (hm : (fd.mandatory && (Getenv env fd.name).isEmpty) = false)
    (n : Nat) (s : getterState) (ys : List Val) :
    ∃ s1, s1.ctx.err = s.ctx.err ∧
      (∀ y, ys.get? i = some (.ptr y) →
        getRound (execGet d env (n + 2)) fd s ⟨.struct fields dc, .struct ys, true⟩ =
          if Getenv env fd.name = [] then (s1, .struct ys, .nil)
          else (s1, .struct (ys.set i (.ptr (execProc d 0 p (Getenv env fd.name) ⟨e, y, true⟩).1)),
            (execProc d 0 p (Getenv env fd.name) ⟨e, y, true⟩).2)) ∧
      (ys.get? i = some .nilPtr →
        getRound (execGet d env (n + 2)) fd s ⟨.struct fields dc, .struct ys, true⟩ =
          if Getenv env fd.name = [] then
            (s1, .struct (ys.set i
              (if d.isEmptyValue ⟨e, zero e, true⟩ then .nilPtr else .ptr (zero e))), .nil)
          else
            match execProc d 0 p (Getenv env fd.name) ⟨e, zero e, true⟩ with
            | (x, .nil) =>
              (s1, .struct (ys.set i (if d.isEmptyValue ⟨e, x, true⟩ then .nilPtr else .ptr x)),
                .nil)
            | (_, err) => (s1, .struct ys, err)) := by
  obtain ⟨hidx, _, hfn, hemb⟩ := fieldStep_leaf _ sf fd hanon hstep
  have hinner : ∀ z, (({ s with ctx := { s.ctx with field := fd } } : getterState).Reset).reflectValue
      (execGet d env (n + 1)) ⟨e, z, true⟩ =
      if Getenv env fd.name = [] then
        ({ (({ s with ctx := { s.ctx with field := fd } } : getterState).Reset).setTyp e with
          buf := Getenv env fd.name }, z, .nil)
      else ({ (({ s with ctx := { s.ctx with field := fd } } : getterState).Reset).setTyp e with
          buf := Getenv env fd.name }, (execProc d 0 p (Getenv env fd.name) ⟨e, z, true⟩).1,
        (execProc d 0 p (Getenv env fd.name) ⟨e, z, true⟩).2) := by
    intro z
    exact scalar_getter_proc d env n e p hsc hp _ z _ rfl
      (by simp [getterState.setTyp, getterState.Reset])
      (by simpa [getterState.setTyp, getterState.Reset] using hm)
  refine ⟨{ (({ s with ctx := { s.ctx with field := fd } } : getterState).Reset).setTyp e with
      buf := Getenv env fd.name }, rfl, ?_, ?_⟩
  · intro y hy
    simp only [getRound, hidx, Field_at fields dc ys true i sf _ hi hy, hemb, hfn, hty,
      typeFunctions_pointer, execGet_pointerGetter, Val.setField]
    simp only [pointerGetter, Ty.elemD, Ty.Elem, hinner]
    by_cases hb : Getenv env fd.name = []
    · simp only [hb, if_true]
      rw [list_set_get ys i _ hy]
    · simp only [hb, if_false]
  · intro hy
    simp only [getRound, hidx, Field_at fields dc ys true i sf _ hi hy, hemb, hfn, hty,
      typeFunctions_pointer, execGet_pointerGetter, Val.setField]
    simp only [pointerGetter, Ty.elemD, Ty.Elem, hinner]
    by_cases hb : Getenv env fd.name = []
    · simp only [hb, if_true]
      by_cases hz : d.isEmptyValue ⟨e, zero e, true⟩ = true <;> simp [hz]
    · simp only [hb, if_false]
      rcases hr : execProc d 0 p (Getenv env fd.name) ⟨e, zero e, true⟩ with ⟨x, r⟩
      cases r <;> simp only []
      · by_cases hz : d.isEmptyValue ⟨e, x, true⟩ = true <;> simp [hz]
      all_goals rw [list_set_get ys i _ hy]

/-- C14 (amended): take a field that is not embedded, whose type is a pointer to a
boolean, integer, float or string type without methods, and that is not mandatory with
its variable missing; `p` is the parser of the pointee.  In whatever state the walk is,
the round of the field returns nil without recording an error when the variable has no
bytes or its bytes parse, and then: a null pointer stays null exactly when
`isEmptyValue` reports the decoded pointee empty (the zero value of the pointee when
the variable is absent or empty, else the parsed value), and otherwise points to the
decoded pointee; a pointer that is not null keeps its pointee when the variable is
absent or empty, and else points to the parsed value. -/
theorem C14_pointer_decode (d : Deps) (env : Env) (fields : List StructField) (dc : Decl)
    (i : Nat) (sf : StructField) (fd : field) (e : Ty) (p : procFunc)
    (hi : fields.get? i = some sf) (hanon : sf.Anonymous = false)
    (hstep : fieldStep i sf = .append fd) (hty : sf.Type = .pointer e)
    (hsc : isScalar e = true) (hp : getProc (.pointer e) = some p)
    (hm : (fd.mandatory && (Getenv env fd.name).isEmpty) = false)
    (n : Nat) (s : getterState) (ys : List Val) :
    ∃ s1, s1.ctx.err = s.ctx.err ∧
      (ys.get? i = some .nilPtr → Getenv env fd.name = [] →
        getRound (execGet d env (n + 2)) fd s ⟨.struct fields dc, .struct ys, true⟩ =
          (s1, .struct (ys.set i
            (if d.isEmptyValue ⟨e, zero e, true⟩ then .nilPtr else .ptr (zero e))), .nil)) ∧
      (∀ x, ys.get? i = some .nilPtr → Getenv env fd.name ≠ [] →
        execProc d 0 p (Getenv env fd.name) ⟨e, zero e, true⟩ = (x, .nil) →
        getRound (execGet d env (n + 2)) fd s ⟨.struct fields dc, .struct ys, true⟩ =
          (s1, .struct (ys.set i (if d.isEmptyValue ⟨e, x, true⟩ then .nilPtr else .ptr x)),
            .nil)) ∧
      (∀ y, ys.get? i = some (.ptr y) → Getenv env fd.name = [] →
        getRound (execGet d env (n + 2)) fd s ⟨.struct fields dc, .struct ys, true⟩ =
          (s1, .struct ys, .nil)) ∧
      (∀ y x, ys.get? i = some (.ptr y) → Getenv env fd.name ≠ [] →
        execProc d 0 p (Getenv env fd.name) ⟨e, y, true⟩ = (x, .nil) →
        getRound (execGet d env (n + 2)) fd s ⟨.struct fields dc, .struct ys, true⟩ =
          (s1, .struct (ys.set i (.ptr x)), .nil)) := by
  obtain ⟨s1, h0, h1, h2⟩ := pointer_round d env fields dc i sf fd e p hi hanon hstep hty hsc hp
    hm n s ys
  refine ⟨s1, h0, ?_, ?_, ?_, ?_⟩
  · intro hy hb
    rw [h2 hy, if_pos hb]
  · intro x hy hb hx
    rw [h2 hy, if_neg hb, hx]
  · intro y hy hb
    rw [h1 y hy, if_pos hb]
  · intro y x hy hb hx
    rw [h1 y hy, if_neg hb, hx]

/-- C14 (counterexample): `struct { A *int }` with `A=0`.  The value is not empty and
parses, but the pointee it gives is the zero value, so the null pointer stays null. -/
theorem C14_zero_value_stays_null :
    Get testDeps [("A", str "0")] 5 (some (.pointer pointer, .ptr (.struct [.nilPtr]))) =
      (some (.ptr (.struct [.nilPtr])), .ok) ∧
    ParseInt (str "0") 64 = (0, none) :=
  ⟨rfl, rfl⟩

theorem C14_pointer_decode_witness :
    ∃ s1, s1.ctx.err = (getEntry pointer).ctx.err ∧
      getRound (execGet testDeps [("A", str "28")] 2)
          (.mk 0 "A" (.pointer tInt) false false (some (typeFunctions (.pointer tInt))) none)
          (getEntry pointer) ⟨pointer, .struct [.nilPtr], true⟩ =
        (s1, .struct [.ptr (.int 28)], .nil) := by
  obtain ⟨s1, h0, _, h2, _, _⟩ := C14_pointer_decode testDeps [("A", str "28")]
    [.mk "A" "" (.pointer tInt) none false] (Decl.plain "pointer") 0
    (.mk "A" "" (.pointer tInt) none false)
    (.mk 0 "A" (.pointer tInt) false false (some (typeFunctions (.pointer tInt))) none)
    tInt .intProc rfl rfl rfl rfl rfl rfl rfl 0 (getEntry pointer) [.nilPtr]
  exact ⟨s1, h0, h2 (.int 28) rfl (by decide) rfl⟩

theorem decimalValue_ge : ∀ (ds : Bytes) (n : Nat), n ≤ decimalValue ds n := by
  intro ds
  induction ds with
  | nil => intro n; exact Nat.le_refl _
  | cons c cs ih =>
    intro n
    have := ih (n * 10 + (c.toNat - 48))
    simp only [decimalValue]
    omega

/-- The digit loop of `ParseUint` on decimal digits: the number they denote when it is
at most `maxVal`, else `maxVal` with the range error. -/
theorem parseUintLoop_decimal (maxVal : Nat) (hmax : maxVal < 2 ^ 64) :
    ∀ (ds : Bytes) (a : Nat), (∀ c ∈ ds, 48 ≤ c.toNat ∧ c.toNat ≤ 57) → a ≤ maxVal →
      parseUintLoop maxVal ds a =
        if decimalValue ds a ≤ maxVal then (decimalValue ds a, none)
        else (maxVal, some .ErrRange) := by
  have h64 : (2 : Nat) ^ 64 = 18446744073709551616 := by norm_num
  intro ds
  induction ds with
  | nil =>
    intro a _ ha
    simp [parseUintLoop, decimalValue, ha]
  | cons c cs ih =>
    intro a hds ha
    have hc := hds c (List.mem_cons_self _ _)
    have hcs : ∀ x ∈ cs, 48 ≤ x.toNat ∧ x.toNat ≤ 57 :=
      fun x hx => hds x (List.mem_cons_of_mem _ hx)
    have hge := decimalValue_ge cs (a * 10 + (c.toNat - 48))
    rw [parseUintLoop]
    simp only [hc, and_self, if_true, decimalValue]
    by_cases h1 : a ≥ (2 ^ 64 - 1) / 10 + 1
    · simp only [h1, if_true]
      have : ¬ decimalValue cs (a * 10 + (c.toNat - 48)) ≤ maxVal := by
        rw [h64] at h1 hmax
        omega
      rw [if_neg this]
    · simp only [h1, if_false]
      have h3 : (a * 10) % 2 ^ 64 = a * 10 := Nat.mod_eq_of_lt (by rw [h64] at h1 ⊢; omega)
      rw [h3]
      by_cases h2 : a * 10 + (c.toNat - 48) < 2 ^ 64
      · have h4 : (a * 10 + (c.toNat - 48)) % 2 ^ 64 = a * 10 + (c.toNat - 48) :=
          Nat.mod_eq_of_lt h2
        rw [h4]
        by_cases h5 : a * 10 + (c.toNat - 48) > maxVal
        · have h6 : a * 10 + (c.toNat - 48) < a * 10 ∨ a * 10 + (c.toNat - 48) > maxVal :=
            Or.inr h5
          have : ¬ decimalValue cs (a * 10 + (c.toNat - 48)) ≤ maxVal := by omega
          rw [if_pos h6, if_neg this]
        · have h6 : ¬ (a * 10 + (c.toNat - 48) < a * 10 ∨ a * 10 + (c.toNat - 48) > maxVal) := by
            omega
          simp only [h6, if_false]
          exact ih _ hcs (by omega)
      · have h4 : (a * 10 + (c.toNat - 48)) % 2 ^ 64 < a * 10 := by
          have hlt : a * 10 + (c.toNat - 48) - 2 ^ 64 < 2 ^ 64 := by
            rw [h64] at h1 h2 ⊢
            omega
          have : (a * 10 + (c.toNat - 48)) % 2 ^ 64 = a * 10 + (c.toNat - 48) - 2 ^ 64 := by
            rw [Nat.mod_eq_sub_mod (by omega), Nat.mod_eq_of_lt hlt]
          rw [this, h64]
          rw [h64] at h2
          omega
        have : ¬ decimalValue cs (a * 10 + (c.toNat - 48)) ≤ maxVal := by omega
        rw [if_pos (Or.inl h4), if_neg this]

theorem isDecimal_spec (ds : Bytes) (h : isDecimal ds = true) :
    ds ≠ [] ∧ ∀ c ∈ ds, 48 ≤ c.toNat ∧ c.toNat ≤ 57 := by
  simp only [isDecimal, Bool.and_eq_true, Bool.not_eq_true', List.all_eq_true,
    decide_eq_true_eq] at h
  refine ⟨?_, h.2⟩
  intro hnil
  subst hnil
  simp at h

/-- `ParseUint` on decimal digits, for a width of at most 64 bits. -/
theorem ParseUint_decimal (ds : Bytes) (w : Nat) (hw : 0 < w) (hw64 : w ≤ 64)
    (h : isDecimal ds = true) :
    ParseUint ds w =
      if decimalValue ds 0 < 2 ^ w then (decimalValue ds 0, none)
      else (2 ^ w - 1, some .ErrRange) := by
  obtain ⟨hne, hds⟩ := isDecimal_spec ds h
  have hw0 : ¬ w = 0 := by omega
  have hgt : ¬ w > 64 := by omega
  have hpos : 0 < 2 ^ w := Nat.two_pow_pos w
  have hmax : 2 ^ w - 1 < 2 ^ 64 := by
    have : 2 ^ w ≤ 2 ^ 64 := Nat.pow_le_pow_right (by omega) hw64
    omega
  simp only [ParseUint, hne, if_false, hgt, hw0]
  rw [parseUintLoop_decimal _ hmax ds 0 hds (by omega)]
  by_cases hlt : decimalValue ds 0 < 2 ^ w
  · have : decimalValue ds 0 ≤ 2 ^ w - 1 := by omega
    simp [hlt, this]
  · have : ¬ decimalValue ds 0 ≤ 2 ^ w - 1 := by omega
    simp [hlt, this]

/-- `ParseInt` on decimal digits behind an optional sign, for a width of 2 to 64 bits. -/
theorem ParseInt_decimal (ds : Bytes) (w : Nat) (hw : 1 < w) (hw64 : w ≤ 64)
    (h : isDecimal ds = true) (sign : Bytes) (hs : sign = [] ∨ sign = [43] ∨ sign = [45]) :
    ParseInt (sign ++ ds) w =
      if sign = [45] then
        (if decimalValue ds 0 ≤ 2 ^ (w - 1) then (-(decimalValue ds 0 : Int), none)
          else (-(2 ^ (w - 1) : Int), some .ErrRange))
      else
        (if decimalValue ds 0 < 2 ^ (w - 1) then ((decimalValue ds 0 : Int), none)
          else ((2 ^ (w - 1) : Int) - 1, some .ErrRange)) := by
  obtain ⟨hne, hdig⟩ := isDecimal_spec ds h
  have hw0 : ¬ w = 0 := by omega
  have hpow : (2 : Nat) ^ w = 2 * 2 ^ (w - 1) := by
    cases w with
    | zero => omega
    | succ w => simp [Nat.pow_succ, Nat.mul_comm]
  have hpos : 0 < 2 ^ (w - 1) := Nat.two_pow_pos _
  have hbig : 2 ≤ 2 ^ (w - 1) := by
    have : 2 ^ 1 ≤ 2 ^ (w - 1) := Nat.pow_le_pow_right (by omega) (by omega)
    simpa using this
  have hU := ParseUint_decimal ds w (by omega) hw64 h
  have hcast : ((2 ^ (w - 1) : Nat) : Int) = (2 ^ (w - 1) : Int) := by push_cast; rfl
  have tail : ∀ (neg : Bool),
      (let (un, err) := ParseUint ds w
       if err ≠ none ∧ err ≠ some .ErrRange then ((0 : Int), err)
       else
        let bitSize := if w = 0 then 64 else w
        let cutoff := 2 ^ (bitSize - 1)
        if ¬ (neg = true) ∧ un ≥ cutoff then ((cutoff : Int) - 1, some .ErrRange)
        else if neg = true ∧ un > cutoff then (- (cutoff : Int), some .ErrRange)
        else (if neg = true then - (un : Int) else (un : Int), none)) =
      if neg = true then
        (if decimalValue ds 0 ≤ 2 ^ (w - 1) then (-(decimalValue ds 0 : Int), none)
          else (-(2 ^ (w - 1) : Int), some .ErrRange))
      else
        (if decimalValue ds 0 < 2 ^ (w - 1) then ((decimalValue ds 0 : Int), none)
          else ((2 ^ (w - 1) : Int) - 1, some .ErrRange)) := by
    intro neg
    rw [hU]
    by_cases hlt : decimalValue ds 0 < 2 ^ w
    · simp only [hlt, if_true, hw0, if_false, ne_eq, not_true_eq_false, false_and]
      cases neg with
      | true =>
        by_cases h1 : decimalValue ds 0 ≤ 2 ^ (w - 1)
        · have h2 : ¬ decimalValue ds 0 > 2 ^ (w - 1) := by omega
          simp [h1, h2]
        · have h2 : decimalValue ds 0 > 2 ^ (w - 1) := by omega
          simp [h1, h2]
      | false =>
        by_cases h1 : decimalValue ds 0 < 2 ^ (w - 1)
        · have h2 : ¬ decimalValue ds 0 ≥ 2 ^ (w - 1) := by omega
          simp [h1, h2]
        · have h2 : decimalValue ds 0 ≥ 2 ^ (w - 1) := by omega
          simp [h1, h2]
    · simp only [hlt, if_false, hw0, ne_eq, not_true_eq_false, and_false]
      cases neg with
      | true =>
        have h1 : ¬ decimalValue ds 0 ≤ 2 ^ (w - 1) := by omega
        have h2 : 2 ^ w - 1 > 2 ^ (w - 1) := by omega
        simp [h1, h2]
      | false =>
        have h1 : ¬ decimalValue ds 0 < 2 ^ (w - 1) := by omega
        have h2 : 2 ^ w - 1 ≥ 2 ^ (w - 1) := by omega
        simp [h1, h2]
  rcases hs with hs | hs | hs
  · subst hs
    cases ds with
    | nil => exact absurd rfl hne
    | cons c cs =>
      have hc := hdig c (List.mem_cons_self _ _)
      have c43 : ¬ c = 43 := by
        intro h; subst h; exact absurd hc.1 (by decide)
      have c45 : ¬ c = 45 := by
        intro h; subst h; exact absurd hc.1 (by decide)
      have := tail false
      simp only [List.nil_append, ParseInt, c43, c45, or_self, if_false]
      simpa using this
  · subst hs
    have := tail false
    simp only [List.singleton_append, ParseInt, true_or, if_true]
    simpa using this
  · subst hs
    have := tail true
    simp only [List.singleton_append, ParseInt, or_true, if_true]
    simpa using this

theorem typeFunctions_int_getter (k : Basic) (dc : Decl) (hk : isIntKind k = true)
    (hg : dc.getter = false) : (typeFunctions (.basic k dc)).getterFunc = .intGetter := by
  cases k <;> simp [isIntKind] at hk <;>
    (simp only [typeFunctions, kindFunctions, Ty.Kind, Basic.Kind, Ty.decl, hg]
     cases dc.setter <;> simp)

theorem typeFunctions_uint_getter (k : Basic) (dc : Decl) (hk : isUintKind k = true)
    (hg : dc.getter = false) : (typeFunctions (.basic k dc)).getterFunc = .uintGetter := by
  cases k <;> simp [isUintKind] at hk <;>
    (simp only [typeFunctions, kindFunctions, Ty.Kind, Basic.Kind, Ty.decl, hg]
     cases dc.setter <;> simp)

theorem bitSize_int_two (k : Basic) (h : isIntKind k = true) : 1 < bitSize k.Kind := by
  cases k <;> simp [isIntKind] at h <;> simp [Basic.Kind, bitSize]

/-- The routine of an unsigned integer type on decimal digits. -/
theorem uint_leaf (d : Deps) (env : Env) (n : Nat) (k : Basic) (dc : Decl)
    (hk : isUintKind k = true) (hg : dc.getter = false) (s : getterState) (z : Val)
    (ds : Bytes) (hb : s.buf = []) (he : Getenv env s.ctx.field.name = ds)
    (hds : isDecimal ds = true) :
    execGet d env (n + 1) (.func (typeFunctions (.basic k dc)).getterFunc) s
        ⟨.basic k dc, z, true⟩ =
      if decimalValue ds 0 < 2 ^ bitSize k.Kind then
        ({ s with buf := ds }, .uint (decimalValue ds 0), .nil)
      else ({ s with buf := ds }, .uint (2 ^ bitSize k.Kind - 1), .err .ErrRange) := by
  obtain ⟨hne, _⟩ := isDecimal_spec ds hds
  obtain ⟨hw, hw64⟩ := bitSize_uint k hk
  have hm : (s.ctx.field.mandatory && ds.isEmpty) = false := by
    cases ds with
    | nil => exact absurd rfl hne
    | cons c cs => simp
  rw [typeFunctions_uint_getter k dc hk hg]
  show uintGetter env s _ = _
  rw [uintGetter, scalarGetter_parse _ env s _ _ hb he hm hne]
  simp only [uintProc, Value.Kind, Ty.Kind, ParseUint_decimal ds _ hw hw64 hds]
  have hpos : 0 < 2 ^ bitSize k.Kind := Nat.two_pow_pos _
  by_cases hlt : decimalValue ds 0 < 2 ^ bitSize k.Kind
  · simp [hlt, Ret.ofErr, wrapUint_id (bitSize k.Kind) _ hlt]
  · simp [hlt, Ret.ofErr, wrapUint_id (bitSize k.Kind) (2 ^ bitSize k.Kind - 1) (by omega)]

/-- The routine of a signed integer type on decimal digits behind an optional sign. -/
theorem int_leaf (d : Deps) (env : Env) (n : Nat) (k : Basic) (dc : Decl)
    (hk : isIntKind k = true) (hg : dc.getter = false) (s : getterState) (z : Val)
    (ds sign : Bytes) (hb : s.buf = []) (he : Getenv env s.ctx.field.name = sign ++ ds)
    (hds : isDecimal ds = true) (hs : sign = [] ∨ sign = [43] ∨ sign = [45]) :
    execGet d env (n + 1) (.func (typeFunctions (.basic k dc)).getterFunc) s
        ⟨.basic k dc, z, true⟩ =
      if sign = [45] then
        (if decimalValue ds 0 ≤ 2 ^ (bitSize k.Kind - 1) then
          ({ s with buf := sign ++ ds }, .int (-(decimalValue ds 0 : Int)), .nil)
        else ({ s with buf := sign ++ ds }, .int (-(2 ^ (bitSize k.Kind - 1) : Int)),
          .err .ErrRange))
      else
        (if decimalValue ds 0 < 2 ^ (bitSize k.Kind - 1) then
          ({ s with buf := sign ++ ds }, .int (decimalValue ds 0 : Int), .nil)
        else ({ s with buf := sign ++ ds }, .int ((2 ^ (bitSize k.Kind - 1) : Int) - 1),
          .err .ErrRange)) := by
  obtain ⟨hne, _⟩ := isDecimal_spec ds hds
  have hw := bitSize_int_two k hk
  obtain ⟨_, hw64⟩ := bitSize_int k hk
  have hne2 : sign ++ ds ≠ [] := by
    intro h
    exact hne (List.append_eq_nil.mp h).2
  have hm : (s.ctx.field.mandatory && (sign ++ ds).isEmpty) = false := by
    cases hsd : sign ++ ds with
    | nil => exact absurd hsd hne2
    | cons c cs => simp
  have hpos : (0 : Int) < 2 ^ (bitSize k.Kind - 1) := by positivity
  have hcast : ((2 ^ (bitSize k.Kind - 1) : Nat) : Int) = (2 ^ (bitSize k.Kind - 1) : Int) := by
    push_cast; rfl
  rw [typeFunctions_int_getter k dc hk hg]
  show intGetter env s _ = _
  rw [intGetter, scalarGetter_parse _ env s _ _ hb he hm hne2]
  simp only [intProc, Value.Kind, Ty.Kind, ParseInt_decimal ds _ hw hw64 hds sign hs]
  by_cases hneg : sign = [45]
  · simp only [hneg, if_true]
    by_cases h1 : decimalValue ds 0 ≤ 2 ^ (bitSize k.Kind - 1)
    · have h2 : ((decimalValue ds 0 : Nat) : Int) ≤ 2 ^ (bitSize k.Kind - 1) := by
        rw [← hcast]; exact_mod_cast h1
      simp [h1, Ret.ofErr, wrapInt_id (bitSize k.Kind) (-(decimalValue ds 0 : Int)) (by omega) (by omega)
        (by omega)]
    · simp [h1, Ret.ofErr, wrapInt_id (bitSize k.Kind) (-(2 ^ (bitSize k.Kind - 1) : Int)) (by omega)
        (by omega) (by omega)]
  · simp only [hneg, if_false]
    by_cases h1 : decimalValue ds 0 < 2 ^ (bitSize k.Kind - 1)
    · have h2 : ((decimalValue ds 0 : Nat) : Int) < 2 ^ (bitSize k.Kind - 1) := by
        rw [← hcast]; exact_mod_cast h1
      simp [h1, Ret.ofErr, wrapInt_id (bitSize k.Kind) (decimalValue ds 0 : Int) (by omega) (by omega) h2]
    · simp [h1, Ret.ofErr, wrapInt_id (bitSize k.Kind) ((2 ^ (bitSize k.Kind - 1) : Int) - 1) (by omega)
        (by omega) (by omega)]

/-- The routine of an unsigned integer type on a value that starts with a sign: the
value is not taken, the field is set to zero and the syntax error is returned. -/
theorem uint_leaf_signed (d : Deps) (env : Env) (n : Nat) (k : Basic) (dc : Decl)
    (hk : isUintKind k = true) (hg : dc.getter = false) (s : getterState) (z : Val)
    (c : UInt8) (ds : Bytes) (hb : s.buf = []) (he : Getenv env s.ctx.field.name = c :: ds)
    (hc : c = 43 ∨ c = 45) :
    execGet d env (n + 1) (.func (typeFunctions (.basic k dc)).getterFunc) s
        ⟨.basic k dc, z, true⟩ =
      ({ s with buf := c :: ds }, .uint 0, .err .ErrSyntax) := by
  obtain ⟨hw, hw64⟩ := bitSize_uint k hk
  have hm : (s.ctx.field.mandatory && (c :: ds).isEmpty) = false := by simp
  have hw0 : ¬ bitSize k.Kind = 0 := by omega
  have hgt : ¬ bitSize k.Kind > 64 := by omega
  have hdig : ¬ (48 ≤ c.toNat ∧ c.toNat ≤ 57) := by
    rcases hc with h | h <;> subst h <;> decide
  rw [typeFunctions_uint_getter k dc hk hg]
  show uintGetter env s _ = _
  rw [uintGetter, scalarGetter_parse _ env s _ _ hb he hm (by simp)]
  simp [uintProc, Value.Kind, Ty.Kind, ParseUint, hgt, hw0, parseUintLoop, hdig, Ret.ofErr,
    wrapUint]

/-- C18 (amended): in a record type without `GetENV` of its own whose descriptors can be
derived, given to `Get` by pointer, take a field that is not embedded, of a signed or
unsigned integer type of `w` bits without a decode method, the fields before it having
been decoded without error.  Let its variable hold decimal digits, behind an optional
sign for a signed type.  When the number lies in the range of `w` bits, the round of the
field stores it, returns nil and records no error; when it does not, `Get` fails with
the field error whose cause is the range error (the field then holds the nearest
bound), so `Get` never goes on with a wrapped value.  For an unsigned type a sign in
front of the digits makes `Get` fail with the syntax error, the field being set to
zero.  The type that the field error reports is left open. -/
theorem C18_integer_width (d : Deps) (env : Env) (n : Nat) (pre post : List StructField)
    (sf : StructField) (dc : Decl) (xs ys : List Val) (dpre : structFields) (fd : field)
    (s1 : getterState) (k : Basic) (tdc : Decl) (ds : Bytes)
    (hg : dc.getter = false)
    (hanon : sf.Anonymous = false)
    (hty : sf.Type = .basic k tdc)
    (htg : tdc.getter = false)
    (hstep : fieldStep pre.length sf = .append fd)
    (hpre : typeFieldsFrom pre 0 = some dpre)
    (hpost : (typeFieldsFrom post (pre.length + 1)).isSome = true)
    (hlen : pre.length < xs.length)
    (hwalk : getLoop (execGet d env (n + 1)) dpre (getEntry (.struct (pre ++ sf :: post) dc))
        ⟨.struct (pre ++ sf :: post) dc, .struct xs, true⟩ = (s1, .struct ys, .nil))
    (hds : isDecimal ds = true) :
    (isUintKind k = true → Getenv env fd.name = ds →
      (decimalValue ds 0 < 2 ^ bitSize k.Kind →
        ∃ s2, s2.ctx.err = s1.ctx.err ∧
          getRound (execGet d env (n + 1)) fd s1
              ⟨.struct (pre ++ sf :: post) dc, .struct ys, true⟩ =
            (s2, .struct (ys.set pre.length (.uint (decimalValue ds 0))), .nil)) ∧
      (¬ decimalValue ds 0 < 2 ^ bitSize k.Kind →
        ∃ t, Get d env (n + 4)
            (some (.pointer (.struct (pre ++ sf :: post) dc), .ptr (.struct xs))) =
          (some (.ptr (.struct (ys.set pre.length (.uint (2 ^ bitSize k.Kind - 1))))),
            .error (.field getError s1.ctx.structName fd.name t .ErrRange)))) ∧
    (isIntKind k = true → ∀ sign : Bytes, (sign = [] ∨ sign = [43] ∨ sign = [45]) →
      Getenv env fd.name = sign ++ ds →
      ((if sign = [45] then decimalValue ds 0 ≤ 2 ^ (bitSize k.Kind - 1)
          else decimalValue ds 0 < 2 ^ (bitSize k.Kind - 1)) →
        ∃ s2, s2.ctx.err = s1.ctx.err ∧
          getRound (execGet d env (n + 1)) fd s1
              ⟨.struct (pre ++ sf :: post) dc, .struct ys, true⟩ =
            (s2, .struct (ys.set pre.length
              (.int (if sign = [45] then -(decimalValue ds 0 : Int) else decimalValue ds 0))),
              .nil)) ∧
      (¬ (if sign = [45] then decimalValue ds 0 ≤ 2 ^ (bitSize k.Kind - 1)
          else decimalValue ds 0 < 2 ^ (bitSize k.Kind - 1)) →
        ∃ t, Get d env (n + 4)
            (some (.pointer (.struct (pre ++ sf :: post) dc), .ptr (.struct xs))) =
          (some (.ptr (.struct (ys.set pre.length
            (.int (if sign = [45] then -(2 ^ (bitSize k.Kind - 1) : Int)
              else (2 ^ (bitSize k.Kind - 1) : Int) - 1))))),
            .error (.field getError s1.ctx.structName fd.name t .ErrRange)))) ∧
    (isUintKind k = true → ∀ c : UInt8, (c = 43 ∨ c = 45) → Getenv env fd.name = c :: ds →
      ∃ t, Get d env (n + 4)
          (some (.pointer (.struct (pre ++ sf :: post) dc), .ptr (.struct xs))) =
        (some (.ptr (.struct (ys.set pre.length (.uint 0)))),
          .error (.field getError s1.ctx.structName fd.name t .ErrSyntax))) := by
  obtain ⟨hidx, htyp, hfn, hemb⟩ := fieldStep_leaf _ sf fd hanon hstep
  obtain ⟨hl, _⟩ := walk_frame (execGet d env (n + 1)) pre dpre _ xs ys _ s1 true hpre hwalk
  have hlt : pre.length < ys.length := by omega
  have hy : ys.get? pre.length = some (ys.get ⟨pre.length, hlt⟩) := by
    simp [List.getElem?_eq_getElem hlt]
  have hround : getRound (execGet d env (n + 1)) fd s1
      ⟨.struct (pre ++ sf :: post) dc, .struct ys, true⟩ =
      match execGet d env (n + 1) (.func (typeFunctions (.basic k tdc)).getterFunc)
          (({ s1 with ctx := { s1.ctx with field := fd } } : getterState).Reset)
          ⟨.basic k tdc, ys.get ⟨pre.length, hlt⟩, true⟩ with
      | (s, y, err) => (s, .struct (ys.set pre.length y), err) := by
    simp only [getRound, hidx, Field_split pre post sf dc ys _ true hy, hemb, hfn, hty,
      Val.setField]
  have e4 : n + 4 = (n + 1) + 3 := by omega
  refine ⟨?_, ?_, ?_⟩
  · intro hk he
    have hleaf := uint_leaf d env n k tdc hk htg
      (({ s1 with ctx := { s1.ctx with field := fd } } : getterState).Reset)
      (ys.get ⟨pre.length, hlt⟩) ds rfl (by simpa [getterState.Reset] using he) hds
    constructor
    · intro hin
      rw [if_pos hin] at hleaf
      exact ⟨{ (({ s1 with ctx := { s1.ctx with field := fd } } : getterState).Reset) with
        buf := ds }, rfl, by rw [hround, hleaf]⟩
    · intro hout
      rw [if_neg hout] at hleaf
      rw [hleaf] at hround
      refine ⟨sf.Type, ?_⟩
      rw [e4, Get_round_stop d env (n + 1) pre post sf dc xs ys dpre fd s1 _ _ _ hg hstep hpre
        hpost hwalk hround (by simp)]
      simp [getFinish, Outcome.of, context.setError, getterState.Reset, htyp]
  · intro hk sign hs he
    have hleaf := int_leaf d env n k tdc hk htg
      (({ s1 with ctx := { s1.ctx with field := fd } } : getterState).Reset)
      (ys.get ⟨pre.length, hlt⟩) ds sign rfl (by simpa [getterState.Reset] using he) hds hs
    by_cases hneg : sign = [45]
    · subst hneg
      simp only [eq_self_iff_true, if_true] at hleaf ⊢
      constructor
      · intro hin
        rw [if_pos hin] at hleaf
        exact ⟨{ (({ s1 with ctx := { s1.ctx with field := fd } } : getterState).Reset) with
          buf := [45] ++ ds }, rfl, by rw [hround, hleaf]⟩
      · intro hout
        rw [if_neg hout] at hleaf
        rw [hleaf] at hround
        refine ⟨sf.Type, ?_⟩
        rw [e4, Get_round_stop d env (n + 1) pre post sf dc xs ys dpre fd s1 _ _ _ hg hstep
          hpre hpost hwalk hround (by simp)]
        simp [getFinish, Outcome.of, context.setError, getterState.Reset, htyp]
    · simp only [hneg, if_false] at hleaf ⊢
      constructor
      · intro hin
        rw [if_pos hin] at hleaf
        exact ⟨{ (({ s1 with ctx := { s1.ctx with field := fd } } : getterState).Reset) with
          buf := sign ++ ds }, rfl, by rw [hround, hleaf]⟩
      · intro hout
        rw [if_neg hout] at hleaf
        rw [hleaf] at hround
        refine ⟨sf.Type, ?_⟩
        rw [e4, Get_round_stop d env (n + 1) pre post sf dc xs ys dpre fd s1 _ _ _ hg hstep
          hpre hpost hwalk hround (by simp)]
        simp [getFinish, Outcome.of, context.setError, getterState.Reset, htyp]
  · intro hk c hc he
    have hleaf := uint_leaf_signed d env n k tdc hk htg
      (({ s1 with ctx := { s1.ctx with field := fd } } : getterState).Reset)
      (ys.get ⟨pre.length, hlt⟩) c ds rfl (by simpa [getterState.Reset] using he) hc
    rw [hleaf] at hround
    refine ⟨sf.Type, ?_⟩
    rw [e4, Get_round_stop d env (n + 1) pre post sf dc xs ys dpre fd s1 _ _ _ hg hstep hpre
      hpost hwalk hround (by simp)]
    simp [getFinish, Outcome.of, context.setError, getterState.Reset, htyp]

/-- C18 (counterexample): `struct { N int8 "env:N"; U uint8 "env:U" }` with `U=+5`.  The
value is a base-10 number in the range of 8 bits, and `Get` fails with the syntax
error: `ParseUint` takes no sign.  The field is set to zero. -/
theorem C18_unsigned_rejects_sign :
    ∃ t, Get testDeps [("U", str "+5")] 5 (some (.pointer widths, .ptr (.struct [.int 0, .uint 7]))) =
      (some (.ptr (.struct [.int 0, .uint 0])),
        .error (.field getError "widths" "U" t .ErrSyntax)) :=
  ⟨tUint8, rfl⟩

/-- C18 (witness): `widths` with `N=-128` and `U=256`: the field `N` takes the number, the
field `U` fails with the range error. -/
theorem C18_integer_width_witness :
    (∃ t, Get testDeps [("N", str "-128"), ("U", str "256")] 4
        (some (.pointer widths, .ptr (.struct [.int 0, .uint 0]))) =
      (some (.ptr (.struct [.int (-128), .uint 255])),
        .error (.field getError "widths" "U" t .ErrRange))) ∧
    ∃ s2, s2.ctx.err = (getEntry widths).ctx.err ∧
      getRound (execGet testDeps [("N", str "-128"), ("U", str "256")] 1)
          (.mk 0 "N" tInt8 false false (some (typeFunctions tInt8)) none) (getEntry widths)
          ⟨widths, .struct [.int 0, .uint 0], true⟩ =
        (s2, .struct [.int (-128), .uint 0], .nil) :=
  ⟨((C18_integer_width testDeps [("N", str "-128"), ("U", str "256")] 0
      [.mk "N" "" tInt8 (some "N") false] [] (.mk "U" "" tUint8 (some "U") false)
      (Decl.plain "widths") [.int 0, .uint 0] [.int (-128), .uint 0]
      [.mk 0 "N" tInt8 false false (some (typeFunctions tInt8)) none]
      (.mk 1 "U" tUint8 false false (some (typeFunctions tUint8)) none)
      ⟨⟨"widths", .mk 0 "N" tInt8 false false (some (typeFunctions tInt8)) none, none⟩,
        str "-128"⟩
      .Uint8 (Decl.plain "uint8") (str "256")
      rfl rfl rfl rfl rfl rfl rfl (by decide) (by rfl) rfl).1 rfl rfl).2 (by decide),
   ((C18_integer_width testDeps [("N", str "-128"), ("U", str "256")] 0
      [] [.mk "U" "" tUint8 (some "U") false] (.mk "N" "" tInt8 (some "N") false)
      (Decl.plain "widths") [.int 0, .uint 0] [.int 0, .uint 0] []
      (.mk 0 "N" tInt8 false false (some (typeFunctions tInt8)) none)
      (getEntry widths) .Int8 (Decl.plain "int8") (str "128")
      rfl rfl rfl rfl rfl rfl rfl (by decide) rfl rfl).2.1 rfl [45] (Or.inr (Or.inr rfl))
      rfl).1 (by decide)⟩

theorem digitChar_byte (r : Nat) (h : r < 10) :
    UInt8.ofNat (Nat.digitChar r).toNat = UInt8.ofNat (48 + r) := by
  interval_cases r <;> rfl

theorem formatBits_toDigits : ∀ (f n : Nat) (ds : List Char),
    (Nat.toDigitsCore 10 f n ds).map (fun c => UInt8.ofNat c.toNat) =
      formatBits f n (ds.map (fun c => UInt8.ofNat c.toNat)) := by
  intro f
  induction f with
  | zero => intro n ds; rfl
  | succ f ih =>
    intro n ds
    simp only [Nat.toDigitsCore, formatBits]
    by_cases h : n < 10
    · have h0 : n / 10 = 0 := by omega
      have h1 : n % 10 = n := by omega
      simp [h, h0, h1, digitChar_byte n h]
    · have h0 : ¬ n / 10 = 0 := by omega
      simp only [h, h0, if_false]
      rw [ih]
      simp [digitChar_byte (n % 10) (by omega)]

/-- `AppendUint` gives the decimal numeral. -/
theorem AppendUint_decimal (n : Nat) : AppendUint n = decimal n := by
  have := formatBits_toDigits (n + 1) n []
  simp only [List.map_nil] at this
  rw [AppendUint, ← this]
  rfl

theorem AppendInt_decimal (i : Int) :
    AppendInt i = if i < 0 then 45 :: decimal i.natAbs else decimal i.natAbs := by
  simp only [AppendInt, AppendUint_decimal]

theorem typeFunctions_basic_setter (k : Basic) (dc : Decl) (hs : dc.setter = false) :
    (typeFunctions (.basic k dc)).setterFunc = (kindFunctions (.basic k dc)).setterFunc := by
  simp only [typeFunctions, Ty.decl, hs]
  cases dc.getter
  · simp
  · simp only [Bool.true_eq_false, if_false, if_true, ne_eq]
    split <;> rfl

/-- `Set` on a scalar writes the text of the scalar. -/
theorem scalarText_set (d : Deps) (t : Ty) (x : Val) (b : Bytes) (h : scalarText t x = some b)
    (n : Nat) (s : setterState) (c : Bool) :
    execSet d (n + 1) (.func (typeFunctions t).setterFunc) s ⟨t, x, c⟩ = s.setEnv b := by
  cases t with
  | basic k dc =>
    cases x with
    | bool v =>
      simp only [scalarText] at h
      split at h
      · rename_i hc
        obtain ⟨hk, hs⟩ := hc
        subst hk
        simp only [Option.some.injEq] at h
        subst h
        rw [typeFunctions_basic_setter _ dc hs]
        rfl
      · cases h
    | int i =>
      simp only [scalarText] at h
      split at h
      · rename_i hc
        obtain ⟨hk, hs⟩ := hc
        simp only [Option.some.injEq] at h
        subst h
        rw [typeFunctions_basic_setter _ dc hs, ← AppendInt_decimal]
        cases k <;> simp [isIntKind] at hk <;> rfl
      · cases h
    | uint m =>
      simp only [scalarText] at h
      split at h
      · rename_i hc
        obtain ⟨hk, hs⟩ := hc
        simp only [Option.some.injEq] at h
        subst h
        rw [typeFunctions_basic_setter _ dc hs, ← AppendUint_decimal]
        cases k <;> simp [isUintKind] at hk <;> rfl
      · cases h
    | string v =>
      simp only [scalarText] at h
      split at h
      · rename_i hc
        obtain ⟨hk, hs⟩ := hc
        subst hk
        simp only [Option.some.injEq] at h
        subst h
        rw [typeFunctions_basic_setter _ dc hs]
        rfl
      · cases h
    | _ => simp [scalarText] at h
  | _ => simp [scalarText] at h

theorem setEnv_nil (s : setterState) (b : Bytes) (h : (s.setEnv b).2 = .nil) :
    (s.setEnv b).1.env = (s.ctx.field.name, b) :: s.env := by
  unfold setterState.setEnv Setenv at h ⊢
  by_cases hv : setenvValid s.ctx.field.name b = true
  · simp [hv]
  · simp [hv] at h

/-- What a walk of `Set` leaves in the store is what the store held, with the bindings
of the walk in front. -/
theorem setLoop_extends (d : Deps) (n : Nat) (f : structFields) (s : setterState) (v : Value) :
    ∃ W, (setLoop d (execSet d n) f s v).1.env = W ++ s.env := by
  have h := setLoop_over d s.env (execSet d n) (execSet_over d s.env n) f
    { s with env := [] } v
  have hs : ({ s with env := [] } : setterState).over s.env = s := by
    cases s; simp [setterState.over]
  rw [hs] at h
  exact ⟨(setLoop d (execSet d n) f { s with env := [] } v).1.env, by rw [h]; rfl⟩

theorem setLoop_errExist (d : Deps) (call : SetCall → setterState → Value → SetResult)
    (hc : ∀ c s v, (call c s v).2 = .errExist → (call c s v).1.ctx.err ≠ none)
    (f : structFields) :
    ∀ (s : setterState) (v : Value), (setLoop d call f s v).2 = .errExist →
      (setLoop d call f s v).1.ctx.err ≠ none := by
  induction f with
  | nil => intro s v h; simp [setLoop] at h
  | cons fd rest ih =>
    intro s v
    rw [setLoop_cons]
    have hround : (setRound d call fd s v).2 = .errExist →
        (setRound d call fd s v).1.ctx.err ≠ none := by
      unfold setRound
      simp only []
      repeat' split
      all_goals first
        | (intro h; cases h)
        | exact hc _ _ _
    rcases hr : setRound d call fd s v with ⟨s1, r⟩
    rw [hr] at hround
    cases r with
    | nil => exact ih s1 v
    | errExist => exact hround
    | err c => intro h; cases h
    | panic m => intro h; cases h
    | fuel => intro h; cases h

theorem setEnv_not_errExist (s : setterState) (b : Bytes) : (s.setEnv b).2 ≠ .errExist := by
  unfold setterState.setEnv
  split <;> simp

theorem execSetProc_not_errExist (d : Deps) :
    ∀ (n : Nat) (q : setProcFunc) (v : Value), (execSetProc d n q v).2 ≠ .errExist := by
  intro n
  induction n with
  | zero => intro q v; cases q <;> simp [execSetProc]
  | succ n ih =>
    intro q v
    cases q with
    | Pointer =>
      simp only [execSetProc]
      split
      · simp
      · exact ih _ _
    | _ => simp [execSetProc]

theorem joinLoop_not_errExist (sep : UInt8) (proc : Value → Bytes × Ret) (elem : Ty)
    (hp : ∀ v, (proc v).2 ≠ .errExist) :
    ∀ (xs : List Val) (i : Nat) (buf : Bytes),
      (joinLoop sep proc elem i xs buf).2 ≠ .errExist := by
  intro xs
  induction xs with
  | nil => intro i buf; simp [joinLoop]
  | cons x xs ih =>
    intro i buf
    simp only [joinLoop]
    rcases hr : proc ⟨elem, x, false⟩ with ⟨b, r⟩
    have := hp ⟨elem, x, false⟩
    rw [hr] at this
    cases r with
    | nil => exact ih _ _
    | errExist => exact absurd rfl this
    | err c => simp
    | panic m => simp
    | fuel => simp

/-- A setter routine that returns `errExist` has recorded an error. -/
theorem execSet_errExist (d : Deps) (n : Nat) :
    ∀ (c : SetCall) (s : setterState) (v : Value), (execSet d n c s v).2 = .errExist →
      (execSet d n c s v).1.ctx.err ≠ none := by
  induction n with
  | zero => intro c s v h; cases h
  | succ n ih =>
    intro c s v
    cases c with
    | fields f =>
      simp only [execSet, structFields.set]
      exact setLoop_errExist d _ ih f _ v
    | func g =>
      cases g with
      | boolSetter => intro h; exact absurd h (setEnv_not_errExist s _)
      | intSetter => intro h; exact absurd h (setEnv_not_errExist s _)
      | uintSetter => intro h; exact absurd h (setEnv_not_errExist s _)
      | floatSetter => intro h; exact absurd h (setEnv_not_errExist s _)
      | stringSetter => intro h; exact absurd h (setEnv_not_errExist s _)
      | unsupportedTypeSetter => intro _; simp [execSet, unsupportedTypeSetter, setterState.setErr]
      | setSetter =>
        simp only [execSet, setSetter]
        split
        · intro h; cases h
        · split
          · intro h; cases h
          · intro h; exact absurd h (setEnv_not_errExist s _)
      | interfaceSetter =>
        simp only [execSet, interfaceSetter, setterState.reflectValue]
        split
        · exact ih _ _ _
        · intro _; simp [setterState.setErr]
      | pointerSetter =>
        simp only [execSet, pointerSetter, setterState.reflectValue]
        exact ih _ _ _
      | structSetter =>
        simp only [execSet, structSetter]
        split
        · intro h; cases h
        · exact ih _ _ _
      | sliceSetter proc =>
        simp only [execSet, sliceSetterFunc]
        split
        · intro h; exact absurd h (setEnv_not_errExist s _)
        · split
          · intro h; exact absurd h (setEnv_not_errExist s _)
          · rename_i h1 _ _ err h2
            intro h
            simp only at h
            have := joinLoop_not_errExist d.envSeparator (execSetProc d n proc) v.typ.elemD
              (execSetProc_not_errExist d n proc) v.val.elems 0 []
            rw [h2] at this
            exact absurd h this

theorem list_split_at {α : Type} : ∀ (l : List α) (i : Nat) (a : α), l.get? i = some a →
    ∃ pre post, l = pre ++ a :: post ∧ pre.length = i := by
  intro l
  induction l with
  | nil => intro i a h; simp at h
  | cons x rest ih =>
    intro i a h
    cases i with
    | zero =>
      simp at h
      subst h
      exact ⟨[], rest, rfl, rfl⟩
    | succ i =>
      obtain ⟨pre, post, h1, h2⟩ := ih i a (by simpa using h)
      exact ⟨x :: pre, post, by rw [h1]; rfl, by simp [h2]⟩

theorem typeFields_decompose (pre post : List StructField) (sf : StructField) (dc : Decl)
    (fd : field) (f : structFields) (hstep : fieldStep pre.length sf = .append fd)
    (hf : typeFields (.struct (pre ++ sf :: post) dc) = some f) :
    ∃ dpre dpost, typeFieldsFrom pre 0 = some dpre ∧
      typeFieldsFrom post (pre.length + 1) = some dpost ∧ f = dpre ++ fd :: dpost := by
  simp only [typeFields] at hf
  rw [typeFieldsFrom_append, typeFieldsFrom_cons] at hf
  simp only [Nat.zero_add, hstep] at hf
  cases h1 : typeFieldsFrom pre 0 with
  | none => simp [h1] at hf
  | some dpre =>
    cases h2 : typeFieldsFrom post (pre.length + 1) with
    | none => simp [h1, h2] at hf
    | some dpost =>
      simp [h1, h2] at hf
      exact ⟨dpre, dpost, rfl, rfl, hf.symm⟩

/-- A walk of `Set` that returns nil has made every round return nil. -/
theorem setLoop_nil_split (d : Deps) (call : SetCall → setterState → Value → SetResult)
    (dpre dpost : structFields) (fd : field) (s s3 : setterState) (v : Value)
    (h : setLoop d call (dpre ++ fd :: dpost) s v = (s3, .nil)) :
    ∃ s1 s2, setLoop d call dpre s v = (s1, .nil) ∧ setRound d call fd s1 v = (s2, .nil) ∧
      setLoop d call dpost s2 v = (s3, .nil) := by
  rw [setLoop_append] at h
  rcases h1 : setLoop d call dpre s v with ⟨s1, r1⟩
  rw [h1] at h
  cases r1 with
  | nil =>
    simp only [] at h
    rw [setLoop_cons] at h
    rcases h2 : setRound d call fd s1 v with ⟨s2, r2⟩
    rw [h2] at h
    cases r2 with
    | nil => exact ⟨s1, s2, rfl, h2, h⟩
    | errExist => simp at h
    | err c => simp at h
    | panic m => simp at h
    | fuel => simp at h
  | errExist => simp at h
  | err c => simp at h
  | panic m => simp at h
  | fuel => simp at h

theorem valueFromPtr_typ (t : Ty) (x : Val) (c : Bool) :
    (valueFromPtr ⟨t, x, c⟩).typ = embeddedType t := by
  cases t with
  | pointer e =>
    simp only [valueFromPtr, Value.Kind, Ty.Kind, embeddedType, ne_eq, not_true_eq_false, if_false]
    cases x <;> simp [Ty.elemD, Ty.Elem]
  | basic k dc => cases k <;> simp [valueFromPtr, Value.Kind, Ty.Kind, Basic.Kind, embeddedType]
  | _ => simp [valueFromPtr, Value.Kind, Ty.Kind, embeddedType]

theorem setTyp_name (s : setterState) (t : Ty) :
    (s.setTyp t).ctx.field.name = s.ctx.field.name := by
  obtain ⟨⟨sn, f, err⟩, env⟩ := s
  cases f
  rfl

theorem typeFunctions_iface_setter (dc : Decl) (hs : dc.setter = false) :
    (typeFunctions (.iface dc)).setterFunc = .interfaceSetter := by
  simp only [typeFunctions, kindFunctions, Ty.Kind, Ty.decl, hs]
  cases dc.getter <;> simp

theorem execSet_interfaceSetter (d : Deps) (n : Nat) (s : setterState) (v : Value) :
    execSet d (n + 1) (.func .interfaceSetter) s v = interfaceSetter (execSet d n) s v :=
  rfl

/-- A routine or a walk of `Set` that returns nil has written, for every scalar leaf it
reaches, the text of the leaf under its name. -/
theorem leaf_written (d : Deps) : ∀ k : Nat,
    (∀ (m : Nat) (key : String) (t : Ty) (v : Val) (c : Bool) (s s3 : setterState)
        (name : String) (b : Bytes), s.ctx.field.name = key → LeafText d k key t v name b →
        execSet d m (.func (typeFunctions t).setterFunc) s ⟨t, v, c⟩ = (s3, .nil) →
        ∃ W, s3.env = W ++ s.env ∧ (name, b) ∈ W) ∧
    (∀ (m : Nat) (fs : List StructField) (dc : Decl) (xs : List Val) (c : Bool)
        (f : structFields) (s s3 : setterState) (name : String) (b : Bytes),
        typeFields (.struct fs dc) = some f → WalkLeaf d k fs xs c name b →
        setLoop d (execSet d m) f s ⟨.struct fs dc, .struct xs, c⟩ = (s3, .nil) →
        ∃ W, s3.env = W ++ s.env ∧ (name, b) ∈ W) := by
  intro k
  induction k with
  | zero =>
    constructor
    · intro m key t v c s s3 name b _ h
      simp [LeafText] at h
    · intro m fs dc xs c f s s3 name b _ h
      simp [WalkLeaf] at h
  | succ k ih =>
    obtain ⟨ihA, ihB⟩ := ih
    constructor
    · intro m key t v c s s3 name b hkey hleaf hrun
      cases m with
      | zero => simp [execSet] at hrun
      | succ m =>
        cases t with
        | basic kd dc =>
          simp only [LeafText] at hleaf
          obtain ⟨hname, htext⟩ := hleaf
          rw [scalarText_set d _ v b htext m] at hrun
          have hnil : (s.setEnv b).2 = .nil := by rw [hrun]
          have henv := setEnv_nil _ b hnil
          rw [hrun] at henv
          exact ⟨[(name, b)], by simpa [hkey, hname] using henv, by simp⟩
        | pointer e =>
          have step : ∀ y, valueFromPtr ⟨.pointer e, v, c⟩ = ⟨e, y, true⟩ →
              LeafText d k key e y name b → ∃ W, s3.env = W ++ s.env ∧ (name, b) ∈ W := by
            intro y hvp hl
            rw [typeFunctions_pointer, execSet_pointerSetter, pointerSetter, hvp,
              setterState.reflectValue] at hrun
            obtain ⟨W, hW, hmem⟩ := ihA m key e y true (s.setTyp e) s3 name b
              ((setTyp_name s _).trans hkey) hl hrun
            exact ⟨W, by simpa [setterState.setTyp] using hW, hmem⟩
          cases v with
          | ptr y =>
            simp only [LeafText] at hleaf
            exact step y rfl hleaf
          | nilPtr =>
            simp only [LeafText] at hleaf
            exact step _ rfl hleaf
          | _ => simp [LeafText] at hleaf
        | iface dc =>
          cases v with
          | iface t1 y =>
            simp only [LeafText] at hleaf
            obtain ⟨hs, hl⟩ := hleaf
            rw [typeFunctions_iface_setter dc hs, execSet_interfaceSetter] at hrun
            simp only [interfaceSetter, setterState.reflectValue] at hrun
            obtain ⟨W, hW, hmem⟩ := ihA m key t1 y false (s.setTyp t1) s3 name b
              ((setTyp_name s _).trans hkey) hl hrun
            exact ⟨W, by simpa [setterState.setTyp] using hW, hmem⟩
          | _ => simp [LeafText] at hleaf
        | struct fs dc =>
          cases v with
          | struct xs =>
            simp only [LeafText] at hleaf
            obtain ⟨hs, hl⟩ := hleaf
            rw [typeFunctions_struct_setter fs dc hs, execSet_structSetter, structSetter] at hrun
            cases hf : typeFields (.struct fs dc) with
            | none => simp [hf] at hrun
            | some f =>
              simp only [hf] at hrun
              cases m with
              | zero => simp [execSet] at hrun
              | succ m =>
                rw [execSet_fields, structFields.set] at hrun
                obtain ⟨W, hW, hmem⟩ := ihB m fs dc xs false f _ s3 name b hf hl hrun
                exact ⟨W, hW, hmem⟩
          | _ => simp [LeafText] at hleaf
        | array n e dc => simp [LeafText] at hleaf
        | slice e dc => simp [LeafText] at hleaf
    · intro m fs dc xs c f s s3 name b hf hleaf hloop
      simp only [WalkLeaf] at hleaf
      obtain ⟨i, sf, x, fd, hi, hx, hstep, hmand, hcase⟩ := hleaf
      obtain ⟨pre, post, hfs, hpl⟩ := list_split_at fs i sf hi
      subst hfs
      subst hpl
      obtain ⟨dpre, dpost, _, _, hfd⟩ := typeFields_decompose pre post sf dc fd f hstep hf
      subst hfd
      obtain ⟨s1, s2, h1, h2, h3⟩ := setLoop_nil_split d _ dpre dpost fd s s3 _ hloop
      obtain ⟨Wa, hWa⟩ := setLoop_extends d m dpre s ⟨.struct (pre ++ sf :: post) dc, .struct xs, c⟩
      obtain ⟨Wc, hWc⟩ := setLoop_extends d m dpost s2 ⟨.struct (pre ++ sf :: post) dc, .struct xs, c⟩
      rw [h1] at hWa
      rw [h3] at hWc
      simp only [] at hWa hWc
      suffices hb : ∃ Wb, s2.env = Wb ++ s1.env ∧ (name, b) ∈ Wb by
        obtain ⟨Wb, hWb, hmem⟩ := hb
        refine ⟨Wc ++ Wb ++ Wa, ?_, ?_⟩
        · rw [hWc, hWb, hWa]
          simp
        · simp [hmem]
      have hidx := fieldStep_index _ _ _ hstep
      have hF : (⟨.struct (pre ++ sf :: post) dc, .struct xs, c⟩ : Value).Field fd.index =
          some ⟨sf.Type, x, c⟩ := by
        rw [hidx]
        exact Field_split pre post sf dc xs x c hx
      simp only [setRound, hF, hmand, Bool.false_eq_true, if_false] at h2
      rcases hcase with ⟨hanon, hemb⟩ | ⟨hanon, hl⟩
      · have htyp := valueFromPtr_typ sf.Type x c
        rcases hv : valueFromPtr ⟨sf.Type, x, c⟩ with ⟨vt, vv, vc⟩
        rw [hv] at hemb htyp h2
        simp only [] at hemb htyp
        cases vt with
        | struct efs edc =>
          cases vv with
          | struct exs =>
            simp only [] at hemb
            have he := fieldStep_embedded pre.length sf hanon (by rw [← htyp]; rfl)
            rw [← htyp] at he
            cases hemb2 : typeFields (.struct efs edc) with
            | none =>
              rw [hemb2, hstep] at he
              cases he
            | some emb =>
              rw [hemb2, hstep] at he
              simp only [FieldStep.append.injEq] at he
              subst he
              simp only [field.embedded] at h2
              cases m with
              | zero => simp [execSet] at h2
              | succ m =>
                rw [execSet_fields, structFields.set] at h2
                obtain ⟨W, hW, hmem⟩ := ihB m efs edc exs vc emb _ s2 name b hemb2 hemb h2
                exact ⟨W, hW, hmem⟩
          | _ => simp at hemb
        | _ => simp at hemb
      · obtain ⟨_, _, hfn, hemb⟩ := fieldStep_leaf _ sf fd hanon hstep
        simp only [hemb, hfn] at h2
        obtain ⟨W, hW, hmem⟩ := ihA m fd.name sf.Type x c _ s2 name b rfl hl h2
        exact ⟨W, hW, hmem⟩

theorem fieldStep_unexported (i : Nat) (sf : StructField) (ha : sf.Anonymous = false)
    (he : sf.IsExported = false) : fieldStep i sf = .skip := by
  simp [fieldStep, leafStep, ha, he]

theorem typeFields_no_index (fields : List StructField) (dc : Decl) (i : Nat) (sf : StructField)
    (hi : fields.get? i = some sf) (hskip : ∀ j, fieldStep j sf = .skip)
    (f : structFields) (hf : typeFields (.struct fields dc) = some f) :
    ∀ fd ∈ f, fd.index ≠ i := by
  intro fd hfd hidx
  simp only [typeFields] at hf
  obtain ⟨j, sf1, h1, h2⟩ := typeFieldsFrom_mem fields 0 f hf fd hfd
  have h3 := fieldStep_index _ _ _ h2
  have hj : j = i := by omega
  subst hj
  rw [hi] at h1
  cases h1
  rw [hskip] at h2
  cases h2

/-- A call of `Set` on a record that succeeds has walked the record to its end. -/
theorem Set_ok_walk (d : Deps) (env : Env) (n : Nat) (fs : List StructField) (dc : Decl)
    (x : Val) (hs : dc.setter = false)
    (hok : (Set d env n (some (.struct fs dc, x))).2 = .ok) :
    ∃ m f s3, n = m + 2 ∧ typeFields (.struct fs dc) = some f ∧
      setLoop d (execSet d m) f (setEntry (.struct fs dc) env) ⟨.struct fs dc, x, false⟩ =
        (s3, .nil) ∧
      (Set d env n (some (.struct fs dc, x))).1 = s3.env := by
  rcases n with _ | _ | m
  · simp [Set, engine.set, setterState.set, setterState.reflectValue, execSet, Outcome.of] at hok
  · simp only [Set, engine.set, setterState.set, setterState.reflectValue, execSet,
      typeFunctions_struct_setter fs dc hs, structSetter] at hok
    cases hf : typeFields (.struct fs dc) <;> simp [hf, execSet, Outcome.of] at hok
  · rw [Set_record d env m fs dc x hs] at hok ⊢
    cases hf : typeFields (.struct fs dc) with
    | none => simp [hf] at hok
    | some f =>
      simp only [hf] at hok ⊢
      have hinv := setLoop_errExist d (execSet d m) (execSet_errExist d m) f
        (setEntry (.struct fs dc) env) ⟨.struct fs dc, x, false⟩
      rcases hr : setLoop d (execSet d m) f (setEntry (.struct fs dc) env)
        ⟨.struct fs dc, x, false⟩ with ⟨s3, r⟩
      rw [hr] at hok hinv
      cases r with
      | nil => exact ⟨m, f, s3, rfl, rfl, hr, by simp [setFinish]⟩
      | errExist =>
        have hne := hinv rfl
        simp only [setFinish, Outcome.of] at hok
        cases he : s3.ctx.err with
        | none => exact absurd he hne
        | some e => simp [he] at hok
      | err c => cases c <;> simp [setFinish, Outcome.of, context.setError] at hok
      | panic msg => simp [setFinish, Outcome.of] at hok
      | fuel => simp [setFinish, Outcome.of] at hok

/-- A call of `Set` that succeeds has run the routine of its argument to the end. -/
theorem Set_ok_run (d : Deps) (env : Env) (n : Nat) (t : Ty) (x : Val)
    (hok : (Set d env n (some (t, x))).2 = .ok) :
    ∃ s3, execSet d n (.func (typeFunctions t).setterFunc) ((newSetState env).setTyp t)
        ⟨t, x, false⟩ = (s3, .nil) ∧ (Set d env n (some (t, x))).1 = s3.env := by
  have hinv := execSet_errExist d n (.func (typeFunctions t).setterFunc)
    ((newSetState env).setTyp t) ⟨t, x, false⟩
  simp only [Set, engine.set, setterState.set, setterState.reflectValue] at hok ⊢
  rcases hr : execSet d n (.func (typeFunctions t).setterFunc) ((newSetState env).setTyp t)
    ⟨t, x, false⟩ with ⟨s3, r⟩
  rw [hr] at hok hinv
  cases r with
  | nil => exact ⟨s3, rfl, rfl⟩
  | errExist =>
    have hne := hinv rfl
    simp only [Outcome.of] at hok
    cases he : s3.ctx.err with
    | none => exact absurd he hne
    | some e => simp [he] at hok
  | err c => cases c <;> simp [Outcome.of, context.setError] at hok
  | panic msg => simp [Outcome.of] at hok
  | fuel => simp [Outcome.of] at hok

/-- `Set` on a pointer to a record without `SetENV` does what `Set` on the record does. -/
theorem Set_pointer_record (d : Deps) (env : Env) (n : Nat) (fs : List StructField) (dc : Decl)
    (x : Val) (hs : dc.setter = false) :
    Set d env (n + 3) (some (.pointer (.struct fs dc), .ptr x)) =
      Set d env (n + 2) (some (.struct fs dc, x)) := by
  rw [Set_record d env n fs dc x hs]
  simp only [Set, engine.set, setterState.set, setterState.reflectValue, typeFunctions_pointer,
    execSet_pointerSetter, pointerSetter, valueFromPtr, Value.Kind, Ty.Kind, Ty.elemD, Ty.Elem,
    typeFunctions_struct_setter fs dc hs, execSet_structSetter, structSetter, ne_eq,
    not_true_eq_false, if_false]
  cases hf : typeFields (.struct fs dc) with
  | none => simp [Outcome.of, setterState.setTyp, newSetState]
  | some f =>
    simp only [execSet_fields, structFields.set]
    have hre := setLoop_restart d (execSet d n) f
      ({ (((newSetState env).setTyp (.pointer (.struct fs dc))).setTyp (.struct fs dc)) with
        ctx := { (((newSetState env).setTyp (.pointer (.struct fs dc))).setTyp
          (.struct fs dc)).ctx with structName := (Ty.struct fs dc).Name } })
      (setEntry (.struct fs dc) env) ⟨.struct fs dc, x, false⟩ rfl rfl rfl
    rw [← hre]
    rcases setLoop d (execSet d n) f _ ⟨.struct fs dc, x, false⟩ with ⟨s1, r⟩
    cases r <;> simp [setFinish, Outcome.of]

/-- C11: after a call of `Set` that succeeds, on a record or on a pointer to one, when the
names it writes are pairwise distinct, the store maps the name of every scalar leaf that
the walk reaches and does not skip as mandatory and empty to the text of the leaf,
whatever the store held before: "true" or "false" for a boolean, the base-10 digits for
an unsigned integer, the digits with a minus in front when it is negative for a signed
integer, the string itself for a string.  The leaves are those of the record, of the
records embedded or held in it, by value or behind a pointer, and the scalars behind a
pointer; a null pointer stands for the zero value of its pointee.  The value of a field
that is unexported and not embedded has no effect on what `Set` does. -/
theorem C11_set_scalars (d : Deps) (env : Env) (n : Nat) (t : Ty) (x : Val)
    (hok : (Set d env n (some (t, x))).2 = .ok)
    (hkeys : ((Set d [] n (some (t, x))).1.map Prod.fst).Nodup) :
    (∀ (k : Nat) (name : String) (b : Bytes), LeafText d k "" t x name b →
      Getenv (Set d env n (some (t, x))).1 name = b) ∧
    (∀ (fs : List StructField) (dc : Decl) (xs : List Val) (i : Nat) (sf : StructField)
        (y : Val), dc.setter = false → fs.get? i = some sf → sf.Anonymous = false →
      sf.IsExported = false →
      Set d env n (some (.struct fs dc, .struct (xs.set i y))) =
        Set d env n (some (.struct fs dc, .struct xs)) ∧
      Set d env n (some (.pointer (.struct fs dc), .ptr (.struct (xs.set i y)))) =
        Set d env n (some (.pointer (.struct fs dc), .ptr (.struct xs)))) := by
  constructor
  · intro k name b hleaf
    have hover := Set_over d env n (some (t, x))
    have hok0 : (Set d [] n (some (t, x))).2 = .ok := by
      rw [← hover.2]; exact hok
    obtain ⟨s3, hrun, henv⟩ := Set_ok_run d [] n t x hok0
    obtain ⟨W, hW, hmem⟩ := (leaf_written d k).1 n "" t x false
      ((newSetState []).setTyp t) s3 name b
      ((setTyp_name (newSetState []) t).trans rfl) hleaf hrun
    have hW2 : (Set d [] n (some (t, x))).1 = W := by
      rw [henv, hW]
      simp [setterState.setTyp, newSetState]
    rw [hW2] at hkeys
    rw [hover.1, hW2]
    exact Getenv_of_nodup W env (name, b) hkeys hmem
  · intro fs dc xs i sf y hs hi ha he
    have hno := typeFields_no_index fs dc i sf hi (fun j => fieldStep_unexported j sf ha he)
    have hval : ∀ n, Set d env n (some (.struct fs dc, .struct (xs.set i y))) =
        Set d env n (some (.struct fs dc, .struct xs)) := by
      intro n
      rcases n with _ | _ | n
      · simp [Set, engine.set, setterState.set, setterState.reflectValue, execSet]
      · simp only [Set, engine.set, setterState.set, setterState.reflectValue, execSet,
          typeFunctions_struct_setter fs dc hs, structSetter]
      · rw [Set_record d env n fs dc _ hs, Set_record d env n fs dc _ hs]
        cases hf : typeFields (.struct fs dc) with
        | none => rfl
        | some f =>
          simp only []
          rw [setLoop_congr]
          intro fd hfd
          exact Field_set_ne _ _ _ _ _ _ (fun h => hno f hf fd hfd h.symm)
    refine ⟨hval n, ?_⟩
    rcases n with _ | _ | _ | n
    · rfl
    · rfl
    · simp only [Set, engine.set, setterState.set, setterState.reflectValue,
        typeFunctions_pointer, execSet, pointerSetter, valueFromPtr, Value.Kind, Ty.Kind,
        Ty.elemD, Ty.Elem, typeFunctions_struct_setter fs dc hs, structSetter, ne_eq,
        not_true_eq_false, if_false]
    · rw [Set_pointer_record d env n fs dc _ hs, Set_pointer_record d env n fs dc _ hs]
      exact hval (n + 2)

/-- C11 (witness): `Set(&skip{simple: &simple{A: "test", B: true, C: 28}})`, the case "all
fields with skip" of the test file, on a store that holds `ENV_C=old`: the leaves of the
embedded pointer are written under their names; and the value of the unexported field
`e` of `simple` has no effect. -/
theorem C11_set_scalars_witness :
    Getenv (Set testDeps [("ENV_C", str "old")] 6 (some (.pointer skip, .ptr skipVal))).1
      "ENV_C" = str "28" ∧
    Getenv (Set testDeps [("ENV_C", str "old")] 6 (some (.pointer skip, .ptr skipVal))).1
      "ENV_B" = str "true" ∧
    Set testDeps [("ENV_C", str "old")] 4
        (some (simple, .struct ([.string (str "test"), .bool true, .int (-28), .string []].set 3
          (.string (str "not exported"))))) =
      Set testDeps [("ENV_C", str "old")] 4
        (some (simple, .struct [.string (str "test"), .bool true, .int (-28), .string []])) :=
  ⟨(C11_set_scalars testDeps [("ENV_C", str "old")] 6 (.pointer skip) (.ptr skipVal)
      (by rfl) (by decide)).1 5 "ENV_C" (str "28")
      (by
        simp only [LeafText, WalkLeaf, skip, skipVal]
        exact ⟨rfl, 2, _, _, _, rfl, rfl, rfl, rfl, Or.inl ⟨rfl,
          2, _, _, _, rfl, rfl, rfl, rfl, Or.inr ⟨rfl, rfl, by decide⟩⟩⟩),
   (C11_set_scalars testDeps [("ENV_C", str "old")] 6 (.pointer skip) (.ptr skipVal)
      (by rfl) (by decide)).1 5 "ENV_B" (str "true")
      (by
        simp only [LeafText, WalkLeaf, skip, skipVal]
        exact ⟨rfl, 2, _, _, _, rfl, rfl, rfl, rfl, Or.inl ⟨rfl,
          1, _, _, _, rfl, rfl, rfl, rfl, Or.inr ⟨rfl, rfl, by decide⟩⟩⟩),
   ((C11_set_scalars testDeps [("ENV_C", str "old")] 4 simple
      (.struct [.string (str "test"), .bool true, .int (-28), .string []])
      (by rfl) (by decide)).2
      [.mk "A" "" tString (some "ENV_A,m") false, .mk "B" "" tBool (some "ENV_B") false,
        .mk "C" "" tInt (some "ENV_C") false, .mk "e" "envio" tString none false]
      (Decl.plain "simple")
      [.string (str "test"), .bool true, .int (-28), .string []] 3
      (.mk "e" "envio" tString none false) (.string (str "not exported")) rfl rfl rfl rfl).1⟩

/-- C3 (amended): take a record type without `SetENV` of its own, given to `Set` by
value, and a mandatory field of it that is not embedded and whose value `isEmptyValue`
reports as empty.  `Set` writes and ends exactly as it does on the record in which that
field carries the skip tag, so it fails when one of the other fields fails.  If none of
the writes of the other fields is under the name of the field, the value stored under
that name is the one the store held before.  If `Set` succeeds, every scalar leaf that
the walk of the other fields reaches and does not skip has been written under its name. -/
theorem C3_no_overwrite (d : Deps) (env : Env) (n : Nat) (pre post : List StructField)
    (sf : StructField) (dc : Decl) (xs : List Val) (fd : field) (x : Val)
    (hs : dc.setter = false) (hanon : sf.Anonymous = false)
    (hstep : fieldStep pre.length sf = .append fd) (hm : fd.mandatory = true)
    (hx : xs.get? pre.length = some x)
    (hzero : d.isEmptyValue ⟨sf.Type, x, false⟩ = true) :
    Set d env n (some (.struct (pre ++ sf :: post) dc, .struct xs)) =
      Set d env n (some (.struct (pre ++ sf.skipped :: post) dc, .struct xs)) ∧
    (fd.name ∉ (Set d [] n (some (.struct (pre ++ sf.skipped :: post) dc, .struct xs))).1.map
        Prod.fst →
      Getenv (Set d env n (some (.struct (pre ++ sf :: post) dc, .struct xs))).1 fd.name =
        Getenv env fd.name) ∧
    ((Set d env n (some (.struct (pre ++ sf :: post) dc, .struct xs))).2 = .ok →
      ∀ (k : Nat) (name : String) (b : Bytes),
        LeafText d k "" (.struct (pre ++ sf.skipped :: post) dc) (.struct xs) name b →
        ∃ W, (Set d env n (some (.struct (pre ++ sf :: post) dc, .struct xs))).1 = W ++ env ∧
          (name, b) ∈ W) := by
  have hA : ∀ env, Set d env n (some (.struct (pre ++ sf :: post) dc, .struct xs)) =
      Set d env n (some (.struct (pre ++ sf.skipped :: post) dc, .struct xs)) := by
    intro env
    rcases n with _ | _ | n
    · rfl
    · simp only [Set, engine.set, setterState.set, setterState.reflectValue, execSet,
        typeFunctions_struct_setter _ dc hs, structSetter]
      rcases typeFields_with_field pre post sf dc fd hanon hstep with ⟨h1, h2⟩ | ⟨a, b, h1, h2⟩
      · rw [h1, h2]; rfl
      · rw [h1, h2]; rfl
    · rw [Set_record d env n _ dc _ hs, Set_record d env n _ dc _ hs]
      rcases typeFields_with_field pre post sf dc fd hanon hstep with ⟨h1, h2⟩ | ⟨a, b, h1, h2⟩
      · rw [h1, h2]
      · rw [h1, h2]
        simp only []
        rw [← setLoop_congr d (execSet d n) (a ++ b) _
          ⟨.struct (pre ++ sf :: post) dc, .struct xs, false⟩
          ⟨.struct (pre ++ sf.skipped :: post) dc, .struct xs, false⟩
          (fun fd' _ => Field_skipped pre post sf dc _ false fd'.index)]
        rw [setLoop_restart d (execSet d n) (a ++ b)
          (setEntry (.struct (pre ++ sf.skipped :: post) dc) env)
          (setEntry (.struct (pre ++ sf :: post) dc) env) _ rfl rfl rfl]
        rw [setLoop_append, setLoop_append]
        rcases setLoop d (execSet d n) a (setEntry (.struct (pre ++ sf :: post) dc) env)
          ⟨.struct (pre ++ sf :: post) dc, .struct xs, false⟩ with ⟨s1, r⟩
        cases r with
        | nil =>
          simp only []
          obtain ⟨hidx, _, _, _⟩ := fieldStep_leaf _ sf fd hanon hstep
          have hround : setRound d (execSet d n) fd s1
              ⟨.struct (pre ++ sf :: post) dc, .struct xs, false⟩ =
              ({ s1 with ctx := { s1.ctx with field := fd } }, .nil) := by
            unfold setRound
            have hf : (pre ++ sf :: post).get? pre.length = some sf := by
              simp only [List.get?_eq_getElem?]
              rw [List.getElem?_append_right (Nat.le_refl _)]
              simp
            simp [hidx, Field_at _ dc xs false _ sf x hf hx, hm, hzero]
          rw [setLoop_cons, hround]
          exact setLoop_restart d (execSet d n) b _ _ _ rfl rfl rfl
        | errExist => rfl
        | err c => rfl
        | panic m => rfl
        | fuel => rfl
  refine ⟨hA env, ?_, ?_⟩
  · intro hK
    rw [hA env, (Set_over d env n _).1]
    exact Getenv_append_of_not_mem _ env fd.name hK
  · intro hok k name b hleaf
    rw [hA env] at hok ⊢
    obtain ⟨s3, hrun, henv⟩ := Set_ok_run d env n _ _ hok
    obtain ⟨W, hW, hmem⟩ := (leaf_written d k).1 n "" _ _ false
      ((newSetState env).setTyp (.struct (pre ++ sf.skipped :: post) dc)) s3 name b
      ((setTyp_name (newSetState env) _).trans rfl) hleaf hrun
    refine ⟨W, ?_, hmem⟩
    rw [henv, hW]
    simp [setterState.setTyp, newSetState]

/-- C3 (counterexample): `struct { M string "env:M,m"; X chan int "env:X"; Y int "env:Y" }`
with `M` empty and `Y` 7, on a store that holds `M=old`.  `Set` fails at the field `X`
with the unsupported-type error, and the field `Y` is not written. -/
theorem C3_other_field_fails :
    Set testDeps [("M", str "old")] 4
        (some (mandatoryThenChan, .struct [.string [], .other, .int 7])) =
      ([("M", str "old")], .error .ErrNotSupportType) :=
  rfl

/-- C3 (witness): `simple{B: true, C: 28}` with `ENV_A=test` in the store, as in
`Test_SetNoOverwrite`. -/
theorem C3_no_overwrite_witness :
    Set testDeps [("ENV_A", str "test")] 4
        (some (simple, .struct [.string [], .bool true, .int 28, .string []])) =
      ([("ENV_C", str "28"), ("ENV_B", str "true"), ("ENV_A", str "test")], .ok) ∧
    Getenv (Set testDeps [("ENV_A", str "test")] 4
        (some (simple, .struct [.string [], .bool true, .int 28, .string []]))).1 "ENV_A" =
      str "test" ∧
    ∃ W, (Set testDeps [("ENV_A", str "test")] 4
        (some (simple, .struct [.string [], .bool true, .int 28, .string []]))).1 =
        W ++ [("ENV_A", str "test")] ∧ ("ENV_C", str "28") ∈ W :=
  ⟨(C3_no_overwrite testDeps [("ENV_A", str "test")] 4 []
      [.mk "B" "" tBool (some "ENV_B") false, .mk "C" "" tInt (some "ENV_C") false,
        .mk "e" "envio" tString none false]
      (.mk "A" "" tString (some "ENV_A,m") false) (Decl.plain "simple")
      [.string [], .bool true, .int 28, .string []]
      (.mk 0 "ENV_A" tString true false (some (typeFunctions tString)) none) (.string [])
      rfl rfl rfl rfl rfl rfl).1,
   (C3_no_overwrite testDeps [("ENV_A", str "test")] 4 []
      [.mk "B" "" tBool (some "ENV_B") false, .mk "C" "" tInt (some "ENV_C") false,
        .mk "e" "envio" tString none false]
      (.mk "A" "" tString (some "ENV_A,m") false) (Decl.plain "simple")
      [.string [], .bool true, .int 28, .string []]
      (.mk 0 "ENV_A" tString true false (some (typeFunctions tString)) none) (.string [])
      rfl rfl rfl rfl rfl rfl).2.1 (by decide),
   (C3_no_overwrite testDeps [("ENV_A", str "test")] 4 []
      [.mk "B" "" tBool (some "ENV_B") false, .mk "C" "" tInt (some "ENV_C") false,
        .mk "e" "envio" tString none false]
      (.mk "A" "" tString (some "ENV_A,m") false) (Decl.plain "simple")
      [.string [], .bool true, .int 28, .string []]
      (.mk 0 "ENV_A" tString true false (some (typeFunctions tString)) none) (.string [])
      rfl rfl rfl rfl rfl rfl).2.2 (by rfl) 3 "ENV_C" (str "28")
      (by
        simp only [LeafText, WalkLeaf]
        exact ⟨rfl, 2, _, _, _, rfl, rfl, rfl, rfl, Or.inr ⟨rfl, rfl, by decide⟩⟩)⟩

/-- A null pointer of a pointer type is a pointer: `Get` does not reject it.  With no
variable set it returns without error and without a value to point to; with `A=28` it
panics when it assigns to the input, which cannot be assigned to. -/
theorem Get_null_pointer_input :
    Get testDeps [] 5 (some (.pointer pointer, .nilPtr)) = (some .nilPtr, .ok) ∧
    Get testDeps [("A", str "28")] 5 (some (.pointer pointer, .nilPtr)) =
      (some .nilPtr, .panic unaddressable) :=
  ⟨rfl, rfl⟩

/-- An embedded record field whose type has descriptors at all, be the list empty, is
never left out: the list `typeFields` returns is made with `make` and is not nil, so
the test `f.embedded == nil` does not hold. -/
theorem fieldStep_embedded_kept (i : Nat) (sf : StructField) (emb : structFields)
    (ha : sf.Anonymous = true)
    (hemb : typeFields (embeddedType sf.Type) = some emb) :
    fieldStep i sf = .append (.mk i sf.Name sf.Type false false none (some emb)) := by
  have hk : (embeddedType sf.Type).Kind = .Struct := by
    cases h : embeddedType sf.Type <;> rw [h] at hemb <;> simp [typeFields] at hemb
    rfl
  unfold fieldStep
  rw [if_pos ha, hemb]
  simp [embeddedStep, hk]

/-- C21: the record `hidden` has no descriptor, yet the descriptors of a record that
embeds it, or a pointer to it, contain the embedded field with the empty list.  `Get`
into the record with the embedded pointer null fails with `ErrPointerToUnexported`
instead of succeeding, and leaves the field `A` after it as it was. -/
theorem C21_empty_embedded_is_kept :
    typeFields hidden = some [] ∧
    typeFields embedsHiddenPtr =
      some [.mk 0 "hidden" (.pointer hidden) false false none (some []),
            .mk 1 "A" tString false false (some (typeFunctions tString)) none] ∧
    typeFields embedsHidden =
      some [.mk 0 "hidden" hidden false false none (some []),
            .mk 1 "A" tString false false (some (typeFunctions tString)) none] ∧
    Get testDeps [("A", str "a")] 5
        (some (.pointer embedsHiddenPtr, .ptr (.struct [.nilPtr, .string []]))) =
      (some (.ptr (.struct [.nilPtr, .string []])),
        .error (.ErrPointerToUnexported (some hidden))) ∧
    Get testDeps [("A", str "a")] 5
        (some (.pointer embedsHidden, .ptr (.struct [.struct [.int 0], .string []]))) =
      (some (.ptr (.struct [.struct [.int 0], .string (str "a")])), .ok) :=
  ⟨rfl, rfl, rfl, rfl, rfl⟩

/-- The round of `typeFields` for an exported embedded field whose type, behind a pointer
or not, is not a record: `cachedFields` of that type runs `typeFields` on it, and
`NumField` panics. -/
theorem fieldStep_embedded_non_record (i : Nat) (sf : StructField)
    (ha : sf.Anonymous = true) (he : sf.IsExported = true)
    (hk : (embeddedType sf.Type).Kind ≠ .Struct) : fieldStep i sf = .panic := by
  have hn : typeFields (embeddedType sf.Type) = none := by
    cases h : embeddedType sf.Type <;> rw [h] at hk <;> simp [typeFields, Ty.Kind] at hk ⊢
  simp [fieldStep, ha, embeddedStep, he, hn]

/-- The derivation of the descriptors fails for every record that has an exported
embedded field of a type that is not a record. -/
theorem typeFields_embedded_non_record (pre post : List StructField) (sf : StructField)
    (dc : Decl) (ha : sf.Anonymous = true) (he : sf.IsExported = true)
    (hk : (embeddedType sf.Type).Kind ≠ .Struct) :
    typeFields (.struct (pre ++ sf :: post) dc) = none := by
  simp only [typeFields]
  rw [typeFieldsFrom_append, typeFieldsFrom_cons, fieldStep_embedded_non_record _ sf ha he hk]
  cases typeFieldsFrom pre 0 <;> rfl

/-- C22: a call of `Get` alters a cached descriptor.  The first call, `Get(&pointer{})`
with `A=28`, succeeds, and afterwards the descriptor that `cachedFields` returns for
the field `A *int` of `pointer` has the type `int`, where `typeFields` derives `*int`:
`reflectValue` assigns the type of the pointee through `s.field`, which points to the
cached descriptor.  With a pooled state it is the descriptor of the last field of the
call before that is altered: after `Get(&simple{})`, a second `Get(&simple{})` that
takes the state from the pool reports the parse failure of `ENV_C` as one of a field of
type `simple`, and the cached descriptor of `C int` has the type `simple`; with a new
state the same call reports the type `int`. -/
theorem C22_cached_descriptor_altered :
    (Heap.Get testDeps [("A", str "28")] 5 none Heap.Store.empty
        (some (.pointer pointer, .ptr (.struct [.nilPtr])))).2 =
      (some (.ptr (.struct [.ptr (.int 28)])), .ok) ∧
    (Heap.descriptors afterPointerGet pointer).map (List.map Heap.field.typ) = some [tInt] ∧
    (typeFields pointer).map (List.map field.typ) = some [.pointer tInt] ∧
    (Heap.descriptors afterSimpleGet simple).map (List.map Heap.field.typ) =
      some [tString, tBool, tInt] ∧
    (Heap.Get testDeps [("ENV_A", str "a"), ("ENV_C", str "x")] 5 (some 0) afterSimpleGet
        (some (.pointer simple, .ptr (zero simple)))).2.2 =
      .error (.field getError "simple" "ENV_C" simple .ErrSyntax) ∧
    (Heap.descriptors
        (Heap.Get testDeps [("ENV_A", str "a"), ("ENV_C", str "x")] 5 (some 0) afterSimpleGet
          (some (.pointer simple, .ptr (zero simple)))).1 simple).map
        (List.map Heap.field.typ) = some [tString, tBool, simple] ∧
    (Heap.Get testDeps [("ENV_A", str "a"), ("ENV_C", str "x")] 5 none afterSimpleGet
        (some (.pointer simple, .ptr (zero simple)))).2.2 =
      .error (.field getError "simple" "ENV_C" tInt .ErrSyntax) :=
  ⟨rfl, rfl, rfl, rfl, rfl, rfl, rfl⟩

/-- On the first call of a program, with nothing cached and no pooled state, the engine
with its descriptors in memory gives what `Get` gives. -/
theorem Heap_Get_first_call :
    (Heap.Get testDeps [("A", str "28")] 5 none Heap.Store.empty
        (some (.pointer pointer, .ptr (.struct [.nilPtr])))).2 =
      Get testDeps [("A", str "28")] 5 (some (.pointer pointer, .ptr (.struct [.nilPtr]))) ∧
    (Heap.Get testDeps [("ENV_A", str "a"), ("ENV_B", str "?")] 5 none Heap.Store.empty
        (some (.pointer simple, .ptr (zero simple)))).2 =
      Get testDeps [("ENV_A", str "a"), ("ENV_B", str "?")] 5
        (some (.pointer simple, .ptr (zero simple))) ∧
    (Heap.Get testDeps [("ENV_A", str "a"), ("Q", str "?")] 5 none Heap.Store.empty
        (some (.pointer afterEmbedded, .ptr (zero afterEmbedded)))).2 =
      Get testDeps [("ENV_A", str "a"), ("Q", str "?")] 5
        (some (.pointer afterEmbedded, .ptr (zero afterEmbedded))) ∧
    (Heap.Get testDeps [] 5 none Heap.Store.empty
        (some (.pointer embedsHiddenPtr, .ptr (zero embedsHiddenPtr)))).2 =
      Get testDeps [] 5 (some (.pointer embedsHiddenPtr, .ptr (zero embedsHiddenPtr))) :=
  ⟨rfl, rfl, rfl, rfl⟩

/-- For a record that embeds a pointer to another record the derivation returns the
descriptors, at a depth of two calls, and caches the list of the embedded record. -/
theorem typeFields_plainEmbedding (cf : Nat → functions) :
    Recursive.typeFields Recursive.plainEmbedding cf 2 0 [] =
      (.list [.mk 0 "inner" 1 false false none
                (some [.mk 0 "B" 4 false false (some (cf 4)) none]),
              .mk 1 "A" 2 false false (some (cf 2)) none],
        [(3, [.mk 0 "B" 4 false false (some (cf 4)) none])]) := by
  rfl

/-- For the record `T` that embeds a pointer to itself, `typeFields(T)` calls
`cachedFields(T)`, which finds no entry and calls `typeFields(T)`: whatever depth of calls
is allowed, it is not enough. -/
theorem typeFields_selfEmbedding (cf : Nat → functions) (n : Nat) (c : Recursive.Cache)
    (hc : c.lookup 0 = none) :
    Recursive.typeFields Recursive.selfEmbedding cf n 0 c = (.fuel, c) := by
  induction n with
  | zero => rfl
  | succ n ih =>
    simp [Recursive.typeFields, Recursive.selfEmbedding, Recursive.Types.type,
      Recursive.typeFieldsFrom, Recursive.StructField.IsExported, Recursive.cachedFields, hc]
    simp [Recursive.selfEmbedding] at ih
    rw [ih]

/-- C23: the derivation of the descriptors is not total.  For `struct { Count }`, which
embeds the exported named integer type `Count`, `typeFields` panics in `NumField`, and so
do `Get` and `Set` of such a record.  For the record `T` that embeds a pointer to its own
type, `typeFields` does not return within any depth of calls, starting from the empty
cache. -/
theorem C23_typeFields_not_total :
    typeFields embedsCount = none ∧
    Get testDeps [] 5 (some (.pointer embedsCount, .ptr (.struct [.int 0]))) =
      (some (.ptr (.struct [.int 0])), .panic "reflect: NumField of non-struct type") ∧
    Set testDeps [] 5 (some (embedsCount, .struct [.int 0])) =
      ([], .panic "reflect: NumField of non-struct type") ∧
    ∀ (cf : Nat → functions) (n : Nat),
      (Recursive.typeFields Recursive.selfEmbedding cf n 0 []).1 = .fuel :=
  ⟨rfl, rfl, rfl, fun cf n => by rw [typeFields_selfEmbedding cf n [] rfl]⟩

theorem getEnv_keeps (env : Env) (s : getterState) :
    (s.getEnv env).1.ctx.field = s.ctx.field ∧
      (s.getEnv env).1.ctx.structName = s.ctx.structName := by
  simp only [getterState.getEnv]
  split <;> simp [getterState.setErr]

/-- The routines that `Heap.execGet` runs through `Heap.leaf` leave the descriptor and
the record name of the state as they were: they write the error and the buffer only. -/
theorem leaf_routines_keep (d : Deps) (env : Env) (n : Nat) (s : getterState) (v : Value)
    (g : getterState → Value → GetResult)
    (hg : g = boolGetter env ∨ g = intGetter env ∨ g = uintGetter env ∨
      g = floatGetter d env ∨ g = stringGetter env ∨ g = unsupportedTypeGetter ∨
      g = getGetter d env ∨ (∃ proc, g = arrayGetterFunc d (execProc d n proc) env) ∨
      (∃ t parser, g = sliceGetterFunc d t (execProc d n parser) env)) :
    (g s v).1.ctx.field = s.ctx.field ∧ (g s v).1.ctx.structName = s.ctx.structName := by
  have key := getEnv_keeps env s
  have sc : ∀ proc : Bytes → Value → Val × Ret,
      (scalarGetter proc env s v).1.ctx.field = s.ctx.field ∧
        (scalarGetter proc env s v).1.ctx.structName = s.ctx.structName := by
    intro proc
    unfold scalarGetter
    rcases h : s.getEnv env with ⟨s2, r⟩
    rw [h] at key
    cases r <;> simp only [] <;> first | exact key | (split <;> exact key)
  rcases hg with h | h | h | h | h | h | h | ⟨proc, h⟩ | ⟨t, parser, h⟩ <;> subst h
  · exact sc _
  · exact sc _
  · exact sc _
  · exact sc _
  · exact sc _
  · simp [unsupportedTypeGetter, getterState.setErr]
  · unfold getGetter
    split
    · simp
    · rcases h : s.getEnv env with ⟨s2, r⟩
      rw [h] at key
      cases r <;> simp only [] <;> first | exact key | skip
      split
      · exact key
      · split <;> exact key
  · unfold arrayGetterFunc
    rcases h : s.getEnv env with ⟨s2, r⟩
    rw [h] at key
    cases r <;> simp only [] <;> first | exact key | skip
    repeat' split
    all_goals exact key
  · unfold sliceGetterFunc
    rcases h : s.getEnv env with ⟨s2, r⟩
    rw [h] at key
    cases r <;> simp only [] <;> first | exact key | skip
    repeat' split
    all_goals exact key

theorem kind_getter (k : Basic) (dc : Decl) (hg : dc.getter = false) :
    (typeFunctions (.basic k dc)).getterFunc = (kindFunctions (.basic k dc)).getterFunc := by
  obtain ⟨nm, st, gt⟩ := dc
  simp only at hg
  subst hg
  simp only [typeFunctions, Ty.decl]
  split
  · cases st <;> simp
  · rfl

/-- The routine of a scalar type without `GetENV`, when it returns nil: the value is as
it was when the variable is absent or empty, and is what the text converts to
otherwise. -/
theorem leaf_read (d : Deps) (env : Env) (m : Nat) (k : Basic) (dc : Decl)
    (hg : dc.getter = false) (hk : isScalarKind k = true) (s s1 : getterState) (z y : Val)
    (c : Bool) (hb : s.buf = [])
    (hrun : execGet d env m (.func (typeFunctions (.basic k dc)).getterFunc) s
      ⟨.basic k dc, z, c⟩ = (s1, y, .nil)) :
    (Getenv env s.ctx.field.name = [] → y = z) ∧
    (Getenv env s.ctx.field.name ≠ [] →
      scalarRead d (.basic k dc) (Getenv env s.ctx.field.name) = some y) := by
  cases m with
  | zero => simp [execGet] at hrun
  | succ m =>
    have key : ∀ proc : Bytes → Value → Val × Ret,
        scalarGetter proc env s ⟨.basic k dc, z, c⟩ = (s1, y, .nil) →
        (Getenv env s.ctx.field.name = [] → y = z) ∧
        (Getenv env s.ctx.field.name ≠ [] →
          proc (Getenv env s.ctx.field.name) ⟨.basic k dc, z, c⟩ = (y, .nil)) := by
      intro proc h
      unfold scalarGetter at h
      by_cases hm : (s.ctx.field.mandatory && (Getenv env s.ctx.field.name).isEmpty) = true
      · simp [getterState.getEnv, hm] at h
      · simp only [getterState.getEnv, hm, hb, List.nil_append, Bool.false_eq_true,
          if_false] at h
        by_cases hlen : (Getenv env s.ctx.field.name).length = 0
        · simp only [hlen, if_true, Prod.mk.injEq] at h
          exact ⟨fun _ => h.2.1.symm, fun hne => absurd (List.length_eq_zero.mp hlen) hne⟩
        · simp only [hlen, if_false, Prod.mk.injEq] at h
          exact ⟨fun he => absurd (by simp [he]) hlen, fun _ => Prod.ext h.2.1 h.2.2⟩
    rw [kind_getter k dc hg] at hrun
    cases k <;> simp [isScalarKind, isIntKind, isUintKind, isFloatKind] at hk <;>
      simp only [kindFunctions, Ty.Kind, Basic.Kind, execGet, boolGetter, intGetter, uintGetter,
        floatGetter, stringGetter] at hrun <;>
      obtain ⟨h1, h2⟩ := key _ hrun <;>
      refine ⟨h1, fun hne => ?_⟩ <;>
      have h3 := h2 hne <;>
      simp only [boolProc, intProc, uintProc, floatProc, stringParser, Value.Kind, Ty.Kind,
        Basic.Kind] at h3 <;>
      simp only [scalarRead, hg, isIntKind, isUintKind, isFloatKind, Basic.Kind] <;>
      (cases c <;> (split at h3 <;> simp [Ret.ofErr] at h3 ⊢)) <;>
      first
        | (rename_i hf; exact absurd hf (by decide))
        | (split <;> simp_all)
        | simp_all
/-- A walk of `Get` that returns nil has made every round return nil. -/
theorem getLoop_nil_split (call : GetCall → getterState → Value → GetResult)
    (dpre dpost : structFields) (fd : field) (s s3 : getterState) (v : Value) (y3 : Val)
    (h : getLoop call (dpre ++ fd :: dpost) s v = (s3, y3, .nil)) :
    ∃ s1 y1 s2 y2, getLoop call dpre s v = (s1, y1, .nil) ∧
      getRound call fd s1 { v with val := y1 } = (s2, y2, .nil) ∧
      getLoop call dpost s2 { v with val := y2 } = (s3, y3, .nil) := by
  rw [getLoop_append] at h
  rcases h1 : getLoop call dpre s v with ⟨s1, y1, r1⟩
  rw [h1] at h
  cases r1 with
  | nil =>
    simp only [] at h
    rw [getLoop_cons] at h
    rcases h2 : getRound call fd s1 { v with val := y1 } with ⟨s2, y2, r2⟩
    rw [h2] at h
    cases r2 with
    | nil => exact ⟨s1, y1, s2, y2, rfl, h2, h⟩
    | errExist => simp at h
    | err c => simp at h
    | panic m => simp at h
    | fuel => simp at h
  | errExist => simp at h
  | err c => simp at h
  | panic m => simp at h
  | fuel => simp at h

theorem typeFieldsFrom_index_ge (fields : List StructField) (k : Nat) (out : structFields)
    (h : typeFieldsFrom fields k = some out) : ∀ fd ∈ out, k ≤ fd.index := by
  intro fd hfd
  obtain ⟨j, sf, _, h2⟩ := typeFieldsFrom_mem fields k out h fd hfd
  have h3 := fieldStep_index _ _ _ h2
  omega

/-- What a walk of `Get` that returns nil leaves of the field at the position of the
descriptor `fd`: what the round of `fd` has made of it. -/
theorem walk_round (call : GetCall → getterState → Value → GetResult)
    (pre post : List StructField) (sf : StructField) (dc : Decl) (xs0 : List Val) (c : Bool)
    (f : structFields) (fd : field) (s s3 : getterState) (y3 : Val)
    (hstep : fieldStep pre.length sf = .append fd)
    (hf : typeFields (.struct (pre ++ sf :: post) dc) = some f)
    (hloop : getLoop call f s ⟨.struct (pre ++ sf :: post) dc, .struct xs0, c⟩ =
      (s3, y3, .nil)) :
    ∃ s1 ys s2 zs xs1, y3 = .struct xs1 ∧
      getRound call fd s1 ⟨.struct (pre ++ sf :: post) dc, .struct ys, c⟩ =
        (s2, .struct zs, .nil) ∧
      ys.get? pre.length = xs0.get? pre.length ∧
      xs1.get? pre.length = zs.get? pre.length ∧ zs.length = xs0.length := by
  obtain ⟨dpre, dpost, hpre, hpost, hfd⟩ := typeFields_decompose pre post sf dc fd f hstep hf
  subst hfd
  obtain ⟨s1, y1, s2, y2, h1, h2, h3⟩ := getLoop_nil_split call dpre dpost fd s s3 _ y3 hloop
  obtain ⟨ys, hy1, hyl, hyf⟩ := getLoop_frame call dpre s
    ⟨.struct (pre ++ sf :: post) dc, .struct xs0, c⟩ xs0 rfl
  rw [h1] at hy1
  simp only [] at hy1
  subst hy1
  obtain ⟨zs, hz1, hzl, _⟩ := getRound_frame call fd s1
    ⟨.struct (pre ++ sf :: post) dc, .struct ys, c⟩ ys rfl
  rw [h2] at hz1
  simp only [] at hz1
  subst hz1
  obtain ⟨xs1, hx1, hxl, hxf⟩ := getLoop_frame call dpost s2
    ⟨.struct (pre ++ sf :: post) dc, .struct zs, c⟩ zs rfl
  rw [h3] at hx1
  simp only [] at hx1
  subst hx1
  refine ⟨s1, ys, s2, zs, xs1, rfl, h2, ?_, ?_, by omega⟩
  · apply hyf
    intro fd' hfd' he
    have := typeFieldsFrom_index_lt pre dpre hpre fd' hfd'
    omega
  · apply hxf
    intro fd' hfd' he
    have := typeFieldsFrom_index_ge post (pre.length + 1) dpost hpost fd' hfd'
    omega
theorem getEnv_ret (env : Env) (s : getterState) :
    ((s.getEnv env).2 = .nil ∧ (s.getEnv env).1.ctx = s.ctx) ∨
      ((s.getEnv env).2 = .errExist ∧ (s.getEnv env).1.ctx.err ≠ none) := by
  simp only [getterState.getEnv]
  split <;> simp [getterState.setErr]

theorem ofErr_not_errExist (e : Option Cause) : Ret.ofErr e ≠ .errExist := by
  cases e <;> simp [Ret.ofErr]

theorem execProc_not_errExist (d : Deps) :
    ∀ (n : Nat) (p : procFunc) (b : Bytes) (v : Value), (execProc d n p b v).2 ≠ .errExist := by
  intro n
  induction n with
  | zero =>
    intro p b v
    cases p <;> simp only [execProc, boolProc, intProc, uintProc, floatProc, stringParser] <;>
      (try split) <;> simp [ofErr_not_errExist]
  | succ n ih =>
    intro p b v
    cases p with
    | pointerProc =>
      simp only [execProc, pointerProc]
      split
      · simp
      · split
        · simp
        · rename_i parser _
          have := ih parser b
          split
          · split <;> simp
          · rename_i x err hne heq
            simp only []
            intro h
            exact (heq ▸ this _ : (x, err).2 ≠ .errExist) h
    | _ =>
      simp only [execProc, boolProc, intProc, uintProc, floatProc, stringParser]
      all_goals (try split)
      all_goals simp [ofErr_not_errExist]

theorem procLoop_not_errExist (proc : Bytes → Value → Val × Ret) (elem : Ty) (c : Bool)
    (hp : ∀ b v, (proc b v).2 ≠ .errExist) :
    ∀ (bs : List Bytes) (xs : List Val), (procLoop proc elem c bs xs).2 ≠ .errExist := by
  intro bs
  induction bs with
  | nil => intro xs; simp [procLoop]
  | cons r rs ih =>
    intro xs
    cases xs with
    | nil => simp [procLoop]
    | cons x xs =>
      simp only [procLoop]
      rcases hr : proc r ⟨elem, x, c⟩ with ⟨y, e⟩
      have := hp r ⟨elem, x, c⟩
      rw [hr] at this
      cases e with
      | nil =>
        simp only []
        rcases hl : procLoop proc elem c rs xs with ⟨ys, e2⟩
        have h2 := ih xs
        rw [hl] at h2
        simpa using h2
      | errExist => exact absurd rfl this
      | err c => simp
      | panic m => simp
      | fuel => simp

theorem getLoop_errExist (call : GetCall → getterState → Value → GetResult)
    (hc : ∀ c s v, (call c s v).2.2 = .errExist → (call c s v).1.ctx.err ≠ none)
    (f : structFields) :
    ∀ (s : getterState) (v : Value), (getLoop call f s v).2.2 = .errExist →
      (getLoop call f s v).1.ctx.err ≠ none := by
  induction f with
  | nil => intro s v h; simp [getLoop] at h
  | cons fd rest ih =>
    intro s v
    rw [getLoop_cons]
    have hround : (getRound call fd s v).2.2 = .errExist →
        (getRound call fd s v).1.ctx.err ≠ none := by
      unfold getRound
      simp only []
      repeat' split
      all_goals first
        | (intro h; exact hc _ _ _ h)
        | (intro _; simp [getterState.setErr]; done)
        | (intro h; cases h)
    rcases hr : getRound call fd s v with ⟨s1, y, r⟩
    rw [hr] at hround
    cases r with
    | nil => exact ih s1 _
    | errExist => exact hround
    | err c => intro h; cases h
    | panic m => intro h; cases h
    | fuel => intro h; cases h
theorem scalarGetter_errExist (proc : Bytes → Value → Val × Ret) (env : Env) (s : getterState)
    (v : Value) (hp : ∀ b v, (proc b v).2 ≠ .errExist) :
    (scalarGetter proc env s v).2.2 = .errExist →
      (scalarGetter proc env s v).1.ctx.err ≠ none := by
  simp only [scalarGetter]
  rcases hg : s.getEnv env with ⟨s1, r⟩
  have h0 := getEnv_ret env s
  rw [hg] at h0
  cases r with
  | nil =>
    simp only []
    split
    · intro h; cases h
    · intro h
      exact absurd h (hp _ _)
  | errExist =>
    rcases h0 with ⟨h1, _⟩ | ⟨_, h2⟩
    · cases h1
    · intro _; exact h2
  | err c => intro h; cases h
  | panic m => intro h; cases h
  | fuel => intro h; cases h

theorem boolProc_not_errExist (b : Bytes) (v : Value) : (boolProc b v).2 ≠ .errExist := by
  simp only [boolProc]; split <;> simp [ofErr_not_errExist]

theorem intProc_not_errExist (b : Bytes) (v : Value) : (intProc b v).2 ≠ .errExist := by
  simp only [intProc]; split <;> simp [ofErr_not_errExist]

theorem uintProc_not_errExist (b : Bytes) (v : Value) : (uintProc b v).2 ≠ .errExist := by
  simp only [uintProc]; split <;> simp [ofErr_not_errExist]

theorem floatProc_not_errExist (d : Deps) (b : Bytes) (v : Value) :
    (floatProc d b v).2 ≠ .errExist := by
  simp only [floatProc]; split <;> simp [ofErr_not_errExist]

theorem stringParser_not_errExist (b : Bytes) (v : Value) :
    (stringParser b v).2 ≠ .errExist := by
  simp only [stringParser]; split <;> simp

/-- A getter routine that returns `errExist` has recorded an error. -/
theorem execGet_errExist (d : Deps) (env : Env) (n : Nat) :
    ∀ (c : GetCall) (s : getterState) (v : Value), (execGet d env n c s v).2.2 = .errExist →
      (execGet d env n c s v).1.ctx.err ≠ none := by
  induction n with
  | zero => intro c s v h; cases h
  | succ n ih =>
    intro c s v
    cases c with
    | fields f =>
      simp only [execGet, structFields.get]
      exact getLoop_errExist _ ih f _ v
    | func g =>
      cases g with
      | boolGetter => exact scalarGetter_errExist _ env s v boolProc_not_errExist
      | intGetter => exact scalarGetter_errExist _ env s v intProc_not_errExist
      | uintGetter => exact scalarGetter_errExist _ env s v uintProc_not_errExist
      | floatGetter => exact scalarGetter_errExist _ env s v (floatProc_not_errExist d)
      | stringGetter => exact scalarGetter_errExist _ env s v stringParser_not_errExist
      | unsupportedTypeGetter =>
        intro _; simp [execGet, unsupportedTypeGetter, getterState.setErr]
      | getGetter =>
        simp only [execGet, getGetter]
        split
        · intro h; cases h
        · rcases hg : s.getEnv env with ⟨s1, r⟩
          have h0 := getEnv_ret env s
          rw [hg] at h0
          cases r with
          | nil =>
            simp only []
            split
            · intro h; cases h
            · split <;> (intro h; cases h)
          | errExist =>
            rcases h0 with ⟨h1, _⟩ | ⟨_, h2⟩
            · cases h1
            · intro _; exact h2
          | err c => intro h; cases h
          | panic m => intro h; cases h
          | fuel => intro h; cases h
      | interfaceGetter =>
        simp only [execGet, interfaceGetter, getterState.reflectValue]
        split
        · exact ih _ _ _
        · intro _; simp [getterState.setErr]
      | pointerGetter =>
        simp only [execGet, pointerGetter, getterState.reflectValue]
        split
        · exact ih _ _ _
        · split
          · split
            · split <;> (intro h; cases h)
            · intro h; cases h
          · rename_i s1 y err hne heq
            intro h
            simp only [] at h
            have := ih _ _ _ (by rw [heq]; exact h)
            rw [heq] at this
            exact this
      | structGetter =>
        simp only [execGet, structGetter]
        split
        · intro h; cases h
        · exact ih _ _ _
      | arrayGetter proc =>
        simp only [execGet, arrayGetterFunc]
        rcases hg : s.getEnv env with ⟨s1, r⟩
        have h0 := getEnv_ret env s
        rw [hg] at h0
        cases r with
        | nil =>
          simp only []
          repeat' split
          all_goals first
            | (intro h; cases h)
            | (intro h
               exact absurd h (procLoop_not_errExist (execProc d n proc) _ _
                 (execProc_not_errExist d n proc) _ _))
        | errExist =>
          rcases h0 with ⟨h1, _⟩ | ⟨_, h2⟩
          · cases h1
          · intro _; exact h2
        | err c => intro h; cases h
        | panic m => intro h; cases h
        | fuel => intro h; cases h
      | sliceGetter t parser =>
        simp only [execGet, sliceGetterFunc]
        rcases hg : s.getEnv env with ⟨s1, r⟩
        have h0 := getEnv_ret env s
        rw [hg] at h0
        cases r with
        | nil =>
          simp only []
          repeat' split
          all_goals first
            | (intro h; cases h)
            | (intro h
               exact absurd h (procLoop_not_errExist (execProc d n parser) _ _
                 (execProc_not_errExist d n parser) _ _))
        | errExist =>
          rcases h0 with ⟨h1, _⟩ | ⟨_, h2⟩
          · cases h1
          · intro _; exact h2
        | err c => intro h; cases h
        | panic m => intro h; cases h
        | fuel => intro h; cases h

/-- A call of `Get` on a pointer to a record that succeeds has walked the record to its
end. -/
theorem Get_ok_walk (d : Deps) (env : Env) (n : Nat) (fs : List StructField) (dc : Decl)
    (x y : Val) (hg : dc.getter = false)
    (hok : Get d env n (some (.pointer (.struct fs dc), .ptr x)) = (some (.ptr y), .ok)) :
    ∃ m f s3, n = m + 3 ∧ typeFields (.struct fs dc) = some f ∧
      getLoop (execGet d env m) f (getEntry (.struct fs dc)) ⟨.struct fs dc, x, true⟩ =
        (s3, y, .nil) := by
  rcases n with _ | _ | _ | m
  · simp [Get, engine.get, getterState.get, getterState.reflectValue, execGet, Outcome.of,
      Ty.Kind] at hok
  · simp [Get, engine.get, getterState.get, getterState.reflectValue, execGet, Outcome.of,
      Ty.Kind, typeFunctions_pointer, pointerGetter] at hok
  · simp [Get, engine.get, getterState.get, getterState.reflectValue, execGet, Outcome.of,
      Ty.Kind, typeFunctions_pointer, pointerGetter, typeFunctions_struct_getter fs dc hg,
      structGetter, Ty.elemD, Ty.Elem] at hok
    cases hf : typeFields (.struct fs dc) <;> simp [hf, execGet, Outcome.of] at hok
  · rw [Get_record d env m fs dc x hg] at hok
    cases hf : typeFields (.struct fs dc) with
    | none => simp [hf] at hok
    | some f =>
      simp only [hf] at hok
      have hinv := getLoop_errExist (execGet d env m) (execGet_errExist d env m) f
        (getEntry (.struct fs dc)) ⟨.struct fs dc, x, true⟩
      rcases hr : getLoop (execGet d env m) f (getEntry (.struct fs dc))
        ⟨.struct fs dc, x, true⟩ with ⟨s3, z, r⟩
      rw [hr] at hok hinv
      cases r with
      | nil =>
        simp only [getFinish, Prod.mk.injEq, Option.some.injEq, Val.ptr.injEq] at hok
        exact ⟨m, f, s3, rfl, rfl, by rw [← hok.1]; exact hr⟩
      | errExist =>
        have hne := hinv rfl
        simp only [getFinish, Outcome.of] at hok
        cases he : s3.ctx.err with
        | none => exact absurd he hne
        | some e => simp [he] at hok
      | err c => cases c <;> simp [getFinish, Outcome.of, context.setError] at hok
      | panic msg => simp [getFinish, Outcome.of] at hok
      | fuel => simp [getFinish, Outcome.of] at hok
/-- A walk of `Get` over a record that returns nil has read its leaves. -/
theorem walk_leaves (d : Deps) (env : Env) (m : Nat) (fs : List StructField) (dc : Decl)
    (xs0 xs1 : List Val) (c : Bool) (f : structFields) (s s3 : getterState)
    (hf : typeFields (.struct fs dc) = some f)
    (hloop : getLoop (execGet d env m) f s ⟨.struct fs dc, .struct xs0, c⟩ =
      (s3, .struct xs1, .nil)) :
    LeavesRead d env (.struct fs dc) xs0 xs1 := by
  intro emb lf hemb hmem hnone
  rw [hf] at hemb
  cases hemb
  obtain ⟨j, sf, hj, hstep⟩ := typeFieldsFrom_mem fs 0 f (by simpa [typeFields] using hf) lf hmem
  rw [Nat.zero_add] at hstep
  have hanon : sf.Anonymous = false := by
    cases hA : sf.Anonymous with
    | false => rfl
    | true => exact absurd hnone (fieldStep_anonymous j sf lf hA hstep)
  obtain ⟨hidx, htyp2, hfn, _⟩ := fieldStep_leaf j sf lf hanon hstep
  obtain ⟨pre, post, hfs, hpl⟩ := list_split_at fs j sf hj
  subst hfs
  subst hpl
  obtain ⟨s1, ys, s2, zs, xs1', hx1, hround, hys, hzs, hlen⟩ :=
    walk_round (execGet d env m) pre post sf dc xs0 c f lf s s3 (.struct xs1) hstep hf hloop
  cases hx1
  rw [hidx]
  cases hy : ys.get? pre.length with
  | none =>
    simp only [getRound, hidx, Value.Field, Ty.fields, list_get_append, hy] at hround
    cases hround
  | some x =>
    have hF := Field_split pre post sf dc ys x c hy
    simp only [getRound, hidx, hF, hnone, hfn] at hround
    rcases hr : execGet d env m (.func (typeFunctions sf.Type).getterFunc)
        ({ s1 with ctx := { s1.ctx with field := lf } } : getterState).Reset
        ⟨sf.Type, x, c⟩ with ⟨s', y, r⟩
    rw [hr] at hround
    simp only [Val.setField, Prod.mk.injEq, Val.struct.injEq] at hround
    obtain ⟨_, hzs2, hr2⟩ := hround
    subst hr2
    have hlt : pre.length < ys.length := by
      rcases Nat.lt_or_ge pre.length ys.length with h | h
      · exact h
      · simp [List.getElem?_eq_none h] at hy
    have hzy : zs.get? pre.length = some y := by
      rw [← hzs2]
      simp [List.getElem?_set_self hlt]
    refine ⟨⟨x, y, m, _, s', c, by rw [← hys, hy], by rw [hzs, hzy], rfl, rfl,
      by rw [htyp2]; exact hr⟩, ?_⟩
    intro ⟨k, tdc, htyp, hg, hk⟩
    have hT : sf.Type = .basic k tdc := htyp2 ▸ htyp
    rw [hT] at hr
    obtain ⟨h1, h2⟩ := leaf_read d env m k tdc hg hk _ s' x y c rfl hr
    simp only [getterState.Reset] at h1 h2
    refine ⟨fun he => ?_, fun hne => ⟨y, by rw [hzs, hzy], by rw [htyp]; exact h2 hne⟩⟩
    rw [hzs, hzy, ← hys, hy, h1 he]

theorem embeddedAt_struct (a : Bool) (p : List Nat) (t : Ty) (v : Val) (efs : List StructField)
    (edc : Decl) (exs : List Val)
    (h : embeddedAt a p t v = some (.struct efs edc, .struct exs)) :
    ∃ fs dc xs, t = .struct fs dc ∧ v = .struct xs := by
  cases p with
  | nil =>
    simp only [embeddedAt, Option.some.injEq, Prod.mk.injEq] at h
    exact ⟨efs, edc, exs, h.1, h.2⟩
  | cons i p =>
    cases t with
    | struct fs dc =>
      cases v with
      | struct xs => exact ⟨fs, dc, xs, rfl, rfl⟩
      | _ => simp [embeddedAt] at h
    | _ => simp [embeddedAt] at h

/-- The descriptor of an embedded field of a record type whose descriptors can be
derived. -/
theorem typeFields_embedded_step (pre post : List StructField) (sf : StructField) (dc : Decl)
    (f : structFields) (hf : typeFields (.struct (pre ++ sf :: post) dc) = some f)
    (ha : sf.Anonymous = true) (hk : (embeddedType sf.Type).Kind = .Struct) :
    ∃ emb, typeFields (embeddedType sf.Type) = some emb ∧
      fieldStep pre.length sf = .append (.mk pre.length sf.Name sf.Type false false none (some emb)) := by
  have hstep := fieldStep_embedded pre.length sf ha hk
  cases he : typeFields (embeddedType sf.Type) with
  | none =>
    rw [he] at hstep
    simp only [typeFields] at hf
    rw [typeFieldsFrom_append] at hf
    cases hp : typeFieldsFrom pre 0 with
    | none => simp [hp] at hf
    | some a =>
      simp only [hp, Nat.zero_add] at hf
      rw [typeFieldsFrom_cons, hstep] at hf
      simp at hf
  | some emb =>
    rw [he] at hstep
    exact ⟨emb, rfl, hstep⟩
/-- A walk of `Get` over a record that returns nil has read the scalar leaves of every
record that a path of embedded fields leads to. -/
theorem walk_read (d : Deps) (env : Env) :
    ∀ (p : List Nat) (m : Nat) (fs : List StructField) (dc : Decl) (xs0 xs1 : List Val)
      (c : Bool) (f : structFields) (s s3 : getterState) (efs : List StructField)
      (edc : Decl) (exs0 : List Val),
      typeFields (.struct fs dc) = some f →
      getLoop (execGet d env m) f s ⟨.struct fs dc, .struct xs0, c⟩ =
        (s3, .struct xs1, .nil) →
      embeddedAt false p (.struct fs dc) (.struct xs0) = some (.struct efs edc, .struct exs0) →
      ∃ exs1, embeddedAt false p (.struct fs dc) (.struct xs1) =
          some (.struct efs edc, .struct exs1) ∧
        LeavesRead d env (.struct efs edc) exs0 exs1 := by
  intro p
  induction p with
  | nil =>
    intro m fs dc xs0 xs1 c f s s3 efs edc exs0 hf hloop hE
    simp only [embeddedAt, Option.some.injEq, Prod.mk.injEq, Ty.struct.injEq,
      Val.struct.injEq] at hE
    obtain ⟨⟨rfl, rfl⟩, rfl⟩ := hE
    exact ⟨xs1, rfl, walk_leaves d env m fs dc xs0 xs1 c f s s3 hf hloop⟩
  | cons i p ih =>
    intro m fs dc xs0 xs1 c f s s3 efs edc exs0 hf hloop hE
    simp only [embeddedAt] at hE
    cases hi : fs.get? i with
    | none => simp only [hi] at hE; try cases hE
    | some sf =>
      cases hx : xs0.get? i with
      | none => simp only [hi, hx] at hE; try cases hE
      | some x =>
        simp only [hi, hx] at hE
        cases hA : sf.Anonymous with
        | false => simp [hA] at hE
        | true =>
          simp only [hA, if_true] at hE
          obtain ⟨pre, post, hfs, hpl⟩ := list_split_at fs i sf hi
          subst hfs
          subst hpl
          -- the embedded record and its value
          have key : ∀ (fs1 : List StructField) (dc1 : Decl) (xs' : List Val)
              (wrap : Val → Val),
              embeddedType sf.Type = .struct fs1 dc1 →
              embeddedAt false p (.struct fs1 dc1) (.struct xs') =
                some (.struct efs edc, .struct exs0) →
              (∀ (emb : structFields) (s1 s2 : getterState) (ys zs : List Val),
                ys.get? pre.length = some x →
                getRound (execGet d env m)
                    (.mk pre.length sf.Name sf.Type false false none (some emb)) s1
                    ⟨.struct (pre ++ sf :: post) dc, .struct ys, c⟩ = (s2, .struct zs, .nil) →
                ∃ m' s' s'' ys' c', m = m' + 1 ∧
                  getLoop (execGet d env m') emb s' ⟨.struct fs1 dc1, .struct xs', c'⟩ =
                    (s'', .struct ys', .nil) ∧
                  zs.get? pre.length = some (wrap (.struct ys'))) →
              (∀ ys', (match sf.Type, wrap (.struct ys') with
                  | .pointer e, .ptr y => embeddedAt false p e y
                  | .pointer e, _ => if false = true then embeddedAt false p e (zero e) else none
                  | t, x => embeddedAt false p t x) =
                embeddedAt false p (.struct fs1 dc1) (.struct ys')) →
              ∃ exs1, embeddedAt false (pre.length :: p) (.struct (pre ++ sf :: post) dc)
                  (.struct xs1) = some (.struct efs edc, .struct exs1) ∧
                LeavesRead d env (.struct efs edc) exs0 exs1 := by
            intro fs1 dc1 xs' wrap hET hE1 hround hwrap
            obtain ⟨emb, hemb, hstep⟩ := typeFields_embedded_step pre post sf dc f hf hA
              (by rw [hET]; rfl)
            obtain ⟨s1, ys, s2, zs, xs1', hx1, hr, hys, hzs, _⟩ :=
              walk_round (execGet d env m) pre post sf dc xs0 c f _ s s3 (.struct xs1) hstep hf
                hloop
            cases hx1
            obtain ⟨m', s', s'', ys', c', hm, hl, hz⟩ := hround emb s1 s2 ys zs
              (hys.trans hx) hr
            subst hm
            rw [hET] at hemb
            obtain ⟨exs1, h1, h2⟩ := ih m' fs1 dc1 xs' ys' c' emb s' s'' efs edc exs0 hemb hl hE1
            refine ⟨exs1, ?_, h2⟩
            rw [hz] at hzs
            simp only [embeddedAt, hi, hzs, hA, if_true]
            rw [hwrap ys']
            exact h1
          cases hT : sf.Type with
          | pointer e =>
            rw [hT] at hE
            cases x with
            | ptr y =>
              simp only [] at hE
              obtain ⟨fs1, dc1, xs', he, hy⟩ := embeddedAt_struct false p e y efs edc exs0 hE
              subst he
              subst hy
              apply key fs1 dc1 xs' Val.ptr (by rw [hT]; rfl) hE
              · intro emb s1 s2 ys zs hys hr
                have hF := Field_split pre post sf dc ys _ c hys
                cases m with
                | zero =>
                  simp only [getRound, field.index, hF, field.embedded, hT, Value.Kind, Ty.Kind,
                    if_true, Ty.elemD, Ty.Elem, execGet] at hr
                  simp at hr
                | succ m' =>
                  simp only [getRound, field.index, hF, field.embedded, hT, Value.Kind, Ty.Kind,
                    if_true, Ty.elemD, Ty.Elem, execGet_fields, structFields.get] at hr
                  rcases hl : getLoop (execGet d env m') emb
                      ({ ({ s1 with ctx := { s1.ctx with field :=
                          (field.mk pre.length sf.Name (.pointer (.struct fs1 dc1)) false false
                            none (some emb)) } } : getterState).Reset with
                        ctx := { ({ s1 with ctx := { s1.ctx with field :=
                          (field.mk pre.length sf.Name (.pointer (.struct fs1 dc1)) false false
                            none (some emb)) } } : getterState).Reset.ctx with
                          structName := (Ty.struct fs1 dc1).Name } })
                      ⟨.struct fs1 dc1, .struct xs', true⟩ with ⟨s'', y', r⟩
                  obtain ⟨ys', hy1, _, _⟩ := getLoop_frame (execGet d env m') emb _
                    ⟨.struct fs1 dc1, .struct xs', true⟩ xs' rfl
                  rw [hl] at hy1 hr
                  simp only [] at hy1
                  subst hy1
                  simp only [Val.setField, Prod.mk.injEq, Val.struct.injEq] at hr
                  obtain ⟨_, hz, hr2⟩ := hr
                  subst hr2
                  have hlt : pre.length < ys.length := by
                    rcases Nat.lt_or_ge pre.length ys.length with h | h
                    · exact h
                    · simp [List.getElem?_eq_none h] at hys
                  exact ⟨m', _, s'', ys', true, rfl, hl, by
                    rw [← hz]; simp [List.getElem?_set_self hlt]⟩
              · intro ys'
                rw [hT]
            | _ => simp at hE
          | struct fs1 dc1 =>
            rw [hT] at hE
            simp only [] at hE
            obtain ⟨fs2, dc2, xs', he, hy⟩ :=
              embeddedAt_struct false p (.struct fs1 dc1) x efs edc exs0 hE
            subst hy
            apply key fs1 dc1 xs' id (by rw [hT]; rfl) hE
            · intro emb s1 s2 ys zs hys hr
              have hF := Field_split pre post sf dc ys _ c hys
              cases m with
              | zero =>
                simp only [getRound, field.index, hF, field.embedded, hT, Value.Kind, Ty.Kind,
                  if_false, execGet] at hr
                simp at hr
              | succ m' =>
                simp only [getRound, field.index, hF, field.embedded, hT, Value.Kind, Ty.Kind,
                  if_false, execGet_fields, structFields.get] at hr
                rcases hl : getLoop (execGet d env m') emb
                    ({ ({ s1 with ctx := { s1.ctx with field :=
                        (field.mk pre.length sf.Name (.struct fs1 dc1) false false
                          none (some emb)) } } : getterState).Reset with
                      ctx := { ({ s1 with ctx := { s1.ctx with field :=
                        (field.mk pre.length sf.Name (.struct fs1 dc1) false false
                          none (some emb)) } } : getterState).Reset.ctx with
                        structName := (Ty.struct fs1 dc1).Name } })
                    ⟨.struct fs1 dc1, .struct xs', c⟩ with ⟨s'', y', r⟩
                obtain ⟨ys', hy1, _, _⟩ := getLoop_frame (execGet d env m') emb _
                  ⟨.struct fs1 dc1, .struct xs', c⟩ xs' rfl
                rw [hl] at hy1 hr
                simp only [] at hy1
                subst hy1
                simp only [Val.setField, Prod.mk.injEq, Val.struct.injEq, reduceCtorEq, if_false] at hr
                obtain ⟨_, hz, hr2⟩ := hr
                subst hr2
                have hlt : pre.length < ys.length := by
                  rcases Nat.lt_or_ge pre.length ys.length with h | h
                  · exact h
                  · simp [List.getElem?_eq_none h] at hys
                exact ⟨m', _, s'', ys', c, rfl, hl, by
                  rw [← hz]; simp [List.getElem?_set_self hlt]⟩
            · intro ys'
              rw [hT]
              rfl
          | basic k dc1 =>
            rw [hT] at hE
            obtain ⟨_, _, _, he, _⟩ := embeddedAt_struct false p _ x efs edc exs0 hE
            cases he
          | array n e dc1 =>
            rw [hT] at hE
            obtain ⟨_, _, _, he, _⟩ := embeddedAt_struct false p _ x efs edc exs0 hE
            cases he
          | slice e dc1 =>
            rw [hT] at hE
            obtain ⟨_, _, _, he, _⟩ := embeddedAt_struct false p _ x efs edc exs0 hE
            cases he
          | iface dc1 =>
            rw [hT] at hE
            obtain ⟨_, _, _, he, _⟩ := embeddedAt_struct false p _ x efs edc exs0 hE
            cases he
/-- A leaf of a record that is not skipped is a leaf of the walk over the record. -/
theorem leaf_walk (d : Deps) (k : Nat) (efs : List StructField) (edc : Decl) (exs : List Val)
    (c : Bool) (emb : structFields) (lf : field) (lx : Val) (name : String) (b : Bytes)
    (hemb : typeFields (.struct efs edc) = some emb) (hmem : lf ∈ emb)
    (hnone : lf.embedded = none) (hx : exs.get? lf.index = some lx)
    (hm : (lf.mandatory && d.isEmptyValue ⟨lf.typ, lx, c⟩) = false)
    (hleaf : LeafText d k lf.name lf.typ lx name b) :
    WalkLeaf d (k + 1) efs exs c name b := by
  obtain ⟨j, sf, hj, hstep⟩ := typeFieldsFrom_mem efs 0 emb (by simpa [typeFields] using hemb)
    lf hmem
  rw [Nat.zero_add] at hstep
  have hanon : sf.Anonymous = false := by
    cases hA : sf.Anonymous with
    | false => rfl
    | true => exact absurd hnone (fieldStep_anonymous j sf lf hA hstep)
  obtain ⟨hidx, htyp, _, _⟩ := fieldStep_leaf j sf lf hanon hstep
  simp only [WalkLeaf]
  rw [hidx] at hx
  rw [htyp] at hm hleaf
  exact ⟨j, sf, lx, lf, hj, hx, hstep, hm, Or.inr ⟨hanon, hleaf⟩⟩

/-- A leaf of the walk over a record that a path of embedded fields leads to is a leaf of
the walk over the record the path starts from. -/
theorem embedded_walk (d : Deps) (name : String) (b : Bytes) (efs : List StructField)
    (edc : Decl) (exs : List Val) (k : Nat) (hleaf : ∀ c, WalkLeaf d k efs exs c name b) :
    ∀ (p : List Nat) (fs : List StructField) (dc : Decl) (xs : List Val) (c : Bool)
      (f : structFields), typeFields (.struct fs dc) = some f →
      embeddedAt true p (.struct fs dc) (.struct xs) = some (.struct efs edc, .struct exs) →
      WalkLeaf d (k + p.length) fs xs c name b := by
  intro p
  induction p with
  | nil =>
    intro fs dc xs c f hf hE
    simp only [embeddedAt, Option.some.injEq, Prod.mk.injEq, Ty.struct.injEq,
      Val.struct.injEq] at hE
    obtain ⟨⟨rfl, rfl⟩, rfl⟩ := hE
    exact hleaf c
  | cons i p ih =>
    intro fs dc xs c f hf hE
    simp only [embeddedAt] at hE
    cases hi : fs.get? i with
    | none => simp only [hi] at hE; try cases hE
    | some sf =>
      cases hx : xs.get? i with
      | none => simp only [hi, hx] at hE; try cases hE
      | some x =>
        simp only [hi, hx] at hE
        cases hA : sf.Anonymous with
        | false => simp [hA] at hE
        | true =>
          simp only [hA, if_true] at hE
          obtain ⟨pre, post, hfs, hpl⟩ := list_split_at fs i sf hi
          subst hfs
          subst hpl
          have key : ∀ (fs1 : List StructField) (dc1 : Decl) (xs' : List Val) (c' : Bool),
              embeddedType sf.Type = .struct fs1 dc1 →
              valueFromPtr ⟨sf.Type, x, c⟩ = ⟨.struct fs1 dc1, .struct xs', c'⟩ →
              embeddedAt true p (.struct fs1 dc1) (.struct xs') =
                some (.struct efs edc, .struct exs) →
              WalkLeaf d (k + (pre.length :: p).length) (pre ++ sf :: post) xs c name b := by
            intro fs1 dc1 xs' c' hET hv hE1
            obtain ⟨emb, hemb, hstep⟩ := typeFields_embedded_step pre post sf dc f hf hA
              (by rw [hET]; rfl)
            rw [hET] at hemb
            have h1 := ih fs1 dc1 xs' c' emb hemb hE1
            show WalkLeaf d (k + p.length + 1) (pre ++ sf :: post) xs c name b
            simp only [WalkLeaf]
            refine ⟨pre.length, sf, x, _, hi, hx, hstep, by simp [field.mandatory],
              Or.inl ⟨hA, ?_⟩⟩
            rw [hv]
            exact h1
          cases hT : sf.Type with
          | pointer e =>
            rw [hT] at hE key
            cases x with
            | ptr y =>
              simp only [] at hE
              obtain ⟨fs1, dc1, xs', he, hy⟩ := embeddedAt_struct true p e y efs edc exs hE
              subst he
              subst hy
              exact key fs1 dc1 xs' true rfl
                (by simp [valueFromPtr, Value.Kind, Ty.Kind, Ty.elemD, Ty.Elem]) hE
            | _ =>
              simp only [if_true] at hE
              obtain ⟨fs1, dc1, xs', he, hy⟩ := embeddedAt_struct true p e (zero e) efs edc exs hE
              subst he
              rw [hy] at hE
              refine key fs1 dc1 xs' true rfl ?_ hE
              simp [valueFromPtr, Value.Kind, Ty.Kind, Ty.elemD, Ty.Elem, hy]
          | struct fs1 dc1 =>
            rw [hT] at hE key
            simp only [] at hE
            obtain ⟨fs2, dc2, xs', he, hy⟩ :=
              embeddedAt_struct true p (.struct fs1 dc1) x efs edc exs hE
            subst hy
            exact key fs1 dc1 xs' c rfl
              (by simp [valueFromPtr, Value.Kind, Ty.Kind]) hE
          | basic k1 dc1 =>
            rw [hT] at hE
            obtain ⟨_, _, _, he, _⟩ := embeddedAt_struct true p _ x efs edc exs hE
            cases he
          | array n e dc1 =>
            rw [hT] at hE
            obtain ⟨_, _, _, he, _⟩ := embeddedAt_struct true p _ x efs edc exs hE
            cases he
          | slice e dc1 =>
            rw [hT] at hE
            obtain ⟨_, _, _, he, _⟩ := embeddedAt_struct true p _ x efs edc exs hE
            cases he
          | iface dc1 =>
            rw [hT] at hE
            obtain ⟨_, _, _, he, _⟩ := embeddedAt_struct true p _ x efs edc exs hE
            cases he
/-- A walk of `Set` over a record that returns nil has run, for every leaf that it does
not skip of a record that a path of embedded fields leads to, the setter routine of the
leaf under the descriptor of the leaf, and the bindings of that run are part of what
the walk has added to the store. -/
theorem walk_writes (d : Deps) (efs : List StructField) (edc : Decl) (exs : List Val)
    (emb : structFields) (lf : field) (lx : Val)
    (hemb : typeFields (.struct efs edc) = some emb) (hmem : lf ∈ emb)
    (hnone : lf.embedded = none) (hlx : exs.get? lf.index = some lx)
    (hm : ∀ c, (lf.mandatory && d.isEmptyValue ⟨lf.typ, lx, c⟩) = false) :
    ∀ (p : List Nat) (m : Nat) (fs : List StructField) (dc : Decl) (xs : List Val) (c : Bool)
      (f : structFields) (s s3 : setterState),
      typeFields (.struct fs dc) = some f →
      setLoop d (execSet d m) f s ⟨.struct fs dc, .struct xs, c⟩ = (s3, .nil) →
      embeddedAt true p (.struct fs dc) (.struct xs) = some (.struct efs edc, .struct exs) →
      ∃ W1 W W2, s3.env = W2 ++ W ++ W1 ++ s.env ∧ LeafWrites d lf lx W := by
  intro p
  induction p with
  | nil =>
    intro m fs dc xs c f s s3 hf hloop hE
    simp only [embeddedAt, Option.some.injEq, Prod.mk.injEq, Ty.struct.injEq,
      Val.struct.injEq] at hE
    obtain ⟨⟨rfl, rfl⟩, rfl⟩ := hE
    have hfe : f = emb := Option.some.inj (hf.symm.trans hemb)
    rw [hfe] at hloop hf
    obtain ⟨j, sf, hj, hstep⟩ := typeFieldsFrom_mem fs 0 emb (by simpa [typeFields] using hf)
      lf hmem
    rw [Nat.zero_add] at hstep
    have hanon : sf.Anonymous = false := by
      cases hA : sf.Anonymous with
      | false => rfl
      | true => exact absurd hnone (fieldStep_anonymous j sf lf hA hstep)
    obtain ⟨hidx, htyp, hfn, _⟩ := fieldStep_leaf j sf lf hanon hstep
    obtain ⟨pre, post, hfs, hpl⟩ := list_split_at fs j sf hj
    subst hfs
    subst hpl
    obtain ⟨dpre, dpost, _, _, hfd⟩ := typeFields_decompose pre post sf dc lf emb hstep hf
    rw [hfd] at hloop
    obtain ⟨s1, s2, h1, h2, h3⟩ := setLoop_nil_split d (execSet d m) dpre dpost lf s s3 _ hloop
    obtain ⟨W1, hW1⟩ := setLoop_extends d m dpre s ⟨.struct (pre ++ sf :: post) dc, .struct xs, c⟩
    obtain ⟨W, hW⟩ := setRound_extends d m lf s1 ⟨.struct (pre ++ sf :: post) dc, .struct xs, c⟩
    obtain ⟨W2, hW2⟩ := setLoop_extends d m dpost s2
      ⟨.struct (pre ++ sf :: post) dc, .struct xs, c⟩
    rw [h1] at hW1
    rw [h2] at hW
    rw [h3] at hW2
    simp only [] at hW1 hW hW2
    rw [hidx] at hlx
    have hF := Field_split pre post sf dc xs lx c hlx
    have hm2 := hm c
    rw [htyp] at hm2
    simp only [setRound, hidx, hF, hm2, hnone, hfn] at h2
    refine ⟨W1, W, W2, by rw [hW2, hW, hW1]; simp, m, _, s2, c, rfl, by rw [htyp]; exact h2, ?_⟩
    rw [hW]
  | cons i p ih =>
    intro m fs dc xs c f s s3 hf hloop hE
    simp only [embeddedAt] at hE
    cases hi : fs.get? i with
    | none => simp only [hi] at hE; try cases hE
    | some sf =>
      cases hx : xs.get? i with
      | none => simp only [hi, hx] at hE; try cases hE
      | some x =>
        simp only [hi, hx] at hE
        cases hA : sf.Anonymous with
        | false => simp [hA] at hE
        | true =>
          simp only [hA, if_true] at hE
          obtain ⟨pre, post, hfs, hpl⟩ := list_split_at fs i sf hi
          subst hfs
          subst hpl
          have key : ∀ (fs1 : List StructField) (dc1 : Decl) (xs' : List Val) (c' : Bool),
              embeddedType sf.Type = .struct fs1 dc1 →
              valueFromPtr ⟨sf.Type, x, c⟩ = ⟨.struct fs1 dc1, .struct xs', c'⟩ →
              embeddedAt true p (.struct fs1 dc1) (.struct xs') =
                some (.struct efs edc, .struct exs) →
              ∃ W1 W W2, s3.env = W2 ++ W ++ W1 ++ s.env ∧ LeafWrites d lf lx W := by
            intro fs1 dc1 xs' c' hET hv hE1
            obtain ⟨emb1, hemb1, hstep⟩ := typeFields_embedded_step pre post sf dc f hf hA
              (by rw [hET]; rfl)
            rw [hET] at hemb1
            obtain ⟨dpre, dpost, _, _, hfd⟩ := typeFields_decompose pre post sf dc _ f hstep hf
            subst hfd
            obtain ⟨s1, s2, h1, h2, h3⟩ :=
              setLoop_nil_split d (execSet d m) dpre dpost _ s s3 _ hloop
            obtain ⟨V1, hV1⟩ := setLoop_extends d m dpre s
              ⟨.struct (pre ++ sf :: post) dc, .struct xs, c⟩
            obtain ⟨V2, hV2⟩ := setLoop_extends d m dpost s2
              ⟨.struct (pre ++ sf :: post) dc, .struct xs, c⟩
            rw [h1] at hV1
            rw [h3] at hV2
            simp only [] at hV1 hV2
            have hF := Field_split pre post sf dc xs x c hx
            cases m with
            | zero =>
              simp only [setRound, field.index, hF, field.mandatory, field.embedded,
                Bool.false_and, execSet] at h2
              simp at h2
            | succ m' =>
              simp only [setRound, field.index, hF, field.mandatory, field.embedded,
                Bool.false_and, hv, execSet_fields, structFields.set] at h2
              obtain ⟨W1, W, W2, hW, hL⟩ := ih m' fs1 dc1 xs' c' emb1 _ s2 hemb1
                (by simpa using h2) hE1
              refine ⟨W1 ++ V1, W, V2 ++ W2, ?_, hL⟩
              rw [hV2, hW]
              simp [hV1]
          cases hT : sf.Type with
          | pointer e =>
            rw [hT] at hE key
            cases x with
            | ptr y =>
              simp only [] at hE
              obtain ⟨fs1, dc1, xs', he, hy⟩ := embeddedAt_struct true p e y efs edc exs hE
              subst he
              subst hy
              exact key fs1 dc1 xs' true rfl
                (by simp [valueFromPtr, Value.Kind, Ty.Kind, Ty.elemD, Ty.Elem]) hE
            | _ =>
              simp only [if_true] at hE
              obtain ⟨fs1, dc1, xs', he, hy⟩ := embeddedAt_struct true p e (zero e) efs edc exs hE
              subst he
              rw [hy] at hE
              refine key fs1 dc1 xs' true rfl ?_ hE
              simp [valueFromPtr, Value.Kind, Ty.Kind, Ty.elemD, Ty.Elem, hy]
          | struct fs1 dc1 =>
            rw [hT] at hE key
            simp only [] at hE
            obtain ⟨fs2, dc2, xs', he, hy⟩ :=
              embeddedAt_struct true p (.struct fs1 dc1) x efs edc exs hE
            subst hy
            exact key fs1 dc1 xs' c rfl
              (by simp [valueFromPtr, Value.Kind, Ty.Kind]) hE
          | basic k1 dc1 =>
            rw [hT] at hE
            obtain ⟨_, _, _, he, _⟩ := embeddedAt_struct true p _ x efs edc exs hE
            cases he
          | array n e dc1 =>
            rw [hT] at hE
            obtain ⟨_, _, _, he, _⟩ := embeddedAt_struct true p _ x efs edc exs hE
            cases he
          | slice e dc1 =>
            rw [hT] at hE
            obtain ⟨_, _, _, he, _⟩ := embeddedAt_struct true p _ x efs edc exs hE
            cases he
          | iface dc1 =>
            rw [hT] at hE
            obtain ⟨_, _, _, he, _⟩ := embeddedAt_struct true p _ x efs edc exs hE
            cases he

/-- C10 (amended): take a record type `R` whose descriptors can be derived and a record
`E` that a path of one or more embedded fields leads to from a value of `R` (the empty
path gives `R` itself).  The descriptor of an embedded field of record type `E`, or of
pointer to `E`, holds exactly the descriptor list of `E`.  When `R` has no `SetENV` of
its own and `Set` on the value succeeds, then for every leaf of `E` that is not skipped
as mandatory and empty, the store that `Set` leaves holds, in front of what it held
before, the bindings that the setter routine of the leaf adds when it runs under the
descriptor that the list of `E` has for the leaf; for a scalar, also behind a pointer,
this is the text of the scalar under the name in that descriptor.  A null embedded
pointer on the path stands for the zero value of its pointee.  When `R` has no `GetENV`
of its own and `Get` on a pointer to the value succeeds, the path leads to `E` in the
decoded value as well (every embedded pointer on it not being null), and every leaf of
`E` holds what the getter routine of the leaf leaves when it runs on the former value
under the descriptor of the list of `E`; a scalar leaf whose variable, under the name in
that descriptor, holds a text holds what the text converts to, and is as it was when
the variable is absent or empty. -/
theorem C10_embedded_flattening (d : Deps) (env : Env) (n : Nat) (fs : List StructField)
    (dc : Decl) (p : List Nat) (efs : List StructField) (edc : Decl) :
    (∀ (pre post : List StructField) (sf : StructField) (out : structFields),
      fs = pre ++ sf :: post → sf.Anonymous = true → (embeddedType sf.Type).Kind = .Struct →
      typeFields (.struct fs dc) = some out →
      ∃ dpre dpost emb, typeFields (embeddedType sf.Type) = some emb ∧
        out = dpre ++ .mk pre.length sf.Name sf.Type false false none (some emb) :: dpost) ∧
    (∀ (xs exs : List Val) (emb : structFields) (lf : field) (lx : Val),
      dc.setter = false →
      (Set d env n (some (.struct fs dc, .struct xs))).2 = .ok →
      embeddedAt true p (.struct fs dc) (.struct xs) = some (.struct efs edc, .struct exs) →
      typeFields (.struct efs edc) = some emb → lf ∈ emb → lf.embedded = none →
      exs.get? lf.index = some lx →
      (∀ c, (lf.mandatory && d.isEmptyValue ⟨lf.typ, lx, c⟩) = false) →
      (∃ W1 W W2, (Set d env n (some (.struct fs dc, .struct xs))).1 = W2 ++ W ++ W1 ++ env ∧
        LeafWrites d lf lx W) ∧
      (∀ (k : Nat) (name : String) (b : Bytes), LeafText d k lf.name lf.typ lx name b →
        ∃ W, (Set d env n (some (.struct fs dc, .struct xs))).1 = W ++ env ∧ (name, b) ∈ W)) ∧
    (∀ (xs0 xs1 exs0 : List Val),
      dc.getter = false →
      Get d env n (some (.pointer (.struct fs dc), .ptr (.struct xs0))) =
        (some (.ptr (.struct xs1)), .ok) →
      embeddedAt false p (.struct fs dc) (.struct xs0) = some (.struct efs edc, .struct exs0) →
      ∃ exs1, embeddedAt false p (.struct fs dc) (.struct xs1) =
          some (.struct efs edc, .struct exs1) ∧
        LeavesRead d env (.struct efs edc) exs0 exs1) := by
  refine ⟨?_, ?_, ?_⟩
  · intro pre post sf out hfs ha hk hout
    subst hfs
    obtain ⟨emb, hemb, hstep⟩ := typeFields_embedded_step pre post sf dc out hout ha hk
    obtain ⟨dpre, dpost, _, _, hout2⟩ := typeFields_decompose pre post sf dc _ out hstep hout
    exact ⟨dpre, dpost, emb, hemb, hout2⟩
  · intro xs exs emb lf lx hs hok hE hemb hmem hnone hx hm
    obtain ⟨m, f, s3, _, hf, hloop, henv⟩ := Set_ok_walk d env n fs dc (.struct xs) hs hok
    refine ⟨?_, ?_⟩
    · obtain ⟨W1, W, W2, hW, hL⟩ := walk_writes d efs edc exs emb lf lx hemb hmem hnone hx hm
        p m fs dc xs false f (setEntry (.struct fs dc) env) s3 hf hloop hE
      exact ⟨W1, W, W2, by rw [henv, hW]; rfl, hL⟩
    · intro k name b hleaf
      have hw := embedded_walk d name b efs edc exs (k + 1)
        (fun c => leaf_walk d k efs edc exs c emb lf lx name b hemb hmem hnone hx (hm c) hleaf)
        p fs dc xs false f hf hE
      obtain ⟨W, hW, hmemW⟩ := (leaf_written d (k + 1 + p.length)).2 m fs dc xs false f
        (setEntry (.struct fs dc) env) s3 name b hf hw hloop
      exact ⟨W, by rw [henv, hW]; rfl, hmemW⟩
  · intro xs0 xs1 exs0 hg hok hE
    obtain ⟨m, f, s3, _, hf, hloop⟩ :=
      Get_ok_walk d env n fs dc (.struct xs0) (.struct xs1) hg hok
    exact walk_read d env p m fs dc xs0 xs1 true f _ s3 efs edc exs0 hf hloop hE

/-- C10 (counterexample): the record `skip` of the test file embeds `simple` by pointer.
On its zero value, whose embedded pointer is null, `Get` fails with
`ErrPointerToUnexported` and reads none of the fields of `simple`, although the
variables `ENV_A` and `ENV_B` are set.  And `Set` on a value of `nested` whose embedded
`simple` has the mandatory field `A` empty succeeds without writing `ENV_A`. -/
theorem C10_null_embedded_pointer_not_read :
    Get testDeps [("ENV_A", str "a"), ("ENV_B", str "true")] 5
        (some (.pointer skip, .ptr (zero skip))) =
      (some (.ptr (zero skip)), .error (.ErrPointerToUnexported (some simple))) ∧
    Set testDeps [] 6 (some (nested, .struct [.string (str "x"), .bool true, .int (-5),
        .struct [.string [], .bool true, .int 28, .string []]])) =
      ([("ENV_C", str "28"), ("ENV_B", str "true"), ("ENV_Z", str "-5"),
        ("ENV_Y", str "true"), ("ENV_X", str "x")], .ok) :=
  ⟨rfl, rfl⟩

/-- C10 (witness): `nested` of the test file embeds `simple` at position 3.  `Set` on
`nestedVal` writes the field `B` of `simple` under `ENV_B`, over what the store held;
`Get` with `ENV_B=true` and `ENV_A=a` reads the fields of the embedded `simple`. -/
theorem C10_embedded_flattening_witness :
    (∃ dpre dpost emb, typeFields simple = some emb ∧
      [field.mk 0 "ENV_X" tString false false (some (typeFunctions tString)) none,
        .mk 1 "ENV_Y" tBool false false (some (typeFunctions tBool)) none,
        .mk 2 "ENV_Z" tInt false false (some (typeFunctions tInt)) none,
        .mk 3 "simple" simple false false none
          (some [.mk 0 "ENV_A" tString true false (some (typeFunctions tString)) none,
            .mk 1 "ENV_B" tBool false false (some (typeFunctions tBool)) none,
            .mk 2 "ENV_C" tInt false false (some (typeFunctions tInt)) none])] =
        dpre ++ .mk 3 "simple" simple false false none (some emb) :: dpost) ∧
    ((∃ W1 W W2, (Set testDeps [("ENV_B", str "old")] 6 (some (nested, nestedVal))).1 =
          W2 ++ W ++ W1 ++ [("ENV_B", str "old")] ∧
        LeafWrites testDeps (.mk 1 "ENV_B" tBool false false (some (typeFunctions tBool)) none)
          (.bool true) W) ∧
      ∃ W, (Set testDeps [("ENV_B", str "old")] 6 (some (nested, nestedVal))).1 =
        W ++ [("ENV_B", str "old")] ∧ ("ENV_B", str "true") ∈ W) ∧
    (∃ exs1, embeddedAt false [3] nested
        (.struct [.string [], .bool false, .int 0,
          .struct [.string (str "a"), .bool true, .int 0, .string []]]) =
          some (simple, .struct exs1) ∧
      LeavesRead testDeps [("ENV_B", str "true"), ("ENV_A", str "a")] simple
        [.string [], .bool false, .int 0, .string []] exs1) :=
  ⟨(C10_embedded_flattening testDeps [] 6
      [.mk "X" "" tString (some "ENV_X") false, .mk "Y" "" tBool (some "ENV_Y") false,
        .mk "Z" "" tInt (some "ENV_Z") false, .mk "simple" "envio" simple none true]
      (Decl.plain "nested") [] [] Decl.none).1
      [.mk "X" "" tString (some "ENV_X") false, .mk "Y" "" tBool (some "ENV_Y") false,
        .mk "Z" "" tInt (some "ENV_Z") false] [] (.mk "simple" "envio" simple none true)
      _ rfl rfl rfl rfl,
   ⟨((C10_embedded_flattening testDeps [("ENV_B", str "old")] 6
      [.mk "X" "" tString (some "ENV_X") false, .mk "Y" "" tBool (some "ENV_Y") false,
        .mk "Z" "" tInt (some "ENV_Z") false, .mk "simple" "envio" simple none true]
      (Decl.plain "nested") [3]
      [.mk "A" "" tString (some "ENV_A,m") false, .mk "B" "" tBool (some "ENV_B") false,
        .mk "C" "" tInt (some "ENV_C") false, .mk "e" "envio" tString none false]
      (Decl.plain "simple")).2.1
      [.string (str "x"), .bool true, .int (-5), simpleVal]
      [.string (str "test"), .bool true, .int 28, .string []]
      [.mk 0 "ENV_A" tString true false (some (typeFunctions tString)) none,
        .mk 1 "ENV_B" tBool false false (some (typeFunctions tBool)) none,
        .mk 2 "ENV_C" tInt false false (some (typeFunctions tInt)) none]
      (.mk 1 "ENV_B" tBool false false (some (typeFunctions tBool)) none) (.bool true)
      rfl (by rfl) rfl rfl (by simp) rfl rfl (fun _ => rfl)).1,
    ((C10_embedded_flattening testDeps [("ENV_B", str "old")] 6
      [.mk "X" "" tString (some "ENV_X") false, .mk "Y" "" tBool (some "ENV_Y") false,
        .mk "Z" "" tInt (some "ENV_Z") false, .mk "simple" "envio" simple none true]
      (Decl.plain "nested") [3]
      [.mk "A" "" tString (some "ENV_A,m") false, .mk "B" "" tBool (some "ENV_B") false,
        .mk "C" "" tInt (some "ENV_C") false, .mk "e" "envio" tString none false]
      (Decl.plain "simple")).2.1
      [.string (str "x"), .bool true, .int (-5), simpleVal]
      [.string (str "test"), .bool true, .int 28, .string []]
      [.mk 0 "ENV_A" tString true false (some (typeFunctions tString)) none,
        .mk 1 "ENV_B" tBool false false (some (typeFunctions tBool)) none,
        .mk 2 "ENV_C" tInt false false (some (typeFunctions tInt)) none]
      (.mk 1 "ENV_B" tBool false false (some (typeFunctions tBool)) none) (.bool true)
      rfl (by rfl) rfl rfl (by simp) rfl rfl (fun _ => rfl)).2 1 "ENV_B" (str "true")
      (by simp only [LeafText, tBool]; exact ⟨rfl, by decide⟩)⟩,
   (C10_embedded_flattening testDeps [("ENV_B", str "true"), ("ENV_A", str "a")] 7
      [.mk "X" "" tString (some "ENV_X") false, .mk "Y" "" tBool (some "ENV_Y") false,
        .mk "Z" "" tInt (some "ENV_Z") false, .mk "simple" "envio" simple none true]
      (Decl.plain "nested") [3]
      [.mk "A" "" tString (some "ENV_A,m") false, .mk "B" "" tBool (some "ENV_B") false,
        .mk "C" "" tInt (some "ENV_C") false, .mk "e" "envio" tString none false]
      (Decl.plain "simple")).2.2
      [.string [], .bool false, .int 0, .struct [.string [], .bool false, .int 0, .string []]]
      [.string [], .bool false, .int 0,
        .struct [.string (str "a"), .bool true, .int 0, .string []]]
      [.string [], .bool false, .int 0, .string []] rfl (by rfl) rfl⟩

end Envio
